import Mathlib

/-!
# The XML reader's scalar decoders (dlls/webservices/reader.c)

A shallow embedding of the value decoders of `reader.c` and the properties
proved about them.  Byte strings (`const unsigned char *str, ULONG len`) are
lists of natural numbers, one per byte; a pointer advancing through the
buffer is the remaining suffix of the list.
-/

namespace Webservices

/-- The result codes used by the reader. -/
inductive HRESULT where
  | S_OK
  | S_FALSE
  | E_INVALIDARG
  | E_NOTIMPL
  | E_OUTOFMEMORY
  | WS_E_INVALID_FORMAT
  | WS_E_INVALID_OPERATION
  | WS_E_NOT_SUPPORTED
  | WS_E_NUMERIC_OVERFLOW
  | WS_E_QUOTA_EXCEEDED
  deriving DecidableEq, Repr

open HRESULT

deriving instance DecidableEq for Except

/-- `read_isspace`: space, tab, CR or LF. -/
def read_isspace (ch : Nat) : Bool :=
  ch == 32 || ch == 9 || ch == 13 || ch == 10

/-- The C library's `isdigit` on a byte: `'0'` to `'9'`. -/
def isdigit (c : Nat) : Bool :=
  decide (48 ≤ c) && decide (c ≤ 57)

/-- The two loops every decoder starts with:
`while (len && read_isspace( *p )) { p++; len--; }` and
`while (len && read_isspace( p[len - 1] )) { len--; }`. -/
def trim_space (str : List Nat) : List Nat :=
  (str.dropWhile read_isspace).rdropWhile read_isspace

def MAX_INT8 : Int := 0x7f
def MIN_INT8 : Int := -MAX_INT8 - 1
def MAX_INT64 : Int := 0x7fffffffffffffff
def MIN_INT64 : Int := -MAX_INT64 - 1

/-- A signed 64-bit result of an arithmetic operation (two's complement wrap). -/
def wrap_int64 (x : Int) : Int :=
  (x + 2 ^ 63) % 2 ^ 64 - 2 ^ 63

/-- The digit loop of `str_to_int64`; `ret` is the value accumulated so far
and the list is what `ptr` still has to read. -/
def str_to_int64_loop (negative : Bool) (min max : Int) :
    List Nat → Int → Except HRESULT Int
  | [], ret => .ok ret
  | c :: ptr, ret =>
    if !isdigit c then .error WS_E_INVALID_FORMAT
    else
      let val : Int := if negative then -((c : Int) - 48) else (c : Int) - 48
      if (!negative && (decide (ret > max.tdiv 10) ||
            decide (wrap_int64 (ret * 10) > wrap_int64 (max - val)))) ||
         (negative && (decide (ret < min.tdiv 10) ||
            decide (wrap_int64 (ret * 10) < wrap_int64 (min - val))))
      then .error WS_E_NUMERIC_OVERFLOW
      else str_to_int64_loop negative min max ptr (wrap_int64 (ret * 10 + val))

/-- `str_to_int64( str, len, min, max, ret )`: the value stored in `*ret` on
`S_OK`, or the failure code. -/
def str_to_int64 (str : List Nat) (min max : Int) : Except HRESULT Int :=
  let ptr := trim_space str
  if ptr = [] then .error WS_E_INVALID_FORMAT
  else
    let negative := ptr.head? == some 45
    let ptr := if negative then ptr.tail else ptr
    if ptr = [] then .error WS_E_INVALID_FORMAT
    else str_to_int64_loop negative min max ptr 0

/-! ### Date and time -/

/-- Modelled from the spec: `TICKS_PER_SEC` of `webservices_private.h`
(a tick is 100ns). -/
def TICKS_PER_SEC : Nat := 10000000

/-- Modelled from the spec: `TICKS_PER_MIN` of `webservices_private.h`. -/
def TICKS_PER_MIN : Nat := 60 * TICKS_PER_SEC

/-- Modelled from the spec: `TICKS_PER_HOUR` of `webservices_private.h`. -/
def TICKS_PER_HOUR : Nat := 3600 * TICKS_PER_SEC

/-- Modelled from the spec: `TICKS_PER_DAY` of `webservices_private.h`. -/
def TICKS_PER_DAY : Nat := 86400 * TICKS_PER_SEC

/-- Modelled from the spec: `TICKS_MAX` of `webservices_private.h`, the tick
count of 9999-12-31T23:59:59.9999999. -/
def TICKS_MAX : Nat := 3155378975999999999

/-- Modelled from the spec: `TICKS_1601_01_01` of `webservices_private.h`,
the tick count of 1601-01-01T00:00:00. -/
def TICKS_1601_01_01 : Nat := 504911232000000000

def MAX_UINT64 : Nat := 0xffffffffffffffff

/-- Modelled from the spec: `leap_year` of `webservices_private.h`, the
Gregorian rule (divisible by 4 and not by 100, or divisible by 400). -/
def leap_year (year : Nat) : Bool :=
  year % 4 == 0 && (year % 100 != 0 || year % 400 == 0)

/-- Modelled from the spec: the table `month_days` of `webservices_private.h`,
the number of days of each month in a common year and in a leap year. -/
def month_days (leap : Bool) : List Nat :=
  if leap then [31, 29, 31, 30, 31, 30, 31, 31, 30, 31, 30, 31]
  else [31, 28, 31, 30, 31, 30, 31, 31, 30, 31, 30, 31]

/-- The table `month_offsets`. -/
def month_offsets (leap : Bool) : List Nat :=
  if leap then [0, 31, 60, 91, 121, 152, 182, 213, 244, 274, 305, 335]
  else [0, 31, 59, 90, 120, 151, 181, 212, 243, 273, 304, 334]

/-- `valid_day( year, month, day )`. -/
def valid_day (year month day : Nat) : Bool :=
  decide (day > 0) && decide (day ≤ (month_days (leap_year year)).getD (month - 1) 0)

/-- `leap_days_before( year )`. -/
def leap_days_before (year : Nat) : Nat :=
  (year - 1) / 4 - (year - 1) / 100 + (year - 1) / 400

inductive WS_DATETIME_FORMAT where
  | WS_DATETIME_FORMAT_UTC
  | WS_DATETIME_FORMAT_LOCAL
  | WS_DATETIME_FORMAT_NONE
  deriving DecidableEq, Repr

open WS_DATETIME_FORMAT

/-- `WS_DATETIME`: `ticks` is an unsigned 64-bit count of 100ns units. -/
structure WS_DATETIME where
  ticks : Nat
  format : WS_DATETIME_FORMAT
  deriving DecidableEq, Repr

/-- Two digits read as a number: `(p[0] - '0') * 10 + p[1] - '0'`. -/
def two_digits (p : List Nat) : Nat :=
  (p.getD 0 48 - 48) * 10 + (p.getD 1 48 - 48)

/-- The loop that adds up the fraction of a second:
`for (i = 0; i < nb_digits; i++) { sec_frac += (p[i] - '0') * mul; mul /= 10; }`. -/
def sec_frac_loop : List Nat → Nat → Nat → Nat
  | [], _, sec_frac => sec_frac
  | c :: p, mul, sec_frac => sec_frac_loop p (mul / 10) (sec_frac + (c - 48) * mul)

/-- The end of `str_to_datetime`: the tick count of the fields read and the
adjustment by the time zone. -/
def datetime_ticks (year month day hour min sec sec_frac tz_hour tz_min : Nat)
    (tz_neg : Bool) (format : WS_DATETIME_FORMAT) : Except HRESULT WS_DATETIME :=
  let ticks := ((year - 1) * 365 + leap_days_before year) * TICKS_PER_DAY
  let ticks := ticks + (month_offsets (leap_year year)).getD (month - 1) 0 * TICKS_PER_DAY
  let ticks := ticks + (day - 1) * TICKS_PER_DAY
  let ticks := ticks + hour * TICKS_PER_HOUR
  let ticks := ticks + min * TICKS_PER_MIN
  let ticks := ticks + sec * TICKS_PER_SEC
  let ticks := ticks + sec_frac
  if tz_neg then
    if tz_hour * TICKS_PER_HOUR + tz_min * TICKS_PER_MIN + ticks > TICKS_MAX then
      .error WS_E_INVALID_FORMAT
    else .ok ⟨ticks + tz_hour * TICKS_PER_HOUR + tz_min * TICKS_PER_MIN, format⟩
  else
    if tz_hour * TICKS_PER_HOUR + tz_min * TICKS_PER_MIN > ticks then
      .error WS_E_INVALID_FORMAT
    else .ok ⟨ticks - tz_hour * TICKS_PER_HOUR - tz_min * TICKS_PER_MIN, format⟩

/-- `str_to_datetime( bytes, len, ret )`.  Each field is read by
`while (len && isdigit( *q )) { q++; len--; }`: `takeWhile` is the digits
between `p` and `q`, `dropWhile` what is left at `q`.  The fields are decimal
digits, so the `int` values are natural numbers, and none of the sums comes
near 2^64.  After a fraction that ends the input the C code tests `*q` with
`len` at 0; whatever byte is there, `--len` or the later test of `len` is
nonzero and the call fails with `WS_E_INVALID_FORMAT`, which is what the
model returns. -/
def str_to_datetime (bytes : List Nat) : Except HRESULT WS_DATETIME :=
  let p := trim_space bytes
  let q := p.dropWhile isdigit
  if (p.takeWhile isdigit).length ≠ 4 ∨ q = [] ∨ q.head? ≠ some 45 then
    .error WS_E_INVALID_FORMAT
  else
  let year := (p.getD 0 48 - 48) * 1000 + (p.getD 1 48 - 48) * 100 +
    (p.getD 2 48 - 48) * 10 + (p.getD 3 48 - 48)
  if year < 1 then .error WS_E_INVALID_FORMAT else
  let p := q.tail
  let q := p.dropWhile isdigit
  if (p.takeWhile isdigit).length ≠ 2 ∨ q = [] ∨ q.head? ≠ some 45 then
    .error WS_E_INVALID_FORMAT
  else
  let month := two_digits p
  if month < 1 ∨ month > 12 then .error WS_E_INVALID_FORMAT else
  let p := q.tail
  let q := p.dropWhile isdigit
  if (p.takeWhile isdigit).length ≠ 2 ∨ q = [] ∨ q.head? ≠ some 84 then
    .error WS_E_INVALID_FORMAT
  else
  let day := two_digits p
  if !valid_day year month day then .error WS_E_INVALID_FORMAT else
  let p := q.tail
  let q := p.dropWhile isdigit
  if (p.takeWhile isdigit).length ≠ 2 ∨ q = [] ∨ q.head? ≠ some 58 then
    .error WS_E_INVALID_FORMAT
  else
  let hour := two_digits p
  if hour > 24 then .error WS_E_INVALID_FORMAT else
  let p := q.tail
  let q := p.dropWhile isdigit
  if (p.takeWhile isdigit).length ≠ 2 ∨ q = [] ∨ q.head? ≠ some 58 then
    .error WS_E_INVALID_FORMAT
  else
  let min := two_digits p
  if min > 59 ∨ (min > 0 ∧ hour = 24) then .error WS_E_INVALID_FORMAT else
  let p := q.tail
  let q := p.dropWhile isdigit
  if (p.takeWhile isdigit).length ≠ 2 ∨ q = [] then .error WS_E_INVALID_FORMAT else
  let sec := two_digits p
  if sec > 59 ∨ (sec > 0 ∧ hour = 24) then .error WS_E_INVALID_FORMAT else
  let has_frac := q.head? == some 46
  let p := if has_frac then q.tail else p
  let nb_digits := (p.takeWhile isdigit).length
  if has_frac ∧ (nb_digits < 1 ∨ nb_digits > 7) then .error WS_E_INVALID_FORMAT else
  let sec_frac :=
    if has_frac then sec_frac_loop (p.takeWhile isdigit) (TICKS_PER_SEC / 10) 0 else 0
  let q := if has_frac then p.dropWhile isdigit else q
  if q = [] then .error WS_E_INVALID_FORMAT
  else if q.head? = some 90 then
    if q.tail ≠ [] then .error WS_E_INVALID_FORMAT
    else datetime_ticks year month day hour min sec sec_frac 0 0 false
      WS_DATETIME_FORMAT_UTC
  else if q.head? = some 43 ∨ q.head? = some 45 then
    let tz_neg := q.head? == some 45
    let p := q.tail
    let q := p.dropWhile isdigit
    if (p.takeWhile isdigit).length ≠ 2 ∨ q = [] ∨ q.head? ≠ some 58 then
      .error WS_E_INVALID_FORMAT
    else
    let tz_hour := two_digits p
    if tz_hour > 14 then .error WS_E_INVALID_FORMAT else
    let p := q.tail
    let q := p.dropWhile isdigit
    if (p.takeWhile isdigit).length ≠ 2 ∨ q ≠ [] then .error WS_E_INVALID_FORMAT else
    let tz_min := two_digits p
    if tz_min > 59 ∨ (tz_min > 0 ∧ tz_hour = 14) then .error WS_E_INVALID_FORMAT else
    datetime_ticks year month day hour min sec sec_frac tz_hour tz_min tz_neg
      WS_DATETIME_FORMAT_LOCAL
  else .error WS_E_INVALID_FORMAT

/-- `FILETIME`: two 32-bit halves of a 64-bit count. -/
structure FILETIME where
  dwLowDateTime : Nat
  dwHighDateTime : Nat
  deriving DecidableEq, Repr

/-- `WsDateTimeToFileTime( dt, ft, error )`; `dt` is `none` for a null
pointer and `ft` tells whether the output pointer is non-null. -/
def WsDateTimeToFileTime (dt : Option WS_DATETIME) (ft : Bool) : Except HRESULT FILETIME :=
  match dt, ft with
  | some dt, true =>
    if dt.ticks < TICKS_1601_01_01 then .error WS_E_INVALID_FORMAT
    else
      let ticks := dt.ticks - TICKS_1601_01_01
      .ok { dwHighDateTime := (ticks >>> 32) % 2 ^ 32, dwLowDateTime := ticks % 2 ^ 32 }
  | _, _ => .error E_INVALIDARG

/-- `WsFileTimeToDateTime( ft, dt, error )`; `ft` is `none` for a null
pointer and `dt` tells whether the output pointer is non-null. -/
def WsFileTimeToDateTime (ft : Option FILETIME) (dt : Bool) : Except HRESULT WS_DATETIME :=
  match ft, dt with
  | some ft, true =>
    let ticks := ((ft.dwHighDateTime <<< 32) % 2 ^ 64) ||| ft.dwLowDateTime
    if ticks > MAX_UINT64 - TICKS_1601_01_01 then .error WS_E_NUMERIC_OVERFLOW
    else if ticks + TICKS_1601_01_01 > TICKS_MAX then .error WS_E_INVALID_FORMAT
    else .ok ⟨ticks + TICKS_1601_01_01, WS_DATETIME_FORMAT_UTC⟩
  | _, _ => .error E_INVALIDARG

/-! ### Base64 -/

/-- `decode_char`: the 6-bit value of a base64 character, 64 for any other byte. -/
def decode_char (c : Nat) : Nat :=
  if c ≥ 65 ∧ c ≤ 90 then c - 65
  else if c ≥ 97 ∧ c ≤ 122 then c - 97 + 26
  else if c ≥ 48 ∧ c ≤ 57 then c - 48 + 52
  else if c = 43 then 62
  else if c = 47 then 63
  else 64

/-- `decode_base64( base64, len, buf )` with `len` the length of the list.
The second argument is what has been written to `buf` so far (`i` is its
length).  The result is the returned count, 0 after a byte outside the
alphabet, and the bytes written to `buf`.  With fewer than four bytes left
the C code reads past the end of its input: the result is then `none`. -/
def decode_base64 : List Nat → List Nat → Option (Nat × List Nat)
  | p0 :: p1 :: p2 :: p3 :: p4 :: rest, buf =>
    let c0 := decode_char p0
    if c0 > 63 then some (0, buf) else
    let c1 := decode_char p1
    if c1 > 63 then some (0, buf) else
    let c2 := decode_char p2
    if c2 > 63 then some (0, buf) else
    let c3 := decode_char p3
    if c3 > 63 then some (0, buf) else
    decode_base64 (p4 :: rest)
      (buf ++ [((c0 <<< 2) ||| (c1 >>> 4)) % 256, ((c1 <<< 4) ||| (c2 >>> 2)) % 256,
        ((c2 <<< 6) ||| c3) % 256])
  | [p0, p1, p2, p3], buf =>
    if p2 = 61 then
      let c0 := decode_char p0
      if c0 > 63 then some (0, buf) else
      let c1 := decode_char p1
      if c1 > 63 then some (0, buf) else
      some (buf.length + 1, buf ++ [((c0 <<< 2) ||| (c1 >>> 4)) % 256])
    else if p3 = 61 then
      let c0 := decode_char p0
      if c0 > 63 then some (0, buf) else
      let c1 := decode_char p1
      if c1 > 63 then some (0, buf) else
      let c2 := decode_char p2
      if c2 > 63 then some (0, buf) else
      some (buf.length + 2,
        buf ++ [((c0 <<< 2) ||| (c1 >>> 4)) % 256, ((c1 <<< 4) ||| (c2 >>> 2)) % 256])
    else
      let c0 := decode_char p0
      if c0 > 63 then some (0, buf) else
      let c1 := decode_char p1
      if c1 > 63 then some (0, buf) else
      let c2 := decode_char p2
      if c2 > 63 then some (0, buf) else
      let c3 := decode_char p3
      if c3 > 63 then some (0, buf) else
      some (buf.length + 3,
        buf ++ [((c0 <<< 2) ||| (c1 >>> 4)) % 256, ((c1 <<< 4) ||| (c2 >>> 2)) % 256,
          ((c2 <<< 6) ||| c3) % 256])
  | _, _ => none

/-- `WS_BYTES`: `length` as set by `str_to_bytes`, and the bytes that were
written to the allocated buffer. -/
structure WS_BYTES where
  length : Nat
  bytes : List Nat
  deriving DecidableEq, Repr

/-- `str_to_bytes( str, len, heap, ret )`.  `ws_alloc` tells whether the heap
can allocate a buffer of the given size; the size `len * 3 / 4` is computed
without wrap-around, which is the `ULONG` value for every input below
2^32 / 3 bytes.  The result is `none` when `decode_base64` reads past the end
of the input (an input without any byte other than whitespace). -/
def str_to_bytes (str : List Nat) (ws_alloc : Nat → Bool) : Option (Except HRESULT WS_BYTES) :=
  let p := trim_space str
  if p.length % 4 ≠ 0 then some (.error WS_E_INVALID_FORMAT)
  else if !ws_alloc (p.length * 3 / 4) then some (.error WS_E_QUOTA_EXCEEDED)
  else (decode_base64 p []).map (fun r => .ok { length := r.1, bytes := r.2 })

/-! ### Character entities -/

/-- The C library's `isxdigit` on a byte. -/
def isxdigit (c : Nat) : Bool :=
  (decide (48 ≤ c) && decide (c ≤ 57)) || (decide (97 ≤ c) && decide (c ≤ 102)) ||
    (decide (65 ≤ c) && decide (c ≤ 70))

/-- `codepoint_to_utf8( cp, dst )`: the bytes written to `dst` (their number
is the return value), or `none` for the return value -1. -/
def codepoint_to_utf8 (cp : Nat) : Option (List Nat) :=
  if cp = 0 then none
  else if cp < 0x80 then some [cp]
  else if cp < 0x800 then
    some [(0xc0 ||| (cp >>> 6)) % 256, 0x80 ||| (cp &&& 0x3f)]
  else if (cp ≥ 0xd800 ∧ cp ≤ 0xdfff) ∨ cp = 0xfffe ∨ cp = 0xffff then none
  else if cp < 0x10000 then
    some [(0xe0 ||| (cp >>> 6 >>> 6)) % 256, 0x80 ||| ((cp >>> 6) &&& 0x3f),
      0x80 ||| (cp &&& 0x3f)]
  else if cp ≥ 0x110000 then none
  else
    some [(0xf0 ||| (cp >>> 6 >>> 6 >>> 6)) % 256, 0x80 ||| ((cp >>> 6 >>> 6) &&& 0x3f),
      0x80 ||| ((cp >>> 6) &&& 0x3f), 0x80 ||| (cp &&& 0x3f)]

/-- The loop over the hexadecimal digits of a character reference. -/
def hex_value (digits : List Nat) : Nat :=
  digits.foldl (fun cp c =>
    if c ≥ 48 ∧ c ≤ 57 then cp * 16 + (c - 48)
    else if c ≥ 97 ∧ c ≤ 102 then cp * 16 + (c - 97 + 10)
    else cp * 16 + (c - 65 + 10)) 0

/-- The branch `if (*p == '&')` of the loop of `decode_text`, with `p` behind
the `&`: the bytes written to `ret` and the input left after the reference,
or `none` where the code returns `WS_E_INVALID_FORMAT`. -/
def decode_reference (p : List Nat) : Option (List Nat × List Nat) :=
  if p = [] then none
  else if p.take 3 = [108, 116, 59] then some ([60], p.drop 3)
  else if p.take 3 = [103, 116, 59] then some ([62], p.drop 3)
  else if p.take 5 = [113, 117, 111, 116, 59] then some ([34], p.drop 5)
  else if p.take 4 = [97, 109, 112, 59] then some ([38], p.drop 4)
  else if p.take 5 = [97, 112, 111, 115, 59] then some ([39], p.drop 5)
  else if p.head? = some 35 then
    let p := p.tail
    if p = [] then none
    else if p.head? = some 120 then
      let p := p.tail
      let digits := p.takeWhile isxdigit
      let p := p.dropWhile isxdigit
      if p = [] then none
      else if digits.length = 0 ∨ digits.length > 6 ∨ p.head? ≠ some 59 then none
      else (codepoint_to_utf8 (hex_value digits)).map (fun utf8 => (utf8, p.tail))
    else if (p.head?.map isdigit) = some true then
      let p := p.dropWhile (fun c => c == 48)
      if p = [] then none
      else
      let digits := p.takeWhile isdigit
      let p := p.dropWhile isdigit
      if p = [] then none
      else if digits.length = 0 ∨ digits.length > 7 ∨ p.head? ≠ some 59 then none
      else (codepoint_to_utf8 (digits.foldl (fun cp c => cp * 10 + (c - 48)) 0)).map
        (fun utf8 => (utf8, p.tail))
    else none
  else none

/-- The `while (len)` loop of `decode_text`.  The first argument bounds the
number of iterations, the second is the input from `p` on (`len` is its
length), the third the bytes written to `ret` so far and the fourth
`*ret_len`.  The result is the return value with the bytes written and
`*ret_len` at that moment.  Every iteration reads at least one byte, so a
bound of `len` is never used up (`decode_text` starts with it). -/
def decode_text_loop : Nat → List Nat → List Nat → Nat → HRESULT × List Nat × Nat
  | _, [], q, ret_len => (S_OK, q, ret_len)
  | 0, _ :: _, q, ret_len => (E_NOTIMPL, q, ret_len)
  | fuel + 1, c :: p, q, ret_len =>
    if c = 38 then
      match decode_reference p with
      | none => (WS_E_INVALID_FORMAT, q, ret_len)
      | some (written, p) => decode_text_loop fuel p (q ++ written) (ret_len + written.length)
    else decode_text_loop fuel p (q ++ [c]) (ret_len + 1)

/-- `decode_text( str, len, ret, ret_len )`: the return value, the bytes
written to `ret` and `*ret_len`. -/
def decode_text (str : List Nat) : HRESULT × List Nat × Nat :=
  decode_text_loop str.length str [] 0

/-! ### The string dictionary
The heap allocations of the reader (`heap_alloc`, `heap_realloc`) are taken to
succeed: the `E_OUTOFMEMORY` paths are not part of the model. -/

/-- The dictionary a `WS_XML_STRING` points to: the built-in one of the
reader, or one supplied by the caller. -/
inductive DictionaryRef where
  | dict_builtin
  | static_dictionary
  deriving DecidableEq, Repr

/-- `WS_XML_STRING`: `length` is the length of `bytes`; `dictionary` is
`none` for a null pointer. -/
structure WS_XML_STRING where
  bytes : List Nat
  dictionary : Option DictionaryRef
  id : Nat
  deriving DecidableEq, Repr

instance : Inhabited WS_XML_STRING := ⟨⟨[], none, 0⟩⟩

/-- The loop of `cmp_string` over two strings of the same length. -/
def cmp_string_loop : List Nat → List Nat → Int
  | a :: str, b :: str2 => if a = b then cmp_string_loop str str2 else (a : Int) - (b : Int)
  | _, _ => 0

/-- `cmp_string( str, len, str2, len2 )`. -/
def cmp_string (str str2 : List Nat) : Int :=
  if str.length < str2.length then -1
  else if str.length > str2.length then 1
  else cmp_string_loop str str2

/-- The state of the shared dictionary: the first `stringCount` entries of
`dict_builtin.strings` and of `dict_sorted`, the capacity `dict_size`, and
whether `dict_builtin.strings` is non-null. -/
structure Dictionary where
  strings : List WS_XML_STRING
  dict_sorted : List Nat
  dict_size : Nat
  allocated : Bool
  deriving DecidableEq, Repr

/-- `dict_builtin.stringCount`. -/
def Dictionary.stringCount (d : Dictionary) : Nat := d.strings.length

/-- The dictionary at the start of the process. -/
def Dictionary.empty : Dictionary := ⟨[], [], 0, false⟩

/-- The entry `dict_builtin.strings[dict_sorted[i]]`. -/
def Dictionary.sorted_entry (d : Dictionary) (i : Nat) : WS_XML_STRING :=
  d.strings.getD (d.dict_sorted.getD i 0) default

/-- The `while (min <= max)` loop of `find_string`; the first argument bounds
the number of iterations.  The result is the return value and the value
stored in `*id`, if any.  The `int` values stay below the number of entries,
which is at most 2048. -/
def find_string_loop (d : Dictionary) (data : List Nat) : Nat → Int → Int → Int × Option Nat
  | 0, _, max => (max + 1, none)
  | fuel + 1, min, max =>
    if min ≤ max then
      let i := (min + max).tdiv 2
      let c := cmp_string data (d.sorted_entry i.toNat).bytes
      if c < 0 then find_string_loop d data fuel min (i - 1)
      else if c > 0 then find_string_loop d data fuel (i + 1) max
      else (-1, some (d.sorted_entry i.toNat).id)
    else (max + 1, none)

/-- `find_string( data, len, id )`: -1 and the id when found, the index in
the sorted array when not found.  Every iteration shrinks the interval, so
`stringCount + 1` iterations are never used up. -/
def find_string (d : Dictionary) (data : List Nat) : Int × Option Nat :=
  find_string_loop d data (d.stringCount + 1) 0 ((d.stringCount : Int) - 1)

def MIN_DICTIONARY_SIZE : Nat := 256
def MAX_DICTIONARY_SIZE : Nat := 2048

/-- `grow_dict( size )`: the return value and the dictionary afterwards. -/
def grow_dict (d : Dictionary) (size : Nat) : Bool × Dictionary :=
  if d.dict_size ≥ d.stringCount + size then (true, d)
  else if d.dict_size + size > MAX_DICTIONARY_SIZE then (false, d)
  else if !d.allocated then
    (true, { d with allocated := true, dict_size := max MIN_DICTIONARY_SIZE size })
  else (true, { d with dict_size := max (d.dict_size * 2) size })

/-- The size of a pointer on the platform the code is built for, which is
`sizeof(WS_XML_STRING *)`: 4 or 8 bytes. -/
inductive pointer_size where
  | bytes_4
  | bytes_8
  deriving DecidableEq, Repr

/-- The number of bytes of a pointer. -/
def pointer_size.bytes : pointer_size → Nat
  | pointer_size.bytes_4 => 4
  | pointer_size.bytes_8 => 8

/-- `insert_string( data, len, i, ret_id )`: the id stored in `*ret_id` when
the return value is `TRUE`, and the dictionary afterwards.  The `memmove`
moves `(stringCount - i) * sizeof(WS_XML_STRING *)` bytes, the difference
taken as a `ULONG`, from `&dict_sorted[i]` to `&dict_sorted[i] + 1`.  The
entries of `dict_sorted` are `ULONG`s of 4 bytes and its block, allocated by
`grow_dict`, has `dict_size` of them.  The result is `none` when the bytes
written reach over the end of the block, where the behaviour of the code is
not defined: with pointers of 8 bytes the call moves twice the entries from
`i` on.  Otherwise the entries from `i` on stand one place further; what the
move has written behind them is outside the used part of the array, which is
what the model keeps. -/
def insert_string (ptr : pointer_size) (d : Dictionary) (data : List Nat) (i : Nat) :
    Option (Option Nat × Dictionary) :=
  let id := d.stringCount
  let r := grow_dict d 1
  if !r.1 then some (none, r.2)
  else if (i + 1) * 4 + (d.stringCount + 2 ^ 32 - i) % 2 ^ 32 * ptr.bytes > r.2.dict_size * 4 then
    none
  else
    some (some id,
      { r.2 with
        dict_sorted := r.2.dict_sorted.take i ++ id :: r.2.dict_sorted.drop i
        strings := r.2.strings ++ [⟨data, some DictionaryRef.dict_builtin, id⟩] })

/-- `add_xml_string( str )`: the return value, `*str` and the dictionary
afterwards; `none` when `insert_string` writes over the end of the block of
`dict_sorted`. -/
def add_xml_string (ptr : pointer_size) (d : Dictionary) (str : WS_XML_STRING) :
    Option (HRESULT × WS_XML_STRING × Dictionary) :=
  if str.dictionary.isSome then some (S_OK, str, d)
  else
    let r := find_string d str.bytes
    if r.1 = -1 then some (S_OK, d.strings.getD (r.2.getD 0) default, d)
    else
      match insert_string ptr d str.bytes r.1.toNat with
      | none => none
      | some ins =>
        match ins.1 with
        | some id => some (S_OK, ins.2.strings.getD id default, ins.2)
        | none => some (WS_E_QUOTA_EXCEEDED, str, ins.2)

/-- `dup_xml_string( src )`: the copy and the dictionary afterwards; `none`
when `insert_string` writes over the end of the block of `dict_sorted`. -/
def dup_xml_string (ptr : pointer_size) (d : Dictionary) (src : WS_XML_STRING) :
    Option (WS_XML_STRING × Dictionary) :=
  if src.dictionary.isSome then some (src, d)
  else
    let r := find_string d src.bytes
    if r.1 = -1 then some (d.strings.getD (r.2.getD 0) default, d)
    else
      match insert_string ptr d src.bytes r.1.toNat with
      | none => none
      | some ins =>
        match ins.1 with
        | some id => some (ins.2.strings.getD id default, ins.2)
        | none => some (⟨src.bytes, none, 0⟩, ins.2)

/-- A dictionary state that a sequence of `add_xml_string` and
`dup_xml_string` calls reaches from the empty dictionary, none of them
writing over the end of a block. -/
inductive Dictionary.Reachable (ptr : pointer_size) : Dictionary → Prop where
  | empty : Dictionary.Reachable ptr Dictionary.empty
  | add (d : Dictionary) (str : WS_XML_STRING) (x : HRESULT × WS_XML_STRING × Dictionary) :
      Dictionary.Reachable ptr d → add_xml_string ptr d str = some x →
      Dictionary.Reachable ptr x.2.2
  | dup (d : Dictionary) (src : WS_XML_STRING) (x : WS_XML_STRING × Dictionary) :
      Dictionary.Reachable ptr d → dup_xml_string ptr d src = some x →
      Dictionary.Reachable ptr x.2

/-! ### The document tree
A `struct node *` is modelled by the place of the node in the tree of the
reader: the list of child indices that leads from the node up to the root
(the empty list is the root, and the tail of the list is `node->parent`).
A `WS_XML_STRING *` of a node is modelled by its bytes, `none` for a null
pointer: interning a string in the dictionary gives it a `dictionary` and an
`id` and leaves its bytes as they are. -/

/-- `WS_XML_NODE_TYPE`. -/
inductive WS_XML_NODE_TYPE where
  | ELEMENT
  | TEXT
  | END_ELEMENT
  | COMMENT
  | CDATA
  | END_CDATA
  | EOF
  | BOF
  deriving DecidableEq, Repr

/-- `WS_XML_ATTRIBUTE`; `value` holds the bytes of the `WS_XML_UTF8_TEXT`. -/
structure WS_XML_ATTRIBUTE where
  singleQuote : Bool
  isXmlNs : Bool
  prefix_ : Option (List Nat)
  localName : Option (List Nat)
  ns : Option (List Nat)
  value : Option (List Nat)
  deriving DecidableEq, Repr

/-- `WS_XML_ELEMENT_NODE` without its `WS_XML_NODE` header; `attributeCount`
is the length of `attributes`. -/
structure WS_XML_ELEMENT_NODE where
  prefix_ : Option (List Nat)
  localName : Option (List Nat)
  ns : Option (List Nat)
  attributes : List WS_XML_ATTRIBUTE
  deriving DecidableEq, Repr

/-- `struct node`: the node type, the fields of the element, text and comment
views of the node (`hdr`, `text`, `value`) and the list of children. -/
inductive node where
  | mk (nodeType : WS_XML_NODE_TYPE) (hdr : WS_XML_ELEMENT_NODE) (text : Option (List Nat))
      (value : List Nat) (children : List node)
  deriving Repr

/-- `node_type( node )`. -/
def node.nodeType : node → WS_XML_NODE_TYPE
  | node.mk t _ _ _ _ => t

def node.hdr : node → WS_XML_ELEMENT_NODE
  | node.mk _ h _ _ _ => h

def node.text : node → Option (List Nat)
  | node.mk _ _ x _ _ => x

def node.value : node → List Nat
  | node.mk _ _ _ v _ => v

def node.children : node → List node
  | node.mk _ _ _ _ c => c

mutual
/-- Decision of the equality of two nodes with all their descendants. -/
def node.decEq : (a b : node) → Decidable (a = b)
  | node.mk t1 h1 x1 v1 c1, node.mk t2 h2 x2 v2 c2 =>
    if ht : t1 = t2 then
      if hh : h1 = h2 then
        if hx : x1 = x2 then
          if hv : v1 = v2 then
            match node.decEq_list c1 c2 with
            | isTrue hc => isTrue (by rw [ht, hh, hx, hv, hc])
            | isFalse hc => isFalse (fun h => hc (by injection h))
          else isFalse (fun h => hv (by injection h))
        else isFalse (fun h => hx (by injection h))
      else isFalse (fun h => hh (by injection h))
    else isFalse (fun h => ht (by injection h))
/-- Decision of the equality of two lists of nodes. -/
def node.decEq_list : (a b : List node) → Decidable (a = b)
  | [], [] => isTrue rfl
  | a :: l1, b :: l2 =>
    match node.decEq a b with
    | isTrue h1 =>
      match node.decEq_list l1 l2 with
      | isTrue h2 => isTrue (by rw [h1, h2])
      | isFalse h2 => isFalse (fun h => h2 (by injection h))
    | isFalse h1 => isFalse (fun h => h1 (by injection h))
  | [], _ :: _ => isFalse (fun h => by cases h)
  | _ :: _, [] => isFalse (fun h => by cases h)
end

instance : DecidableEq node := node.decEq

/-- `alloc_node( type )`: a zero-initialised node without children. -/
def alloc_node (type : WS_XML_NODE_TYPE) : node :=
  node.mk type ⟨none, none, none, []⟩ none [] []

/-- The node reached from `n` by the child indices `path`, first index
first. -/
def node.get? : node → List Nat → Option node
  | n, [] => some n
  | n, i :: path =>
    match n.children[i]? with
    | some c => c.get? path
    | none => none

/-- The tree `n` with the node at `path` (first index first) replaced by its
image under `f`. -/
def node.modify (f : node → node) : List Nat → node → node
  | [], n => f n
  | i :: path, node.mk t h x v c => node.mk t h x v (c.modify (node.modify f path) i)

/-- `list_add_before( list_tail( &parent->children ), &node->entry )`: the
new child goes in front of the last child. -/
def node.insert_before_tail (n : node) : node → node
  | node.mk t h x v c => node.mk t h x v (c.dropLast ++ n :: c.getLast?.toList)

/-- `list_add_tail( &parent->children, &node->entry )`. -/
def node.add_tail (n : node) : node → node
  | node.mk t h x v c => node.mk t h x v (c ++ [n])

/-- Modelled from the spec: `is_valid_parent` is declared in
webservices_private.h.  New nodes go in front of the trailing sentinel of
their parent, and the nodes with a trailing sentinel are the elements
(EndElement) and the BOF node (EOF). -/
def is_valid_parent (n : Option node) : Bool :=
  match n with
  | none => false
  | some n => n.nodeType = WS_XML_NODE_TYPE.ELEMENT || n.nodeType = WS_XML_NODE_TYPE.BOF

/-- `WsXmlStringEquals( str1, str2, error )`: a null argument is an error,
and the strings are equal when they have the same length and bytes. -/
def WsXmlStringEquals (str1 str2 : Option (List Nat)) : HRESULT :=
  match str1, str2 with
  | some a, some b => if a = b then S_OK else S_FALSE
  | _, _ => E_INVALIDARG

/-- The macro `FAILED( hr )`. -/
def FAILED (hr : HRESULT) : Bool :=
  !(hr = S_OK || hr = S_FALSE)

/-! ### The reader
The reader in text mode and in binary mode.  Heap allocations are taken to
succeed. -/

/-- `enum reader_state`. -/
inductive reader_state where
  | READER_STATE_INITIAL
  | READER_STATE_BOF
  | READER_STATE_STARTELEMENT
  | READER_STATE_STARTATTRIBUTE
  | READER_STATE_STARTCDATA
  | READER_STATE_CDATA
  | READER_STATE_TEXT
  | READER_STATE_ENDELEMENT
  | READER_STATE_ENDCDATA
  | READER_STATE_COMMENT
  | READER_STATE_EOF
  deriving DecidableEq, Repr

open reader_state

/-- `struct prefix`: a prefix and the namespace bound to it. -/
structure prefix_t where
  str : Option (List Nat)
  ns : Option (List Nat)
  deriving DecidableEq, Repr

/-- `WS_XML_READER_ENCODING_TYPE`. -/
inductive WS_XML_READER_ENCODING_TYPE where
  | WS_XML_READER_ENCODING_TYPE_TEXT
  | WS_XML_READER_ENCODING_TYPE_BINARY
  | WS_XML_READER_ENCODING_TYPE_MTOM
  | WS_XML_READER_ENCODING_TYPE_RAW
  deriving DecidableEq, Repr

open WS_XML_READER_ENCODING_TYPE

/-- `WS_XML_DICTIONARY`: `strings` holds the `stringCount` entries of the
array. -/
structure WS_XML_DICTIONARY where
  strings : List WS_XML_STRING
  deriving DecidableEq, Repr

/-- `dict->stringCount`. -/
def WS_XML_DICTIONARY.stringCount (d : WS_XML_DICTIONARY) : Nat := d.strings.length

/-- `struct reader`, the fields the parser uses: `read_bufptr` holds the
`read_size` bytes of the input, `prefixes` the first `nb_prefixes` entries of
the array, `root` the tree, `current` and `last` places in it, and `dict` the
dictionary `reader->dict` points to (`none` is the null pointer). -/
structure reader where
  read_bufptr : List Nat
  read_pos : Nat
  state : reader_state
  root : node
  current : List Nat
  current_attr : Nat
  last : List Nat
  prefixes : List prefix_t
  text_conv_offset : Nat
  input_enc : WS_XML_READER_ENCODING_TYPE
  dict : Option WS_XML_DICTIONARY
  magic : Nat
  input_type : Nat

/-- The macro `READER_MAGIC`: the bytes `READ`. -/
def READER_MAGIC : Nat := (82 <<< 24) ||| (69 <<< 16) ||| (65 <<< 8) ||| 68

/-- Modelled from the spec: `WS_XML_READER_INPUT_TYPE_BUFFER` of the
enumeration `WS_XML_READER_INPUT_TYPE` in webservices.h, whose first value
is 1. -/
def WS_XML_READER_INPUT_TYPE_BUFFER : Nat := 1

def reader.read_size (r : reader) : Nat := r.read_bufptr.length

/-- The node a `struct node *` of the reader points to. -/
def reader.node_at (r : reader) (p : List Nat) : Option node :=
  r.root.get? p.reverse

/-- `node->parent`: `none` is the null pointer. -/
def parent_of : List Nat → Option (List Nat)
  | [] => none
  | _ :: p => some p

/-- `LIST_ENTRY( list_tail( &node->children ), struct node, entry )` for the
node at `p`.  For a node without children `list_tail` gives a null pointer
and `LIST_ENTRY` makes of it a pointer to no node: the place the model gives
then is no place of the tree (`node_at` is `none` there).  The code reads
through such a pointer at its next use, with a behaviour that is not
defined: what the model gives for a reader whose cursor is no node stands
for no behaviour of the code. -/
def reader.tail_child (r : reader) (p : List Nat) : List Nat :=
  ((((r.node_at p).map node.children).getD []).length - 1) :: p

/-- `set_prefix( prefix, str, ns )`. -/
def set_prefix (p : prefix_t) (str ns : Option (List Nat)) : prefix_t :=
  { str := if str.isSome then str else p.str, ns := ns }

/-- The loop of `bind_prefix`: the array after `set_prefix` on the first
entry that equals `prefix`, if there is one. -/
def bind_prefix_loop (p ns : Option (List Nat)) : List prefix_t → Option (List prefix_t)
  | [] => none
  | e :: es =>
    if WsXmlStringEquals p e.str = S_OK then some ( set_prefix e none ns :: es)
    else ( bind_prefix_loop p ns es).map (fun t => e :: t)

/-- `bind_prefix( reader, prefix, ns )`. -/
def bind_prefix (r : reader) (p ns : Option (List Nat)) : HRESULT × reader :=
  match bind_prefix_loop p ns r.prefixes with
  | some t => (S_OK, { r with prefixes := t })
  | none => (S_OK, { r with prefixes := r.prefixes ++ [ set_prefix ⟨none, none⟩ p ns] })

/-- The loop of `get_namespace` over the array of prefixes. -/
def get_namespace_loop (p : Option (List Nat)) : List prefix_t → Option (List Nat)
  | [] => none
  | e :: es => if WsXmlStringEquals p e.str = S_OK then e.ns else get_namespace_loop p es

/-- `get_namespace( reader, prefix )`; `none` is the null pointer. -/
def get_namespace (r : reader) (p : Option (List Nat)) : Option (List Nat) :=
  get_namespace_loop p r.prefixes

/-- `read_insert_node( reader, parent, node )`. -/
def read_insert_node (r : reader) (parent : List Nat) (n : node) : reader :=
  { r with
    root := r.root.modify (node.insert_before_tail n) parent.reverse
    current := r.tail_child parent
    last := r.tail_child parent }

/-- `init_reader( reader )` on a reader without a tree: the prefixes are
cleared down to the reserved first entry, the empty prefix is bound to the
empty namespace, and the EOF node becomes the root.  The fields `input_enc`
and `dict`, which the function sets last, are set from the start.  The
dictionary `dict_builtin` that `reader->dict` is set to is the shared one; it
is taken in its state at the start of the process, without entries: the text
mode does not read `reader->dict`, and `WsSetInput` replaces it in binary
mode.  The reader is the one that `alloc_reader` has made: `magic` is
`READER_MAGIC` and `input_type` is zero. -/
def init_reader : HRESULT × reader :=
  bind_prefix
    { read_bufptr := []
      read_pos := 0
      state := READER_STATE_INITIAL
      root := alloc_node WS_XML_NODE_TYPE.EOF
      current := []
      current_attr := 0
      last := []
      prefixes := [⟨none, none⟩]
      text_conv_offset := 0
      input_enc := WS_XML_READER_ENCODING_TYPE_TEXT
      dict := some ⟨[]⟩
      magic := READER_MAGIC
      input_type := 0 }
    (some []) (some [])

/-- `read_insert_bof( reader, bof )`: the BOF node becomes the root, with
the old root as its child. -/
def read_insert_bof (r : reader) (bof : node) : reader :=
  { r with root := node.add_tail r.root bof, current := [], last := [] }

/-- `WsSetInput` with the text encoding, the UTF-8 charset and a buffer that
holds `data`: `init_reader`, `set_input_buffer` and `read_insert_bof`. -/
def WsSetInput (data : List Nat) : reader :=
  read_insert_bof
    { init_reader.2 with
      input_type := WS_XML_READER_INPUT_TYPE_BUFFER
      read_bufptr := data
      read_pos := 0
      text_conv_offset := 0 }
    (alloc_node WS_XML_NODE_TYPE.BOF)

/-- `dup_attribute( src )`.  The namespace of the copy is made from
`src->localName`.  The value is copied when `src->value` is not null, as it
is for the attributes the reader makes. -/
def dup_attribute (src : WS_XML_ATTRIBUTE) : WS_XML_ATTRIBUTE :=
  let prefix_ := src.prefix_
  let localname := src.localName
  let ns := src.localName
  let text := src.value
  { singleQuote := src.singleQuote
    isXmlNs := src.isXmlNs
    prefix_ := prefix_
    localName := localname
    ns := ns
    value := text }

/-- `dup_attributes( src, count )`. -/
def dup_attributes (src : List WS_XML_ATTRIBUTE) : List WS_XML_ATTRIBUTE :=
  src.map dup_attribute

/-- `dup_element_node( src )`: the prefix is copied when it is not null and
not empty. -/
def dup_element_node (src : WS_XML_ELEMENT_NODE) : node :=
  let prefix_ := if src.prefix_.isSome && (src.prefix_.getD []).length ≠ 0 then src.prefix_ else none
  node.mk WS_XML_NODE_TYPE.ELEMENT
    { prefix_ := prefix_
      localName := src.localName
      ns := src.ns
      attributes := dup_attributes src.attributes }
    none [] []

/-- `dup_text_node( src )`. -/
def dup_text_node (src : node) : node :=
  node.mk WS_XML_NODE_TYPE.TEXT ⟨none, none, none, []⟩ src.text [] []

/-- `dup_comment_node( src )`. -/
def dup_comment_node (src : node) : node :=
  node.mk WS_XML_NODE_TYPE.COMMENT ⟨none, none, none, []⟩ none src.value []

/-- `dup_node( src )`. -/
def dup_node (src : node) : node :=
  match src.nodeType with
  | WS_XML_NODE_TYPE.ELEMENT => dup_element_node src.hdr
  | WS_XML_NODE_TYPE.TEXT => dup_text_node src
  | WS_XML_NODE_TYPE.COMMENT => dup_comment_node src
  | t => alloc_node t

mutual
/-- `dup_tree( dst, src )`: the return value and `*dst`, where `none` is a
null `*dst`. -/
def dup_tree (dst : Option node) : node → HRESULT × node
  | node.mk t h x v c =>
    (S_OK,
      (dup_children c).foldl (fun parent new_child => node.add_tail new_child parent)
        (dst.getD (dup_node (node.mk t h x v c))))
/-- The copies `dup_tree` makes of the children of a node, in order. -/
def dup_children : List node → List node
  | [] => []
  | child :: l => (dup_tree (some (dup_node child)) child).2 :: dup_children l
end

/-! ### The scanner
The loops that advance through the input take a bound on the number of
iterations as their first argument; every iteration that goes on consumes at
least one byte, so the number of bytes left plus one is never used up.  A loop
gives `S_OK` when it ends with a `break`, the code the function returns when
it fails, and `E_NOTIMPL` where the bound would be used up. -/

/-- `read_end_of_data( reader )`. -/
def read_end_of_data (r : reader) : Bool :=
  decide (r.read_pos ≥ r.read_size)

/-- The bytes from `read_current_ptr( reader )` to the end of the input. -/
def read_current_ptr (r : reader) : List Nat :=
  r.read_bufptr.drop r.read_pos

/-- The table `utf8_length`: number of following bytes, by first byte from
0x80 on. -/
def utf8_length : List Nat :=
  [0,0,0,0,0,0,0,0,0,0,0,0,0,0,0,0,
   0,0,0,0,0,0,0,0,0,0,0,0,0,0,0,0,
   0,0,0,0,0,0,0,0,0,0,0,0,0,0,0,0,
   0,0,0,0,0,0,0,0,0,0,0,0,0,0,0,0,
   0,0,1,1,1,1,1,1,1,1,1,1,1,1,1,1,
   1,1,1,1,1,1,1,1,1,1,1,1,1,1,1,1,
   2,2,2,2,2,2,2,2,2,2,2,2,2,2,2,2,
   3,3,3,3,3,0,0,0,0,0,0,0,0,0,0,0]

def utf8_mask : List Nat := [0x7f, 0x1f, 0x0f, 0x07]

def utf8_minval : List Nat := [0x0, 0x80, 0x800, 0x10000]

/-- One case of the `switch` of `read_utf8_char`:
`if ((ch = b ^ 0x80) >= 0x40) break; res = (res << 6) | ch;`, where `none`
stands for the `break`. -/
def utf8_trail (res : Option Nat) (b : Nat) : Option Nat :=
  match res with
  | none => none
  | some res =>
    let ch := (b ^^^ 0x80) % 256
    if ch ≥ 0x40 then none else some ((res <<< 6) ||| ch)

/-- The end of the `switch` of `read_utf8_char`:
`if (res < utf8_minval[len]) break; *skip = len + 1; return res;`, and
`return 0` after a `break`. -/
def utf8_result (res : Option Nat) (len : Nat) : Nat × Nat :=
  match res with
  | none => (0, 0)
  | some res => if res < utf8_minval.getD len 0 then (0, 0) else (res, len + 1)

/-- `read_utf8_char( reader, skip )`: the return value and `*skip`.  Where the
function returns 0 without storing to `*skip` the second component is 0; the
callers read `*skip` after a non-zero return value only. -/
def read_utf8_char (r : reader) : Nat × Nat :=
  let ch := r.read_bufptr.getD r.read_pos 0
  if r.read_pos ≥ r.read_size then (0, 0)
  else if ch < 0x80 then (ch, 1)
  else
    let len := utf8_length.getD (ch - 0x80) 0
    if r.read_pos + len ≥ r.read_size then (0, 0)
    else
      let res := ch &&& utf8_mask.getD len 0
      let res3 := if len = 3 then utf8_trail (some res) (r.read_bufptr.getD (r.read_pos + len - 2) 0)
        else some res
      let res2 := if len = 3 ∨ len = 2 then utf8_trail res3 (r.read_bufptr.getD (r.read_pos + len - 1) 0)
        else res3
      let res1 := if len = 0 then none else utf8_trail res2 (r.read_bufptr.getD (r.read_pos + len) 0)
      utf8_result res1 len

/-- `read_skip( reader, count )`. -/
def read_skip (r : reader) (count : Nat) : reader :=
  if r.read_pos + count > r.read_size then r else { r with read_pos := r.read_pos + count }

/-- `read_rewind( reader, count )`. -/
def read_rewind (r : reader) (count : Nat) : reader :=
  { r with read_pos := r.read_pos - count }

/-- `read_isnamechar( ch )`. -/
def read_isnamechar (ch : Nat) : Bool :=
  (decide (ch ≥ 65) && decide (ch ≤ 90)) ||
  (decide (ch ≥ 97) && decide (ch ≤ 122)) ||
  (decide (ch ≥ 48) && decide (ch ≤ 57)) ||
  ch == 95 || ch == 45 || ch == 46 || ch == 58

/-- `read_skip_whitespace( reader )`: the position moves over the longest run
of whitespace bytes. -/
def read_skip_whitespace (r : reader) : reader :=
  { r with read_pos := r.read_pos + ((read_current_ptr r).takeWhile read_isspace).length }

/-- The comparison loop of `read_cmp`. -/
def read_cmp_loop : List Nat → List Nat → Int
  | s :: str, p :: ptr => if s ≠ p then (p : Int) - (s : Int) else read_cmp_loop str ptr
  | _, _ => 0

/-- `read_cmp( reader, str, len )` with `len` the length of `str`. -/
def read_cmp (r : reader) (str : List Nat) : Int :=
  if r.read_pos + str.length > r.read_size then -1
  else read_cmp_loop str (read_current_ptr r)

/-- The loop of `read_xmldecl` that looks for the next `?`. -/
def read_xmldecl_skip (r : reader) : reader :=
  { r with read_pos := r.read_pos + ((read_current_ptr r).takeWhile (fun c => c != 63)).length }

/-- `read_xmldecl( reader )`. -/
def read_xmldecl (r : reader) : HRESULT × reader :=
  if r.read_size = 0 then (WS_E_INVALID_FORMAT, r)
  else if read_cmp r [60] ≠ 0 || read_cmp r [60, 63] ≠ 0 then
    (S_OK, { r with state := READER_STATE_BOF })
  else if read_cmp r [60, 63, 120, 109, 108, 32] ≠ 0 then (WS_E_INVALID_FORMAT, r)
  else
    let r := read_xmldecl_skip (read_skip r 6)
    if read_cmp r [63, 62] ≠ 0 then (WS_E_INVALID_FORMAT, r)
    else (S_OK, { (read_skip r 2) with state := READER_STATE_BOF })

/-- `append_attribute( elem, attr )`. -/
def append_attribute (elem : WS_XML_ELEMENT_NODE) (attr : WS_XML_ATTRIBUTE) : WS_XML_ELEMENT_NODE :=
  { elem with attributes := elem.attributes ++ [attr] }

/-- `split_name( str, len, ... )`: the return value, the prefix and the local
name.  The prefix ends at the first colon; without a colon it is empty. -/
def split_name (str : List Nat) : HRESULT × List Nat × List Nat :=
  let pre := str.takeWhile (fun c => c != 58)
  if pre.length = str.length then (S_OK, [], str)
  else if pre = [] then (WS_E_INVALID_FORMAT, [], str)
  else (S_OK, pre, str.drop (pre.length + 1))

/-- `parse_name( str, len, prefix, localname )`. -/
def parse_name (str : List Nat) : HRESULT × Option (List Nat) × Option (List Nat) :=
  let s := split_name str
  if s.1 ≠ S_OK then (s.1, none, none) else (S_OK, some s.2.1, some s.2.2)

/-- The loop of `read_element_text` and of `read_attribute_text` over the
bytes of a name: `S_OK` when it ends at a byte that is not part of a name,
with the reader and `len`. -/
def read_name_loop : Nat → reader → Nat → HRESULT × reader × Nat
  | 0, r, len => (E_NOTIMPL, r, len)
  | fuel + 1, r, len =>
    let c := read_utf8_char r
    if c.1 = 0 then (WS_E_INVALID_FORMAT, r, len)
    else if !read_isnamechar c.1 then (S_OK, r, len)
    else read_name_loop fuel (read_skip r c.2) (len + c.2)

/-- The loop of `read_attribute_value_text` up to the closing quote. -/
def read_value_loop (quote : Nat) : Nat → reader → Nat → HRESULT × reader × Nat
  | 0, r, len => (E_NOTIMPL, r, len)
  | fuel + 1, r, len =>
    let c := read_utf8_char r
    if c.1 = 0 then (WS_E_INVALID_FORMAT, r, len)
    else if c.1 = quote then (S_OK, r, len)
    else read_value_loop quote fuel (read_skip r c.2) (len + c.2)

/-- `read_attribute_value_text( reader, attr )`. -/
def read_attribute_value_text (r : reader) (attr : WS_XML_ATTRIBUTE) :
    HRESULT × reader × WS_XML_ATTRIBUTE :=
  let r := read_skip_whitespace r
  if read_cmp r [61] ≠ 0 then (WS_E_INVALID_FORMAT, r, attr)
  else
    let r := read_skip_whitespace (read_skip r 1)
    if read_cmp r [34] ≠ 0 && read_cmp r [39] ≠ 0 then (WS_E_INVALID_FORMAT, r, attr)
    else
      let quote := (read_utf8_char r).1
      let r := read_skip r 1
      let start := read_current_ptr r
      let l := read_value_loop quote (r.read_size - r.read_pos + 1) r 0
      if l.1 ≠ S_OK then (l.1, l.2.1, attr)
      else
        let r := read_skip l.2.1 1
        let len := l.2.2
        if attr.isXmlNs then
          let attr := { attr with ns := some (start.take len) }
          let b := bind_prefix r attr.prefix_ attr.ns
          if b.1 ≠ S_OK then (b.1, b.2, attr)
          else (S_OK, b.2, { attr with value := some [], singleQuote := decide (quote = 39) })
        else
          let d := decode_text (start.take len)
          if d.1 ≠ S_OK then (d.1, r, attr)
          else (S_OK, r, { attr with value := some d.2.1, singleQuote := decide (quote = 39) })

/-- `read_attribute_text( reader, ret )`. -/
def read_attribute_text (r : reader) : HRESULT × reader × WS_XML_ATTRIBUTE :=
  let attr : WS_XML_ATTRIBUTE := ⟨false, false, none, none, none, none⟩
  let start := read_current_ptr r
  let l := read_name_loop (r.read_size - r.read_pos + 1) r 0
  if l.1 ≠ S_OK then (l.1, l.2.1, attr)
  else if l.2.2 = 0 then (WS_E_INVALID_FORMAT, l.2.1, attr)
  else
    let n := parse_name (start.take l.2.2)
    if n.1 ≠ S_OK then (n.1, l.2.1, attr)
    else
      let attr : WS_XML_ATTRIBUTE :=
        if WsXmlStringEquals n.2.1 (some [120, 109, 108, 110, 115]) = S_OK then
          { attr with isXmlNs := true, prefix_ := n.2.2, localName := n.2.2 }
        else if (n.2.1.getD []).length = 0 &&
            WsXmlStringEquals n.2.2 (some [120, 109, 108, 110, 115]) = S_OK then
          { attr with isXmlNs := true, prefix_ := n.2.1, localName := n.2.2 }
        else { attr with prefix_ := n.2.1, localName := n.2.2 }
      read_attribute_value_text l.2.1 attr

/-- `find_parent( reader )`; `none` is the null pointer.  The function
reads `node_type( reader->current )`: with a cursor that is no node the
behaviour of the code is not defined, and the value of the model stands for
none. -/
def find_parent (r : reader) : Option (List Nat) :=
  if (r.node_at r.current).map node.nodeType = some WS_XML_NODE_TYPE.END_ELEMENT then
    if is_valid_parent (((parent_of r.current).bind parent_of).bind r.node_at) then
      (parent_of r.current).bind parent_of
    else none
  else if is_valid_parent (r.node_at r.current) then some r.current
  else if is_valid_parent ((parent_of r.current).bind r.node_at) then parent_of r.current
  else none

/-- The loop of `set_namespaces` over the attributes. -/
def set_namespaces_loop (r : reader) : List WS_XML_ATTRIBUTE → HRESULT × List WS_XML_ATTRIBUTE
  | [] => (S_OK, [])
  | attr :: attrs =>
    if attr.isXmlNs || WsXmlStringEquals attr.prefix_ (some [120, 109, 108]) = S_OK then
      let t := set_namespaces_loop r attrs
      (t.1, attr :: t.2)
    else
      match get_namespace r attr.prefix_ with
      | none => (WS_E_INVALID_FORMAT, attr :: attrs)
      | some ns =>
        let t := set_namespaces_loop r attrs
        (t.1, { attr with ns := some ns } :: t.2)

/-- `set_namespaces( reader, elem )`. -/
def set_namespaces (r : reader) (elem : WS_XML_ELEMENT_NODE) : HRESULT × WS_XML_ELEMENT_NODE :=
  match get_namespace r elem.prefix_ with
  | none => (WS_E_INVALID_FORMAT, elem)
  | some ns =>
    let t := set_namespaces_loop r elem.attributes
    (t.1, { elem with ns := some ns, attributes := t.2 })

/-- `alloc_element_pair()`: an element node with its EndElement child. -/
def alloc_element_pair : node :=
  node.add_tail (alloc_node WS_XML_NODE_TYPE.END_ELEMENT) (alloc_node WS_XML_NODE_TYPE.ELEMENT)

/-- The loop of `read_attributes_text`. -/
def read_attributes_text_loop : Nat → reader → WS_XML_ELEMENT_NODE →
    HRESULT × reader × WS_XML_ELEMENT_NODE
  | 0, r, elem => (E_NOTIMPL, r, elem)
  | fuel + 1, r, elem =>
    let r := read_skip_whitespace r
    if read_cmp r [62] = 0 || read_cmp r [47, 62] = 0 then (S_OK, r, elem)
    else
      let a := read_attribute_text r
      if a.1 ≠ S_OK then (a.1, a.2.1, elem)
      else
        read_attributes_text_loop fuel { a.2.1 with current_attr := a.2.1.current_attr + 1 }
          (append_attribute elem a.2.2)

/-- `read_attributes_text( reader, elem )`. -/
def read_attributes_text (r : reader) (elem : WS_XML_ELEMENT_NODE) :
    HRESULT × reader × WS_XML_ELEMENT_NODE :=
  read_attributes_text_loop (r.read_size - r.read_pos + 1) { r with current_attr := 0 } elem

/-- The node `n` with the element fields `elem`. -/
def node.set_hdr (elem : WS_XML_ELEMENT_NODE) : node → node
  | node.mk t _ x v c => node.mk t elem x v c

/-- `read_element_text( reader )`. -/
def read_element_text (r : reader) : HRESULT × reader :=
  if read_end_of_data r then
    (S_OK, { r with current := r.tail_child [], last := r.tail_child [], state := READER_STATE_EOF })
  else if read_cmp r [60] ≠ 0 then (WS_E_INVALID_FORMAT, r)
  else
    let r := read_skip r 1
    if !read_isnamechar (read_utf8_char r).1 then (WS_E_INVALID_FORMAT, read_rewind r 1)
    else
      let start := read_current_ptr r
      let l := read_name_loop (r.read_size - r.read_pos + 1) r 0
      if l.1 ≠ S_OK then (l.1, l.2.1)
      else if l.2.2 = 0 then (WS_E_INVALID_FORMAT, l.2.1)
      else
        match find_parent l.2.1 with
        | none => (WS_E_INVALID_FORMAT, l.2.1)
        | some parent =>
          let n := parse_name (start.take l.2.2)
          if n.1 ≠ S_OK then (n.1, l.2.1)
          else
            let a := read_attributes_text l.2.1 ⟨n.2.1, n.2.2, none, []⟩
            if a.1 ≠ S_OK then (a.1, a.2.1)
            else
              let s := set_namespaces a.2.1 a.2.2
              if s.1 ≠ S_OK then (s.1, a.2.1)
              else
                (S_OK, { (read_insert_node a.2.1 parent (alloc_element_pair.set_hdr s.2)) with
                  state := READER_STATE_STARTELEMENT })

/-- The loop of `read_text_text` up to the next `<` or the end of the
input. -/
def read_text_loop : Nat → reader → Nat → HRESULT × reader × Nat
  | 0, r, len => (E_NOTIMPL, r, len)
  | fuel + 1, r, len =>
    if read_end_of_data r then (S_OK, r, len)
    else
      let c := read_utf8_char r
      if c.1 = 0 then (WS_E_INVALID_FORMAT, r, len)
      else if c.1 = 60 then (S_OK, r, len)
      else read_text_loop fuel (read_skip r c.2) (len + c.2)

/-- The node `n` with the text `text`. -/
def node.set_text (text : Option (List Nat)) : node → node
  | node.mk t h _ v c => node.mk t h text v c

/-- The node `n` with the comment bytes `value`. -/
def node.set_value (value : List Nat) : node → node
  | node.mk t h x _ c => node.mk t h x value c

/-- `read_text_text( reader )`. -/
def read_text_text (r : reader) : HRESULT × reader :=
  let start := read_current_ptr r
  let l := read_text_loop (r.read_size - r.read_pos + 1) r 0
  if l.1 ≠ S_OK then (l.1, l.2.1)
  else
    match find_parent l.2.1 with
    | none => (WS_E_INVALID_FORMAT, l.2.1)
    | some parent =>
      let d := decode_text (start.take l.2.2)
      if d.1 ≠ S_OK then (d.1, l.2.1)
      else
        (S_OK, { (read_insert_node l.2.1 parent
            ((alloc_node WS_XML_NODE_TYPE.TEXT).set_text (some d.2.1))) with
          state := READER_STATE_TEXT, text_conv_offset := 0 })

/-- `read_startelement_text( reader )`; `read_node_text` is the function it
calls after the `>`. -/
def read_startelement_text (read_node_text : reader → HRESULT × reader) (r : reader) :
    HRESULT × reader :=
  let r := read_skip_whitespace r
  if read_cmp r [47, 62] = 0 then
    let r := read_skip r 2
    (S_OK,
      { r with
        current := r.tail_child r.current
        last := r.tail_child r.current
        state := READER_STATE_ENDELEMENT })
  else if read_cmp r [62] = 0 then read_node_text (read_skip r 1)
  else (WS_E_INVALID_FORMAT, r)

/-- The C library's `toupper` on a byte, in the C locale. -/
def toupper (c : Nat) : Nat :=
  if 97 ≤ c ∧ c ≤ 122 then c - 32 else c

/-- The loop of `cmp_name` over two names of the same length. -/
def cmp_name_loop : List Nat → List Nat → Int
  | a :: name1, b :: name2 => if toupper a ≠ toupper b then 1 else cmp_name_loop name1 name2
  | _, _ => 0

/-- `cmp_name( name1, len1, name2, len2 )`. -/
def cmp_name (name1 name2 : List Nat) : Int :=
  if name1.length ≠ name2.length then 1 else cmp_name_loop name1 name2

/-- The loop of `find_startelement` from the node at `parent` up to the
root.  The element nodes of the reader have a prefix and a local name.  The
loop reads `node_type( parent )` at every place: at a place that is no node
the behaviour of the code is not defined, and the model, which goes on with
the parent of the place, stands for none; the chain from a node to the root
has only nodes. -/
def find_startelement_loop (r : reader) (prefix_ localname : List Nat) :
    List Nat → Option (List Nat)
  | [] =>
    match r.node_at [] with
    | some n =>
      if n.nodeType = WS_XML_NODE_TYPE.ELEMENT ∧ cmp_name (n.hdr.prefix_.getD []) prefix_ = 0 ∧
        cmp_name (n.hdr.localName.getD []) localname = 0 then some [] else none
    | none => none
  | i :: parent =>
    match r.node_at (i :: parent) with
    | some n =>
      if n.nodeType = WS_XML_NODE_TYPE.ELEMENT ∧ cmp_name (n.hdr.prefix_.getD []) prefix_ = 0 ∧
        cmp_name (n.hdr.localName.getD []) localname = 0 then some (i :: parent)
      else find_startelement_loop r prefix_ localname parent
    | none => find_startelement_loop r prefix_ localname parent

/-- `find_startelement( reader, prefix, localname )`; `none` is the null
pointer. -/
def find_startelement (r : reader) (prefix_ localname : List Nat) : Option (List Nat) :=
  find_startelement_loop r prefix_ localname r.current

/-- The loop of `read_endelement_text` over the name, up to and including
the `>`. -/
def read_endname_loop : Nat → reader → Nat → HRESULT × reader × Nat
  | 0, r, len => (E_NOTIMPL, r, len)
  | fuel + 1, r, len =>
    let c := read_utf8_char r
    if c.1 = 0 then (WS_E_INVALID_FORMAT, r, len)
    else if c.1 = 62 then (S_OK, read_skip r 1, len)
    else if !read_isnamechar c.1 then (WS_E_INVALID_FORMAT, r, len)
    else read_endname_loop fuel (read_skip r c.2) (len + c.2)

/-- `read_endelement_text( reader )`. -/
def read_endelement_text (r : reader) : HRESULT × reader :=
  if read_cmp r [60, 47] ≠ 0 then (WS_E_INVALID_FORMAT, r)
  else
    let r := read_skip r 2
    let start := read_current_ptr r
    let l := read_endname_loop (r.read_size - r.read_pos + 1) r 0
    if l.1 ≠ S_OK then (l.1, l.2.1)
    else
      let n := parse_name (start.take l.2.2)
      if n.1 ≠ S_OK then (n.1, l.2.1)
      else
        match find_startelement l.2.1 (n.2.1.getD []) (n.2.2.getD []) with
        | none => (WS_E_INVALID_FORMAT, l.2.1)
        | some parent =>
          (S_OK,
            { l.2.1 with
              current := l.2.1.tail_child parent
              last := l.2.1.tail_child parent
              state := READER_STATE_ENDELEMENT })

/-- The loop of `read_comment_text` up to and including `-->`. -/
def read_comment_loop : Nat → reader → Nat → HRESULT × reader × Nat
  | 0, r, len => (E_NOTIMPL, r, len)
  | fuel + 1, r, len =>
    if read_cmp r [45, 45, 62] = 0 then (S_OK, read_skip r 3, len)
    else
      let c := read_utf8_char r
      if c.1 = 0 then (WS_E_INVALID_FORMAT, r, len)
      else read_comment_loop fuel (read_skip r c.2) (len + c.2)

/-- `read_comment_text( reader )`. -/
def read_comment_text (r : reader) : HRESULT × reader :=
  if read_cmp r [60, 33, 45, 45] ≠ 0 then (WS_E_INVALID_FORMAT, r)
  else
    let r := read_skip r 4
    let start := read_current_ptr r
    let l := read_comment_loop (r.read_size - r.read_pos + 1) r 0
    if l.1 ≠ S_OK then (l.1, l.2.1)
    else
      match find_parent l.2.1 with
      | none => (WS_E_INVALID_FORMAT, l.2.1)
      | some parent =>
        (S_OK, { (read_insert_node l.2.1 parent
            ((alloc_node WS_XML_NODE_TYPE.COMMENT).set_value (start.take l.2.2))) with
          state := READER_STATE_COMMENT })

/-- `read_startcdata( reader )`. -/
def read_startcdata (r : reader) : HRESULT × reader :=
  if read_cmp r [60, 33, 91, 67, 68, 65, 84, 65, 91] ≠ 0 then (WS_E_INVALID_FORMAT, r)
  else
    let r := read_skip r 9
    match find_parent r with
    | none => (WS_E_INVALID_FORMAT, r)
    | some parent =>
      (S_OK, { (read_insert_node r parent
          (node.add_tail (alloc_node WS_XML_NODE_TYPE.END_CDATA) (alloc_node WS_XML_NODE_TYPE.CDATA))) with
        state := READER_STATE_STARTCDATA })

/-- The loop of `read_cdata` up to `]]>`. -/
def read_cdata_loop : Nat → reader → Nat → HRESULT × reader × Nat
  | 0, r, len => (E_NOTIMPL, r, len)
  | fuel + 1, r, len =>
    if read_cmp r [93, 93, 62] = 0 then (S_OK, r, len)
    else
      let c := read_utf8_char r
      if c.1 = 0 then (WS_E_INVALID_FORMAT, r, len)
      else read_cdata_loop fuel (read_skip r c.2) (len + c.2)

/-- `read_cdata( reader )`. -/
def read_cdata (r : reader) : HRESULT × reader :=
  let start := read_current_ptr r
  let l := read_cdata_loop (r.read_size - r.read_pos + 1) r 0
  if l.1 ≠ S_OK then (l.1, l.2.1)
  else
    (S_OK, { (read_insert_node l.2.1 l.2.1.current
        ((alloc_node WS_XML_NODE_TYPE.TEXT).set_text (some (start.take l.2.2)))) with
      state := READER_STATE_CDATA })

/-- `read_endcdata( reader )`. -/
def read_endcdata (r : reader) : HRESULT × reader :=
  if read_cmp r [93, 93, 62] ≠ 0 then (WS_E_INVALID_FORMAT, r)
  else
    let r := read_skip r 3
    let parent :=
      if (r.node_at r.current).map node.nodeType = some WS_XML_NODE_TYPE.TEXT then
        (parent_of r.current).getD []
      else r.current
    (S_OK,
      { r with
        current := r.tail_child parent
        last := r.tail_child parent
        state := READER_STATE_ENDCDATA })

/-- `read_node_text( reader )`, with a bound on the number of passes through
its loop and of calls from `read_startelement_text`.  Each further pass or
call follows the consumption of at least one byte. -/
def read_node_text : Nat → reader → HRESULT × reader
  | 0, r => (E_NOTIMPL, r)
  | fuel + 1, r =>
    if read_end_of_data r then
      (S_OK, { r with current := r.tail_child [], last := r.tail_child [], state := READER_STATE_EOF })
    else if r.state = READER_STATE_STARTCDATA then read_cdata r
    else if r.state = READER_STATE_CDATA then read_endcdata r
    else if read_cmp r [60, 63] = 0 then
      let x := read_xmldecl r
      if FAILED x.1 then x else read_node_text fuel x.2
    else if read_cmp r [60, 47] = 0 then read_endelement_text r
    else if read_cmp r [60, 33, 91, 67, 68, 65, 84, 65, 91] = 0 then read_startcdata r
    else if read_cmp r [60, 33, 45, 45] = 0 then read_comment_text r
    else if read_cmp r [60] = 0 then read_element_text r
    else if read_cmp r [47, 62] = 0 || read_cmp r [62] = 0 then
      read_startelement_text (read_node_text fuel) r
    else read_text_text r

/-! ### GUIDs -/

/-- `GUID`: `Data1` has 32 bits, `Data2` and `Data3` have 16 bits, and
`Data4` is an array of eight bytes. -/
structure GUID where
  Data1 : Nat
  Data2 : Nat
  Data3 : Nat
  Data4 : List Nat
  deriving DecidableEq, Repr

/-- The table `hex` of `str_to_guid`: the value of a hexadecimal digit, and 0
for every other byte up to `'f'`. -/
def hex : List Nat :=
  [0,0,0,0,0,0,0,0,0,0,0,0,0,0,0,0,
   0,0,0,0,0,0,0,0,0,0,0,0,0,0,0,0,
   0,0,0,0,0,0,0,0,0,0,0,0,0,0,0,0,
   0,1,2,3,4,5,6,7,8,9,0,0,0,0,0,0,
   0,10,11,12,13,14,15,0,0,0,0,0,0,0,0,0,
   0,0,0,0,0,0,0,0,0,0,0,0,0,0,0,0,
   0,10,11,12,13,14,15]

/-- `str_to_guid( str, len, ret )`: the GUID stored in `*ret` on `S_OK`, or
the failure code.  `p` is the input without the surrounding whitespace; the
loop over the 36 offsets fails in the same way at every offset, so it is the
test whether some offset fails.  The shifted table entries are of type `int`
and the results are stored in fields of 32, 16 and 8 bits. -/
def str_to_guid (str : List Nat) : Except HRESULT GUID :=
  let p := trim_space str
  if p.length ≠ 36 then .error WS_E_INVALID_FORMAT
  else if p.getD 8 0 ≠ 45 ∨ p.getD 13 0 ≠ 45 ∨ p.getD 18 0 ≠ 45 ∨ p.getD 23 0 ≠ 45 then
    .error WS_E_INVALID_FORMAT
  else if (List.range 36).any (fun i =>
      !(i == 8 || i == 13 || i == 18 || i == 23) &&
        (decide (p.getD i 0 > 102) || (hex.getD (p.getD i 0) 0 == 0 && p.getD i 0 != 48))) then
    .error WS_E_INVALID_FORMAT
  else
    let h := fun i => hex.getD (p.getD i 0) 0
    .ok
      { Data1 := (h 0 <<< 28 ||| h 1 <<< 24 ||| h 2 <<< 20 ||| h 3 <<< 16 |||
          h 4 <<< 12 ||| h 5 <<< 8 ||| h 6 <<< 4 ||| h 7) % 2 ^ 32
        Data2 := (h 9 <<< 12 ||| h 10 <<< 8 ||| h 11 <<< 4 ||| h 12) % 2 ^ 16
        Data3 := (h 14 <<< 12 ||| h 15 <<< 8 ||| h 16 <<< 4 ||| h 17) % 2 ^ 16
        Data4 :=
          [(h 19 <<< 4 ||| h 20) % 2 ^ 8, (h 21 <<< 4 ||| h 22) % 2 ^ 8,
           (h 24 <<< 4 ||| h 25) % 2 ^ 8, (h 26 <<< 4 ||| h 27) % 2 ^ 8,
           (h 28 <<< 4 ||| h 29) % 2 ^ 8, (h 30 <<< 4 ||| h 31) % 2 ^ 8,
           (h 32 <<< 4 ||| h 33) % 2 ^ 8, (h 34 <<< 4 ||| h 35) % 2 ^ 8] }

/-! ### Floating point -/

def MAX_INT32 : Int := 0x7fffffff
def MIN_INT32 : Int := -MAX_INT32 - 1

/-- A signed 32-bit result of an arithmetic operation (two's complement wrap). -/
def wrap_int32 (x : Int) : Int :=
  (x + 2 ^ 31) % 2 ^ 32 - 2 ^ 31

/-- The C library's `tolower` on a byte, in the C locale. -/
def tolower (c : Nat) : Nat :=
  if 65 ≤ c ∧ c ≤ 90 then c + 32 else c

/-- What `str_to_double` stores in `*ret`: a bit pattern written through
`(unsigned __int64 *)ret`, the value `0.0`, or
`sign * (neg_exp ? val / exp_val : val * exp_val)`, where `exp_val` is the
power of ten the loop `for (; exp; exp >>= 1)` computes from `exp` in
`long double` arithmetic.  That loop and the floating-point operations are
not modelled: the result holds their operands `sign`, `val`, `neg_exp` and
`exp`. -/
inductive double_value where
  | bits (pattern : Nat)
  | zero
  | scaled (sign : Int) (val : Nat) (neg_exp : Bool) (exp : Int)
  deriving DecidableEq, Repr

/-- The loop of `str_to_double` over the digits of the integer part, with
`val` and `exp`: when `val` cannot take a further digit, the digits left are
counted in `exp`. -/
def str_to_double_int : List Nat → Nat → Int → Nat × Int
  | [], val, exp => (val, exp)
  | c :: digits, val, exp =>
    let tmp := (val * 10 + (c - 48)) % 2 ^ 64
    if val > MAX_UINT64 / 10 ∨ tmp < val then (val, exp + ((c :: digits).length : Int))
    else str_to_double_int digits tmp exp

/-- The loop of `str_to_double` over the digits of the fraction, with `val`
and `exp`. -/
def str_to_double_frac : List Nat → Nat → Int → Nat × Int
  | [], val, exp => (val, exp)
  | c :: digits, val, exp =>
    let tmp := (val * 10 + (c - 48)) % 2 ^ 64
    if val > MAX_UINT64 / 10 ∨ tmp < val then (val, exp)
    else str_to_double_frac digits tmp (exp - 1)

/-- The loop of `str_to_double` over the digits of the exponent, with
`exp_tmp`. -/
def str_to_double_exp : List Nat → Int → Int
  | [], exp_tmp => exp_tmp
  | c :: digits, exp_tmp =>
    if exp_tmp > MAX_INT32.tdiv 10 then str_to_double_exp digits MAX_INT32
    else if wrap_int32 (exp_tmp * 10 + (c : Int) - 48) < 0 then str_to_double_exp digits MAX_INT32
    else str_to_double_exp digits (wrap_int32 (exp_tmp * 10 + (c : Int) - 48))

/-- `str_to_double( str, len, ret )`: what is stored in `*ret` on `S_OK`, or
the failure code.  `set_fpword` is taken to succeed, as it does on x86.  The
pointer `q` with the count `len` is the list of the bytes from `q` on. -/
def str_to_double (str : List Nat) : Except HRESULT double_value :=
  let p := trim_space str
  if p = [] then .error WS_E_INVALID_FORMAT
  else if p = [78, 97, 78] then .ok (.bits 0xfff8000000000000)
  else if p = [73, 78, 70] then .ok (.bits 0x7ff0000000000000)
  else if p = [45, 73, 78, 70] then .ok (.bits 0xfff0000000000000)
  else
    let sign : Int := if p.head? = some 45 then -1 else 1
    let p := if p.head? = some 45 ∨ p.head? = some 43 then p.tail else p
    if p = [] then .ok .zero
    else
      let q := p.dropWhile isdigit
      let nb_digits := (p.takeWhile isdigit).length
      let have_digits := nb_digits
      let ve := str_to_double_int (p.takeWhile isdigit) 0 0
      let p1 := if q.head? = some 46 then q.tail else p
      let nb_digits1 := (p1.takeWhile isdigit).length
      let have_digits1 := if q.head? = some 46 then have_digits ||| nb_digits1 else have_digits
      let ve1 := if q.head? = some 46 then str_to_double_frac (p1.takeWhile isdigit) ve.1 ve.2 else ve
      let q1 := if q.head? = some 46 then p1.dropWhile isdigit else q
      if q1.length > 1 ∧ tolower (q1.headD 0) = 101 then
        if have_digits1 = 0 then .error WS_E_INVALID_FORMAT
        else
          let p2 := q1.tail
          let exp_sign : Int := if p2.head? = some 45 then -1 else 1
          let p3 := if p2.head? = some 45 ∨ p2.head? = some 43 then p2.tail else p2
          let q3 := p3.dropWhile isdigit
          let nb_digits3 := (p3.takeWhile isdigit).length
          if nb_digits3 = 0 ∨ q3 ≠ [] then .error WS_E_INVALID_FORMAT
          else
            let exp_tmp := wrap_int32 (str_to_double_exp (p3.takeWhile isdigit) 0 * exp_sign)
            let exp : Int :=
              if ve1.2 < 0 ∧ exp_tmp < 0 ∧ wrap_int32 (ve1.2 + exp_tmp) ≥ 0 then MIN_INT32
              else if ve1.2 > 0 ∧ exp_tmp > 0 ∧ wrap_int32 (ve1.2 + exp_tmp) < 0 then MAX_INT32
              else wrap_int32 (ve1.2 + exp_tmp)
            .ok (.scaled sign ve1.1 (decide (exp < 0)) (if exp < 0 then wrap_int32 (-exp) else exp))
      else if have_digits1 = 0 ∨ q1 ≠ [] then .error WS_E_INVALID_FORMAT
      else
        .ok (.scaled sign ve1.1 (decide (ve1.2 < 0))
          (if ve1.2 < 0 then wrap_int32 (-ve1.2) else ve1.2))

/-! ### The binary encoding -/

/-- `read_peek( reader, byte )`: the result and the byte. -/
def read_peek (r : reader) : HRESULT × Nat :=
  if r.read_pos ≥ r.read_size then (WS_E_INVALID_FORMAT, 0)
  else (S_OK, r.read_bufptr.getD r.read_pos 0)

/-- `read_byte( reader, byte )`: the result, the reader and the byte. -/
def read_byte (r : reader) : HRESULT × reader × Nat :=
  if r.read_pos ≥ r.read_size then (WS_E_INVALID_FORMAT, r, 0)
  else (S_OK, { r with read_pos := r.read_pos + 1 }, r.read_bufptr.getD r.read_pos 0)

/-- `read_bytes( reader, bytes, len )`: the result, the reader and the bytes
copied. -/
def read_bytes (r : reader) (len : Nat) : HRESULT × reader × List Nat :=
  if r.read_pos + len > r.read_size then (WS_E_INVALID_FORMAT, r, [])
  else (S_OK, { r with read_pos := r.read_pos + len }, (read_current_ptr r).take len)

/-- `read_int31( reader, len )`: the result, the reader and `*len`, a `ULONG`. -/
def read_int31 (r : reader) : HRESULT × reader × Nat :=
  let b0 := read_byte r
  if b0.1 ≠ S_OK then (b0.1, b0.2.1, 0)
  else
    let len0 := b0.2.2 &&& 0x7f
    if b0.2.2 &&& 0x80 = 0 then (S_OK, b0.2.1, len0)
    else
      let b1 := read_byte b0.2.1
      if b1.1 ≠ S_OK then (b1.1, b1.2.1, len0)
      else
        let len1 := (len0 + (b1.2.2 &&& 0x7f) <<< 7) % 2 ^ 32
        if b1.2.2 &&& 0x80 = 0 then (S_OK, b1.2.1, len1)
        else
          let b2 := read_byte b1.2.1
          if b2.1 ≠ S_OK then (b2.1, b2.2.1, len1)
          else
            let len2 := (len1 + (b2.2.2 &&& 0x7f) <<< 14) % 2 ^ 32
            if b2.2.2 &&& 0x80 = 0 then (S_OK, b2.2.1, len2)
            else
              let b3 := read_byte b2.2.1
              if b3.1 ≠ S_OK then (b3.1, b3.2.1, len2)
              else
                let len3 := (len2 + (b3.2.2 &&& 0x7f) <<< 21) % 2 ^ 32
                if b3.2.2 &&& 0x80 = 0 then (S_OK, b3.2.1, len3)
                else
                  let b4 := read_byte b3.2.1
                  if b4.1 ≠ S_OK then (b4.1, b4.2.1, len3)
                  else (S_OK, b4.2.1, (len3 + (b4.2.2 &&& 0x07) <<< 28) % 2 ^ 32)

/-! ### The records of the binary encoding
A string read from the input is modelled by its bytes, like the strings of
the text mode: `add_xml_string` leaves the bytes as they are.  The dictionary
`reader->dict` of a binary reader is the one the caller gave to `WsSetInput`;
it is taken not to be the shared dictionary that interning extends. -/

/-- Modelled from the spec: `RECORD_ENDELEMENT` of `enum record_type` in
webservices_private.h, the record type 0x01 of the binary format. -/
def RECORD_ENDELEMENT : Nat := 0x01

/-- Modelled from the spec: `RECORD_COMMENT` of `enum record_type` in
webservices_private.h, the record type 0x02 of the binary format. -/
def RECORD_COMMENT : Nat := 0x02

/-- Modelled from the spec: `RECORD_SHORT_ATTRIBUTE` of `enum record_type` in
webservices_private.h, the record type 0x04 of the binary format. -/
def RECORD_SHORT_ATTRIBUTE : Nat := 0x04

/-- Modelled from the spec: `RECORD_ATTRIBUTE` of `enum record_type` in
webservices_private.h, the record type 0x05 of the binary format. -/
def RECORD_ATTRIBUTE : Nat := 0x05

/-- Modelled from the spec: `RECORD_SHORT_DICTIONARY_ATTRIBUTE` of `enum record_type` in
webservices_private.h, the record type 0x06 of the binary format. -/
def RECORD_SHORT_DICTIONARY_ATTRIBUTE : Nat := 0x06

/-- Modelled from the spec: `RECORD_DICTIONARY_ATTRIBUTE` of `enum record_type` in
webservices_private.h, the record type 0x07 of the binary format. -/
def RECORD_DICTIONARY_ATTRIBUTE : Nat := 0x07

/-- Modelled from the spec: `RECORD_SHORT_XMLNS_ATTRIBUTE` of `enum record_type` in
webservices_private.h, the record type 0x08 of the binary format. -/
def RECORD_SHORT_XMLNS_ATTRIBUTE : Nat := 0x08

/-- Modelled from the spec: `RECORD_XMLNS_ATTRIBUTE` of `enum record_type` in
webservices_private.h, the record type 0x09 of the binary format. -/
def RECORD_XMLNS_ATTRIBUTE : Nat := 0x09

/-- Modelled from the spec: `RECORD_SHORT_DICTIONARY_XMLNS_ATTRIBUTE` of `enum record_type` in
webservices_private.h, the record type 0x0a of the binary format. -/
def RECORD_SHORT_DICTIONARY_XMLNS_ATTRIBUTE : Nat := 0x0a

/-- Modelled from the spec: `RECORD_DICTIONARY_XMLNS_ATTRIBUTE` of `enum record_type` in
webservices_private.h, the record type 0x0b of the binary format. -/
def RECORD_DICTIONARY_XMLNS_ATTRIBUTE : Nat := 0x0b

/-- Modelled from the spec: `RECORD_PREFIX_DICTIONARY_ATTRIBUTE_A` of `enum record_type` in
webservices_private.h, the record type 0x0c of the binary format. -/
def RECORD_PREFIX_DICTIONARY_ATTRIBUTE_A : Nat := 0x0c

/-- Modelled from the spec: `RECORD_PREFIX_DICTIONARY_ATTRIBUTE_Z` of `enum record_type` in
webservices_private.h, the record type 0x25 of the binary format. -/
def RECORD_PREFIX_DICTIONARY_ATTRIBUTE_Z : Nat := 0x25

/-- Modelled from the spec: `RECORD_PREFIX_ATTRIBUTE_A` of `enum record_type` in
webservices_private.h, the record type 0x26 of the binary format. -/
def RECORD_PREFIX_ATTRIBUTE_A : Nat := 0x26

/-- Modelled from the spec: `RECORD_PREFIX_ATTRIBUTE_Z` of `enum record_type` in
webservices_private.h, the record type 0x3f of the binary format. -/
def RECORD_PREFIX_ATTRIBUTE_Z : Nat := 0x3f

/-- Modelled from the spec: `RECORD_SHORT_ELEMENT` of `enum record_type` in
webservices_private.h, the record type 0x40 of the binary format. -/
def RECORD_SHORT_ELEMENT : Nat := 0x40

/-- Modelled from the spec: `RECORD_ELEMENT` of `enum record_type` in
webservices_private.h, the record type 0x41 of the binary format. -/
def RECORD_ELEMENT : Nat := 0x41

/-- Modelled from the spec: `RECORD_SHORT_DICTIONARY_ELEMENT` of `enum record_type` in
webservices_private.h, the record type 0x42 of the binary format. -/
def RECORD_SHORT_DICTIONARY_ELEMENT : Nat := 0x42

/-- Modelled from the spec: `RECORD_DICTIONARY_ELEMENT` of `enum record_type` in
webservices_private.h, the record type 0x43 of the binary format. -/
def RECORD_DICTIONARY_ELEMENT : Nat := 0x43

/-- Modelled from the spec: `RECORD_PREFIX_DICTIONARY_ELEMENT_A` of `enum record_type` in
webservices_private.h, the record type 0x44 of the binary format. -/
def RECORD_PREFIX_DICTIONARY_ELEMENT_A : Nat := 0x44

/-- Modelled from the spec: `RECORD_PREFIX_DICTIONARY_ELEMENT_Z` of `enum record_type` in
webservices_private.h, the record type 0x5d of the binary format. -/
def RECORD_PREFIX_DICTIONARY_ELEMENT_Z : Nat := 0x5d

/-- Modelled from the spec: `RECORD_PREFIX_ELEMENT_A` of `enum record_type` in
webservices_private.h, the record type 0x5e of the binary format. -/
def RECORD_PREFIX_ELEMENT_A : Nat := 0x5e

/-- Modelled from the spec: `RECORD_PREFIX_ELEMENT_Z` of `enum record_type` in
webservices_private.h, the record type 0x77 of the binary format. -/
def RECORD_PREFIX_ELEMENT_Z : Nat := 0x77

/-- Modelled from the spec: `RECORD_ZERO_TEXT` of `enum record_type` in
webservices_private.h, the record type 0x80 of the binary format. -/
def RECORD_ZERO_TEXT : Nat := 0x80

/-- Modelled from the spec: `RECORD_ZERO_TEXT_WITH_ENDELEMENT` of `enum record_type` in
webservices_private.h, the record type 0x81 of the binary format. -/
def RECORD_ZERO_TEXT_WITH_ENDELEMENT : Nat := 0x81

/-- Modelled from the spec: `RECORD_ONE_TEXT` of `enum record_type` in
webservices_private.h, the record type 0x82 of the binary format. -/
def RECORD_ONE_TEXT : Nat := 0x82

/-- Modelled from the spec: `RECORD_ONE_TEXT_WITH_ENDELEMENT` of `enum record_type` in
webservices_private.h, the record type 0x83 of the binary format. -/
def RECORD_ONE_TEXT_WITH_ENDELEMENT : Nat := 0x83

/-- Modelled from the spec: `RECORD_FALSE_TEXT` of `enum record_type` in
webservices_private.h, the record type 0x84 of the binary format. -/
def RECORD_FALSE_TEXT : Nat := 0x84

/-- Modelled from the spec: `RECORD_FALSE_TEXT_WITH_ENDELEMENT` of `enum record_type` in
webservices_private.h, the record type 0x85 of the binary format. -/
def RECORD_FALSE_TEXT_WITH_ENDELEMENT : Nat := 0x85

/-- Modelled from the spec: `RECORD_TRUE_TEXT` of `enum record_type` in
webservices_private.h, the record type 0x86 of the binary format. -/
def RECORD_TRUE_TEXT : Nat := 0x86

/-- Modelled from the spec: `RECORD_TRUE_TEXT_WITH_ENDELEMENT` of `enum record_type` in
webservices_private.h, the record type 0x87 of the binary format. -/
def RECORD_TRUE_TEXT_WITH_ENDELEMENT : Nat := 0x87

/-- Modelled from the spec: `RECORD_CHARS8_TEXT` of `enum record_type` in
webservices_private.h, the record type 0x98 of the binary format. -/
def RECORD_CHARS8_TEXT : Nat := 0x98

/-- Modelled from the spec: `RECORD_CHARS8_TEXT_WITH_ENDELEMENT` of `enum record_type` in
webservices_private.h, the record type 0x99 of the binary format. -/
def RECORD_CHARS8_TEXT_WITH_ENDELEMENT : Nat := 0x99

/-- Modelled from the spec: `RECORD_EMPTY_TEXT` of `enum record_type` in
webservices_private.h, the record type 0xa8 of the binary format. -/
def RECORD_EMPTY_TEXT : Nat := 0xa8

/-- Modelled from the spec: `RECORD_EMPTY_TEXT_WITH_ENDELEMENT` of `enum record_type` in
webservices_private.h, the record type 0xa9 of the binary format. -/
def RECORD_EMPTY_TEXT_WITH_ENDELEMENT : Nat := 0xa9

/-- Modelled from the spec: `RECORD_DICTIONARY_TEXT` of `enum record_type` in
webservices_private.h, the record type 0xaa of the binary format. -/
def RECORD_DICTIONARY_TEXT : Nat := 0xaa

/-- Modelled from the spec: `RECORD_DICTIONARY_TEXT_WITH_ENDELEMENT` of `enum record_type` in
webservices_private.h, the record type 0xab of the binary format. -/
def RECORD_DICTIONARY_TEXT_WITH_ENDELEMENT : Nat := 0xab

/-- Modelled from the spec: `RECORD_QNAME_DICTIONARY_TEXT_WITH_ENDELEMENT` of `enum record_type` in
webservices_private.h, the record type 0xbd of the binary format. -/
def RECORD_QNAME_DICTIONARY_TEXT_WITH_ENDELEMENT : Nat := 0xbd

/-- `is_text_type( type )`. -/
def is_text_type (type : Nat) : Bool :=
  decide (type ≥ RECORD_ZERO_TEXT) && decide (type ≤ RECORD_QNAME_DICTIONARY_TEXT_WITH_ENDELEMENT)

/-- `is_attribute_type( type )`. -/
def is_attribute_type (type : Nat) : Bool :=
  decide (type ≥ RECORD_SHORT_ATTRIBUTE) && decide (type ≤ RECORD_PREFIX_ATTRIBUTE_Z)

/-- `is_element_type( type )`. -/
def is_element_type (type : Nat) : Bool :=
  decide (type ≥ RECORD_SHORT_ELEMENT) && decide (type ≤ RECORD_PREFIX_ELEMENT_Z)

/-- `read_string( reader, str )`: the result, the reader and the string.
When `read_bytes` fails the code frees the string, leaves the pointer to it
in `*str` and returns the result of `read_bytes`.  `*str` is a field of the
element or attribute of the caller, which frees it again on its error path:
from this second `free` on the behaviour of the code is not defined.  The
model, which has no heap, gives the result of `read_bytes` and no string;
what it gives for the caller behind this failure stands for no behaviour of
the code. -/
def read_string (r : reader) : HRESULT × reader × Option (List Nat) :=
  let l := read_int31 r
  if l.1 ≠ S_OK then (l.1, l.2.1, none)
  else
    let b := read_bytes l.2.1 l.2.2
    if b.1 = S_OK then (S_OK, b.2.1, some b.2.2) else (b.1, b.2.1, none)

/-- `read_dict_string( reader, str )`: the result, the reader and the
string, a copy of the entry `id >> 1` of the dictionary. -/
def read_dict_string (r : reader) : HRESULT × reader × Option (List Nat) :=
  let l := read_int31 r
  if l.1 ≠ S_OK then (l.1, l.2.1, none)
  else
    match l.2.1.dict with
    | none => (WS_E_INVALID_FORMAT, l.2.1, none)
    | some d =>
      if l.2.2 >>> 1 ≥ d.stringCount then (WS_E_INVALID_FORMAT, l.2.1, none)
      else (S_OK, l.2.1, some (d.strings.getD (l.2.2 >>> 1) default).bytes)

/-- The end of `read_attribute_value_bin` and of `read_text_bin` for the
record types that give a length: `len` bytes of the input are the text. -/
def read_text_bytes (r : reader) (len : Nat) : HRESULT × reader × Option (List Nat) :=
  let b := read_bytes r len
  if b.1 ≠ S_OK then (b.1, b.2.1, none) else (S_OK, b.2.1, some b.2.2)

/-- The case `RECORD_DICTIONARY_TEXT` of `read_attribute_value_bin` and of
`read_text_bin`: the text is the entry `id >> 1` of the dictionary. -/
def read_dict_text (r : reader) : HRESULT × reader × Option (List Nat) :=
  let l := read_int31 r
  if l.1 ≠ S_OK then (l.1, l.2.1, none)
  else
    match l.2.1.dict with
    | none => (WS_E_INVALID_FORMAT, l.2.1, none)
    | some d =>
      if l.2.2 >>> 1 ≥ d.stringCount then (WS_E_INVALID_FORMAT, l.2.1, none)
      else (S_OK, l.2.1, some (d.strings.getD (l.2.2 >>> 1) default).bytes)

/-- `read_attribute_value_bin( reader, attr )`: the result, the reader and
the attribute. -/
def read_attribute_value_bin (r : reader) (attr : WS_XML_ATTRIBUTE) :
    HRESULT × reader × WS_XML_ATTRIBUTE :=
  let t := read_byte r
  if t.1 ≠ S_OK then (t.1, t.2.1, attr)
  else if !is_text_type t.2.2 then (WS_E_INVALID_FORMAT, t.2.1, attr)
  else
    let type := t.2.2
    let utf8 : HRESULT × reader × Option (List Nat) :=
      if type = RECORD_ZERO_TEXT then (S_OK, t.2.1, some [48])
      else if type = RECORD_ONE_TEXT then (S_OK, t.2.1, some [49])
      else if type = RECORD_FALSE_TEXT then (S_OK, t.2.1, some [102, 97, 108, 115, 101])
      else if type = RECORD_TRUE_TEXT then (S_OK, t.2.1, some [116, 114, 117, 101])
      else if type = RECORD_CHARS8_TEXT then
        let len8 := read_byte t.2.1
        if len8.1 ≠ S_OK then (len8.1, len8.2.1, none) else read_text_bytes len8.2.1 len8.2.2
      else if type = RECORD_EMPTY_TEXT then read_text_bytes t.2.1 0
      else if type = RECORD_DICTIONARY_TEXT then read_dict_text t.2.1
      else (WS_E_NOT_SUPPORTED, t.2.1, none)
    if utf8.1 ≠ S_OK then (utf8.1, utf8.2.1, attr)
    else (S_OK, utf8.2.1, { attr with value := utf8.2.2 })

/-- The calls of `read_attribute_bin` that read the local name, with
`read_string` or with `read_dict_string`, and then the value. -/
def read_attribute_bin_name (read_name : reader → HRESULT × reader × Option (List Nat))
    (r : reader) (attr : WS_XML_ATTRIBUTE) : HRESULT × reader × WS_XML_ATTRIBUTE :=
  let n := read_name r
  if n.1 ≠ S_OK then (n.1, n.2.1, attr)
  else read_attribute_value_bin n.2.1 { attr with localName := n.2.2 }

/-- The calls of `read_attribute_bin` for an xmlns attribute: the namespace
is read, with `read_string` or with `read_dict_string`, and bound to the
prefix. -/
def read_attribute_bin_xmlns (read_ns : reader → HRESULT × reader × Option (List Nat))
    (r : reader) (attr : WS_XML_ATTRIBUTE) : HRESULT × reader × WS_XML_ATTRIBUTE :=
  let n := read_ns r
  if n.1 ≠ S_OK then (n.1, n.2.1, attr)
  else
    let b := bind_prefix n.2.1 attr.prefix_ n.2.2
    if b.1 ≠ S_OK then (b.1, b.2, { attr with ns := n.2.2 })
    else (S_OK, b.2, { attr with ns := n.2.2, isXmlNs := true })

/-- The call `read_string( reader, &attr->prefix )` of `read_attribute_bin`,
followed by `rest`. -/
def read_attribute_bin_named
    (rest : reader → WS_XML_ATTRIBUTE → HRESULT × reader × WS_XML_ATTRIBUTE)
    (r : reader) (attr : WS_XML_ATTRIBUTE) : HRESULT × reader × WS_XML_ATTRIBUTE :=
  let p := read_string r
  if p.1 ≠ S_OK then (p.1, p.2.1, attr) else rest p.2.1 { attr with prefix_ := p.2.2 }

/-- `read_attribute_bin( reader, ret )`: the result, the reader and the
attribute. -/
def read_attribute_bin (r : reader) : HRESULT × reader × WS_XML_ATTRIBUTE :=
  let attr : WS_XML_ATTRIBUTE := ⟨false, false, none, none, none, none⟩
  let t := read_byte r
  if t.1 ≠ S_OK then (t.1, t.2.1, attr)
  else if !is_attribute_type t.2.2 then (WS_E_INVALID_FORMAT, t.2.1, attr)
  else
    let type := t.2.2
    if type ≥ RECORD_PREFIX_ATTRIBUTE_A ∧ type ≤ RECORD_PREFIX_ATTRIBUTE_Z then
      read_attribute_bin_name read_string t.2.1
        { attr with prefix_ := some [type - RECORD_PREFIX_ATTRIBUTE_A + 97] }
    else if type ≥ RECORD_PREFIX_DICTIONARY_ATTRIBUTE_A ∧
        type ≤ RECORD_PREFIX_DICTIONARY_ATTRIBUTE_Z then
      read_attribute_bin_name read_dict_string t.2.1
        { attr with prefix_ := some [type - RECORD_PREFIX_DICTIONARY_ATTRIBUTE_A + 97] }
    else if type = RECORD_SHORT_ATTRIBUTE then
      read_attribute_bin_name read_string t.2.1 { attr with prefix_ := some [] }
    else if type = RECORD_ATTRIBUTE then
      read_attribute_bin_named (read_attribute_bin_name read_string) t.2.1 attr
    else if type = RECORD_SHORT_DICTIONARY_ATTRIBUTE then
      read_attribute_bin_name read_dict_string t.2.1 { attr with prefix_ := some [] }
    else if type = RECORD_DICTIONARY_ATTRIBUTE then
      read_attribute_bin_named (read_attribute_bin_name read_dict_string) t.2.1 attr
    else if type = RECORD_SHORT_XMLNS_ATTRIBUTE then
      read_attribute_bin_xmlns read_string t.2.1 { attr with prefix_ := some [] }
    else if type = RECORD_XMLNS_ATTRIBUTE then
      read_attribute_bin_named (read_attribute_bin_xmlns read_string) t.2.1 attr
    else if type = RECORD_SHORT_DICTIONARY_XMLNS_ATTRIBUTE then
      read_attribute_bin_xmlns read_dict_string t.2.1 { attr with prefix_ := some [] }
    else if type = RECORD_DICTIONARY_XMLNS_ATTRIBUTE then
      read_attribute_bin_named (read_attribute_bin_xmlns read_dict_string) t.2.1 attr
    else (WS_E_NOT_SUPPORTED, t.2.1, attr)

/-- The loop of `read_attributes_bin`, with a bound on the number of its
iterations: every attribute read consumes at least one byte. -/
def read_attributes_bin_loop : Nat → reader → WS_XML_ELEMENT_NODE →
    HRESULT × reader × WS_XML_ELEMENT_NODE
  | 0, r, elem => (E_NOTIMPL, r, elem)
  | fuel + 1, r, elem =>
    let t := read_peek r
    if t.1 ≠ S_OK then (t.1, r, elem)
    else if !is_attribute_type t.2 then (S_OK, r, elem)
    else
      let a := read_attribute_bin r
      if a.1 ≠ S_OK then (a.1, a.2.1, elem)
      else
        read_attributes_bin_loop fuel { a.2.1 with current_attr := a.2.1.current_attr + 1 }
          (append_attribute elem a.2.2)

/-- `read_attributes_bin( reader, elem )`. -/
def read_attributes_bin (r : reader) (elem : WS_XML_ELEMENT_NODE) :
    HRESULT × reader × WS_XML_ELEMENT_NODE :=
  read_attributes_bin_loop (r.read_size - r.read_pos + 1) { r with current_attr := 0 } elem

/-- The part of `read_element_bin` that reads the name of the element by its
record type: the result, the reader, the prefix and the local name. -/
def read_element_bin_name (r : reader) (type : Nat) :
    HRESULT × reader × Option (List Nat) × Option (List Nat) :=
  if type ≥ RECORD_PREFIX_ELEMENT_A ∧ type ≤ RECORD_PREFIX_ELEMENT_Z then
    let n := read_string r
    (n.1, n.2.1, some [type - RECORD_PREFIX_ELEMENT_A + 97], n.2.2)
  else if type ≥ RECORD_PREFIX_DICTIONARY_ELEMENT_A ∧ type ≤ RECORD_PREFIX_DICTIONARY_ELEMENT_Z then
    let n := read_dict_string r
    (n.1, n.2.1, some [type - RECORD_PREFIX_DICTIONARY_ELEMENT_A + 97], n.2.2)
  else if type = RECORD_SHORT_ELEMENT then
    let n := read_string r
    (n.1, n.2.1, some [], n.2.2)
  else if type = RECORD_ELEMENT then
    let p := read_string r
    if p.1 ≠ S_OK then (p.1, p.2.1, none, none)
    else
      let n := read_string p.2.1
      (n.1, n.2.1, p.2.2, n.2.2)
  else if type = RECORD_SHORT_DICTIONARY_ELEMENT then
    let n := read_dict_string r
    (n.1, n.2.1, some [], n.2.2)
  else if type = RECORD_DICTIONARY_ELEMENT then
    let p := read_string r
    if p.1 ≠ S_OK then (p.1, p.2.1, none, none)
    else
      let n := read_dict_string p.2.1
      (n.1, n.2.1, p.2.2, n.2.2)
  else (WS_E_NOT_SUPPORTED, r, none, none)

/-- `read_element_bin( reader )`. -/
def read_element_bin (r : reader) : HRESULT × reader :=
  let t := read_byte r
  if t.1 ≠ S_OK then (t.1, t.2.1)
  else if !is_element_type t.2.2 then (WS_E_INVALID_FORMAT, t.2.1)
  else
    let n := read_element_bin_name t.2.1 t.2.2
    if n.1 ≠ S_OK then (n.1, n.2.1)
    else
      match find_parent n.2.1 with
      | none => (WS_E_INVALID_FORMAT, n.2.1)
      | some parent =>
        let a := read_attributes_bin n.2.1 ⟨n.2.2.1, n.2.2.2, none, []⟩
        if a.1 ≠ S_OK then (a.1, a.2.1)
        else
          let s := set_namespaces a.2.1 a.2.2
          if s.1 ≠ S_OK then (s.1, a.2.1)
          else
            (S_OK, { (read_insert_node a.2.1 parent (alloc_element_pair.set_hdr s.2)) with
              state := READER_STATE_STARTELEMENT })

/-- `read_text_bin( reader )`. -/
def read_text_bin (r : reader) : HRESULT × reader :=
  let t := read_byte r
  if t.1 ≠ S_OK then (t.1, t.2.1)
  else
    match (if is_text_type t.2.2 then find_parent t.2.1 else none) with
    | none => (WS_E_INVALID_FORMAT, t.2.1)
    | some parent =>
      let type := t.2.2
      let text : HRESULT × reader × Option (List Nat) :=
        if type = RECORD_ZERO_TEXT ∨ type = RECORD_ZERO_TEXT_WITH_ENDELEMENT then
          (S_OK, t.2.1, some [48])
        else if type = RECORD_ONE_TEXT ∨ type = RECORD_ONE_TEXT_WITH_ENDELEMENT then
          (S_OK, t.2.1, some [49])
        else if type = RECORD_FALSE_TEXT ∨ type = RECORD_FALSE_TEXT_WITH_ENDELEMENT then
          (S_OK, t.2.1, some [102, 97, 108, 115, 101])
        else if type = RECORD_TRUE_TEXT ∨ type = RECORD_TRUE_TEXT_WITH_ENDELEMENT then
          (S_OK, t.2.1, some [116, 114, 117, 101])
        else if type = RECORD_CHARS8_TEXT ∨ type = RECORD_CHARS8_TEXT_WITH_ENDELEMENT then
          let len8 := read_byte t.2.1
          if len8.1 ≠ S_OK then (len8.1, len8.2.1, none) else read_text_bytes len8.2.1 len8.2.2
        else if type = RECORD_EMPTY_TEXT ∨ type = RECORD_EMPTY_TEXT_WITH_ENDELEMENT then
          read_text_bytes t.2.1 0
        else if type = RECORD_DICTIONARY_TEXT ∨
            type = RECORD_DICTIONARY_TEXT_WITH_ENDELEMENT then
          read_dict_text t.2.1
        else (WS_E_NOT_SUPPORTED, t.2.1, none)
      if text.1 ≠ S_OK then (text.1, text.2.1)
      else
        (S_OK, { (read_insert_node text.2.1 parent
            ((alloc_node WS_XML_NODE_TYPE.TEXT).set_text text.2.2)) with
          state := READER_STATE_TEXT, text_conv_offset := 0 })

/-- `read_endelement_bin( reader )`. -/
def read_endelement_bin (r : reader) : HRESULT × reader :=
  let t := read_byte r
  if t.1 ≠ S_OK then (t.1, t.2.1)
  else if t.2.2 ≠ RECORD_ENDELEMENT then (WS_E_INVALID_FORMAT, t.2.1)
  else
    match find_parent t.2.1 with
    | none => (WS_E_INVALID_FORMAT, t.2.1)
    | some parent =>
      (S_OK,
        { t.2.1 with
          current := t.2.1.tail_child parent
          last := t.2.1.tail_child parent
          state := READER_STATE_ENDELEMENT })

/-- `read_comment_bin( reader )`.  A comment that is longer than the rest of
the input gives `E_OUTOFMEMORY`. -/
def read_comment_bin (r : reader) : HRESULT × reader :=
  let t := read_byte r
  if t.1 ≠ S_OK then (t.1, t.2.1)
  else if t.2.2 ≠ RECORD_COMMENT then (WS_E_INVALID_FORMAT, t.2.1)
  else
    let l := read_int31 t.2.1
    if l.1 ≠ S_OK then (l.1, l.2.1)
    else
      match find_parent l.2.1 with
      | none => (WS_E_INVALID_FORMAT, l.2.1)
      | some parent =>
        let b := read_bytes l.2.1 l.2.2
        if b.1 ≠ S_OK then (E_OUTOFMEMORY, b.2.1)
        else
          (S_OK, { (read_insert_node b.2.1 parent
              ((alloc_node WS_XML_NODE_TYPE.COMMENT).set_value b.2.2)) with
            state := READER_STATE_COMMENT })

/-- `read_node_bin( reader )`. -/
def read_node_bin (r : reader) : HRESULT × reader :=
  if (r.node_at r.current).map node.nodeType = some WS_XML_NODE_TYPE.TEXT then
    (S_OK,
      { r with
        current := r.tail_child ((parent_of r.current).getD [])
        last := r.tail_child ((parent_of r.current).getD [])
        state := READER_STATE_ENDELEMENT })
  else if read_end_of_data r then
    (S_OK, { r with current := r.tail_child [], last := r.tail_child [], state := READER_STATE_EOF })
  else
    let t := read_peek r
    if t.1 ≠ S_OK then (t.1, r)
    else if t.2 = RECORD_ENDELEMENT then read_endelement_bin r
    else if t.2 = RECORD_COMMENT then read_comment_bin r
    else if t.2 ≥ RECORD_SHORT_ELEMENT ∧ t.2 ≤ RECORD_PREFIX_ELEMENT_Z then read_element_bin r
    else if t.2 ≥ RECORD_ZERO_TEXT ∧ t.2 ≤ RECORD_QNAME_DICTIONARY_TEXT_WITH_ENDELEMENT then
      read_text_bin r
    else (WS_E_NOT_SUPPORTED, r)

/-- `WsSetInput` with the binary encoding, the dictionary `staticDictionary`
and a buffer that holds `data`: `init_reader`, the encoding of the input and
the dictionary, `set_input_buffer` and `read_insert_bof`. -/
def WsSetInput_binary (staticDictionary : Option WS_XML_DICTIONARY) (data : List Nat) : reader :=
  read_insert_bof
    { init_reader.2 with
      input_enc := WS_XML_READER_ENCODING_TYPE_BINARY
      dict := staticDictionary
      input_type := WS_XML_READER_INPUT_TYPE_BUFFER
      read_bufptr := data
      read_pos := 0
      text_conv_offset := 0 }
    (alloc_node WS_XML_NODE_TYPE.BOF)

/-- `read_node( reader )`.  The bound on `read_node_text` is the number of
bytes left plus one, which is never used up. -/
def read_node (r : reader) : HRESULT × reader :=
  match r.input_enc with
  | WS_XML_READER_ENCODING_TYPE_TEXT => read_node_text (r.read_size - r.read_pos + 1) r
  | WS_XML_READER_ENCODING_TYPE_BINARY => read_node_bin r
  | _ => (WS_E_NOT_SUPPORTED, r)

/-! ### Skipping and moving
A loop that the code can run through without end takes a bound on the number
of its passes and gives `none` when the bound is used up. -/

/-- The loop of `skip_node`.  The assignment
`hr = read_node( reader ) != S_OK` stores the value of the comparison, which
is 1, the value of `S_FALSE`, when `read_node` fails, and 0, the value of
`S_OK`, when it succeeds. -/
def skip_node_loop : Nat → Option (List Nat) → reader → Option (HRESULT × reader)
  | 0, _, _ => none
  | fuel + 1, parent, r =>
    let n := read_node r
    let hr := if n.1 ≠ S_OK then S_FALSE else S_OK
    if hr ≠ S_OK ∨ parent = none then some (hr, n.2)
    else if (n.2.node_at n.2.current).map node.nodeType ≠ some WS_XML_NODE_TYPE.END_ELEMENT then
      skip_node_loop fuel parent n.2
    else if parent_of n.2.current = parent then some (read_node n.2)
    else skip_node_loop fuel parent n.2

/-- `skip_node( reader )`, with a bound on the passes of its loop. -/
def skip_node (fuel : Nat) (r : reader) : Option (HRESULT × reader) :=
  if (r.node_at r.current).map node.nodeType = some WS_XML_NODE_TYPE.EOF then
    some (WS_E_INVALID_OPERATION, r)
  else
    skip_node_loop fuel
      (if (r.node_at r.current).map node.nodeType = some WS_XML_NODE_TYPE.ELEMENT then
        some r.current
      else none) r

/-- The children of the node at `p`. -/
def reader.children_at (r : reader) (p : List Nat) : List node :=
  ((r.node_at p).map node.children).getD []

/-- The loop `while ((ptr = list_next( ... )))` of the functions that move to
an element, over the nodes that follow in the list, the first of them being
the child `i`: the index of the first Element node. -/
def first_element : List node → Nat → Option Nat
  | [], _ => none
  | n :: rest, i =>
    if n.nodeType = WS_XML_NODE_TYPE.ELEMENT then some i else first_element rest (i + 1)

/-- The loop `while ((ptr = list_prev( ... )))` of `move_to_prev_element`
over the nodes that precede in the list, the nearest first, which is the
child `i`: the index of the first Element node met. -/
def last_element : List node → Nat → Option Nat
  | [], _ => none
  | n :: rest, i =>
    if n.nodeType = WS_XML_NODE_TYPE.ELEMENT then some i else last_element rest (i - 1)

/-- `move_to_root_element( reader->root, &reader->current )`. -/
def move_to_root_element (r : reader) : Bool × reader :=
  match first_element (r.children_at []) 0 with
  | some i => (true, { r with current := [i] })
  | none => (false, r)

/-- `move_to_next_element( &reader->current )`. -/
def move_to_next_element (r : reader) : Bool × reader :=
  match r.current with
  | [] => (false, r)
  | i :: parent =>
    match first_element ((r.children_at parent).drop (i + 1)) (i + 1) with
    | some j => (true, { r with current := j :: parent })
    | none => (false, r)

/-- `move_to_prev_element( &reader->current )`. -/
def move_to_prev_element (r : reader) : Bool × reader :=
  match r.current with
  | [] => (false, r)
  | i :: parent =>
    match last_element ((r.children_at parent).take i).reverse (i - 1) with
    | some j => (true, { r with current := j :: parent })
    | none => (false, r)

/-- `move_to_child_element( &reader->current )`. -/
def move_to_child_element (r : reader) : Bool × reader :=
  match first_element (r.children_at r.current) 0 with
  | some i => (true, { r with current := i :: r.current })
  | none => (false, r)

/-- `move_to_end_element( &reader->current )`. -/
def move_to_end_element (r : reader) : Bool × reader :=
  if (r.node_at r.current).map node.nodeType ≠ some WS_XML_NODE_TYPE.ELEMENT then (false, r)
  else if (r.children_at r.current).getLast?.map node.nodeType =
      some WS_XML_NODE_TYPE.END_ELEMENT then
    (true, { r with current := r.tail_child r.current })
  else (false, r)

/-- `move_to_parent_element( &reader->current )`. -/
def move_to_parent_element (r : reader) : Bool × reader :=
  match parent_of r.current with
  | none => (false, r)
  | some parent =>
    if (r.node_at parent).map node.nodeType = some WS_XML_NODE_TYPE.ELEMENT ∨
        (r.node_at parent).map node.nodeType = some WS_XML_NODE_TYPE.BOF then
      (true, { r with current := parent })
    else (false, r)

/-- `move_to_first_node( &reader->current )`.  The function reads
`node->parent->children` without a test of `parent`: with the cursor on the
root, whose `parent` is null, the behaviour of the code is not defined, and
the value of the model there, which leaves the cursor, stands for none. -/
def move_to_first_node (r : reader) : Bool × reader :=
  match r.current with
  | [] => (false, r)
  | _ :: parent =>
    if r.children_at parent ≠ [] then (true, { r with current := 0 :: parent }) else (false, r)

/-- `move_to_next_node( &reader->current )`.  The function reads
`node->parent->children` without a test of `parent`: with the cursor on the
root the behaviour of the code is not defined, and the value of the model
there, which leaves the cursor, stands for none. -/
def move_to_next_node (r : reader) : Bool × reader :=
  match r.current with
  | [] => (false, r)
  | i :: parent =>
    if i + 1 < (r.children_at parent).length then (true, { r with current := (i + 1) :: parent })
    else (false, r)

/-- `move_to_prev_node( &reader->current )`.  The function reads
`node->parent->children` without a test of `parent`: with the cursor on the
root the behaviour of the code is not defined, and the value of the model
there, which leaves the cursor, stands for none. -/
def move_to_prev_node (r : reader) : Bool × reader :=
  match r.current with
  | [] => (false, r)
  | i :: parent =>
    if 0 < i then (true, { r with current := (i - 1) :: parent }) else (false, r)

/-- `move_to_bof( reader->root, &reader->current )`. -/
def move_to_bof (r : reader) : Bool × reader :=
  (true, { r with current := [] })

/-- `move_to_eof( reader->root, &reader->current )`. -/
def move_to_eof (r : reader) : Bool × reader :=
  if r.children_at [] ≠ [] then (true, { r with current := r.tail_child [] }) else (false, r)

/-- `move_to_child_node( &reader->current )`. -/
def move_to_child_node (r : reader) : Bool × reader :=
  if r.children_at r.current ≠ [] then (true, { r with current := 0 :: r.current })
  else (false, r)

/-- `move_to_parent_node( &reader->current )`. -/
def move_to_parent_node (r : reader) : Bool × reader :=
  match parent_of r.current with
  | none => (false, r)
  | some parent => (true, { r with current := parent })

/-- `WS_MOVE_TO`. -/
inductive WS_MOVE_TO where
  | WS_MOVE_TO_ROOT_ELEMENT
  | WS_MOVE_TO_NEXT_ELEMENT
  | WS_MOVE_TO_PREVIOUS_ELEMENT
  | WS_MOVE_TO_CHILD_ELEMENT
  | WS_MOVE_TO_END_ELEMENT
  | WS_MOVE_TO_PARENT_ELEMENT
  | WS_MOVE_TO_NEXT_NODE
  | WS_MOVE_TO_PREVIOUS_NODE
  | WS_MOVE_TO_FIRST_NODE
  | WS_MOVE_TO_BOF
  | WS_MOVE_TO_EOF
  | WS_MOVE_TO_CHILD_NODE
  deriving DecidableEq, Repr

open WS_MOVE_TO

/-- The loop
`while (reader->state != READER_STATE_EOF && (hr = read_node( reader )) == S_OK)`
of `read_move_to`, with `hr`. -/
def read_move_to_loop : Nat → reader → Option (HRESULT × reader)
  | 0, _ => none
  | fuel + 1, r =>
    if r.state = READER_STATE_EOF then some (S_OK, r)
    else
      let n := read_node r
      if n.1 = S_OK then read_move_to_loop fuel n.2 else some (n.1, n.2)

/-- `read_move_to( reader, move, found )`, with a bound on the passes of its
loop: the result, the reader and `*found`; the argument `found` tells
whether the pointer `found` is not null. -/
def read_move_to (fuel : Nat) (r : reader) (move : WS_MOVE_TO) (found : Bool) :
    Option (HRESULT × reader × Bool) :=
  match (if !read_end_of_data r then read_move_to_loop fuel r else some (S_OK, r)) with
  | none => none
  | some l =>
    if l.1 ≠ S_OK then some (l.1, l.2, false)
    else
      let m :=
        match move with
        | WS_MOVE_TO_ROOT_ELEMENT => move_to_root_element l.2
        | WS_MOVE_TO_NEXT_ELEMENT => move_to_next_element l.2
        | WS_MOVE_TO_PREVIOUS_ELEMENT => move_to_prev_element l.2
        | WS_MOVE_TO_CHILD_ELEMENT => move_to_child_element l.2
        | WS_MOVE_TO_END_ELEMENT => move_to_end_element l.2
        | WS_MOVE_TO_PARENT_ELEMENT => move_to_parent_element l.2
        | WS_MOVE_TO_FIRST_NODE => move_to_first_node l.2
        | WS_MOVE_TO_NEXT_NODE => move_to_next_node l.2
        | WS_MOVE_TO_PREVIOUS_NODE => move_to_prev_node l.2
        | WS_MOVE_TO_CHILD_NODE => move_to_child_node l.2
        | WS_MOVE_TO_BOF => move_to_bof l.2
        | WS_MOVE_TO_EOF => move_to_eof l.2
      if found then some (S_OK, m.2, m.1)
      else some (if m.1 then S_OK else WS_E_INVALID_FORMAT, m.2, false)

/-! ### Reading the text of the current node -/

/-- `WsReadCharsUtf8( handle, bytes, max_count, count, error )`: the result,
the reader, the bytes copied to `bytes` and the value of `*count`.  The
handle is `none` for a null pointer; `bytes` and `count` tell whether these
pointers are not null.  The text of a Text node that the reader has made is
not null.  The subtraction is the one of `ULONG`. -/
def WsReadCharsUtf8 (handle : Option reader) (bytes : Bool) (max_count : Nat) (count : Bool) :
    HRESULT × Option reader × List Nat × Nat :=
  match handle with
  | none => (E_INVALIDARG, none, [], 0)
  | some r =>
    if r.magic ≠ READER_MAGIC then (E_INVALIDARG, some r, [], 0)
    else if r.input_type = 0 then (WS_E_INVALID_OPERATION, some r, [], 0)
    else if !count then (E_INVALIDARG, some r, [], 0)
    else if (r.node_at r.current).map node.nodeType = some WS_XML_NODE_TYPE.TEXT ∧
        bytes = true then
      let utf8 := (((r.node_at r.current).map node.text).getD none).getD []
      if r.text_conv_offset = utf8.length then
        let n := read_node r
        (n.1, some n.2, [], 0)
      else
        let c := min ((utf8.length + 2 ^ 32 - r.text_conv_offset) % 2 ^ 32) max_count
        (S_OK, some { r with text_conv_offset := r.text_conv_offset + c },
          (utf8.drop r.text_conv_offset).take c, c)
    else (S_OK, some r, [], 0)

/-! ### Reading typed values
`read_type`, which decodes one value of a given type from the nodes of the
reader, is taken as an argument by the functions that call it.  The memory
that the functions write to is modelled by the values stored in it: a
structure by the values of its fields, by offset, and an array by the list
of its items. -/

/-- Modelled from the spec: `WS_TYPE` of webservices.h. -/
inductive WS_TYPE where
  | WS_BOOL_TYPE
  | WS_INT8_TYPE
  | WS_INT16_TYPE
  | WS_INT32_TYPE
  | WS_INT64_TYPE
  | WS_UINT8_TYPE
  | WS_UINT16_TYPE
  | WS_UINT32_TYPE
  | WS_UINT64_TYPE
  | WS_FLOAT_TYPE
  | WS_DOUBLE_TYPE
  | WS_DECIMAL_TYPE
  | WS_DATETIME_TYPE
  | WS_TIMESPAN_TYPE
  | WS_GUID_TYPE
  | WS_UNIQUE_ID_TYPE
  | WS_STRING_TYPE
  | WS_WSZ_TYPE
  | WS_BYTES_TYPE
  | WS_XML_STRING_TYPE
  | WS_XML_QNAME_TYPE
  | WS_XML_BUFFER_TYPE
  | WS_CHAR_ARRAY_TYPE
  | WS_UTF8_ARRAY_TYPE
  | WS_BYTE_ARRAY_TYPE
  | WS_DESCRIPTION_TYPE
  | WS_STRUCT_TYPE
  | WS_CUSTOM_TYPE
  | WS_ENDPOINT_ADDRESS_TYPE
  | WS_ENDPOINT_IDENTITY_TYPE
  | WS_ENUM_TYPE
  | WS_DURATION_TYPE
  | WS_UNION_TYPE
  | WS_ANY_ATTRIBUTES_TYPE
  deriving DecidableEq, Repr

open WS_TYPE

/-- Modelled from the spec: `WS_READ_OPTION` of webservices.h.  Its values
start at 1; the value 0, which `get_field_read_option` returns for a type it
does not handle, is `none`. -/
inductive WS_READ_OPTION where
  | WS_READ_REQUIRED_VALUE
  | WS_READ_REQUIRED_POINTER
  | WS_READ_OPTIONAL_POINTER
  | WS_READ_NILLABLE_POINTER
  | WS_READ_NILLABLE_VALUE
  deriving DecidableEq, Repr

open WS_READ_OPTION

/-- Modelled from the spec: `WS_TYPE_MAPPING` of webservices.h. -/
inductive WS_TYPE_MAPPING where
  | WS_ELEMENT_TYPE_MAPPING
  | WS_ATTRIBUTE_TYPE_MAPPING
  | WS_ELEMENT_CONTENT_TYPE_MAPPING
  | WS_ANY_ELEMENT_TYPE_MAPPING
  deriving DecidableEq, Repr

open WS_TYPE_MAPPING

/-- Modelled from the spec: `WS_FIELD_MAPPING` of webservices.h. -/
inductive WS_FIELD_MAPPING where
  | WS_TYPE_ATTRIBUTE_FIELD_MAPPING
  | WS_ATTRIBUTE_FIELD_MAPPING
  | WS_ELEMENT_FIELD_MAPPING
  | WS_REPEATING_ELEMENT_FIELD_MAPPING
  | WS_TEXT_FIELD_MAPPING
  | WS_NO_FIELD_MAPPING
  | WS_XML_ATTRIBUTE_FIELD_MAPPING
  | WS_ELEMENT_CHOICE_FIELD_MAPPING
  | WS_REPEATING_ELEMENT_CHOICE_FIELD_MAPPING
  | WS_ANY_ELEMENT_FIELD_MAPPING
  | WS_REPEATING_ANY_ELEMENT_FIELD_MAPPING
  | WS_ANY_CONTENT_FIELD_MAPPING
  | WS_ANY_ATTRIBUTES_FIELD_MAPPING
  deriving DecidableEq, Repr

open WS_FIELD_MAPPING

/-- Modelled from the spec: `WS_FIELD_POINTER` of webservices.h. -/
def WS_FIELD_POINTER : Nat := 0x1

/-- Modelled from the spec: `WS_FIELD_OPTIONAL` of webservices.h. -/
def WS_FIELD_OPTIONAL : Nat := 0x2

/-- Modelled from the spec: `WS_FIELD_NILLABLE` of webservices.h. -/
def WS_FIELD_NILLABLE : Nat := 0x4

/-- Modelled from the spec: `WS_FIELD_NILLABLE_ITEM` of webservices.h. -/
def WS_FIELD_NILLABLE_ITEM : Nat := 0x8

/-- Modelled from the spec: `WS_ITEM_RANGE` of webservices.h. -/
structure WS_ITEM_RANGE where
  minItemCount : Nat
  maxItemCount : Nat
  deriving DecidableEq, Repr

/-- Modelled from the spec: `WS_STRUCT_DESCRIPTION` of webservices.h, of
which the functions below read the field `size`. -/
structure WS_STRUCT_DESCRIPTION where
  size : Nat
  deriving DecidableEq, Repr

/-- Modelled from the spec: `WS_FIELD_DESCRIPTION` of webservices.h.  The
strings are modelled by their bytes and `defaultValue` by the `valueSize`
bytes at `value`; `none` is a null pointer.  `options` is a `ULONG`. -/
structure WS_FIELD_DESCRIPTION where
  mapping : WS_FIELD_MAPPING
  localName : Option (List Nat)
  ns : Option (List Nat)
  type : WS_TYPE
  typeDescription : Option WS_STRUCT_DESCRIPTION
  offset : Nat
  options : Nat
  defaultValue : Option (List Nat)
  countOffset : Nat
  itemLocalName : Option (List Nat)
  itemNs : Option (List Nat)
  itemRange : Option WS_ITEM_RANGE
  deriving DecidableEq, Repr

/-- The sizes of the types that depend on the platform: `sizeof(void *)`,
`sizeof(WS_DATETIME)`, `sizeof(WS_STRING)`, `sizeof(WS_BYTES)` and
`sizeof(WS_XML_STRING)`. -/
structure type_sizes where
  pointer : Nat
  datetime : Nat
  string : Nat
  bytes : Nat
  xml_string : Nat
  deriving DecidableEq, Repr

/-- A value that `read_type` stores at `ret`: bytes in place, a null
pointer, or a pointer to bytes on the heap. -/
inductive mem_value where
  | bytes (b : List Nat)
  | null
  | pointer (target : List Nat)
  deriving DecidableEq, Repr

/-- What a field of a structure holds: a value, or the pointer to an array
with these items. -/
inductive field_value where
  | value (v : mem_value)
  | array (items : List mem_value)
  deriving DecidableEq, Repr

/-- The memory of a structure after the store of `v` at `offset`. -/
def store_field (buf : List (Nat × field_value)) (offset : Nat) (v : field_value) :
    List (Nat × field_value) :=
  (offset, v) :: buf.filter (fun e => e.1 ≠ offset)

/-- The four bytes of a `ULONG`, least significant byte first. -/
def ulong_bytes (n : Nat) : List Nat :=
  [n % 256, n / 256 % 256, n / 65536 % 256, n / 16777216 % 256]

/-- `get_type_size( type, desc )`; the caller passes a description with the
type `WS_STRUCT_TYPE`. -/
def get_type_size (sizes : type_sizes) (type : WS_TYPE) (desc : Option WS_STRUCT_DESCRIPTION) :
    Nat :=
  match type with
  | WS_INT8_TYPE | WS_UINT8_TYPE => 1
  | WS_INT16_TYPE | WS_UINT16_TYPE => 2
  | WS_BOOL_TYPE | WS_INT32_TYPE | WS_UINT32_TYPE | WS_ENUM_TYPE => 4
  | WS_INT64_TYPE | WS_UINT64_TYPE => 8
  | WS_DOUBLE_TYPE => 8
  | WS_DATETIME_TYPE => sizes.datetime
  | WS_GUID_TYPE => 16
  | WS_STRING_TYPE => sizes.string
  | WS_WSZ_TYPE => sizes.pointer
  | WS_BYTES_TYPE => sizes.bytes
  | WS_XML_STRING_TYPE => sizes.xml_string
  | WS_STRUCT_TYPE => (desc.map WS_STRUCT_DESCRIPTION.size).getD 0
  | WS_DESCRIPTION_TYPE => sizes.pointer
  | _ => 0

/-- `get_field_read_option( type, options )`; `none` is the value 0. -/
def get_field_read_option (type : WS_TYPE) (options : Nat) : Option WS_READ_OPTION :=
  if options &&& WS_FIELD_POINTER ≠ 0 then
    if options &&& WS_FIELD_NILLABLE ≠ 0 then some WS_READ_NILLABLE_POINTER
    else if options &&& WS_FIELD_OPTIONAL ≠ 0 then some WS_READ_OPTIONAL_POINTER
    else some WS_READ_REQUIRED_POINTER
  else
    match type with
    | WS_BOOL_TYPE | WS_INT8_TYPE | WS_INT16_TYPE | WS_INT32_TYPE | WS_INT64_TYPE
    | WS_UINT8_TYPE | WS_UINT16_TYPE | WS_UINT32_TYPE | WS_UINT64_TYPE | WS_DOUBLE_TYPE
    | WS_DATETIME_TYPE | WS_GUID_TYPE | WS_STRING_TYPE | WS_BYTES_TYPE | WS_XML_STRING_TYPE
    | WS_STRUCT_TYPE | WS_ENUM_TYPE =>
      if options &&& (WS_FIELD_OPTIONAL ||| WS_FIELD_NILLABLE) ≠ 0 then
        some WS_READ_NILLABLE_VALUE
      else some WS_READ_REQUIRED_VALUE
    | WS_WSZ_TYPE | WS_DESCRIPTION_TYPE =>
      if options &&& WS_FIELD_NILLABLE ≠ 0 then some WS_READ_NILLABLE_POINTER
      else if options &&& WS_FIELD_OPTIONAL ≠ 0 then some WS_READ_OPTIONAL_POINTER
      else some WS_READ_REQUIRED_POINTER
    | _ => none

/-- `read_type( reader, mapping, type, localname, ns, desc, option, heap,
ret, size )` as the functions below take it: the result, the reader and the
value stored at `ret`, `none` when nothing is stored there. -/
abbrev read_type_fn : Type :=
  reader → WS_TYPE_MAPPING → WS_TYPE → Option (List Nat) → Option (List Nat) →
    Option WS_STRUCT_DESCRIPTION → WS_READ_OPTION → Nat → HRESULT × reader × Option mem_value

/-- `read_to_startelement_text( reader, found )`: the result, the reader and
the value stored in `*found`, which the callers read when the result is
`S_OK`; `found` tells whether the pointer is not null. -/
def read_to_startelement_text (r : reader) (found : Bool) : HRESULT × reader × Bool :=
  let x : HRESULT × reader :=
    if r.state = READER_STATE_INITIAL then read_xmldecl r else (S_OK, r)
  if x.1 ≠ S_OK then (x.1, x.2, false)
  else if r.state = READER_STATE_STARTELEMENT then (S_OK, r, found)
  else
    let e := read_element_text (read_skip_whitespace x.2)
    (e.1, e.2, found && decide (e.1 = S_OK ∧ e.2.state = READER_STATE_STARTELEMENT))

/-- `read_to_startelement_bin( reader, found )`. -/
def read_to_startelement_bin (r : reader) (found : Bool) : HRESULT × reader × Bool :=
  if r.state = READER_STATE_STARTELEMENT then (S_OK, r, found)
  else
    let e := read_element_bin r
    (e.1, e.2, found && decide (e.1 = S_OK ∧ e.2.state = READER_STATE_STARTELEMENT))

/-- `read_to_startelement( reader, found )`. -/
def read_to_startelement (r : reader) (found : Bool) : HRESULT × reader × Bool :=
  match r.input_enc with
  | WS_XML_READER_ENCODING_TYPE_TEXT => read_to_startelement_text r found
  | WS_XML_READER_ENCODING_TYPE_BINARY => read_to_startelement_bin r found
  | _ => (WS_E_NOT_SUPPORTED, r, false)

/-- `is_empty_text_node( node )`; the texts of the nodes of the reader are
of the type `WS_XML_TEXT_TYPE_UTF8`. -/
def is_empty_text_node (n : Option node) : Bool :=
  match n with
  | none => false
  | some n =>
    if n.nodeType ≠ WS_XML_NODE_TYPE.TEXT then false
    else (n.text.getD []).all read_isspace

/-- `read_next_node( reader )`. -/
def read_next_node (r : reader) : HRESULT × reader :=
  if r.current = r.last then read_node r
  else if (move_to_child_node r).1 then (S_OK, (move_to_child_node r).2)
  else if (move_to_next_node r).1 then (S_OK, (move_to_next_node r).2)
  else if !(move_to_parent_node r).1 then (WS_E_INVALID_FORMAT, r)
  else if (move_to_next_node (move_to_parent_node r).2).1 then
    (S_OK, (move_to_next_node (move_to_parent_node r).2).2)
  else (WS_E_INVALID_FORMAT, (move_to_parent_node r).2)

/-- `read_type_next_node( reader )`, with a bound on the number of passes
through its loop; `none` when the bound is used up. -/
def read_type_next_node : Nat → reader → Option (HRESULT × reader)
  | 0, _ => none
  | fuel + 1, r =>
    let n := read_next_node r
    if n.1 ≠ S_OK then some n
    else if (n.2.node_at n.2.current).map node.nodeType = some WS_XML_NODE_TYPE.COMMENT ∨
        ((n.2.node_at n.2.current).map node.nodeType = some WS_XML_NODE_TYPE.TEXT ∧
          is_empty_text_node (n.2.node_at n.2.current) = true) then
      read_type_next_node fuel n.2
    else some (S_OK, n.2)

/-- `match_current_element( reader, localname, ns )`. -/
def match_current_element (r : reader) (localname ns : Option (List Nat)) : Bool :=
  match r.node_at r.current with
  | none => false
  | some n =>
    if n.nodeType ≠ WS_XML_NODE_TYPE.ELEMENT then false
    else
      decide (WsXmlStringEquals localname n.hdr.localName = S_OK) &&
        decide (WsXmlStringEquals ns n.hdr.ns = S_OK)

/-- `read_type_next_element_node( reader, localname, ns )`; the first
argument bounds the loop of `read_type_next_node`. -/
def read_type_next_element_node (fuel : Nat) (r : reader) (localname ns : Option (List Nat)) :
    Option (HRESULT × reader) :=
  if localname.isNone then some (S_OK, r)
  else
    let s : HRESULT × reader × Bool :=
      if r.current = r.last then read_to_startelement r true else (S_OK, r, true)
    if s.1 ≠ S_OK then some (s.1, s.2.1)
    else if !s.2.2 then some (WS_E_INVALID_FORMAT, s.2.1)
    else if match_current_element s.2.1 localname ns then some (S_OK, s.2.1)
    else
      match read_type_next_node fuel s.2.1 with
      | none => none
      | some n =>
        if n.1 ≠ S_OK then some n
        else if match_current_element n.2 localname ns then some (S_OK, n.2)
        else
          some (WS_E_INVALID_FORMAT,
            { n.2 with current := s.2.1.current, current_attr := s.2.1.current_attr })

/-- The loop of `read_type_repeating_element`, with a bound on the number of
its passes; `none` when the bound is used up.  The arguments are the reader,
the items read so far and `nb_allocated`; `ws_alloc` tells whether the heap
has room for a block of the given size.  The result `S_OK` stands for the
`break`, any other result is returned by the function.  An item that
`read_type` reads without a store is the zeroed memory of the block.  The
list of the items is the block as long as `offset`, a `ULONG`, does not
wrap; `nb_items` is the length of the list modulo 2^32. -/
def read_type_repeating_element_loop (read_type : read_type_fn) (ws_alloc : Nat → Bool)
    (desc : WS_FIELD_DESCRIPTION) (option : WS_READ_OPTION) (item_size : Nat) :
    Nat → reader → List mem_value → Nat → Option (HRESULT × reader × List mem_value)
  | 0, _, _, _ => none
  | fuel + 1, r, items, nb_allocated =>
    if items.length % 2 ^ 32 ≥ nb_allocated ∧
        ws_alloc (nb_allocated * item_size * 2) = false then
      some (WS_E_QUOTA_EXCEEDED, r, items)
    else
      let x := read_type r WS_ELEMENT_TYPE_MAPPING desc.type desc.itemLocalName desc.itemNs
        desc.typeDescription option item_size
      if x.1 = WS_E_INVALID_FORMAT then some (S_OK, x.2.1, items)
      else if x.1 ≠ S_OK then some (x.1, x.2.1, items)
      else
        read_type_repeating_element_loop read_type ws_alloc desc option item_size fuel x.2.1
          (items ++ [x.2.2.getD (mem_value.bytes (List.replicate item_size 0))])
          (if items.length % 2 ^ 32 ≥ nb_allocated then nb_allocated * 2 % 2 ^ 32
            else nb_allocated)

/-- `read_type_repeating_element( reader, desc, heap, ret, count )`: the
result, the reader, and the array stored in `*ret` with the value stored in
`*count` when the result is `S_OK`.  The first argument bounds the loops. -/
def read_type_repeating_element (read_type : read_type_fn) (ws_alloc : Nat → Bool)
    (sizes : type_sizes) (fuel : Nat) (r : reader) (desc : WS_FIELD_DESCRIPTION) :
    Option (HRESULT × reader × Option (List mem_value × Nat)) :=
  match get_field_read_option desc.type desc.options with
  | none => some (E_INVALIDARG, r, none)
  | some option =>
    match (if desc.localName.isSome then
        read_type_next_element_node fuel r desc.localName desc.ns else some (S_OK, r)) with
    | none => none
    | some w =>
      if w.1 ≠ S_OK then some (w.1, w.2, none)
      else
        let item_size :=
          if option = WS_READ_REQUIRED_VALUE ∨ option = WS_READ_NILLABLE_VALUE then
            get_type_size sizes desc.type desc.typeDescription
          else sizes.pointer
        if ws_alloc item_size = false then some (WS_E_QUOTA_EXCEEDED, w.2, none)
        else
          match read_type_repeating_element_loop read_type ws_alloc desc option item_size
              fuel w.2 [] 1 with
          | none => none
          | some l =>
            if l.1 ≠ S_OK then some (l.1, l.2.1, none)
            else
              match (if desc.localName.isSome then read_type_next_node fuel l.2.1
                  else some (S_OK, l.2.1)) with
              | none => none
              | some e =>
                if e.1 ≠ S_OK then some (e.1, e.2, none)
                else if (desc.itemRange.map (fun range =>
                    decide (l.2.2.length % 2 ^ 32 < range.minItemCount ∨
                      l.2.2.length % 2 ^ 32 > range.maxItemCount))).getD false then
                  some (WS_E_INVALID_FORMAT, e.2, none)
                else some (S_OK, e.2, some (l.2.2, l.2.2.length % 2 ^ 32))

/-- `read_type_text( reader, desc, option, heap, ret, size )`.  When
`read_to_startelement` fails the function returns `S_OK`. -/
def read_type_text (read_type : read_type_fn) (r : reader) (desc : WS_FIELD_DESCRIPTION)
    (option : WS_READ_OPTION) (size : Nat) : HRESULT × reader × Option mem_value :=
  let s : HRESULT × reader × Bool :=
    if r.current = r.last then read_to_startelement r true else (S_OK, r, true)
  if s.1 ≠ S_OK then (S_OK, s.2.1, none)
  else if !s.2.2 then (WS_E_INVALID_FORMAT, s.2.1, none)
  else
    let n := read_next_node s.2.1
    if n.1 ≠ S_OK then (n.1, n.2, none)
    else if (n.2.node_at n.2.current).map node.nodeType ≠ some WS_XML_NODE_TYPE.TEXT then
      (WS_E_INVALID_FORMAT, n.2, none)
    else
      read_type n.2 WS_ANY_ELEMENT_TYPE_MAPPING desc.type none none desc.typeDescription option
        size

/-- The memory of the structure after a call that stores at `ptr`, which is
`buf + offset`. -/
def store_result (buf : List (Nat × field_value)) (offset : Nat)
    (x : HRESULT × reader × Option mem_value) : HRESULT × reader × List (Nat × field_value) :=
  (x.1, x.2.1,
    match x.2.2 with
    | some v => store_field buf offset (field_value.value v)
    | none => buf)

/-- The `switch (desc->mapping)` of `read_type_struct_field` for the
mappings that read: `hr`, the reader and the memory of the structure behind
it.  (For the other mappings the function returns in the `switch`.) -/
def read_type_struct_field_read (read_type : read_type_fn) (ws_alloc : Nat → Bool)
    (sizes : type_sizes) (fuel : Nat) (r : reader) (desc : WS_FIELD_DESCRIPTION)
    (option : WS_READ_OPTION) (size : Nat) (buf : List (Nat × field_value)) (offset : Nat) :
    Option (HRESULT × reader × List (Nat × field_value)) :=
  match desc.mapping with
  | WS_ATTRIBUTE_FIELD_MAPPING =>
    some (store_result buf offset
      (read_type r WS_ATTRIBUTE_TYPE_MAPPING desc.type desc.localName desc.ns
        desc.typeDescription option size))
  | WS_ELEMENT_FIELD_MAPPING =>
    some (store_result buf offset
      (read_type r WS_ELEMENT_TYPE_MAPPING desc.type desc.localName desc.ns
        desc.typeDescription option size))
  | WS_REPEATING_ELEMENT_FIELD_MAPPING =>
    (read_type_repeating_element read_type ws_alloc sizes fuel r desc).map (fun e =>
      (e.1, e.2.1,
        match e.2.2 with
        | some a =>
          store_field (store_field buf offset (field_value.array a.1)) desc.countOffset
            (field_value.value (mem_value.bytes (ulong_bytes a.2)))
        | none => buf))
  | WS_TEXT_FIELD_MAPPING =>
    some (store_result buf offset (read_type_text read_type r desc option size))
  | _ => some (E_NOTIMPL, r, buf)

/-- The end of `read_type_struct_field`, from `if (hr == WS_E_INVALID_FORMAT)`
on, with `hr`, the reader and the memory of the structure in `x`. -/
def read_type_struct_field_result (desc : WS_FIELD_DESCRIPTION) (option : WS_READ_OPTION)
    (offset : Nat) (x : HRESULT × reader × List (Nat × field_value)) :
    HRESULT × reader × List (Nat × field_value) :=
  if x.1 = WS_E_INVALID_FORMAT then
    match option with
    | WS_READ_REQUIRED_VALUE | WS_READ_REQUIRED_POINTER => (WS_E_INVALID_FORMAT, x.2.1, x.2.2)
    | WS_READ_NILLABLE_VALUE =>
      (S_OK, x.2.1,
        match desc.defaultValue with
        | some v => store_field x.2.2 offset (field_value.value (mem_value.bytes v))
        | none => x.2.2)
    | WS_READ_OPTIONAL_POINTER | WS_READ_NILLABLE_POINTER =>
      (S_OK, x.2.1, store_field x.2.2 offset (field_value.value mem_value.null))
  else x

/-- `read_type_struct_field( reader, desc, heap, buf, offset )`: the result,
the reader and the memory of the structure.  The first argument bounds the
loops of the functions it calls; `none` when the bound is used up. -/
def read_type_struct_field (read_type : read_type_fn) (ws_alloc : Nat → Bool)
    (sizes : type_sizes) (fuel : Nat) (r : reader) (desc : Option WS_FIELD_DESCRIPTION)
    (buf : List (Nat × field_value)) (offset : Nat) :
    Option (HRESULT × reader × List (Nat × field_value)) :=
  match desc with
  | none => some (E_INVALIDARG, r, buf)
  | some desc =>
    if desc.options % 2 ^ 32 &&& (0xffffffff ^^^ (WS_FIELD_POINTER ||| WS_FIELD_OPTIONAL |||
        WS_FIELD_NILLABLE ||| WS_FIELD_NILLABLE_ITEM)) ≠ 0 then some (E_NOTIMPL, r, buf)
    else
      match get_field_read_option desc.type desc.options with
      | none => some (E_INVALIDARG, r, buf)
      | some option =>
        let size :=
          if option = WS_READ_REQUIRED_VALUE ∨ option = WS_READ_NILLABLE_VALUE then
            get_type_size sizes desc.type desc.typeDescription
          else sizes.pointer
        match desc.mapping with
        | WS_TYPE_ATTRIBUTE_FIELD_MAPPING => some (S_OK, r, buf)
        | WS_ATTRIBUTE_FIELD_MAPPING | WS_ELEMENT_FIELD_MAPPING
        | WS_REPEATING_ELEMENT_FIELD_MAPPING | WS_TEXT_FIELD_MAPPING =>
          (read_type_struct_field_read read_type ws_alloc sizes fuel r desc option size buf
            offset).map (read_type_struct_field_result desc option offset)
        | _ => some (E_NOTIMPL, r, buf)

/-! ### Reference definitions

The definitions below are not part of the reader: they state, in the words of
its specification, what the decoders are compared with. -/

/-- The value of a string of decimal digits, most significant digit first
(the reference against which the integer decoder is compared). -/
def decimal_value (digits : List Nat) : Nat :=
  digits.foldl (fun acc c => acc * 10 + (c - 48)) 0

/-- The number written as decimal digits after an optional minus sign. -/
def signed_value (neg : Bool) (digits : List Nat) : Int :=
  if neg then -(decimal_value digits : Int) else (decimal_value digits : Int)

/-- What is left of a text after trimming the surrounding whitespace and
removing one leading `-`. -/
def unsigned_part (str : List Nat) : List Nat :=
  if (trim_space str).head? = some 45 then (trim_space str).tail else trim_space str

/-- The Gregorian leap-year rule: divisible by 4 and not by 100, or divisible
by 400. -/
@[reducible] def gregorian_leap (year : Nat) : Prop :=
  (year % 4 = 0 ∧ year % 100 ≠ 0) ∨ year % 400 = 0

/-- The number of days of a month of a year in the Gregorian calendar. -/
def days_in_month (year month : Nat) : Nat :=
  if month = 2 then (if gregorian_leap year then 29 else 28)
  else if month = 4 ∨ month = 6 ∨ month = 9 ∨ month = 11 then 30
  else 31

/-- The number of days of a year in the Gregorian calendar. -/
def year_length (year : Nat) : Nat :=
  if gregorian_leap year then 366 else 365

/-- The number of days from 0001-01-01 to the given date in the proleptic
Gregorian calendar: the days of the years before `year`, the days of the
months before `month` in that year, and the days before `day`. -/
def days_from_epoch (year month day : Nat) : Nat :=
  ((List.range (year - 1)).map (fun y => year_length (y + 1))).sum +
    ((List.range (month - 1)).map (fun k => days_in_month year (k + 1))).sum + (day - 1)

/-- The fraction of a second in ticks: the digits padded on the right with
zeros to seven digits and read as a number. -/
def fraction_ticks (frac : List Nat) : Nat :=
  decimal_value (frac ++ List.replicate (7 - frac.length) 48)

/-- The base64 character of a 6-bit value (alphabet `A-Z a-z 0-9 + /`). -/
def base64_char (v : Nat) : Nat :=
  if v < 26 then 65 + v
  else if v < 52 then 97 + (v - 26)
  else if v < 62 then 48 + (v - 52)
  else if v = 62 then 43
  else 47

/-- The standard base64 encoding with `=` padding. -/
def base64_encode : List Nat → List Nat
  | [] => []
  | [a] => [base64_char (a / 4), base64_char (a % 4 * 16), 61, 61]
  | [a, b] => [base64_char (a / 4), base64_char (a % 4 * 16 + b / 16),
      base64_char (b % 16 * 4), 61]
  | a :: b :: c :: rest =>
      base64_char (a / 4) :: base64_char (a % 4 * 16 + b / 16) ::
        base64_char (b % 16 * 4 + c / 64) :: base64_char (c % 64) :: base64_encode rest

/-- The escaping of the five special characters of XML text. -/
def escape : List Nat → List Nat
  | [] => []
  | c :: s =>
    (if c = 38 then [38, 97, 109, 112, 59]
     else if c = 60 then [38, 108, 116, 59]
     else if c = 62 then [38, 103, 116, 59]
     else if c = 34 then [38, 113, 117, 111, 116, 59]
     else if c = 39 then [38, 97, 112, 111, 115, 59]
     else [c]) ++ escape s

/-- The fourteen digits of a text `YYYY-MM-DDThh:mm:ss`. -/
structure DateTimeText where
  y0 : Nat
  y1 : Nat
  y2 : Nat
  y3 : Nat
  m0 : Nat
  m1 : Nat
  d0 : Nat
  d1 : Nat
  h0 : Nat
  h1 : Nat
  n0 : Nat
  n1 : Nat
  s0 : Nat
  s1 : Nat

/-- The bytes of `YYYY-MM-DDThh:mm:ss`. -/
def DateTimeText.text (t : DateTimeText) : List Nat :=
  [t.y0, t.y1, t.y2, t.y3, 45, t.m0, t.m1, 45, t.d0, t.d1, 84,
    t.h0, t.h1, 58, t.n0, t.n1, 58, t.s0, t.s1]

/-- Every one of the fourteen bytes is an ASCII digit. -/
@[reducible] def DateTimeText.digits (t : DateTimeText) : Prop :=
  ∀ c ∈ [t.y0, t.y1, t.y2, t.y3, t.m0, t.m1, t.d0, t.d1, t.h0, t.h1, t.n0, t.n1, t.s0, t.s1],
    isdigit c = true

def DateTimeText.year (t : DateTimeText) : Nat := decimal_value [t.y0, t.y1, t.y2, t.y3]
def DateTimeText.month (t : DateTimeText) : Nat := decimal_value [t.m0, t.m1]
def DateTimeText.day (t : DateTimeText) : Nat := decimal_value [t.d0, t.d1]
def DateTimeText.hour (t : DateTimeText) : Nat := decimal_value [t.h0, t.h1]
def DateTimeText.minute (t : DateTimeText) : Nat := decimal_value [t.n0, t.n1]
def DateTimeText.second (t : DateTimeText) : Nat := decimal_value [t.s0, t.s1]

/-- The date exists in the calendar and the time of day is at most 23:59:59,
or is 24:00:00. -/
@[reducible] def DateTimeText.valid (t : DateTimeText) : Prop :=
  t.year ≥ 1 ∧ 1 ≤ t.month ∧ t.month ≤ 12 ∧ 1 ≤ t.day ∧ t.day ≤ days_in_month t.year t.month ∧
    ((t.hour ≤ 23 ∧ t.minute ≤ 59 ∧ t.second ≤ 59) ∨
      (t.hour = 24 ∧ t.minute = 0 ∧ t.second = 0))

/-- The bytes of an optional fraction of a second: a `.` and digits. -/
def fraction_text : Option (List Nat) → List Nat
  | none => []
  | some frac => 46 :: frac

/-- A fraction that is absent or has 1 to 7 digits. -/
@[reducible] def fraction_ok : Option (List Nat) → Prop
  | none => True
  | some frac => 1 ≤ frac.length ∧ frac.length ≤ 7

instance fraction_ok_decidable (frac : Option (List Nat)) : Decidable (fraction_ok frac) := by
  cases frac <;> unfold fraction_ok <;> infer_instance

/-- The ticks of an optional fraction of a second. -/
def fraction_value : Option (List Nat) → Nat
  | none => 0
  | some frac => fraction_ticks frac

/-- The ticks of a date and time of day, without time zone: the days since
0001-01-01 and the time of day, in units of 100ns. -/
def DateTimeText.local_ticks (t : DateTimeText) (frac : Option (List Nat)) : Nat :=
  days_from_epoch t.year t.month t.day * 864000000000 + t.hour * 36000000000 +
    t.minute * 600000000 + t.second * 10000000 + fraction_value frac

/-- The sign and the four digits of a time zone `+HH:MM` or `-HH:MM`. -/
structure ZoneText where
  neg : Bool
  t0 : Nat
  t1 : Nat
  t2 : Nat
  t3 : Nat

/-- The bytes of the end of a date-time text: `Z`, or a zone `±HH:MM`. -/
def zone_text : Option ZoneText → List Nat
  | none => [90]
  | some z => [if z.neg then 45 else 43, z.t0, z.t1, 58, z.t2, z.t3]

def ZoneText.hour (z : ZoneText) : Nat := decimal_value [z.t0, z.t1]
def ZoneText.minute (z : ZoneText) : Nat := decimal_value [z.t2, z.t3]

/-- The four bytes of the zone are ASCII digits. -/
@[reducible] def ZoneText.digits (z : ZoneText) : Prop :=
  ∀ c ∈ [z.t0, z.t1, z.t2, z.t3], isdigit c = true

/-- The offset of a zone in ticks. -/
def ZoneText.offset (z : ZoneText) : Nat :=
  z.hour * 36000000000 + z.minute * 600000000

/-- The standard UTF-8 encoding of a code point below 0x110000. -/
def utf8_encode (cp : Nat) : List Nat :=
  if cp < 0x80 then [cp]
  else if cp < 0x800 then [0xC0 + cp / 64, 0x80 + cp % 64]
  else if cp < 0x10000 then [0xE0 + cp / 4096, 0x80 + cp / 64 % 64, 0x80 + cp % 64]
  else [0xF0 + cp / 262144, 0x80 + cp / 4096 % 64, 0x80 + cp / 64 % 64, 0x80 + cp % 64]

/-- A code point from 1 to 0x10FFFF that is not a surrogate and not 0xFFFE or
0xFFFF. -/
@[reducible] def encodable (cp : Nat) : Prop :=
  1 ≤ cp ∧ cp ≤ 0x10FFFF ∧ ¬ (0xD800 ≤ cp ∧ cp ≤ 0xDFFF) ∧ cp ≠ 0xFFFE ∧ cp ≠ 0xFFFF

/-- The decimal digits of a number, most significant digit first, as ASCII
bytes. -/
def decimal_digits (n : Nat) : List Nat :=
  (Nat.digits 10 n).reverse.map (fun d => d + 48)

/-- The value of a hexadecimal digit in either case. -/
def hex_digit_value (c : Nat) : Nat :=
  if 48 ≤ c ∧ c ≤ 57 then c - 48
  else if 97 ≤ c ∧ c ≤ 102 then c - 97 + 10
  else c - 65 + 10

/-- The value of a string of hexadecimal digits, most significant digit
first. -/
def hex_number (digits : List Nat) : Nat :=
  digits.foldl (fun acc c => acc * 16 + hex_digit_value c) 0

/-- The text behind a `&` starts one of the references of the specification:
`lt;`, `gt;`, `amp;`, `quot;`, `apos;`, a decimal reference `#d…;` of 1 to 7
digits after the leading zeros, or a hexadecimal reference `#xh…;` of 1 to 6
digits, the number being a code point with a UTF-8 encoding. -/
def reference_start (p : List Nat) : Prop :=
  [108, 116, 59] <+: p ∨ [103, 116, 59] <+: p ∨ [97, 109, 112, 59] <+: p ∨
  [113, 117, 111, 116, 59] <+: p ∨ [97, 112, 111, 115, 59] <+: p ∨
  (∃ zs ds rest, p = 35 :: zs ++ ds ++ 59 :: rest ∧ (∀ c ∈ zs, c = 48) ∧
    (∀ c ∈ ds, isdigit c = true) ∧ ds.head? ≠ some 48 ∧ 1 ≤ ds.length ∧ ds.length ≤ 7 ∧
    encodable (decimal_value ds)) ∨
  (∃ hs rest, p = 35 :: 120 :: hs ++ 59 :: rest ∧ (∀ c ∈ hs, isxdigit c = true) ∧
    1 ≤ hs.length ∧ hs.length ≤ 6 ∧ encodable (hex_number hs))

/-- A byte of a name without a colon: an ASCII letter or digit, `_`, `-`
or `.`. -/
def name_byte (c : Nat) : Bool :=
  (decide (65 ≤ c) && decide (c ≤ 90)) || (decide (97 ≤ c) && decide (c ≤ 122)) ||
    (decide (48 ≤ c) && decide (c ≤ 57)) || c == 95 || c == 45 || c == 46

/-- A byte of a plain text: an ASCII letter or digit, or a space. -/
def text_byte (c : Nat) : Bool :=
  (decide (65 ≤ c) && decide (c ≤ 90)) || (decide (97 ≤ c) && decide (c ≤ 122)) ||
    (decide (48 ≤ c) && decide (c ≤ 57)) || c == 32

mutual
/-- Every Element node of the tree has an EndElement node as its last
child. -/
def node.paired : node → Bool
  | node.mk t _ _ _ c =>
    (decide (t ≠ WS_XML_NODE_TYPE.ELEMENT) ||
      decide (c.getLast?.map node.nodeType = some WS_XML_NODE_TYPE.END_ELEMENT)) &&
    node.paired_list c
/-- Every node of the list is paired. -/
def node.paired_list : List node → Bool
  | [] => true
  | n :: l => node.paired n && node.paired_list l
end

/-- The lexicographic comparison of two sequences of unsigned bytes: decided
at the first position where they differ, by the order of the two bytes there;
a sequence that ends first is the smaller one. -/
def lex_compare : List Nat → List Nat → Ordering
  | [], [] => Ordering.eq
  | [], _ :: _ => Ordering.lt
  | _ :: _, [] => Ordering.gt
  | a :: as, b :: bs =>
    if a < b then Ordering.lt else if b < a then Ordering.gt else lex_compare as bs

/-- The length-then-bytes order: the shorter string is the smaller one, and
strings of the same length are compared as sequences of bytes. -/
def length_then_bytes (a b : List Nat) : Ordering :=
  if a.length < b.length then Ordering.lt
  else if b.length < a.length then Ordering.gt
  else lex_compare a b

/-- The sign of an `Ordering`: -1 for smaller, 0 for equal, 1 for greater. -/
def ordering_sign : Ordering → Int
  | Ordering.lt => -1
  | Ordering.eq => 0
  | Ordering.gt => 1

/-- A hexadecimal digit: `0` to `9`, `a` to `f` or `A` to `F`. -/
def hex_digit_byte (c : Nat) : Bool :=
  (decide (48 ≤ c) && decide (c ≤ 57)) || (decide (97 ≤ c) && decide (c ≤ 102)) ||
    (decide (65 ≤ c) && decide (c ≤ 70))

/-- The canonical form of the text of a GUID,
`XXXXXXXX-XXXX-XXXX-XXXX-XXXXXXXXXXXX`: exactly 36 bytes with `-` at the
offsets 8, 13, 18 and 23 and a hexadecimal digit at every other offset. -/
def guid_canonical (p : List Nat) : Bool :=
  p.length == 36 &&
    (p.getD 8 0 == 45 && p.getD 13 0 == 45 && p.getD 18 0 == 45 && p.getD 23 0 == 45) &&
    (List.range 36).all (fun i =>
      i == 8 || i == 13 || i == 18 || i == 23 || hex_digit_byte (p.getD i 0))

/-- The GUID a canonical text stands for: each group is a hexadecimal number
written most significant digit first; the first three groups are `Data1`,
`Data2` and `Data3`, and the eight pairs of digits of the last two groups are
the bytes of `Data4`. -/
def guid_of_text (p : List Nat) : GUID :=
  { Data1 := hex_number (p.take 8)
    Data2 := hex_number ((p.drop 9).take 4)
    Data3 := hex_number ((p.drop 14).take 4)
    Data4 :=
      [hex_number ((p.drop 19).take 2), hex_number ((p.drop 21).take 2),
       hex_number ((p.drop 24).take 2), hex_number ((p.drop 26).take 2),
       hex_number ((p.drop 28).take 2), hex_number ((p.drop 30).take 2),
       hex_number ((p.drop 32).take 2), hex_number ((p.drop 34).take 2)] }

/-- The hexadecimal digit of a value below 16, in upper or in lower case. -/
def hex_digit_char (upper : Bool) (v : Nat) : Nat :=
  if v < 10 then 48 + v else if upper then 65 + (v - 10) else 97 + (v - 10)

/-- The `width` hexadecimal digits of `n`, most significant digit first; the
case of each digit is chosen by `upper` from its place, counted from the
right. -/
def hex_digits (upper : Nat → Bool) : Nat → Nat → List Nat
  | 0, _ => []
  | width + 1, n => hex_digits upper width (n / 16) ++ [hex_digit_char (upper width) (n % 16)]

/-- The canonical text of a GUID; `upper` chooses the case of the digits of
each of the eleven numbers by their place. -/
def guid_text (upper : Nat → Nat → Bool) (g : GUID) : List Nat :=
  hex_digits (upper 0) 8 g.Data1 ++ [45] ++ hex_digits (upper 1) 4 g.Data2 ++ [45] ++
    hex_digits (upper 2) 4 g.Data3 ++ [45] ++
    hex_digits (upper 3) 2 (g.Data4.getD 0 0) ++ hex_digits (upper 4) 2 (g.Data4.getD 1 0) ++ [45] ++
    hex_digits (upper 5) 2 (g.Data4.getD 2 0) ++ hex_digits (upper 6) 2 (g.Data4.getD 3 0) ++
    hex_digits (upper 7) 2 (g.Data4.getD 4 0) ++ hex_digits (upper 8) 2 (g.Data4.getD 5 0) ++
    hex_digits (upper 9) 2 (g.Data4.getD 6 0) ++ hex_digits (upper 10) 2 (g.Data4.getD 7 0)

/-- The fields of a GUID have 32, 16, 16 and eight times 8 bits. -/
def GUID.valid (g : GUID) : Prop :=
  g.Data1 < 2 ^ 32 ∧ g.Data2 < 2 ^ 16 ∧ g.Data3 < 2 ^ 16 ∧ g.Data4.length = 8 ∧
    ∀ b ∈ g.Data4, b < 2 ^ 8

/-- The text behind an optional sign `-` or `+`. -/
def unsigned_text (p : List Nat) : List Nat :=
  if p.head? = some 45 ∨ p.head? = some 43 then p.tail else p

/-- The integer part of a number: the decimal digits at the start of the text
behind the sign. -/
def integer_part (p : List Nat) : List Nat :=
  (unsigned_text p).takeWhile isdigit

/-- The fraction part of a number: the decimal digits behind the `.` that
follows the integer part; it is empty without that `.`. -/
def fraction_part (p : List Nat) : List Nat :=
  match (unsigned_text p).dropWhile isdigit with
  | 46 :: r => r.takeWhile isdigit
  | _ => []

/-- One of the literals `NaN`, `INF` and `-INF`. -/
def double_literal (p : List Nat) : Bool :=
  decide (p = [78, 97, 78]) || decide (p = [73, 78, 70]) || decide (p = [45, 73, 78, 70])

/-- A text without a decimal digit in its integer part and in its fraction
part. -/
def digit_free (p : List Nat) : Bool :=
  decide (integer_part p = []) && decide (fraction_part p = [])

/-- The little-endian base-128 encoding of a number: seven bits of the value
in each byte, least significant bits first, and the high bit set on every
byte but the last. -/
def encode_int31 (n : Nat) : List Nat :=
  if n < 128 then [n] else (n % 128 + 128) :: encode_int31 (n / 128)
decreasing_by omega

/-- The sorted index is a permutation of the ids below `stringCount`, it
lists the entries in strictly increasing `cmp_string` order, and the entry
`k` has the id `k`. -/
structure Dictionary.sorted_dense (d : Dictionary) : Prop where
  perm : d.dict_sorted.Perm (List.range d.stringCount)
  increasing : ∀ i j : Nat, i < j → j < d.stringCount →
    cmp_string (d.sorted_entry i).bytes (d.sorted_entry j).bytes < 0
  ids : ∀ k : Nat, k < d.stringCount → (d.strings.getD k default).id = k

/-- The text `t` cut into chunks: for each value `m` of `ms` in turn the next
`m` bytes, or what is left when that is less, up to the end of `t`. -/
def text_chunks : List Nat → List Nat → List (List Nat)
  | _, [] => []
  | t, m :: ms => if t = [] then [] else t.take m :: text_chunks (t.drop m) ms

/-- The namespace bound to the prefix `p` in a table of prefixes: the
namespace of the first entry with the prefix `p`; `none`, the null pointer,
when no entry has this prefix. -/
def bound_namespace (table : List prefix_t) (p : Option (List Nat)) : Option (List Nat) :=
  match p with
  | none => none
  | some s => (table.find? (fun e => decide (e.str = some s))).bind (fun e => e.ns)

/-- The namespace bound to the prefix `p` when all attributes `attrs` of a
start tag have been read, on top of the table `table` in front of the tag:
the namespace of the last xmlns declaration of `p` among the attributes,
wherever it stands in the tag, and the namespace bound in `table` when the
tag does not declare `p`. -/
def namespace_after_tag (table : List prefix_t) (attrs : List WS_XML_ATTRIBUTE)
    (p : Option (List Nat)) : Option (List Nat) :=
  match (attrs.filter (fun a => a.isXmlNs && p.isSome && decide (a.prefix_ = p))).getLast? with
  | some a => a.ns
  | none => bound_namespace table p

/-! ### Auxiliary definitions of the proofs -/

/-- The value of decimal digits appended to a number already read. -/
def accumulate (acc : Int) (digits : List Nat) : Int :=
  digits.foldl (fun (a : Int) (c : Nat) => a * 10 + ((c : Int) - 48)) acc

/-- The ticks of the fraction as the code adds them up. -/
def sec_frac_of : Option (List Nat) → Nat
  | none => 0
  | some frac => sec_frac_loop frac (TICKS_PER_SEC / 10) 0

/-- The code's conditions on the fields of a text `YYYY-MM-DDThh:mm:ss`. -/
@[reducible] def DateTimeText.rejected (t : DateTimeText) : Prop :=
  t.year < 1 ∨ t.month < 1 ∨ t.month > 12 ∨ valid_day t.year t.month t.day = false ∨
    t.hour > 24 ∨ t.minute > 59 ∨ (t.minute > 0 ∧ t.hour = 24) ∨ t.second > 59 ∨
    (t.second > 0 ∧ t.hour = 24)

/-- The digits of "2024-01-01T00:00:00". -/
def new_year_2024 : DateTimeText := ⟨50, 48, 50, 52, 48, 49, 48, 49, 48, 48, 48, 48, 48, 48⟩

/-- The digits of "2024-02-29T00:00:00". -/
def leap_day_2024 : DateTimeText := ⟨50, 48, 50, 52, 48, 50, 50, 57, 48, 48, 48, 48, 48, 48⟩

/-- The invariant of the dictionary states reachable from the empty
dictionary. -/
structure Dictionary.Invariant (d : Dictionary) : Prop where
  sorted_length : d.dict_sorted.length = d.stringCount
  sorted_cover : ∀ k : Nat, k < d.stringCount →
    ∃ i : Nat, i < d.stringCount ∧ d.dict_sorted.getD i 0 = k
  sorted_lt : ∀ i : Nat, i < d.stringCount → d.dict_sorted.getD i 0 < d.stringCount
  increasing : ∀ i j : Nat, i < j → j < d.stringCount →
    cmp_string (d.sorted_entry i).bytes (d.sorted_entry j).bytes < 0
  ids : ∀ k : Nat, k < d.stringCount →
    (d.strings.getD k default).id = k ∧
      (d.strings.getD k default).dictionary = some DictionaryRef.dict_builtin
  count_le : d.stringCount ≤ d.dict_size
  size_steps : d.dict_size = 0 ∨ d.dict_size = 256 ∨ d.dict_size = 512 ∨
    d.dict_size = 1024 ∨ d.dict_size = 2048
  allocated_iff : d.allocated = true ↔ d.dict_size ≠ 0

/-- The dictionary after the insertion of new content `s` at place `k` of
the sorted array, with capacity `size`. -/
def Dictionary.inserted (d : Dictionary) (s : List Nat) (k size : Nat) : Dictionary :=
  { strings := d.strings ++ [⟨s, some DictionaryRef.dict_builtin, d.stringCount⟩]
    dict_sorted := d.dict_sorted.take k ++ d.stringCount :: d.dict_sorted.drop k
    dict_size := size
    allocated := true }

/-- A dictionary with the two entries "b" (id 0) and "a" (id 1), as two
interning operations on the empty dictionary leave it. -/
def dictionary_b_a : Dictionary :=
  { strings := [⟨[98], some DictionaryRef.dict_builtin, 0⟩, ⟨[97], some DictionaryRef.dict_builtin, 1⟩]
    dict_sorted := [1, 0]
    dict_size := 256
    allocated := true }

/-- The reader after `read_endelement_text` has consumed the close tag with
the name `nm`. -/
def after_close_tag (r : reader) (nm : List Nat) : reader :=
  { r with read_pos := r.read_pos + 2 + nm.length + 1 }

/-- The tree of the reader while it reads `<n>…</n>`: the BOF node with the
element `n` and the EOF node; `content` are the children of the element in
front of its EndElement node. -/
def element_tree (n : List Nat) (content : List node) : node :=
  node.mk WS_XML_NODE_TYPE.BOF ⟨none, none, none, []⟩ none []
    [node.mk WS_XML_NODE_TYPE.ELEMENT ⟨some [], some n, some [], []⟩ none []
        (content ++ [alloc_node WS_XML_NODE_TYPE.END_ELEMENT]),
      alloc_node WS_XML_NODE_TYPE.EOF]

/-- The reader on the input `data` at position `pos` with the tree `root`,
the cursor at `current` and the prefixes as `WsSetInput` leaves them. -/
def reader_at (data : List Nat) (pos : Nat) (state : reader_state) (root : node)
    (current : List Nat) : reader :=
  { read_bufptr := data
    read_pos := pos
    state := state
    root := root
    current := current
    current_attr := 0
    last := current
    prefixes := [⟨none, none⟩, ⟨some [], some []⟩]
    text_conv_offset := 0
    input_enc := WS_XML_READER_ENCODING_TYPE_TEXT
    dict := some ⟨[]⟩
    magic := READER_MAGIC
    input_type := WS_XML_READER_INPUT_TYPE_BUFFER }

/-- The reader inside the element `b` of the input `<a><b></a>`, in front
of the close tag. -/
def reader_in_b : reader :=
  read_skip (read_node (read_node (WsSetInput [60, 97, 62, 60, 98, 62, 60, 47, 97, 62])).2).2 1

/-- The tree the reader builds from the input `<a b="c"/>`. -/
def tree_a_b_c : node :=
  (read_node (WsSetInput [60, 97, 32, 98, 61, 34, 99, 34, 47, 62])).2.root

/-- The GUID `01234567-89ab-cdef-0123-456789abcdef`. -/
def guid_example : GUID :=
  ⟨0x01234567, 0x89ab, 0xcdef, [0x01, 0x23, 0x45, 0x67, 0x89, 0xab, 0xcd, 0xef]⟩

/-- The text `01234567-89ab-cdef-0123-456789ABCDEF`, with the last group in
upper case. -/
def guid_example_text : List Nat :=
  [48, 49, 50, 51, 52, 53, 54, 55, 45, 56, 57, 97, 98, 45, 99, 100, 101, 102, 45,
   48, 49, 50, 51, 45, 52, 53, 54, 55, 56, 57, 65, 66, 67, 68, 69, 70]

/-- The tree of the input `<a><x/>t<!--c--><b/></a>`. -/
def siblings_tree : node :=
  node.mk WS_XML_NODE_TYPE.BOF ⟨none, none, none, []⟩ none []
    [node.mk WS_XML_NODE_TYPE.ELEMENT ⟨some [], some [97], some [], []⟩ none []
        [node.mk WS_XML_NODE_TYPE.ELEMENT ⟨some [], some [120], some [], []⟩ none []
            [alloc_node WS_XML_NODE_TYPE.END_ELEMENT],
          node.mk WS_XML_NODE_TYPE.TEXT ⟨none, none, none, []⟩ (some [116]) [] [],
          node.mk WS_XML_NODE_TYPE.COMMENT ⟨none, none, none, []⟩ none [99] [],
          node.mk WS_XML_NODE_TYPE.ELEMENT ⟨some [], some [98], some [], []⟩ none []
            [alloc_node WS_XML_NODE_TYPE.END_ELEMENT],
          alloc_node WS_XML_NODE_TYPE.END_ELEMENT],
      alloc_node WS_XML_NODE_TYPE.EOF]

/-- The reader behind the input `<a><x/>t<!--c--><b/></a>` with the cursor on
the child `i` of the element `a`. -/
def siblings_reader (i : Nat) : reader :=
  reader_at [60, 97, 62, 60, 120, 47, 62, 116, 60, 33, 45, 45, 99, 45, 45, 62, 60, 98, 47, 62,
    60, 47, 97, 62] 24 READER_STATE_EOF siblings_tree [i, 0]

/-- The reader after `k` calls of `read_node`. -/
def read_nodes : Nat → reader → reader
  | 0, r => r
  | k + 1, r => read_nodes k (read_node r).2

/-- The reader with the cursor on the EOF node, as `read_node` leaves it at
the end of the input. -/
def at_eof (r : reader) : reader :=
  { r with current := r.tail_child [], last := r.tail_child [], state := READER_STATE_EOF }

/-- The reader set to the input `<n>t</n>`. -/
def simple_reader : reader :=
  WsSetInput [60, 110, 62, 116, 60, 47, 110, 62]

/-- The reader `r'` is the reader `r` after some scanning of the input: the
read position has not moved back, and the input, the state, the tree, the
cursor, the encoding and the dictionary are the same. -/
structure reader.scanned (r r' : reader) : Prop where
  bufptr : r'.read_bufptr = r.read_bufptr
  pos : r.read_pos ≤ r'.read_pos
  state : r'.state = r.state
  root : r'.root = r.root
  current : r'.current = r.current
  last : r'.last = r.last
  input_enc : r'.input_enc = r.input_enc
  dict : r'.dict = r.dict

/-- The reader `r'` reads the same input as `r`, in the same encoding and
with the same dictionary. -/
structure reader.stepped (r r' : reader) : Prop where
  bufptr : r'.read_bufptr = r.read_bufptr
  input_enc : r'.input_enc = r.input_enc
  dict : r'.dict = r.dict

/-- The types of the children that a node of type `t` may have: the last
child of an Element node is an EndElement node, the last child of the BOF
node is the EOF node, the last child of a CDATA node is an EndCDATA node, and
the other nodes have no children. -/
def shape_ok (t : WS_XML_NODE_TYPE) (cts : List WS_XML_NODE_TYPE) : Bool :=
  match t with
  | WS_XML_NODE_TYPE.ELEMENT => decide (cts.getLast? = some WS_XML_NODE_TYPE.END_ELEMENT)
  | WS_XML_NODE_TYPE.BOF => decide (cts.getLast? = some WS_XML_NODE_TYPE.EOF)
  | WS_XML_NODE_TYPE.CDATA => decide (cts.getLast? = some WS_XML_NODE_TYPE.END_CDATA)
  | _ => cts.isEmpty

mutual
/-- Every node of the tree has the children that `shape_ok` allows: the
sentinel that closes a node is its last child. -/
def node.shaped : node → Bool
  | node.mk t _ _ _ c => shape_ok t (c.map node.nodeType) && node.shaped_list c
/-- Every node of the list is shaped. -/
def node.shaped_list : List node → Bool
  | [] => true
  | n :: l => node.shaped n && node.shaped_list l
end

/-- The tree of `r'` is the tree of `r` or the tree of `r` with one more
node in front of the last child of an Element node or of the BOF node: the
tree of `r'` is shaped when the tree of `r` is, and paired when the tree of
`r` is. -/
structure reader.grown (r r' : reader) : Prop where
  shaped : r.root.shaped = true → r'.root.shaped = true
  paired : r.root.paired = true → r'.root.paired = true

/-- A successful `read_node` on this reader need not consume input: in text
mode the text of a CDATA section is to be read next, which may be empty; in
binary mode the cursor is at a Text node, which `read_node_bin` closes. -/
def reader.pending (r : reader) : Bool :=
  match r.input_enc with
  | WS_XML_READER_ENCODING_TYPE_TEXT => decide (r.state = READER_STATE_STARTCDATA)
  | WS_XML_READER_ENCODING_TYPE_BINARY =>
    decide ((r.node_at r.current).map node.nodeType = some WS_XML_NODE_TYPE.TEXT)
  | _ => false

/-- The measure of the loop of `read_move_to`: twice the number of bytes
left, and one more when the next `read_node` need not consume input. -/
def reader.measure (r : reader) : Nat :=
  2 * (r.read_size - r.read_pos) + (if r.pending then 1 else 0)

/-- An input in the binary encoding: the element `a` without content. -/
def binary_reader : reader :=
  WsSetInput_binary none [RECORD_SHORT_ELEMENT, 1, 97, RECORD_ENDELEMENT]

/-- A reader in binary mode with a dictionary of the two strings `hi` and
`yo`, set to the input `data`. -/
def dict_reader (data : List Nat) : reader :=
  WsSetInput_binary (some ⟨[⟨[104, 105], none, 0⟩, ⟨[121, 111], none, 1⟩]⟩) data

/-- The reader set to the binary encoding of `<a><b>0</b></a>`, in which the
text is a plain `RECORD_ZERO_TEXT` record and both elements are closed by
`RECORD_ENDELEMENT` records. -/
def plain_text_reader : reader :=
  WsSetInput_binary none
    [RECORD_SHORT_ELEMENT, 1, 97, RECORD_SHORT_ELEMENT, 1, 98, RECORD_ZERO_TEXT,
      RECORD_ENDELEMENT, RECORD_ENDELEMENT]

/-- The reader set to the text input `<!--c-->/>`. -/
def comment_reader : reader :=
  WsSetInput [60, 33, 45, 45, 99, 45, 45, 62, 47, 62]

/-- The calls of `WsReadCharsUtf8` with a buffer and with the values `ms` of
`max_count`, one after the other: the result, the bytes copied and the count
of each call, and the reader after the last one. -/
def read_chars_calls : List Nat → reader → List (HRESULT × List Nat × Nat) × reader
  | [], r => ([], r)
  | m :: ms, r =>
    let x := WsReadCharsUtf8 (some r) true m true
    let rest := read_chars_calls ms (x.2.1.getD r)
    ((x.1, x.2.2.1, x.2.2.2) :: rest.1, rest.2)

/-- A reader with the cursor on the Text node with the bytes `t`, as far as
`WsReadCharsUtf8` looks at it. -/
structure reader.on_text (r : reader) (t : List Nat) : Prop where
  magic : r.magic = READER_MAGIC
  input_type : r.input_type ≠ 0
  nodeType : (r.node_at r.current).map node.nodeType = some WS_XML_NODE_TYPE.TEXT
  text : (r.node_at r.current).map node.text = some (some t)
  length : t.length < 2 ^ 32

/-- The reader after two calls of `read_node` on the input `<a>hello</a>`:
the cursor is on the text. -/
def hello_reader : reader :=
  read_nodes 2 (WsSetInput [60, 97, 62, 104, 101, 108, 108, 111, 60, 47, 97, 62])

/-- A `read_type` that finds no value: it returns `WS_E_INVALID_FORMAT`,
leaves the reader as it is and stores nothing. -/
def read_type_missing : read_type_fn :=
  fun r _ _ _ _ _ _ _ => (WS_E_INVALID_FORMAT, r, none)

/-- The sizes of the types where pointers have 8 bytes. -/
def sizes_64 : type_sizes :=
  { pointer := 8, datetime := 16, string := 16, bytes := 16, xml_string := 32 }

/-- The description of an optional `INT32` field of the element `a` with
the default value 7. -/
def optional_int32_field : WS_FIELD_DESCRIPTION :=
  { mapping := WS_ELEMENT_FIELD_MAPPING
    localName := some [97]
    ns := some []
    type := WS_INT32_TYPE
    typeDescription := none
    offset := 0
    options := WS_FIELD_OPTIONAL
    defaultValue := some [7, 0, 0, 0]
    countOffset := 0
    itemLocalName := none
    itemNs := none
    itemRange := none }

/-- The `item_size` of `read_type_repeating_element`. -/
def repeating_item_size (sizes : type_sizes) (desc : WS_FIELD_DESCRIPTION)
    (option : WS_READ_OPTION) : Nat :=
  if option = WS_READ_REQUIRED_VALUE ∨ option = WS_READ_NILLABLE_VALUE then
    get_type_size sizes desc.type desc.typeDescription
  else sizes.pointer

/-- The read of one item in the loop of `read_type_repeating_element`. -/
def read_item (read_type : read_type_fn) (desc : WS_FIELD_DESCRIPTION) (option : WS_READ_OPTION)
    (item_size : Nat) (r : reader) : HRESULT × reader × Option mem_value :=
  read_type r WS_ELEMENT_TYPE_MAPPING desc.type desc.itemLocalName desc.itemNs
    desc.typeDescription option item_size

/-- The reader and the items after `n` reads of an item that all return
`S_OK`, the first of them from `r`; `none` when one of them does not return
`S_OK`. -/
def item_reads (read_type : read_type_fn) (desc : WS_FIELD_DESCRIPTION) (option : WS_READ_OPTION)
    (item_size : Nat) : Nat → reader → Option (reader × List mem_value)
  | 0, r => some (r, [])
  | n + 1, r =>
    if (read_item read_type desc option item_size r).1 = S_OK then
      (item_reads read_type desc option item_size n
        (read_item read_type desc option item_size r).2.1).map (fun p =>
          (p.1, (read_item read_type desc option item_size r).2.2.getD
            (mem_value.bytes (List.replicate item_size 0)) :: p.2))
    else none

/-- A stand-in for `read_type` in the examples: it reads one byte of the
input when this is the digit 1, and fails with `WS_E_INVALID_FORMAT` at
every other byte and at the end of the input. -/
def read_type_digit_one : read_type_fn :=
  fun r _ _ _ _ _ _ _ =>
    match read_current_ptr r with
    | 49 :: _ => (S_OK, read_skip r 1, some (mem_value.bytes [1]))
    | _ => (WS_E_INVALID_FORMAT, r, none)

/-- A stand-in for `read_type` in the examples: as `read_type_digit_one`,
but it fails with `E_INVALIDARG` at the digit 2. -/
def read_type_digit_one_or_fail : read_type_fn :=
  fun r _ _ _ _ _ _ _ =>
    match read_current_ptr r with
    | 49 :: _ => (S_OK, read_skip r 1, some (mem_value.bytes [1]))
    | 50 :: _ => (E_INVALIDARG, r, none)
    | _ => (WS_E_INVALID_FORMAT, r, none)

/-- The description of a field of repeated `INT8` items without wrapper
element, with the range of item counts `range`. -/
def repeating_int8_field (range : Option WS_ITEM_RANGE) : WS_FIELD_DESCRIPTION :=
  { mapping := WS_REPEATING_ELEMENT_FIELD_MAPPING
    localName := none
    ns := none
    type := WS_INT8_TYPE
    typeDescription := none
    offset := 0
    options := 0
    defaultValue := none
    countOffset := 8
    itemLocalName := some [97]
    itemNs := some []
    itemRange := range }

/-- The bytes that the `memmove` of `insert_string` at the place `k` writes
stay in a block of `size` entries of 4 bytes. -/
def move_in_block (ptr : pointer_size) (d : Dictionary) (k size : Nat) : Prop :=
  (k + 1) * 4 + (d.stringCount - k) * ptr.bytes ≤ size * 4

/-- The strings of one byte with the bytes `n`, `n - 1`, down to 1, none of
them interned. -/
def descending_strings : Nat → List WS_XML_STRING
  | 0 => []
  | n + 1 => ⟨[n + 1], none, 0⟩ :: descending_strings n

/-- `add_xml_string` on each string of the list in turn: the results and the
dictionary afterwards; `none` when one of the calls writes over the end of a
block. -/
def add_xml_strings (ptr : pointer_size) :
    List WS_XML_STRING → Dictionary → Option (List HRESULT × Dictionary)
  | [], d => some ([], d)
  | str :: strs, d =>
    match add_xml_string ptr d str with
    | none => none
    | some x => (add_xml_strings ptr strs x.2.2).map (fun y => (x.1 :: y.1, y.2))

/-- The dictionary with the 128 entries of one byte 128, 127, down to 1, in
the order of their interning: the entry `k` has the byte `128 - k`, and the
sorted index lists the ids from 127 down to 0. -/
def descending_dictionary : Dictionary :=
  { strings := (List.range 128).map (fun k => ⟨[128 - k], some DictionaryRef.dict_builtin, k⟩)
    dict_sorted := (List.range 128).reverse
    dict_size := 256
    allocated := true }

/-- `read_node` in text mode. -/
theorem read_node_text_mode (r : reader) (h : r.input_enc = WS_XML_READER_ENCODING_TYPE_TEXT) :
    read_node r = read_node_text (r.read_size - r.read_pos + 1) r := by
  unfold read_node
  rw [h]


/-! ## Whitespace trimming -/

theorem dropWhile_append_all {p : Nat → Bool} (ws l : List Nat)
    (h : ∀ c ∈ ws, p c = true) : (ws ++ l).dropWhile p = l.dropWhile p := by
  induction ws with
  | nil => rfl
  | cons c ws ih =>
    have hc : p c = true := h c (List.mem_cons_self _ _)
    simp only [List.cons_append, List.dropWhile_cons, hc, if_true]
    exact ih (fun x hx => h x (List.mem_cons_of_mem _ hx))

theorem rdropWhile_append_all {p : Nat → Bool} (l ws : List Nat)
    (h : ∀ c ∈ ws, p c = true) : (l ++ ws).rdropWhile p = l.rdropWhile p := by
  unfold List.rdropWhile
  rw [List.reverse_append, dropWhile_append_all _ _ (fun c hc => h c (List.mem_reverse.mp hc))]

/-- Trimming removes the whitespace around a text that neither starts nor
ends with whitespace. -/
theorem trim_space_surrounded (ws1 ws2 body : List Nat)
    (hws1 : ∀ c ∈ ws1, read_isspace c = true) (hws2 : ∀ c ∈ ws2, read_isspace c = true)
    (hhead : ∀ c, body.head? = some c → read_isspace c = false)
    (hlast : ∀ c, body.getLast? = some c → read_isspace c = false) :
    trim_space (ws1 ++ body ++ ws2) = body := by
  unfold trim_space
  rw [List.append_assoc, dropWhile_append_all _ _ hws1]
  have h1 : (body ++ ws2).dropWhile read_isspace = body ++ ws2 ∨ body = [] := by
    cases body with
    | nil => exact Or.inr rfl
    | cons c cs =>
      left
      have := hhead c rfl
      simp [List.dropWhile_cons, this]
  rcases h1 with h1 | h1
  · rw [h1, rdropWhile_append_all _ _ hws2]
    rcases List.eq_nil_or_concat body with hb | ⟨l, c, hb⟩
    · subst hb; rfl
    · subst hb
      have := hlast c (by simp)
      rw [List.concat_eq_append, List.rdropWhile_concat]
      simp [this]
  · subst h1
    have h2 := dropWhile_append_all (p := read_isspace) ws2 [] hws2
    simp only [List.append_nil] at h2
    simp only [List.nil_append, h2]
    rfl

/-! ## Integers -/

theorem isdigit_iff (c : Nat) : isdigit c = true ↔ 48 ≤ c ∧ c ≤ 57 := by
  simp [isdigit]

theorem isdigit_not_space (c : Nat) (h : isdigit c = true) : read_isspace c = false := by
  have := (isdigit_iff c).mp h
  simp only [read_isspace, Bool.or_eq_false_iff, beq_eq_false_iff_ne, ne_eq]
  omega

theorem wrap_int64_id (x : Int) (h1 : -2 ^ 63 ≤ x) (h2 : x < 2 ^ 63) : wrap_int64 x = x := by
  unfold wrap_int64
  omega

theorem accumulate_mono (digits : List Nat) (hdig : ∀ c ∈ digits, isdigit c = true) :
    ∀ acc : Int, 0 ≤ acc → acc ≤ accumulate acc digits := by
  induction digits with
  | nil => intro acc _; exact le_refl _
  | cons c cs ih =>
    intro acc h0
    have hc := (isdigit_iff c).mp (hdig c (List.mem_cons_self _ _))
    have := ih (fun x hx => hdig x (List.mem_cons_of_mem _ hx)) (acc * 10 + ((c : Int) - 48))
      (by omega)
    simp only [accumulate, List.foldl_cons] at this ⊢
    omega

theorem accumulate_zero (digits : List Nat) (hdig : ∀ c ∈ digits, isdigit c = true) :
    accumulate 0 digits = (decimal_value digits : Int) := by
  have key : ∀ (ds : List Nat), (∀ c ∈ ds, isdigit c = true) → ∀ n : Nat,
      accumulate (n : Int) ds = ((ds.foldl (fun acc c => acc * 10 + (c - 48)) n : Nat) : Int) := by
    intro ds
    induction ds with
    | nil => intro _ n; rfl
    | cons c cs ih =>
      intro h n
      have hc := (isdigit_iff c).mp (h c (List.mem_cons_self _ _))
      simp only [accumulate, List.foldl_cons]
      have := ih (fun x hx => h x (List.mem_cons_of_mem _ hx)) (n * 10 + (c - 48))
      simp only [accumulate] at this
      rw [← this]
      congr 1
      omega
  exact key digits hdig 0

/-- The digit loop on a non-negative number: the value if it stays within
`max`, an overflow otherwise. -/
theorem str_to_int64_loop_pos (min max : Int) (hmax : max ≤ MAX_INT64) (digits rest : List Nat)
    (hdig : ∀ c ∈ digits, isdigit c = true) :
    ∀ ret : Int, 0 ≤ ret → ret ≤ max →
      str_to_int64_loop false min max (digits ++ rest) ret =
        if accumulate ret digits ≤ max
        then str_to_int64_loop false min max rest (accumulate ret digits)
        else .error WS_E_NUMERIC_OVERFLOW := by
  have hM : MAX_INT64 = 9223372036854775807 := by decide
  induction digits with
  | nil => intro ret _ h; simp [accumulate, h]
  | cons c cs ih =>
    intro ret h0 hle
    have hd := hdig c (List.mem_cons_self _ _)
    have hc := (isdigit_iff c).mp hd
    have hcs : ∀ x ∈ cs, isdigit x = true := fun x hx => hdig x (List.mem_cons_of_mem _ hx)
    have hdiv : max.tdiv 10 = max / 10 := Int.tdiv_eq_ediv (by omega) (by omega)
    have hmono := accumulate_mono cs hcs (ret * 10 + ((c : Int) - 48)) (by omega)
    have hacc : accumulate ret (c :: cs) = accumulate (ret * 10 + ((c : Int) - 48)) cs := rfl
    simp only [List.cons_append, str_to_int64_loop, hd, Bool.not_true, Bool.false_eq_true,
      if_false, Bool.not_false, Bool.true_and, Bool.false_and, Bool.or_false, hdiv, hacc]
    simp only [Bool.or_eq_true, decide_eq_true_eq]
    by_cases h1 : ret > max / 10
    · have h3 : ¬ accumulate (ret * 10 + ((c : Int) - 48)) cs ≤ max := by omega
      rw [if_pos (Or.inl h1), if_neg h3]
    · have w1 : wrap_int64 (ret * 10) = ret * 10 := wrap_int64_id _ (by omega) (by omega)
      have w2 : wrap_int64 (max - ((c : Int) - 48)) = max - ((c : Int) - 48) :=
        wrap_int64_id _ (by omega) (by omega)
      rw [w1, w2]
      by_cases h2 : ret * 10 > max - ((c : Int) - 48)
      · have h3 : ¬ accumulate (ret * 10 + ((c : Int) - 48)) cs ≤ max := by omega
        rw [if_pos (Or.inr h2), if_neg h3]
      · have w3 : wrap_int64 (ret * 10 + ((c : Int) - 48)) = ret * 10 + ((c : Int) - 48) :=
          wrap_int64_id _ (by omega) (by omega)
        rw [if_neg (by rintro (h | h) <;> contradiction), w3]
        exact ih hcs _ (by omega) (by omega)

/-- The digit loop on a negative number: the value if it stays above `min`,
an overflow otherwise. -/
theorem str_to_int64_loop_neg (min max : Int) (hmin : MIN_INT64 ≤ min) (hmin0 : min ≤ 0)
    (digits rest : List Nat) (hdig : ∀ c ∈ digits, isdigit c = true) :
    ∀ acc : Int, 0 ≤ acc → min ≤ -acc →
      str_to_int64_loop true min max (digits ++ rest) (-acc) =
        if min ≤ -accumulate acc digits
        then str_to_int64_loop true min max rest (-accumulate acc digits)
        else .error WS_E_NUMERIC_OVERFLOW := by
  have hM : MIN_INT64 = -9223372036854775808 := by decide
  induction digits with
  | nil => intro acc _ h; simp [accumulate, h]
  | cons c cs ih =>
    intro acc h0 hle
    have hd := hdig c (List.mem_cons_self _ _)
    have hc := (isdigit_iff c).mp hd
    have hcs : ∀ x ∈ cs, isdigit x = true := fun x hx => hdig x (List.mem_cons_of_mem _ hx)
    have hdiv : min.tdiv 10 = -((-min) / 10) := by
      have := Int.tdiv_eq_ediv (a := -min) (b := 10) (by omega) (by omega)
      rw [Int.neg_tdiv] at this
      omega
    have hmono := accumulate_mono cs hcs (acc * 10 + ((c : Int) - 48)) (by omega)
    have hacc : accumulate acc (c :: cs) = accumulate (acc * 10 + ((c : Int) - 48)) cs := rfl
    simp only [List.cons_append, str_to_int64_loop, hd, Bool.not_true, Bool.false_eq_true,
      if_false, Bool.true_and, Bool.false_and, Bool.false_or, hdiv, hacc, if_true]
    simp only [Bool.or_eq_true, decide_eq_true_eq]
    by_cases h1 : -acc < -((-min) / 10)
    · have h3 : ¬ min ≤ -accumulate (acc * 10 + ((c : Int) - 48)) cs := by omega
      rw [if_pos (Or.inl h1), if_neg h3]
    · have w1 : wrap_int64 (-acc * 10) = -acc * 10 := wrap_int64_id _ (by omega) (by omega)
      have w2 : wrap_int64 (min - -((c : Int) - 48)) = min - -((c : Int) - 48) :=
        wrap_int64_id _ (by omega) (by omega)
      rw [w1, w2]
      by_cases h2 : -acc * 10 < min - -((c : Int) - 48)
      · have h3 : ¬ min ≤ -accumulate (acc * 10 + ((c : Int) - 48)) cs := by omega
        rw [if_pos (Or.inr h2), if_neg h3]
      · have w3 : wrap_int64 (-acc * 10 + -((c : Int) - 48)) = -(acc * 10 + ((c : Int) - 48)) := by
          rw [wrap_int64_id _ (by omega) (by omega)]
          ring
        rw [if_neg (by rintro (h | h) <;> contradiction), w3]
        exact ih hcs _ (by omega) (by omega)

theorem ite_overflow_or (b : Bool) (x : Except HRESULT Int)
    (hx : x = .error WS_E_INVALID_FORMAT ∨ x = .error WS_E_NUMERIC_OVERFLOW) :
    (if b = true then .error WS_E_NUMERIC_OVERFLOW else x) = .error WS_E_INVALID_FORMAT ∨
    (if b = true then .error WS_E_NUMERIC_OVERFLOW else x) = .error WS_E_NUMERIC_OVERFLOW := by
  cases b
  · simpa using hx
  · exact Or.inr rfl

/-- Whatever the bounds, the digit loop fails on a text with a byte that is
not a digit. -/
theorem str_to_int64_loop_non_digit (negative : Bool) (min max : Int) (text : List Nat)
    (h : ∃ c ∈ text, isdigit c = false) :
    ∀ ret : Int,
      str_to_int64_loop negative min max text ret = .error WS_E_INVALID_FORMAT ∨
      str_to_int64_loop negative min max text ret = .error WS_E_NUMERIC_OVERFLOW := by
  induction text with
  | nil => obtain ⟨c, hc, _⟩ := h; cases hc
  | cons c cs ih =>
    intro ret
    by_cases hd : isdigit c = true
    · have hcs : ∃ x ∈ cs, isdigit x = false := by
        obtain ⟨x, hx, hx2⟩ := h
        rcases List.mem_cons.mp hx with rfl | hx
        · rw [hd] at hx2; cases hx2
        · exact ⟨x, hx, hx2⟩
      simp only [str_to_int64_loop, hd, Bool.not_true, Bool.false_eq_true, if_false]
      exact ite_overflow_or _ _ (ih hcs _)
    · simp [str_to_int64_loop, hd]

/-- A text with a byte that is not a digit splits at the first such byte. -/
theorem split_at_non_digit (text : List Nat) (h : ∃ c ∈ text, isdigit c = false) :
    ∃ c post, isdigit c = false ∧ text = text.takeWhile isdigit ++ c :: post := by
  induction text with
  | nil => obtain ⟨c, hc, _⟩ := h; cases hc
  | cons c cs ih =>
    by_cases hd : isdigit c = true
    · have hcs : ∃ x ∈ cs, isdigit x = false := by
        obtain ⟨x, hx, hx2⟩ := h
        rcases List.mem_cons.mp hx with rfl | hx
        · rw [hd] at hx2; cases hx2
        · exact ⟨x, hx, hx2⟩
      obtain ⟨x, post, hx, hsplit⟩ := ih hcs
      refine ⟨x, post, hx, ?_⟩
      simp only [List.takeWhile_cons, hd, if_true, List.cons_append]
      exact congrArg _ hsplit
    · have hd2 : isdigit c = false := by simpa using hd
      exact ⟨c, cs, hd2, by simp [List.takeWhile_cons, hd2]⟩

theorem takeWhile_isdigit (text : List Nat) : ∀ c ∈ text.takeWhile isdigit, isdigit c = true :=
  fun _ hc => List.mem_takeWhile_imp hc

/-- The result of `str_to_int64` on digits with an optional sign, followed by
any text, in terms of the digit loop on that text. -/
theorem str_to_int64_loop_signed (neg : Bool) (min max : Int) (digits rest : List Nat)
    (hdig : ∀ c ∈ digits, isdigit c = true)
    (hmin : MIN_INT64 ≤ min) (hmin0 : min ≤ 0) (hmax0 : 0 ≤ max) (hmax : max ≤ MAX_INT64) :
    str_to_int64_loop neg min max (digits ++ rest) 0 =
      if min ≤ signed_value neg digits ∧ signed_value neg digits ≤ max
      then str_to_int64_loop neg min max rest (signed_value neg digits)
      else .error WS_E_NUMERIC_OVERFLOW := by
  have hv := accumulate_zero digits hdig
  have hnn : (0 : Int) ≤ (decimal_value digits : Int) := Int.ofNat_nonneg _
  cases neg with
  | false =>
    rw [str_to_int64_loop_pos min max hmax digits rest hdig 0 (le_refl _) hmax0, hv]
    simp only [signed_value, Bool.false_eq_true, if_false]
    have : min ≤ (decimal_value digits : Int) := le_trans hmin0 hnn
    simp only [this, true_and]
  | true =>
    have := str_to_int64_loop_neg min max hmin hmin0 digits rest hdig 0 (le_refl _)
      (by simpa using hmin0)
    rw [neg_zero] at this
    rw [this, hv]
    simp only [signed_value, if_true]
    have : -(decimal_value digits : Int) ≤ max := by omega
    simp only [this, and_true]

/-- `str_to_int64` in terms of the text left after the sign. -/
theorem str_to_int64_unsigned_part (str : List Nat) (min max : Int) :
    str_to_int64 str min max =
      if unsigned_part str = [] then .error WS_E_INVALID_FORMAT
      else str_to_int64_loop ((trim_space str).head? == some 45) min max (unsigned_part str) 0 := by
  unfold str_to_int64 unsigned_part
  cases ht : trim_space str with
  | nil => simp
  | cons c cs =>
    by_cases hc : c = 45
    · subst hc; simp
    · simp [hc]

/-- C1: on optional whitespace, an optional `-`, one or more decimal digits and
optional whitespace, with bounds `MIN_INT64 ≤ min ≤ 0 ≤ max ≤ MAX_INT64`,
`str_to_int64` returns the number written if it lies within `[min, max]` and
fails with `WS_E_NUMERIC_OVERFLOW` otherwise. -/
theorem str_to_int64_decimal (ws1 ws2 digits : List Nat) (neg : Bool) (min max : Int)
    (hws1 : ∀ c ∈ ws1, read_isspace c = true) (hws2 : ∀ c ∈ ws2, read_isspace c = true)
    (hne : digits ≠ []) (hdig : ∀ c ∈ digits, isdigit c = true)
    (hmin : MIN_INT64 ≤ min) (hmin0 : min ≤ 0) (hmax0 : 0 ≤ max) (hmax : max ≤ MAX_INT64) :
    str_to_int64 (ws1 ++ (if neg then [45] else []) ++ digits ++ ws2) min max =
      if min ≤ signed_value neg digits ∧ signed_value neg digits ≤ max
      then .ok (signed_value neg digits) else .error WS_E_NUMERIC_OVERFLOW := by
  obtain ⟨d, ds, rfl⟩ := List.exists_cons_of_ne_nil hne
  have hd := (isdigit_iff d).mp (hdig d (List.mem_cons_self _ _))
  have hlast : ∀ c, ((if neg then [45] else []) ++ d :: ds).getLast? = some c →
      read_isspace c = false := by
    intro c hc
    rw [List.getLast?_append_of_ne_nil _ (List.cons_ne_nil _ _)] at hc
    exact isdigit_not_space c (hdig c (List.mem_of_getLast?_eq_some hc))
  have hhead : ∀ c, ((if neg then [45] else []) ++ d :: ds).head? = some c →
      read_isspace c = false := by
    intro c hc
    cases neg
    · simp only [Bool.false_eq_true, if_false, List.nil_append, List.head?_cons,
        Option.some.injEq] at hc
      subst hc
      exact isdigit_not_space _ (hdig _ (List.mem_cons_self _ _))
    · simp only [if_true, List.singleton_append, List.head?_cons, Option.some.injEq] at hc
      subst hc
      decide
  have htrim := trim_space_surrounded ws1 ws2 _ hws1 hws2 hhead hlast
  rw [List.append_assoc ws1]
  have hloop := str_to_int64_loop_signed neg min max (d :: ds) [] hdig hmin hmin0 hmax0 hmax
  rw [List.append_nil] at hloop
  rw [str_to_int64_unsigned_part]
  unfold unsigned_part
  rw [htrim]
  have hnil : ∀ r, str_to_int64_loop neg min max [] r = .ok r := fun _ => rfl
  rw [hnil] at hloop
  cases neg
  · have h45 : ¬ d = 45 := by omega
    have e1 : ((d :: ds).head? == some 45) = false := by simp [h45]
    have e2 : ¬ (d :: ds).head? = some 45 := by simp [h45]
    simp only [Bool.false_eq_true, if_false, List.nil_append, e1, e2, List.cons_ne_nil]
    exact hloop
  · have e1 : ((45 :: d :: ds).head? == some 45) = true := by simp
    have e2 : (45 :: d :: ds).head? = some 45 := by simp
    simp only [if_true, List.singleton_append, e1, e2, List.tail_cons, List.cons_ne_nil,
      if_false]
    exact hloop

/-- The text " 127\n" with the bounds of a signed byte gives 127. -/
theorem str_to_int64_decimal_witness :
    str_to_int64 ([32] ++ (if false then [45] else []) ++ [49, 50, 55] ++ [10])
        MIN_INT8 MAX_INT8 =
      if MIN_INT8 ≤ signed_value false [49, 50, 55] ∧ signed_value false [49, 50, 55] ≤ MAX_INT8
      then .ok (signed_value false [49, 50, 55]) else .error WS_E_NUMERIC_OVERFLOW :=
  str_to_int64_decimal [32] [10] [49, 50, 55] false MIN_INT8 MAX_INT8 (by decide) (by decide)
    (by decide) (by decide) (by decide) (by decide) (by decide) (by decide)

/-- The texts "127", "128", "-128" and "-129" with the bounds of a signed byte. -/
theorem str_to_int64_signed_byte :
    str_to_int64 [49, 50, 55] MIN_INT8 MAX_INT8 = .ok 127 ∧
    str_to_int64 [49, 50, 56] MIN_INT8 MAX_INT8 = .error WS_E_NUMERIC_OVERFLOW ∧
    str_to_int64 [45, 49, 50, 56] MIN_INT8 MAX_INT8 = .ok (-128) ∧
    str_to_int64 [45, 49, 50, 57] MIN_INT8 MAX_INT8 = .error WS_E_NUMERIC_OVERFLOW := by
  decide

/-- C2 as stated fails: "128a" has a byte that is not a digit, and with the
bounds of a signed byte `str_to_int64` fails with `WS_E_NUMERIC_OVERFLOW`, not
with `WS_E_INVALID_FORMAT`. -/
theorem str_to_int64_non_digit_overflow :
    (∃ c ∈ unsigned_part [49, 50, 56, 97], isdigit c = false) ∧
    str_to_int64 [49, 50, 56, 97] MIN_INT8 MAX_INT8 = .error WS_E_NUMERIC_OVERFLOW ∧
    str_to_int64 [49, 50, 56, 97] MIN_INT8 MAX_INT8 ≠ .error WS_E_INVALID_FORMAT := by
  decide

/-- C2, amended: when the text left after trimming the whitespace and removing
one leading `-` is empty or has a byte that is not a decimal digit,
`str_to_int64` never succeeds, whatever the bounds: it fails with
`WS_E_INVALID_FORMAT` or `WS_E_NUMERIC_OVERFLOW`.  It fails with
`WS_E_INVALID_FORMAT` when that text is empty and, for bounds
`MIN_INT64 ≤ min ≤ 0 ≤ max ≤ MAX_INT64`, exactly when the digits before the
first other byte, read with the sign, give a number within `[min, max]`; when
they give a number outside, the failure is `WS_E_NUMERIC_OVERFLOW`. -/
theorem str_to_int64_non_digit (str : List Nat) (min max : Int)
    (h : unsigned_part str = [] ∨ ∃ c ∈ unsigned_part str, isdigit c = false) :
    (str_to_int64 str min max = .error WS_E_INVALID_FORMAT ∨
      str_to_int64 str min max = .error WS_E_NUMERIC_OVERFLOW) ∧
    (unsigned_part str = [] → str_to_int64 str min max = .error WS_E_INVALID_FORMAT) ∧
    (MIN_INT64 ≤ min → min ≤ 0 → 0 ≤ max → max ≤ MAX_INT64 →
      str_to_int64 str min max =
        if min ≤ signed_value ((trim_space str).head? == some 45)
              ((unsigned_part str).takeWhile isdigit) ∧
            signed_value ((trim_space str).head? == some 45)
              ((unsigned_part str).takeWhile isdigit) ≤ max
        then .error WS_E_INVALID_FORMAT else .error WS_E_NUMERIC_OVERFLOW) := by
  rw [str_to_int64_unsigned_part]
  by_cases hr : unsigned_part str = []
  · simp only [hr, if_true, true_or, forall_const, true_and, List.takeWhile_nil]
    intro _ hmin0 hmax0 _
    have h0 : ∀ b, signed_value b [] = 0 := by intro b; cases b <;> rfl
    simp [h0, hmin0, hmax0]
  · have hnd : ∃ c ∈ unsigned_part str, isdigit c = false := h.resolve_left hr
    simp only [hr, if_false, false_imp_iff, true_and]
    refine ⟨str_to_int64_loop_non_digit _ min max _ hnd 0, ?_⟩
    intro hmin hmin0 hmax0 hmax
    obtain ⟨c, post, hc, hsplit⟩ := split_at_non_digit _ hnd
    have hloop := str_to_int64_loop_signed ((trim_space str).head? == some 45) min max
      ((unsigned_part str).takeWhile isdigit) (c :: post) (takeWhile_isdigit _)
      hmin hmin0 hmax0 hmax
    rw [← hsplit] at hloop
    rw [hloop]
    simp [str_to_int64_loop, hc]

/-- The text "12a" with the bounds of a signed byte: a failure with
`WS_E_INVALID_FORMAT`, since 12 is within the bounds. -/
theorem str_to_int64_non_digit_witness :
    (∃ c ∈ unsigned_part [49, 50, 97], isdigit c = false) ∧
    str_to_int64 [49, 50, 97] MIN_INT8 MAX_INT8 = .error WS_E_INVALID_FORMAT :=
  ⟨by decide,
    ((str_to_int64_non_digit [49, 50, 97] MIN_INT8 MAX_INT8 (Or.inr (by decide))).2.2
      (by decide) (by decide) (by decide) (by decide)).trans (by decide)⟩

/-! ## Date and time -/

theorem takeWhile_append_stop {p : Nat → Bool} (l : List Nat) (x : Nat) (r : List Nat)
    (hl : ∀ c ∈ l, p c = true) (hx : p x = false) :
    (l ++ x :: r).takeWhile p = l := by
  induction l with
  | nil => simp [List.takeWhile_cons, hx]
  | cons c cs ih =>
    have hc : p c = true := hl c (List.mem_cons_self _ _)
    simp only [List.cons_append, List.takeWhile_cons, hc, if_true]
    exact congrArg _ (ih (fun y hy => hl y (List.mem_cons_of_mem _ hy)))

theorem dropWhile_append_stop {p : Nat → Bool} (l : List Nat) (x : Nat) (r : List Nat)
    (hl : ∀ c ∈ l, p c = true) (hx : p x = false) :
    (l ++ x :: r).dropWhile p = x :: r := by
  rw [dropWhile_append_all l _ hl]
  simp [List.dropWhile_cons, hx]

theorem ite_or_same {α : Type} (a b : Prop) [Decidable a] [Decidable b] (e x : α) :
    (if a ∨ b then e else x) = if a then e else (if b then e else x) := by
  by_cases ha : a <;> by_cases hb : b <;> simp [ha, hb]

theorem decimal_value_two (a b : Nat) : decimal_value [a, b] = (a - 48) * 10 + (b - 48) := by
  simp [decimal_value]

theorem decimal_value_four (a b c d : Nat) :
    decimal_value [a, b, c, d] = (a - 48) * 1000 + (b - 48) * 100 + (c - 48) * 10 + (d - 48) := by
  simp only [decimal_value, List.foldl_cons, List.foldl_nil]
  omega

theorem trim_space_date_time (t : DateTimeText) (ht : t.digits) (frac : Option (List Nat))
    (zone : Option ZoneText) (hz : ∀ z, zone = some z → z.digits) :
    trim_space (t.text ++ fraction_text frac ++ zone_text zone) =
      t.text ++ fraction_text frac ++ zone_text zone := by
  have h0 : isdigit t.y0 = true := ht _ (by simp)
  have := trim_space_surrounded [] [] (t.text ++ fraction_text frac ++ zone_text zone)
    (by simp) (by simp)
    (by
      intro c hc
      simp only [DateTimeText.text, List.cons_append, List.head?_cons, Option.some.injEq] at hc
      subst hc; exact isdigit_not_space _ h0)
    (by
      intro c hc
      cases zone with
      | none =>
        simp only [zone_text, List.getLast?_append_of_ne_nil _ (List.cons_ne_nil _ _),
          List.getLast?_singleton, Option.some.injEq] at hc
        subst hc; decide
      | some z =>
        have h3 : isdigit z.t3 = true := hz z rfl _ (by simp)
        simp only [zone_text, List.getLast?_append_of_ne_nil _ (List.cons_ne_nil _ _),
          List.getLast?_cons_cons, List.getLast?_singleton, Option.some.injEq] at hc
        subst hc; exact isdigit_not_space _ h3)
  simpa using this

/-- The decoding of a text `YYYY-MM-DDThh:mm:ss`, an optional fraction and `Z`
or a zone: the code's conditions on the fields, on the fraction and on the
zone, and then the tick count. -/
theorem str_to_datetime_fields (t : DateTimeText) (ht : t.digits) (frac : Option (List Nat))
    (hf : ∀ f, frac = some f → ∀ c ∈ f, isdigit c = true)
    (zone : Option ZoneText) (hz : ∀ z, zone = some z → z.digits) :
    str_to_datetime (t.text ++ fraction_text frac ++ zone_text zone) =
      if t.rejected ∨ ¬ fraction_ok frac then .error WS_E_INVALID_FORMAT
      else match zone with
        | none => datetime_ticks t.year t.month t.day t.hour t.minute t.second
            (sec_frac_of frac) 0 0 false WS_DATETIME_FORMAT_UTC
        | some z =>
          if z.hour > 14 ∨ z.minute > 59 ∨ (z.minute > 0 ∧ z.hour = 14)
          then .error WS_E_INVALID_FORMAT
          else datetime_ticks t.year t.month t.day t.hour t.minute t.second
            (sec_frac_of frac) z.hour z.minute z.neg WS_DATETIME_FORMAT_LOCAL := by
  have htrim := trim_space_date_time t ht frac zone hz
  obtain ⟨y0, y1, y2, y3, m0, m1, d0, d1, h0, h1, n0, n1, s0, s1⟩ := t
  simp only [DateTimeText.digits, List.mem_cons, List.mem_singleton, forall_eq_or_imp, forall_eq,
    List.not_mem_nil, false_imp_iff, implies_true, and_true] at ht
  obtain ⟨e0, e1, e2, e3, e4, e5, e6, e7, e8, e9, e10, e11, e12, e13⟩ := ht
  unfold str_to_datetime
  rw [htrim]
  have k1 : isdigit 45 = false := by decide
  have k2 : isdigit 84 = false := by decide
  have k3 : isdigit 58 = false := by decide
  have k4 : isdigit 90 = false := by decide
  have k5 : isdigit 46 = false := by decide
  have k6 : isdigit 43 = false := by decide
  simp only [DateTimeText.rejected, DateTimeText.year, DateTimeText.month, DateTimeText.day,
    DateTimeText.hour, DateTimeText.minute, DateTimeText.second, decimal_value_two,
    decimal_value_four, ite_or_same]
  cases frac with
  | none =>
    cases zone with
    | none =>
      simp [DateTimeText.text, zone_text, fraction_text, List.takeWhile_cons,
        List.dropWhile_cons, e0, e1, e2, e3, e4, e5, e6, e7, e8, e9, e10, e11, e12, e13,
        k1, k2, k3, k4, k5, k6, two_digits, sec_frac_of, fraction_ok]
    | some z =>
      obtain ⟨neg, t0, t1, t2, t3⟩ := z
      have hz' := hz _ rfl
      simp only [ZoneText.digits, List.mem_cons, List.mem_singleton, forall_eq_or_imp, forall_eq,
        List.not_mem_nil, false_imp_iff, implies_true, and_true] at hz'
      obtain ⟨z0, z1, z2, z3⟩ := hz'
      cases neg <;>
      simp [DateTimeText.text, zone_text, fraction_text, List.takeWhile_cons,
        List.dropWhile_cons, e0, e1, e2, e3, e4, e5, e6, e7, e8, e9, e10, e11, e12, e13,
        k1, k2, k3, k4, k5, k6, z0, z1, z2, z3, two_digits, sec_frac_of, fraction_ok,
        ZoneText.hour, ZoneText.minute, decimal_value_two, ite_or_same]
  | some f =>
    have hf' := hf f rfl
    have hfo : (1 ≤ f.length → 7 < f.length) = (f = [] ∨ 7 < f.length) := by
      apply propext
      cases f <;> simp
    cases zone with
    | none =>
      have tw := takeWhile_append_stop f 90 [] hf' k4
      have dw := dropWhile_append_stop f 90 [] hf' k4
      simp [DateTimeText.text, zone_text, fraction_text, List.takeWhile_cons,
        List.dropWhile_cons, e0, e1, e2, e3, e4, e5, e6, e7, e8, e9, e10, e11, e12, e13,
        k1, k2, k3, k4, k5, k6, two_digits, sec_frac_of, fraction_ok, tw, dw, hfo]
    | some z =>
      obtain ⟨neg, t0, t1, t2, t3⟩ := z
      have hz' := hz _ rfl
      simp only [ZoneText.digits, List.mem_cons, List.mem_singleton, forall_eq_or_imp, forall_eq,
        List.not_mem_nil, false_imp_iff, implies_true, and_true] at hz'
      obtain ⟨z0, z1, z2, z3⟩ := hz'
      have tw1 := takeWhile_append_stop f 45 [t0, t1, 58, t2, t3] hf' k1
      have dw1 := dropWhile_append_stop f 45 [t0, t1, 58, t2, t3] hf' k1
      have tw2 := takeWhile_append_stop f 43 [t0, t1, 58, t2, t3] hf' k6
      have dw2 := dropWhile_append_stop f 43 [t0, t1, 58, t2, t3] hf' k6
      cases neg <;>
      simp [DateTimeText.text, zone_text, fraction_text, List.takeWhile_cons,
        List.dropWhile_cons, e0, e1, e2, e3, e4, e5, e6, e7, e8, e9, e10, e11, e12, e13,
        k1, k2, k3, k4, k5, k6, z0, z1, z2, z3, two_digits, sec_frac_of, fraction_ok,
        ZoneText.hour, ZoneText.minute, decimal_value_two, ite_or_same, tw1, dw1, tw2, dw2, hfo]

/-! ### The calendar -/

theorem leap_year_iff (year : Nat) : leap_year year = true ↔ gregorian_leap year := by
  simp only [leap_year, gregorian_leap, Bool.and_eq_true, Bool.or_eq_true, beq_iff_eq,
    bne_iff_ne, ne_eq]
  omega

theorem month_days_eq (year month : Nat) (h1 : 1 ≤ month) (h2 : month ≤ 12) :
    (month_days (leap_year year)).getD (month - 1) 0 = days_in_month year month := by
  have hl := leap_year_iff year
  unfold days_in_month
  by_cases hg : gregorian_leap year
  · have : leap_year year = true := hl.mpr hg
    rw [this]
    interval_cases month <;> simp [month_days, hg]
  · have : leap_year year = false := by
      cases h : leap_year year
      · rfl
      · exact absurd (hl.mp h) hg
    rw [this]
    interval_cases month <;> simp [month_days, hg]

theorem valid_day_iff (year month day : Nat) (h1 : 1 ≤ month) (h2 : month ≤ 12) :
    valid_day year month day = true ↔ 1 ≤ day ∧ day ≤ days_in_month year month := by
  simp only [valid_day, month_days_eq year month h1 h2, Bool.and_eq_true, decide_eq_true_eq]
  omega

/-- The code rejects the fields exactly when the date or the time of day is
not valid. -/
theorem rejected_iff_not_valid (t : DateTimeText) : t.rejected ↔ ¬ t.valid := by
  unfold DateTimeText.rejected DateTimeText.valid
  by_cases hm : 1 ≤ t.month ∧ t.month ≤ 12
  · have hv := valid_day_iff t.year t.month t.day hm.1 hm.2
    cases hvd : valid_day t.year t.month t.day
    · rw [hvd] at hv
      have hnv : ¬ (1 ≤ t.day ∧ t.day ≤ days_in_month t.year t.month) := by
        intro h; exact Bool.false_ne_true (hv.mpr h)
      constructor
      · intro _ hval; exact hnv ⟨hval.2.2.2.1, hval.2.2.2.2.1⟩
      · intro _; right; right; right; left; rfl
    · rw [hvd] at hv
      have hdv := hv.mp rfl
      simp only [Bool.true_eq_false, false_or]
      omega
  · constructor
    · intro _ hval; exact hm ⟨hval.2.1, hval.2.2.1⟩
    · intro _; omega

theorem sum_year_length (n : Nat) :
    ((List.range n).map (fun y => year_length (y + 1))).sum = n * 365 + leap_days_before (n + 1) := by
  induction n with
  | zero => rfl
  | succ k ih =>
    rw [List.range_succ, List.map_append, List.sum_append, ih]
    simp only [List.map_cons, List.map_nil, List.sum_cons, List.sum_nil, year_length]
    unfold leap_days_before
    simp only [Nat.add_sub_cancel]
    by_cases hl : gregorian_leap (k + 1)
    · simp only [hl, if_true]
      unfold gregorian_leap at hl
      omega
    · simp only [hl, if_false]
      unfold gregorian_leap at hl
      omega

theorem sum_month_days (year month : Nat) (h1 : 1 ≤ month) (h2 : month ≤ 12) :
    ((List.range (month - 1)).map (fun k => days_in_month year (k + 1))).sum =
      (month_offsets (leap_year year)).getD (month - 1) 0 := by
  have hl := leap_year_iff year
  by_cases hg : gregorian_leap year
  · have : leap_year year = true := hl.mpr hg
    rw [this]
    interval_cases month <;> simp [List.range_succ, days_in_month, month_offsets, hg]
  · have : leap_year year = false := by
      cases h : leap_year year
      · rfl
      · exact absurd (hl.mp h) hg
    rw [this]
    interval_cases month <;> simp [List.range_succ, days_in_month, month_offsets, hg]

/-- The day count of the code is the number of days since 0001-01-01. -/
theorem days_from_epoch_eq (year month day : Nat) (hy : 1 ≤ year) (h1 : 1 ≤ month)
    (h2 : month ≤ 12) :
    (year - 1) * 365 + leap_days_before year + (month_offsets (leap_year year)).getD (month - 1) 0
      + (day - 1) = days_from_epoch year month day := by
  unfold days_from_epoch
  rw [sum_year_length, sum_month_days year month h1 h2]
  have : year - 1 + 1 = year := by omega
  rw [this]

/-- The loop over the digits of a fraction pads them to seven digits. -/
theorem sec_frac_eq (frac : Option (List Nat)) (h : fraction_ok frac) :
    sec_frac_of frac = fraction_value frac := by
  cases frac with
  | none => rfl
  | some f =>
    obtain ⟨h1, h2⟩ := h
    rcases f with _ | ⟨a, _ | ⟨b, _ | ⟨c, _ | ⟨d, _ | ⟨e, _ | ⟨g, _ | ⟨i, _ | ⟨j, r⟩⟩⟩⟩⟩⟩⟩⟩
    · simp at h1
    all_goals first
      | (simp only [List.length_cons] at h2; omega)
      | (simp only [sec_frac_of, fraction_value, fraction_ticks, sec_frac_loop, decimal_value,
          TICKS_PER_SEC, List.length_cons, List.length_nil, List.replicate, List.cons_append,
          List.nil_append, List.foldl_cons, List.foldl_nil]
         omega)

/-- The tick count of the code for valid fields, in terms of the calendar. -/
theorem datetime_ticks_eq (t : DateTimeText) (hv : t.valid) (frac : Option (List Nat))
    (hfo : fraction_ok frac) (tz_hour tz_min : Nat) (tz_neg : Bool)
    (format : WS_DATETIME_FORMAT) :
    datetime_ticks t.year t.month t.day t.hour t.minute t.second (sec_frac_of frac)
        tz_hour tz_min tz_neg format =
      if tz_neg then
        (if t.local_ticks frac + (tz_hour * 36000000000 + tz_min * 600000000) > TICKS_MAX
         then .error WS_E_INVALID_FORMAT
         else .ok ⟨t.local_ticks frac + (tz_hour * 36000000000 + tz_min * 600000000), format⟩)
      else
        (if tz_hour * 36000000000 + tz_min * 600000000 > t.local_ticks frac
         then .error WS_E_INVALID_FORMAT
         else .ok ⟨t.local_ticks frac - (tz_hour * 36000000000 + tz_min * 600000000), format⟩) := by
  obtain ⟨hy, hm1, hm2, _, _, _⟩ := hv
  have hdays := days_from_epoch_eq t.year t.month t.day hy hm1 hm2
  have hl : ((t.year - 1) * 365 + leap_days_before t.year) * 864000000000 +
      (month_offsets (leap_year t.year)).getD (t.month - 1) 0 * 864000000000 +
      (t.day - 1) * 864000000000 + t.hour * 36000000000 + t.minute * 600000000 +
      t.second * 10000000 + sec_frac_of frac = t.local_ticks frac := by
    unfold DateTimeText.local_ticks
    rw [← hdays, sec_frac_eq frac hfo]
    ring
  have hT : TICKS_MAX = 3155378975999999999 := rfl
  simp only [datetime_ticks, TICKS_PER_DAY, TICKS_PER_HOUR, TICKS_PER_MIN, TICKS_PER_SEC,
    Nat.reduceMul, hl]
  cases tz_neg
  · simp only [Bool.false_eq_true, if_false]
    by_cases h : tz_hour * 36000000000 + tz_min * 600000000 > t.local_ticks frac
    · simp [h]
    · simp only [h, if_false, Nat.sub_sub]
  · simp only [if_true]
    by_cases h : t.local_ticks frac + (tz_hour * 36000000000 + tz_min * 600000000) > TICKS_MAX
    · have h' : tz_hour * 36000000000 + tz_min * 600000000 + t.local_ticks frac > TICKS_MAX := by
        omega
      simp [h, h']
    · have h' : ¬ tz_hour * 36000000000 + tz_min * 600000000 + t.local_ticks frac > TICKS_MAX := by
        omega
      rw [if_neg h', if_neg h, Nat.add_assoc]

/-! ### The claims on `str_to_datetime` -/

/-- The decoding of `YYYY-MM-DDThh:mm:ss`, an optional fraction and `Z`. -/
theorem str_to_datetime_utc (t : DateTimeText) (ht : t.digits) (frac : Option (List Nat))
    (hf : ∀ f, frac = some f → ∀ c ∈ f, isdigit c = true) :
    str_to_datetime (t.text ++ fraction_text frac ++ [90]) =
      if t.valid ∧ fraction_ok frac
      then .ok ⟨t.local_ticks frac, WS_DATETIME_FORMAT_UTC⟩
      else .error WS_E_INVALID_FORMAT := by
  have h := str_to_datetime_fields t ht frac hf none (by intro z hz; cases hz)
  simp only [zone_text] at h
  rw [h]
  by_cases hv : t.valid
  · by_cases hfo : fraction_ok frac
    · have hr : ¬ t.rejected := fun hr => (rejected_iff_not_valid t).mp hr hv
      rw [if_neg (by rintro (h1 | h1); exact hr h1; exact h1 hfo), if_pos ⟨hv, hfo⟩,
        datetime_ticks_eq t hv frac hfo]
      simp
    · rw [if_pos (Or.inr hfo), if_neg (fun h1 => hfo h1.2)]
  · rw [if_pos (Or.inl ((rejected_iff_not_valid t).mpr hv)), if_neg (fun h1 => hv h1.1)]

/-- C3: on a text `DDDD-DD-DDTDD:DD:DDZ` of digits, `str_to_datetime` succeeds
if and only if the year is at least 1, the month is 1 to 12, the day is 1 to
the number of days of that month in that year (Gregorian leap-year rule), and
the time of day is at most 23:59:59 or is 24:00:00; otherwise it fails with
`WS_E_INVALID_FORMAT`. -/
theorem str_to_datetime_utc_accepts_iff_valid (t : DateTimeText) (ht : t.digits) :
    ((∃ dt, str_to_datetime (t.text ++ [90]) = .ok dt) ↔ t.valid) ∧
    (¬ t.valid → str_to_datetime (t.text ++ [90]) = .error WS_E_INVALID_FORMAT) := by
  have h := str_to_datetime_utc t ht none (by intro f hf; cases hf)
  simp only [fraction_text, List.append_nil, fraction_ok, and_true] at h
  rw [h]
  by_cases hv : t.valid
  · rw [if_pos hv]
    exact ⟨⟨fun _ => hv, fun _ => ⟨_, rfl⟩⟩, fun hn => absurd hv hn⟩
  · rw [if_neg hv]
    refine ⟨⟨?_, fun h1 => absurd h1 hv⟩, fun _ => rfl⟩
    rintro ⟨dt, hdt⟩
    cases hdt

/-- The leap day "2024-02-29T00:00:00Z" is accepted. -/
theorem str_to_datetime_utc_accepts_iff_valid_witness :
    leap_day_2024.digits ∧ leap_day_2024.valid ∧
    ∃ dt, str_to_datetime (leap_day_2024.text ++ [90]) = .ok dt :=
  ⟨by decide, by decide,
    (str_to_datetime_utc_accepts_iff_valid leap_day_2024 (by decide)).1.mpr (by decide)⟩

/-- The text "2024-02-29T00:00:00Z" is accepted and "2023-02-29T00:00:00Z" is
rejected. -/
theorem str_to_datetime_leap_day :
    str_to_datetime [50, 48, 50, 52, 45, 48, 50, 45, 50, 57, 84, 48, 48, 58, 48, 48, 58, 48, 48, 90]
      = .ok ⟨638447616000000000, WS_DATETIME_FORMAT_UTC⟩ ∧
    str_to_datetime [50, 48, 50, 51, 45, 48, 50, 45, 50, 57, 84, 48, 48, 58, 48, 48, 58, 48, 48, 90]
      = .error WS_E_INVALID_FORMAT := by
  decide

/-- C4: on `YYYY-MM-DDThh:mm:ss[.f]Z`, when the date and the time of day are
valid and the fraction, if present, has 1 to 7 digits, `str_to_datetime`
returns the days since 0001-01-01 times 864000000000, plus hh * 36000000000,
mm * 600000000, ss * 10000000 and the fraction padded to seven digits, with
the format UTC; a fraction of 0 or more than 7 digits fails with
`WS_E_INVALID_FORMAT`; and "1601-01-01T00:00:00Z" gives 504911232000000000. -/
theorem str_to_datetime_utc_ticks (t : DateTimeText) (ht : t.digits) (frac : Option (List Nat))
    (hf : ∀ f, frac = some f → ∀ c ∈ f, isdigit c = true) :
    (str_to_datetime (t.text ++ fraction_text frac ++ [90]) =
      if t.valid ∧ fraction_ok frac
      then .ok ⟨days_from_epoch t.year t.month t.day * 864000000000 + t.hour * 36000000000 +
          t.minute * 600000000 + t.second * 10000000 + fraction_value frac,
        WS_DATETIME_FORMAT_UTC⟩
      else .error WS_E_INVALID_FORMAT) ∧
    (¬ fraction_ok frac →
      str_to_datetime (t.text ++ fraction_text frac ++ [90]) = .error WS_E_INVALID_FORMAT) ∧
    str_to_datetime [49, 54, 48, 49, 45, 48, 49, 45, 48, 49, 84, 48, 48, 58, 48, 48, 58, 48, 48, 90]
      = .ok ⟨504911232000000000, WS_DATETIME_FORMAT_UTC⟩ := by
  have h := str_to_datetime_utc t ht frac hf
  refine ⟨h, ?_, by decide⟩
  intro hfo
  rw [h, if_neg (fun h1 => hfo h1.2)]

/-- The text "2024-01-01T00:00:00.5Z": a valid date with a fraction of one
digit. -/
theorem str_to_datetime_utc_ticks_witness :
    new_year_2024.digits ∧ (∀ c ∈ [53], isdigit c = true) ∧
    str_to_datetime (new_year_2024.text ++ fraction_text (some [53]) ++ [90]) =
      if new_year_2024.valid ∧ fraction_ok (some [53])
      then .ok ⟨days_from_epoch new_year_2024.year new_year_2024.month new_year_2024.day
            * 864000000000 + new_year_2024.hour * 36000000000 +
          new_year_2024.minute * 600000000 + new_year_2024.second * 10000000 +
          fraction_value (some [53]),
        WS_DATETIME_FORMAT_UTC⟩
      else .error WS_E_INVALID_FORMAT :=
  ⟨by decide, by decide,
    (str_to_datetime_utc_ticks new_year_2024 (by decide) (some [53])
      (by intro f hf; cases hf; decide)).1⟩

/-- The text "2024-01-01T00:00:00.5Z": half a second is 5000000 ticks. -/
theorem str_to_datetime_half_second :
    str_to_datetime [50, 48, 50, 52, 45, 48, 49, 45, 48, 49, 84, 48, 48, 58, 48, 48, 58, 48, 48,
      46, 53, 90] = .ok ⟨638396640005000000, WS_DATETIME_FORMAT_UTC⟩ := by
  decide

/-- C5: on a valid date and time followed by `+HH:MM` or `-HH:MM`,
`str_to_datetime` fails with `WS_E_INVALID_FORMAT` unless HH ≤ 14, MM ≤ 59 and
MM = 0 when HH = 14; otherwise, with L the ticks of the local date and time
and O the offset, the result is L - O for `+` and L + O for `-` with the format
LOCAL, and the call fails with `WS_E_INVALID_FORMAT` when O > L for `+` or
L + O > TICKS_MAX for `-`. -/
theorem str_to_datetime_zone (t : DateTimeText) (ht : t.digits) (hv : t.valid)
    (frac : Option (List Nat)) (hf : ∀ f, frac = some f → ∀ c ∈ f, isdigit c = true)
    (hfo : fraction_ok frac) (z : ZoneText) (hz : z.digits) :
    str_to_datetime (t.text ++ fraction_text frac ++ zone_text (some z)) =
      if z.hour > 14 ∨ z.minute > 59 ∨ (z.hour = 14 ∧ z.minute ≠ 0)
      then .error WS_E_INVALID_FORMAT
      else if z.neg then
        (if t.local_ticks frac + z.offset > TICKS_MAX then .error WS_E_INVALID_FORMAT
         else .ok ⟨t.local_ticks frac + z.offset, WS_DATETIME_FORMAT_LOCAL⟩)
      else
        (if z.offset > t.local_ticks frac then .error WS_E_INVALID_FORMAT
         else .ok ⟨t.local_ticks frac - z.offset, WS_DATETIME_FORMAT_LOCAL⟩) := by
  have h := str_to_datetime_fields t ht frac hf (some z) (by intro z' hz'; cases hz'; exact hz)
  have hr : ¬ t.rejected := fun hr => (rejected_iff_not_valid t).mp hr hv
  rw [h, if_neg (by rintro (h1 | h1); exact hr h1; exact h1 hfo)]
  simp only [datetime_ticks_eq t hv frac hfo, ZoneText.offset]
  by_cases hb : z.hour > 14 ∨ z.minute > 59 ∨ (z.hour = 14 ∧ z.minute ≠ 0)
  · have hb' : z.hour > 14 ∨ z.minute > 59 ∨ (z.minute > 0 ∧ z.hour = 14) := by omega
    rw [if_pos hb, if_pos hb']
  · have hb' : ¬ (z.hour > 14 ∨ z.minute > 59 ∨ (z.minute > 0 ∧ z.hour = 14)) := by omega
    rw [if_neg hb, if_neg hb']

/-- The text "2024-01-01T00:00:00+14:00": a valid date with the largest zone. -/
theorem str_to_datetime_zone_witness :
    new_year_2024.digits ∧ new_year_2024.valid ∧ fraction_ok none ∧
    ZoneText.digits ⟨false, 49, 52, 48, 48⟩ ∧
    str_to_datetime (new_year_2024.text ++ fraction_text none ++
        zone_text (some ⟨false, 49, 52, 48, 48⟩)) =
      if ZoneText.hour ⟨false, 49, 52, 48, 48⟩ > 14 ∨ ZoneText.minute ⟨false, 49, 52, 48, 48⟩ > 59 ∨
          (ZoneText.hour ⟨false, 49, 52, 48, 48⟩ = 14 ∧ ZoneText.minute ⟨false, 49, 52, 48, 48⟩ ≠ 0)
      then .error WS_E_INVALID_FORMAT
      else if (⟨false, 49, 52, 48, 48⟩ : ZoneText).neg then
        (if new_year_2024.local_ticks none + ZoneText.offset ⟨false, 49, 52, 48, 48⟩ > TICKS_MAX
         then .error WS_E_INVALID_FORMAT
         else .ok ⟨new_year_2024.local_ticks none + ZoneText.offset ⟨false, 49, 52, 48, 48⟩,
           WS_DATETIME_FORMAT_LOCAL⟩)
      else
        (if ZoneText.offset ⟨false, 49, 52, 48, 48⟩ > new_year_2024.local_ticks none
         then .error WS_E_INVALID_FORMAT
         else .ok ⟨new_year_2024.local_ticks none - ZoneText.offset ⟨false, 49, 52, 48, 48⟩,
           WS_DATETIME_FORMAT_LOCAL⟩) :=
  ⟨by decide, by decide, by decide, by decide,
    str_to_datetime_zone new_year_2024 (by decide) (by decide) none (by intro f hf; cases hf)
      (by decide) ⟨false, 49, 52, 48, 48⟩ (by decide)⟩

/-- The texts "2024-01-01T00:00:00+14:00" and "2024-01-01T00:00:00-13:59". -/
theorem str_to_datetime_zone_examples :
    str_to_datetime [50, 48, 50, 52, 45, 48, 49, 45, 48, 49, 84, 48, 48, 58, 48, 48, 58, 48, 48,
      43, 49, 52, 58, 48, 48] = .ok ⟨638396136000000000, WS_DATETIME_FORMAT_LOCAL⟩ ∧
    str_to_datetime [50, 48, 50, 52, 45, 48, 49, 45, 48, 49, 84, 48, 48, 58, 48, 48, 58, 48, 48,
      45, 49, 51, 58, 53, 57] = .ok ⟨638397143400000000, WS_DATETIME_FORMAT_LOCAL⟩ ∧
    str_to_datetime [50, 48, 50, 52, 45, 48, 49, 45, 48, 49, 84, 48, 48, 58, 48, 48, 58, 48, 48,
      43, 49, 52, 58, 48, 49] = .error WS_E_INVALID_FORMAT := by
  decide

/-- C6 fails on the code: "9999-12-31T24:00:00Z" and "9999-12-31T24:00:00+00:00"
are accepted with a tick count of TICKS_MAX + 1, where TICKS_MAX is the tick
count of "9999-12-31T23:59:59.9999999Z"; only the branch of a negative zone
compares the result with TICKS_MAX, and there the same date and time is
rejected. -/
theorem str_to_datetime_exceeds_ticks_max :
    str_to_datetime [57, 57, 57, 57, 45, 49, 50, 45, 51, 49, 84, 50, 52, 58, 48, 48, 58, 48, 48, 90]
      = .ok ⟨TICKS_MAX + 1, WS_DATETIME_FORMAT_UTC⟩ ∧
    str_to_datetime [57, 57, 57, 57, 45, 49, 50, 45, 51, 49, 84, 50, 52, 58, 48, 48, 58, 48, 48,
      43, 48, 48, 58, 48, 48] = .ok ⟨TICKS_MAX + 1, WS_DATETIME_FORMAT_LOCAL⟩ ∧
    str_to_datetime [57, 57, 57, 57, 45, 49, 50, 45, 51, 49, 84, 50, 52, 58, 48, 48, 58, 48, 48,
      45, 48, 48, 58, 48, 48] = .error WS_E_INVALID_FORMAT ∧
    str_to_datetime [57, 57, 57, 57, 45, 49, 50, 45, 51, 49, 84, 50, 51, 58, 53, 57, 58, 53, 57,
      46, 57, 57, 57, 57, 57, 57, 57, 90] = .ok ⟨TICKS_MAX, WS_DATETIME_FORMAT_UTC⟩ := by
  decide

/-! ## File times -/

/-- Two 32-bit halves put together with shift and or give back the number. -/
theorem halves_or (ticks : Nat) (h : ticks < 2 ^ 64) :
    ((((ticks >>> 32) % 2 ^ 32) <<< 32) % 2 ^ 64) ||| (ticks % 2 ^ 32) = ticks := by
  rw [Nat.shiftRight_eq_div_pow, Nat.shiftLeft_eq]
  have h1 : ticks / 2 ^ 32 % 2 ^ 32 = ticks / 2 ^ 32 := by omega
  have h2 : ticks / 2 ^ 32 * 2 ^ 32 % 2 ^ 64 = 2 ^ 32 * (ticks / 2 ^ 32) := by omega
  rw [h1, h2, ← Nat.mul_add_lt_is_or (by omega)]
  omega

/-- C7: for `TICKS_1601_01_01 ≤ dt.ticks ≤ TICKS_MAX`, `WsDateTimeToFileTime`
succeeds and `WsFileTimeToDateTime` applied to its result succeeds and returns
`dt.ticks` with the format UTC; `WsDateTimeToFileTime` fails with
`WS_E_INVALID_FORMAT` when `dt.ticks < TICKS_1601_01_01`. -/
theorem filetime_round_trip (dt : WS_DATETIME) :
    (TICKS_1601_01_01 ≤ dt.ticks → dt.ticks ≤ TICKS_MAX →
      ∃ ft, WsDateTimeToFileTime (some dt) true = .ok ft ∧
        WsFileTimeToDateTime (some ft) true = .ok ⟨dt.ticks, WS_DATETIME_FORMAT_UTC⟩) ∧
    (dt.ticks < TICKS_1601_01_01 →
      WsDateTimeToFileTime (some dt) true = .error WS_E_INVALID_FORMAT) := by
  have h1601 : TICKS_1601_01_01 = 504911232000000000 := rfl
  have hmax : TICKS_MAX = 3155378975999999999 := rfl
  have hu : MAX_UINT64 = 18446744073709551615 := rfl
  constructor
  · intro hlo hhi
    refine ⟨{ dwHighDateTime := ((dt.ticks - TICKS_1601_01_01) >>> 32) % 2 ^ 32,
              dwLowDateTime := (dt.ticks - TICKS_1601_01_01) % 2 ^ 32 }, ?_, ?_⟩
    · simp only [WsDateTimeToFileTime, if_neg (Nat.not_lt.mpr hlo)]
    simp only [WsFileTimeToDateTime]
    rw [halves_or _ (by omega)]
    rw [if_neg (by omega), if_neg (by omega), Nat.sub_add_cancel hlo]
  · intro hlt
    simp only [WsDateTimeToFileTime, if_pos hlt]

/-- The date-time "2024-01-01T00:00:00.5Z" goes to a file time and back, and a
date-time of the year 1600 has no file time. -/
theorem filetime_round_trip_witness :
    (TICKS_1601_01_01 ≤ 638396640005000000 ∧ 638396640005000000 ≤ TICKS_MAX ∧
      ∃ ft, WsDateTimeToFileTime (some ⟨638396640005000000, WS_DATETIME_FORMAT_UTC⟩) true = .ok ft ∧
        WsFileTimeToDateTime (some ft) true =
          .ok ⟨638396640005000000, WS_DATETIME_FORMAT_UTC⟩) ∧
    (504911231999999999 < TICKS_1601_01_01 ∧
      WsDateTimeToFileTime (some ⟨504911231999999999, WS_DATETIME_FORMAT_UTC⟩) true =
        .error WS_E_INVALID_FORMAT) :=
  ⟨⟨by decide, by decide,
      (filetime_round_trip ⟨638396640005000000, WS_DATETIME_FORMAT_UTC⟩).1 (by decide) (by decide)⟩,
    ⟨by decide,
      (filetime_round_trip ⟨504911231999999999, WS_DATETIME_FORMAT_UTC⟩).2 (by decide)⟩⟩

/-! ## Base64 -/

theorem shiftLeft_or (x y k : Nat) (hy : y < 2 ^ k) : (x <<< k) ||| y = x * 2 ^ k + y := by
  rw [Nat.shiftLeft_eq, Nat.mul_comm, Nat.mul_add_lt_is_or hy]

theorem decode_char_base64_char (v : Nat) (hv : v < 64) : decode_char (base64_char v) = v := by
  unfold base64_char decode_char
  split_ifs <;> omega

theorem base64_char_ne_pad (v : Nat) : base64_char v ≠ 61 := by
  unfold base64_char
  split_ifs <;> omega

theorem base64_char_not_space (v : Nat) : read_isspace (base64_char v) = false := by
  simp only [read_isspace, Bool.or_eq_false_iff, beq_eq_false_iff_ne, ne_eq]
  unfold base64_char
  split_ifs <;> omega

/-- The first byte of a group, from its first two characters. -/
theorem decode_first (a b : Nat) (ha : a < 256) (hb : b < 256) :
    (((a / 4) <<< 2) ||| ((a % 4 * 16 + b / 16) >>> 4)) % 256 = a := by
  rw [Nat.shiftRight_eq_div_pow, shiftLeft_or _ _ _ (by omega)]
  omega

/-- The second byte of a group, from its second and third characters. -/
theorem decode_second (a b c : Nat) (_ha : a < 256) (hb : b < 256) (hc : c < 256) :
    (((a % 4 * 16 + b / 16) <<< 4) ||| ((b % 16 * 4 + c / 64) >>> 2)) % 256 = b := by
  rw [Nat.shiftRight_eq_div_pow, shiftLeft_or _ _ _ (by omega)]
  omega

/-- The third byte of a group, from its third and fourth characters. -/
theorem decode_third (b c : Nat) (_hb : b < 256) (hc : c < 256) :
    (((b % 16 * 4 + c / 64) <<< 6) ||| (c % 64)) % 256 = c := by
  rw [shiftLeft_or _ _ _ (by omega)]
  omega

theorem base64_encode_ne_nil (b : List Nat) (hb : b ≠ []) : base64_encode b ≠ [] := by
  rcases b with _ | ⟨x, _ | ⟨y, _ | ⟨z, r⟩⟩⟩
  · exact absurd rfl hb
  all_goals simp [base64_encode]

theorem base64_encode_length (b : List Nat) : (base64_encode b).length % 4 = 0 := by
  induction b using base64_encode.induct with
  | case1 => rfl
  | case2 a => simp [base64_encode]
  | case3 a b => simp [base64_encode]
  | case4 a b c rest ih =>
    simp only [base64_encode, List.length_cons]
    omega

/-- Decoding the encoding of a non-empty byte sequence appends the bytes to the
buffer and returns the new length. -/
theorem decode_base64_encode (b : List Nat) :
    ∀ buf : List Nat, b ≠ [] → (∀ x ∈ b, x < 256) →
      decode_base64 (base64_encode b) buf = some (buf.length + b.length, buf ++ b) := by
  induction b using base64_encode.induct with
  | case1 => intro _ h; exact absurd rfl h
  | case2 a =>
    intro buf _ hlt
    have ha : a < 256 := hlt a (by simp)
    have e1 := decode_first a 0 ha (by omega)
    simp only [Nat.zero_div, Nat.add_zero] at e1
    simp only [base64_encode, decode_base64, if_true,
      decode_char_base64_char (a / 4) (by omega), decode_char_base64_char (a % 4 * 16) (by omega),
      e1, List.length_singleton]
    rw [if_neg (by omega), if_neg (by omega)]
  | case3 a b =>
    intro buf _ hlt
    have ha : a < 256 := hlt a (by simp)
    have hb : b < 256 := hlt b (by simp)
    have e1 := decode_first a b ha hb
    have e2 := decode_second a b 0 ha hb (by omega)
    simp only [Nat.zero_div, Nat.add_zero] at e2
    simp only [base64_encode, decode_base64, if_true, base64_char_ne_pad, if_false,
      decode_char_base64_char (a / 4) (by omega),
      decode_char_base64_char (a % 4 * 16 + b / 16) (by omega),
      decode_char_base64_char (b % 16 * 4) (by omega), e1, e2, List.length_cons,
      List.length_nil]
    rw [if_neg (by omega), if_neg (by omega), if_neg (by omega)]
  | case4 a b c rest ih =>
    intro buf _ hlt
    have ha : a < 256 := hlt a (by simp)
    have hb : b < 256 := hlt b (by simp)
    have hc : c < 256 := hlt c (by simp)
    have hrest : ∀ x ∈ rest, x < 256 := fun x hx => hlt x (by simp [hx])
    have e1 := decode_first a b ha hb
    have e2 := decode_second a b c ha hb hc
    have e3 := decode_third b c hb hc
    have d0 := decode_char_base64_char (a / 4) (by omega)
    have d1 := decode_char_base64_char (a % 4 * 16 + b / 16) (by omega)
    have d2 := decode_char_base64_char (b % 16 * 4 + c / 64) (by omega)
    have d3 := decode_char_base64_char (c % 64) (by omega)
    by_cases hr : rest = []
    · subst hr
      simp only [base64_encode, decode_base64, base64_char_ne_pad, if_false, d0, d1, d2, d3,
        e1, e2, e3, List.length_cons, List.length_nil]
      rw [if_neg (by omega), if_neg (by omega), if_neg (by omega), if_neg (by omega)]
    · obtain ⟨p4, more, hmore⟩ := List.exists_cons_of_ne_nil (base64_encode_ne_nil rest hr)
      have := ih (buf ++ [a, b, c]) hr hrest
      rw [hmore] at this
      simp only [base64_encode, hmore, decode_base64, d0, d1, d2, d3, e1, e2, e3]
      rw [if_neg (by omega), if_neg (by omega), if_neg (by omega), if_neg (by omega), this]
      simp only [List.length_append, List.length_cons, List.length_nil, List.append_assoc,
        List.cons_append, List.nil_append]
      congr 2
      omega

theorem base64_encode_head (b : List Nat) :
    ∀ c, (base64_encode b).head? = some c → read_isspace c = false := by
  intro c hc
  rcases b with _ | ⟨x, _ | ⟨y, _ | ⟨z, r⟩⟩⟩ <;>
    simp only [base64_encode, List.head?_nil, List.head?_cons, Option.some.injEq] at hc
  · cases hc
  all_goals (subst hc; exact base64_char_not_space _)

theorem base64_encode_last (b : List Nat) :
    ∀ c, (base64_encode b).getLast? = some c → read_isspace c = false := by
  induction b using base64_encode.induct with
  | case1 => intro c hc; simp [base64_encode] at hc
  | case2 a => intro c hc; simp [base64_encode] at hc; subst hc; decide
  | case3 a b => intro c hc; simp [base64_encode] at hc; subst hc; decide
  | case4 a b c rest ih =>
    intro x hx
    by_cases hr : rest = []
    · subst hr
      simp [base64_encode] at hx
      subst hx
      exact base64_char_not_space _
    · obtain ⟨p4, more, hmore⟩ := List.exists_cons_of_ne_nil (base64_encode_ne_nil rest hr)
      simp only [base64_encode, hmore, List.getLast?_cons_cons] at hx
      rw [hmore] at ih
      exact ih x hx

/-- C8: for every non-empty sequence of bytes, `str_to_bytes` applied to its
standard padded base64 encoding, optionally surrounded by whitespace, returns
`S_OK` with the length and the bytes of the sequence (when the heap provides
the buffer). -/
theorem str_to_bytes_base64_encode (b ws1 ws2 : List Nat) (ws_alloc : Nat → Bool)
    (hne : b ≠ []) (hbytes : ∀ x ∈ b, x < 256)
    (hws1 : ∀ c ∈ ws1, read_isspace c = true) (hws2 : ∀ c ∈ ws2, read_isspace c = true)
    (halloc : ws_alloc ((base64_encode b).length * 3 / 4) = true) :
    str_to_bytes (ws1 ++ base64_encode b ++ ws2) ws_alloc =
      some (.ok { length := b.length, bytes := b }) := by
  have htrim := trim_space_surrounded ws1 ws2 _ hws1 hws2 (base64_encode_head b)
    (base64_encode_last b)
  unfold str_to_bytes
  simp only [htrim, base64_encode_length, ne_eq, not_true_eq_false, if_false, halloc,
    Bool.not_true, Bool.false_eq_true, decode_base64_encode b [] hne hbytes, Option.map_some',
    List.length_nil, Nat.zero_add, List.nil_append]

/-- The text " QQ==\n" decodes to the single byte 0x41. -/
theorem str_to_bytes_base64_encode_witness :
    str_to_bytes ([32] ++ base64_encode [0x41] ++ [10]) (fun _ => true) =
      some (.ok { length := [0x41].length, bytes := [0x41] }) ∧
    [32] ++ base64_encode [0x41] ++ [10] = [32, 81, 81, 61, 61, 10] :=
  ⟨str_to_bytes_base64_encode [0x41] [32] [10] (fun _ => true) (by decide) (by decide)
    (by decide) (by decide) rfl, by decide⟩

/-- C9 fails on the code: "!!!!" has no character of the alphabet, "QUJD!!!!"
has one group outside the alphabet and "QQ=!" has a byte that is neither of
the alphabet nor padding after the padding, and `str_to_bytes` returns `S_OK`
for each of them, with the length 0 for the first two: the count 0 that
`decode_base64` returns for a byte outside the alphabet is stored as the
length.  A length that is not a multiple of 4 fails with
`WS_E_INVALID_FORMAT`. -/
theorem str_to_bytes_outside_alphabet :
    str_to_bytes [33, 33, 33, 33] (fun _ => true) = some (.ok { length := 0, bytes := [] }) ∧
    str_to_bytes [81, 85, 74, 68, 33, 33, 33, 33] (fun _ => true) =
      some (.ok { length := 0, bytes := [65, 66, 67] }) ∧
    str_to_bytes [81, 81, 61, 33] (fun _ => true) = some (.ok { length := 1, bytes := [65] }) ∧
    str_to_bytes [81, 85, 74] (fun _ => true) = some (.error WS_E_INVALID_FORMAT) := by
  decide

/-- The part of C9 that holds: a text whose length after trimming is not a
multiple of 4 fails with `WS_E_INVALID_FORMAT`. -/
theorem str_to_bytes_length (str : List Nat) (ws_alloc : Nat → Bool)
    (h : (trim_space str).length % 4 ≠ 0) :
    str_to_bytes str ws_alloc = some (.error WS_E_INVALID_FORMAT) := by
  unfold str_to_bytes
  simp only [h, ne_eq, not_false_eq_true, if_true]

/-! ## Character entities -/

theorem escape_length_pos (c : Nat) (s : List Nat) :
    (escape s).length + 1 ≤ (escape (c :: s)).length := by
  simp only [escape, List.length_append]
  split_ifs <;> simp only [List.length_cons, List.length_nil] <;> omega

/-- The loop of `decode_text` on an escaped text gives back the text. -/
theorem decode_text_loop_escape (s : List Nat) :
    ∀ (fuel : Nat) (q : List Nat) (ret_len : Nat), (escape s).length ≤ fuel →
      decode_text_loop fuel (escape s) q ret_len = (S_OK, q ++ s, ret_len + s.length) := by
  induction s with
  | nil =>
    intro fuel q n _
    simp only [escape, List.append_nil, List.length_nil, Nat.add_zero]
    cases fuel <;> rw [decode_text_loop]
  | cons c s ih =>
    intro fuel q n hfuel
    have hpos := escape_length_pos c s
    obtain ⟨f, rfl⟩ : ∃ f, fuel = f + 1 := ⟨fuel - 1, by omega⟩
    have hf : (escape s).length ≤ f := by omega
    have hrec := fun q n => ih f q n hf
    have hq : ∀ x : Nat, q ++ [x] ++ s = q ++ x :: s := by intro x; simp
    by_cases h1 : c = 38
    · subst h1
      have hr : decode_reference (97 :: 109 :: 112 :: 59 :: escape s) = some ([38], escape s) := by
        simp [decode_reference]
      simp only [escape, if_true, List.cons_append, List.nil_append]
      rw [decode_text_loop, if_pos rfl, hr]
      simp only [hrec, hq, List.length_cons, List.length_nil, Nat.add_assoc, Nat.add_comm 1,
        Nat.zero_add]
    by_cases h2 : c = 60
    · subst h2
      have hr : decode_reference (108 :: 116 :: 59 :: escape s) = some ([60], escape s) := by
        simp [decode_reference]
      simp only [escape, if_true, List.cons_append, List.nil_append, Nat.reduceEqDiff, if_false]
      rw [decode_text_loop, if_pos rfl, hr]
      simp only [hrec, hq, List.length_cons, List.length_nil, Nat.add_assoc, Nat.add_comm 1,
        Nat.zero_add]
    by_cases h3 : c = 62
    · subst h3
      have hr : decode_reference (103 :: 116 :: 59 :: escape s) = some ([62], escape s) := by
        simp [decode_reference]
      simp only [escape, if_true, List.cons_append, List.nil_append, Nat.reduceEqDiff, if_false]
      rw [decode_text_loop, if_pos rfl, hr]
      simp only [hrec, hq, List.length_cons, List.length_nil, Nat.add_assoc, Nat.add_comm 1,
        Nat.zero_add]
    by_cases h4 : c = 34
    · subst h4
      have hr : decode_reference (113 :: 117 :: 111 :: 116 :: 59 :: escape s)
          = some ([34], escape s) := by
        simp [decode_reference]
      simp only [escape, if_true, List.cons_append, List.nil_append, Nat.reduceEqDiff, if_false]
      rw [decode_text_loop, if_pos rfl, hr]
      simp only [hrec, hq, List.length_cons, List.length_nil, Nat.add_assoc, Nat.add_comm 1,
        Nat.zero_add]
    by_cases h5 : c = 39
    · subst h5
      have hr : decode_reference (97 :: 112 :: 111 :: 115 :: 59 :: escape s)
          = some ([39], escape s) := by
        simp [decode_reference]
      simp only [escape, if_true, List.cons_append, List.nil_append, Nat.reduceEqDiff, if_false]
      rw [decode_text_loop, if_pos rfl, hr]
      simp only [hrec, hq, List.length_cons, List.length_nil, Nat.add_assoc, Nat.add_comm 1,
        Nat.zero_add]
    simp only [escape, h1, h2, h3, h4, h5, if_false, List.cons_append, List.nil_append]
    rw [decode_text_loop, if_neg h1]
    simp only [hrec, hq, List.length_cons, Nat.add_assoc, Nat.add_comm 1]

/-- C10: `decode_text` applied to the escaping of a byte string `s` (`&`, `<`,
`>`, `"` and `'` replaced by their entities) returns `S_OK` with the output
`s` and the output length `|s|`; and "&amp;lt;" gives "&lt;". -/
theorem decode_text_escape (s : List Nat) :
    decode_text (escape s) = (S_OK, s, s.length) ∧
    decode_text [38, 97, 109, 112, 59, 108, 116, 59] = (S_OK, [38, 108, 116, 59], 4) := by
  refine ⟨?_, by decide⟩
  have := decode_text_loop_escape s (escape s).length [] 0 (le_refl _)
  simpa [decode_text] using this

theorem length_drop_lt (p : List Nat) (k : Nat) (l : List Nat) (hk : 0 < l.length)
    (h : p.take k = l) (hl : l.length = k) : (p.drop k).length < p.length := by
  have := congrArg List.length h
  rw [List.length_take] at this
  rw [List.length_drop]
  omega

theorem length_tail_lt (p : List Nat) (h : p ≠ []) : p.tail.length < p.length := by
  cases p with
  | nil => exact absurd rfl h
  | cons c cs => simp

theorem length_tail_le (p : List Nat) : p.tail.length ≤ p.length := by
  cases p <;> simp

theorem length_dropWhile_le (f : Nat → Bool) (p : List Nat) :
    (p.dropWhile f).length ≤ p.length :=
  (List.dropWhile_sublist f).length_le

/-- The input left after a reference is not longer than the input was. -/
theorem decode_reference_shorter (p written rest : List Nat)
    (h : decode_reference p = some (written, rest)) : rest.length < p.length + 1 := by
  unfold decode_reference at h
  by_cases h0 : p = []
  · rw [if_pos h0] at h; cases h
  rw [if_neg h0] at h
  by_cases h1 : p.take 3 = [108, 116, 59]
  · rw [if_pos h1] at h
    cases h
    have := length_drop_lt p 3 _ (by decide) h1 rfl
    omega
  rw [if_neg h1] at h
  by_cases h2 : p.take 3 = [103, 116, 59]
  · rw [if_pos h2] at h
    cases h
    have := length_drop_lt p 3 _ (by decide) h2 rfl
    omega
  rw [if_neg h2] at h
  by_cases h3 : p.take 5 = [113, 117, 111, 116, 59]
  · rw [if_pos h3] at h
    cases h
    have := length_drop_lt p 5 _ (by decide) h3 rfl
    omega
  rw [if_neg h3] at h
  by_cases h4 : p.take 4 = [97, 109, 112, 59]
  · rw [if_pos h4] at h
    cases h
    have := length_drop_lt p 4 _ (by decide) h4 rfl
    omega
  rw [if_neg h4] at h
  by_cases h5 : p.take 5 = [97, 112, 111, 115, 59]
  · rw [if_pos h5] at h
    cases h
    have := length_drop_lt p 5 _ (by decide) h5 rfl
    omega
  rw [if_neg h5] at h
  by_cases h6 : p.head? = some 35
  · rw [if_pos h6] at h
    dsimp only at h
    have t1 := length_tail_le p
    by_cases h7 : p.tail = []
    · rw [if_pos h7] at h; cases h
    rw [if_neg h7] at h
    by_cases h8 : p.tail.head? = some 120
    · rw [if_pos h8] at h
      have t2 := length_tail_le p.tail
      have t3 := length_dropWhile_le isxdigit p.tail.tail
      have t4 := length_tail_le (List.dropWhile isxdigit p.tail.tail)
      by_cases h9 : List.dropWhile isxdigit p.tail.tail = []
      · rw [if_pos h9] at h; cases h
      rw [if_neg h9] at h
      split at h
      · cases h
      · cases hc : codepoint_to_utf8 (hex_value (List.takeWhile isxdigit p.tail.tail)) with
        | none => rw [hc] at h; cases h
        | some u =>
          rw [hc] at h
          simp only [Option.map_some', Option.some.injEq, Prod.mk.injEq] at h
          obtain ⟨_, rfl⟩ := h
          omega
    rw [if_neg h8] at h
    split at h
    · have t3 := length_dropWhile_le (fun c => c == 48) p.tail
      have t4 := length_dropWhile_le isdigit (List.dropWhile (fun c => c == 48) p.tail)
      have t5 := length_tail_le
        (List.dropWhile isdigit (List.dropWhile (fun c => c == 48) p.tail))
      split at h
      · cases h
      · split at h
        · cases h
        · split at h
          · cases h
          · cases hc : codepoint_to_utf8 (List.foldl (fun cp c => cp * 10 + (c - 48)) 0
                (List.takeWhile isdigit (List.dropWhile (fun c => c == 48) p.tail))) with
            | none => rw [hc] at h; cases h
            | some u =>
              rw [hc] at h
              simp only [Option.map_some', Option.some.injEq, Prod.mk.injEq] at h
              obtain ⟨_, rfl⟩ := h
              omega
    · cases h
  rw [if_neg h6] at h
  cases h

/-- The bound on the iterations of the loop of `decode_text` is never used
up: every iteration takes at least one byte of the input. -/
theorem decode_text_loop_bound (fuel : Nat) :
    ∀ (p q : List Nat) (ret_len : Nat), p.length ≤ fuel →
      (decode_text_loop fuel p q ret_len).1 = S_OK ∨
      (decode_text_loop fuel p q ret_len).1 = WS_E_INVALID_FORMAT := by
  induction fuel with
  | zero =>
    intro p q n hp
    have : p = [] := List.eq_nil_of_length_eq_zero (by omega)
    subst this
    left; rw [decode_text_loop]
  | succ f ih =>
    intro p q n hp
    cases p with
    | nil => left; rw [decode_text_loop]
    | cons c p =>
      rw [decode_text_loop]
      simp only [List.length_cons] at hp
      by_cases hc : c = 38
      · rw [if_pos hc]
        cases hr : decode_reference p with
        | none => right; rfl
        | some r =>
          obtain ⟨w, rest⟩ := r
          have := decode_reference_shorter p w rest hr
          exact ih rest _ _ (by omega)
      · rw [if_neg hc]
        exact ih p _ _ (by omega)

/-- `decode_text` returns `S_OK` or `WS_E_INVALID_FORMAT`. -/
theorem decode_text_result (str : List Nat) :
    (decode_text str).1 = S_OK ∨ (decode_text str).1 = WS_E_INVALID_FORMAT :=
  decode_text_loop_bound str.length str [] 0 (le_refl _)

/-! ### Numeric character references -/

theorem or_eq_add_of_lt (a b i : Nat) (hb : b < 2 ^ i) (ha : 2 ^ i ∣ a) : a ||| b = a + b := by
  obtain ⟨k, rfl⟩ := ha
  exact (Nat.mul_add_lt_is_or hb k).symm

theorem and_63 (x : Nat) : x &&& 0x3f = x % 64 :=
  Nat.and_pow_two_sub_one_eq_mod x 6

/-- `codepoint_to_utf8` writes the standard UTF-8 encoding. -/
theorem codepoint_to_utf8_eq (cp : Nat) (h : encodable cp) :
    codepoint_to_utf8 cp = some (utf8_encode cp) := by
  obtain ⟨h1, h2, h3, h4, h5⟩ := h
  unfold codepoint_to_utf8 utf8_encode
  simp only [Nat.shiftRight_eq_div_pow, and_63]
  rw [if_neg (by omega)]
  by_cases c1 : cp < 0x80
  · rw [if_pos c1, if_pos c1]
  rw [if_neg c1, if_neg c1]
  by_cases c2 : cp < 0x800
  · rw [if_pos c2, if_pos c2]
    rw [or_eq_add_of_lt 0xc0 (cp / 2 ^ 6) 6 (by omega) ⟨3, rfl⟩,
      or_eq_add_of_lt 0x80 (cp % 64) 7 (by omega) ⟨1, rfl⟩]
    have : (0xc0 + cp / 2 ^ 6) % 256 = 0xC0 + cp / 64 := by omega
    rw [this]
  rw [if_neg c2, if_neg c2, if_neg (by omega)]
  by_cases c3 : cp < 0x10000
  · rw [if_pos c3, if_pos c3]
    rw [or_eq_add_of_lt 0xe0 (cp / 2 ^ 6 / 2 ^ 6) 5 (by omega) ⟨7, rfl⟩,
      or_eq_add_of_lt 0x80 (cp / 2 ^ 6 % 64) 7 (by omega) ⟨1, rfl⟩,
      or_eq_add_of_lt 0x80 (cp % 64) 7 (by omega) ⟨1, rfl⟩]
    have e1 : (0xe0 + cp / 2 ^ 6 / 2 ^ 6) % 256 = 0xE0 + cp / 4096 := by omega
    have e2 : cp / 2 ^ 6 % 64 = cp / 64 % 64 := by omega
    rw [e1, e2]
  rw [if_neg c3, if_neg c3, if_neg (by omega)]
  rw [or_eq_add_of_lt 0xf0 (cp / 2 ^ 6 / 2 ^ 6 / 2 ^ 6) 4 (by omega) ⟨15, rfl⟩,
    or_eq_add_of_lt 0x80 (cp / 2 ^ 6 / 2 ^ 6 % 64) 7 (by omega) ⟨1, rfl⟩,
    or_eq_add_of_lt 0x80 (cp / 2 ^ 6 % 64) 7 (by omega) ⟨1, rfl⟩,
    or_eq_add_of_lt 0x80 (cp % 64) 7 (by omega) ⟨1, rfl⟩]
  have e1 : (0xf0 + cp / 2 ^ 6 / 2 ^ 6 / 2 ^ 6) % 256 = 0xF0 + cp / 262144 := by omega
  have e2 : cp / 2 ^ 6 / 2 ^ 6 % 64 = cp / 4096 % 64 := by omega
  have e3 : cp / 2 ^ 6 % 64 = cp / 64 % 64 := by omega
  rw [e1, e2, e3]

theorem decimal_digits_isdigit (n : Nat) : ∀ c ∈ decimal_digits n, isdigit c = true := by
  intro c hc
  simp only [decimal_digits, List.mem_map, List.mem_reverse] at hc
  obtain ⟨d, hd, rfl⟩ := hc
  have := Nat.digits_lt_base (by norm_num : 1 < 10) hd
  rw [isdigit_iff]
  omega

theorem decimal_digits_ne_nil (n : Nat) (hn : n ≠ 0) : decimal_digits n ≠ [] := by
  simp only [decimal_digits, ne_eq, List.map_eq_nil_iff, List.reverse_eq_nil_iff]
  exact Nat.digits_ne_nil_iff_ne_zero.mpr hn

theorem decimal_digits_head (n : Nat) (hn : n ≠ 0) : (decimal_digits n).head? ≠ some 48 := by
  have hne : Nat.digits 10 n ≠ [] := Nat.digits_ne_nil_iff_ne_zero.mpr hn
  have hlast := Nat.getLast_digit_ne_zero 10 hn
  simp only [decimal_digits, List.head?_map, List.head?_reverse]
  rw [List.getLast?_eq_getLast _ hne]
  simp only [Option.map_some', ne_eq, Option.some.injEq]
  omega

theorem decimal_digits_length (n k : Nat) (h : n < 10 ^ k) : (decimal_digits n).length ≤ k := by
  simp only [decimal_digits, List.length_map, List.length_reverse]
  by_contra hlt
  have h1 := Nat.lt_base_pow_length_digits (b := 10) (m := n) (by norm_num)
  by_cases hn : n = 0
  · subst hn; simp at hlt
  have h2 := Nat.base_pow_length_digits_le 10 n (by norm_num) hn
  have h3 : 10 ^ (k + 1) ≤ 10 ^ (Nat.digits 10 n).length :=
    Nat.pow_le_pow_right (by norm_num) (by omega)
  have h4 : 10 ^ (k + 1) = 10 * 10 ^ k := by ring
  omega

theorem decimal_value_digits (n : Nat) : decimal_value (decimal_digits n) = n := by
  have key : ∀ l : List Nat, (l.reverse.map (fun d => d + 48)).foldl
      (fun acc c => acc * 10 + (c - 48)) 0 = Nat.ofDigits 10 l := by
    intro l
    induction l with
    | nil => rfl
    | cons d l ih =>
      simp only [List.reverse_cons, List.map_append, List.foldl_append, List.map_cons,
        List.map_nil, List.foldl_cons, List.foldl_nil, ih, Nat.ofDigits_cons]
      omega
  unfold decimal_value decimal_digits
  rw [key, Nat.ofDigits_digits]

theorem hex_value_eq (digits : List Nat) : hex_value digits = hex_number digits := by
  unfold hex_value hex_number
  congr 1
  funext cp c
  unfold hex_digit_value
  split_ifs <;> rfl

theorem isxdigit_iff (c : Nat) :
    isxdigit c = true ↔ (48 ≤ c ∧ c ≤ 57) ∨ (97 ≤ c ∧ c ≤ 102) ∨ (65 ≤ c ∧ c ≤ 70) := by
  simp only [isxdigit, Bool.or_eq_true, Bool.and_eq_true, decide_eq_true_eq]
  tauto

theorem take_cons_ne (a b n : Nat) (l m : List Nat) (h : a ≠ b) :
    (a :: l).take (n + 1) ≠ b :: m := by
  rw [List.take_succ_cons]
  intro heq
  exact h (List.cons.inj heq).1

/-- A decimal reference: the text behind `&` is `#`, zeros, the digits (not
starting with a zero) and `;`. -/
theorem decode_reference_decimal (zs ds rest : List Nat) (hz : ∀ c ∈ zs, c = 48)
    (hd : ∀ c ∈ ds, isdigit c = true) (hne : ds ≠ []) (hhead : ds.head? ≠ some 48) :
    decode_reference (35 :: zs ++ ds ++ 59 :: rest) =
      if ds.length > 7 then none
      else (codepoint_to_utf8 (decimal_value ds)).map (fun utf8 => (utf8, rest)) := by
  obtain ⟨d, ds', rfl⟩ := List.exists_cons_of_ne_nil hne
  have hd0 : isdigit d = true := hd d (List.mem_cons_self _ _)
  have hd48 : d ≠ 48 := by simpa using hhead
  have hdr := (isdigit_iff d).mp hd0
  have hzs : ∀ c ∈ zs, (fun c => c == 48) c = true := by
    intro c hc; simp [hz c hc]
  have hzd : ∀ c ∈ zs, isdigit c = true := by
    intro c hc; rw [hz c hc]; decide
  have hin : 35 :: zs ++ d :: ds' ++ 59 :: rest = 35 :: (zs ++ (d :: ds' ++ 59 :: rest)) := by
    simp
  have e1 : (zs ++ (d :: ds' ++ 59 :: rest)).dropWhile (fun c => c == 48) =
      d :: ds' ++ 59 :: rest := by
    rw [dropWhile_append_all zs _ hzs]
    simp [List.dropWhile_cons, hd48]
  have e2 : (d :: ds' ++ 59 :: rest).takeWhile isdigit = d :: ds' :=
    takeWhile_append_stop _ 59 rest hd (by decide)
  have e3 : (d :: ds' ++ 59 :: rest).dropWhile isdigit = 59 :: rest :=
    dropWhile_append_stop _ 59 rest hd (by decide)
  have hhd : ∃ c0 t0, zs ++ (d :: ds' ++ 59 :: rest) = c0 :: t0 ∧ isdigit c0 = true ∧
      c0 ≠ 120 := by
    cases zs with
    | nil => exact ⟨d, ds' ++ 59 :: rest, rfl, hd0, by omega⟩
    | cons z zt =>
      refine ⟨z, zt ++ (d :: ds' ++ 59 :: rest), rfl, hzd z (List.mem_cons_self _ _), ?_⟩
      rw [hz z (List.mem_cons_self _ _)]; decide
  obtain ⟨c0, t0, ht0, hc0, hx0⟩ := hhd
  have hdl : (d :: ds' ++ 59 :: rest) ≠ [] := by simp
  rw [hin]
  unfold decode_reference
  rw [if_neg (List.cons_ne_nil _ _), if_neg (take_cons_ne _ _ _ _ _ (by decide)),
    if_neg (take_cons_ne _ _ _ _ _ (by decide)), if_neg (take_cons_ne _ _ _ _ _ (by decide)),
    if_neg (take_cons_ne _ _ _ _ _ (by decide)), if_neg (take_cons_ne _ _ _ _ _ (by decide))]
  simp only [List.head?_cons, List.tail_cons, if_true]
  rw [e1, e2, e3, ht0]
  rw [if_neg (List.cons_ne_nil _ _), if_neg (by simpa using hx0),
    if_pos (by simp [hc0]), if_neg hdl, if_neg (List.cons_ne_nil _ _)]
  simp only [List.length_cons, List.head?_cons, ne_eq, not_true_eq_false, or_false,
    List.tail_cons, decimal_value, gt_iff_lt]
  have : ¬ ds'.length + 1 = 0 := by omega
  simp only [this, false_or]

/-- A hexadecimal reference: the text behind `&` is `#x`, the digits and
`;`. -/
theorem decode_reference_hex (hs rest : List Nat) (hh : ∀ c ∈ hs, isxdigit c = true) :
    decode_reference (35 :: 120 :: hs ++ 59 :: rest) =
      if hs.length = 0 ∨ hs.length > 6 then none
      else (codepoint_to_utf8 (hex_number hs)).map (fun utf8 => (utf8, rest)) := by
  have e2 : (hs ++ 59 :: rest).takeWhile isxdigit = hs :=
    takeWhile_append_stop _ 59 rest hh (by decide)
  have e3 : (hs ++ 59 :: rest).dropWhile isxdigit = 59 :: rest :=
    dropWhile_append_stop _ 59 rest hh (by decide)
  have hin : 35 :: 120 :: hs ++ 59 :: rest = 35 :: 120 :: (hs ++ 59 :: rest) := by simp
  have hdl : hs ++ 59 :: rest ≠ [] := by simp
  rw [hin]
  unfold decode_reference
  rw [if_neg (List.cons_ne_nil _ _), if_neg (take_cons_ne _ _ _ _ _ (by decide)),
    if_neg (take_cons_ne _ _ _ _ _ (by decide)), if_neg (take_cons_ne _ _ _ _ _ (by decide)),
    if_neg (take_cons_ne _ _ _ _ _ (by decide)), if_neg (take_cons_ne _ _ _ _ _ (by decide))]
  simp only [List.head?_cons, List.tail_cons, if_true]
  rw [if_neg (List.cons_ne_nil _ _), e2, e3, if_neg (List.cons_ne_nil _ _)]
  simp only [List.head?_cons, ne_eq, not_true_eq_false, or_false, List.tail_cons, hex_value_eq,
    gt_iff_lt]

/-- A text that is one reference: the result of `decode_text`. -/
theorem decode_text_one_reference (p utf8 : List Nat)
    (h : decode_reference p = some (utf8, [])) :
    decode_text (38 :: p) = (S_OK, utf8, utf8.length) := by
  unfold decode_text
  rw [List.length_cons, decode_text_loop, if_pos rfl, h]
  simp only [List.nil_append, Nat.zero_add]
  cases p.length <;> rw [decode_text_loop]

/-- C11: for every code point from 1 to 0x10FFFF that is not a surrogate and
not 0xFFFE or 0xFFFF, `decode_text` applied to `&#`, any number of zeros, the
decimal digits of the code point and `;`, and to `&#x`, at most 6
hexadecimal digits in either case with the value of the code point and `;`,
returns `S_OK` with the standard UTF-8 encoding of the code point and its
length; "&#65;" gives "A". -/
theorem decode_text_numeric_reference (cp : Nat) (hcp : encodable cp) :
    (∀ zeros : List Nat, (∀ c ∈ zeros, c = 48) →
      decode_text ([38, 35] ++ zeros ++ decimal_digits cp ++ [59]) =
        (S_OK, utf8_encode cp, (utf8_encode cp).length)) ∧
    (∀ hs : List Nat, (∀ c ∈ hs, isxdigit c = true) → hs.length ≤ 6 → hex_number hs = cp →
      decode_text ([38, 35, 120] ++ hs ++ [59]) =
        (S_OK, utf8_encode cp, (utf8_encode cp).length)) ∧
    decode_text [38, 35, 54, 53, 59] = (S_OK, [65], 1) := by
  have hne : cp ≠ 0 := by unfold encodable at hcp; omega
  refine ⟨?_, ?_, by decide⟩
  · intro zeros hz
    apply decode_text_one_reference
    have hlen := decimal_digits_length cp 7 (by unfold encodable at hcp; omega)
    have := decode_reference_decimal zeros (decimal_digits cp) [] hz (decimal_digits_isdigit cp)
      (decimal_digits_ne_nil cp hne) (decimal_digits_head cp hne)
    rw [if_neg (by omega), decimal_value_digits, codepoint_to_utf8_eq cp hcp] at this
    simpa using this
  · intro hs hh hlen hval
    apply decode_text_one_reference
    have h0 : hs.length ≠ 0 := by
      intro h0
      have : hs = [] := List.eq_nil_of_length_eq_zero h0
      subst this
      exact hne hval.symm
    have := decode_reference_hex hs [] hh
    rw [if_neg (by omega), hval, codepoint_to_utf8_eq cp hcp] at this
    simpa using this

/-- The Euro sign U+20AC: "&#0008364;" and "&#x20aC;" give its three bytes. -/
theorem decode_text_numeric_reference_witness :
    encodable 0x20AC ∧
    decode_text ([38, 35] ++ [48, 48, 48] ++ decimal_digits 0x20AC ++ [59]) =
      (S_OK, utf8_encode 0x20AC, (utf8_encode 0x20AC).length) ∧
    decode_text ([38, 35, 120] ++ [50, 48, 97, 67] ++ [59]) =
      (S_OK, utf8_encode 0x20AC, (utf8_encode 0x20AC).length) :=
  ⟨by decide,
    (decode_text_numeric_reference 0x20AC (by decide)).1 [48, 48, 48] (by decide),
    (decode_text_numeric_reference 0x20AC (by decide)).2.1 [50, 48, 97, 67] (by decide)
      (by decide) (by decide)⟩

theorem codepoint_to_utf8_some (cp : Nat) (w : List Nat) (h : codepoint_to_utf8 cp = some w) :
    encodable cp := by
  unfold codepoint_to_utf8 at h
  unfold encodable
  by_cases c0 : cp = 0
  · rw [if_pos c0] at h; cases h
  rw [if_neg c0] at h
  by_cases c1 : cp < 0x80
  · omega
  rw [if_neg c1] at h
  by_cases c2 : cp < 0x800
  · omega
  rw [if_neg c2] at h
  by_cases c3 : (cp ≥ 0xd800 ∧ cp ≤ 0xdfff) ∨ cp = 0xfffe ∨ cp = 0xffff
  · rw [if_pos c3] at h; cases h
  rw [if_neg c3] at h
  by_cases c4 : cp < 0x10000
  · omega
  rw [if_neg c4] at h
  by_cases c5 : cp ≥ 0x110000
  · rw [if_pos c5] at h; cases h
  omega

theorem take_eq_prefix (p l : List Nat) (k : Nat) (h : p.take k = l) :
    l <+: p ∧ p = l ++ p.drop k := by
  have := List.take_append_drop k p
  rw [h] at this
  exact ⟨⟨p.drop k, this⟩, this.symm⟩

theorem head?_tail (p : List Nat) (c : Nat) (h : p.head? = some c) : p = c :: p.tail := by
  cases p with
  | nil => cases h
  | cons a l => simp only [List.head?_cons, Option.some.injEq] at h; subst h; rfl

theorem dropWhile_head_false (f : Nat → Bool) (p : List Nat) :
    ∀ c, (p.dropWhile f).head? = some c → f c = false := by
  induction p with
  | nil => intro c h; cases h
  | cons a l ih =>
    intro c h
    by_cases ha : f a = true
    · rw [List.dropWhile_cons, if_pos ha] at h; exact ih c h
    · have ha' : f a = false := by simpa using ha
      simp only [List.dropWhile_cons, ha', Bool.false_eq_true, if_false, List.head?_cons,
        Option.some.injEq] at h
      subst h; exact ha'

/-- An accepted reference is one of the references of the specification, and
what it takes from the input has no `&`. -/
theorem decode_reference_some (p written rest : List Nat)
    (h : decode_reference p = some (written, rest)) :
    reference_start p ∧ ∃ consumed, p = consumed ++ rest ∧ 38 ∉ consumed := by
  unfold decode_reference at h
  unfold reference_start
  by_cases h0 : p = []
  · rw [if_pos h0] at h; cases h
  rw [if_neg h0] at h
  by_cases h1 : p.take 3 = [108, 116, 59]
  · rw [if_pos h1] at h
    cases h
    obtain ⟨hp, he⟩ := take_eq_prefix p _ 3 h1
    exact ⟨Or.inl hp, _, he, by decide⟩
  rw [if_neg h1] at h
  by_cases h2 : p.take 3 = [103, 116, 59]
  · rw [if_pos h2] at h
    cases h
    obtain ⟨hp, he⟩ := take_eq_prefix p _ 3 h2
    exact ⟨Or.inr (Or.inl hp), _, he, by decide⟩
  rw [if_neg h2] at h
  by_cases h3 : p.take 5 = [113, 117, 111, 116, 59]
  · rw [if_pos h3] at h
    cases h
    obtain ⟨hp, he⟩ := take_eq_prefix p _ 5 h3
    exact ⟨Or.inr (Or.inr (Or.inr (Or.inl hp))), _, he, by decide⟩
  rw [if_neg h3] at h
  by_cases h4 : p.take 4 = [97, 109, 112, 59]
  · rw [if_pos h4] at h
    cases h
    obtain ⟨hp, he⟩ := take_eq_prefix p _ 4 h4
    exact ⟨Or.inr (Or.inr (Or.inl hp)), _, he, by decide⟩
  rw [if_neg h4] at h
  by_cases h5 : p.take 5 = [97, 112, 111, 115, 59]
  · rw [if_pos h5] at h
    cases h
    obtain ⟨hp, he⟩ := take_eq_prefix p _ 5 h5
    exact ⟨Or.inr (Or.inr (Or.inr (Or.inr (Or.inl hp)))), _, he, by decide⟩
  rw [if_neg h5] at h
  by_cases h6 : p.head? = some 35
  swap
  · rw [if_neg h6] at h; cases h
  rw [if_pos h6] at h
  dsimp only at h
  have hp := head?_tail p 35 h6
  by_cases h7 : p.tail = []
  · rw [if_pos h7] at h; cases h
  rw [if_neg h7] at h
  by_cases h8 : p.tail.head? = some 120
  · rw [if_pos h8] at h
    have hp2 := head?_tail p.tail 120 h8
    by_cases h9 : List.dropWhile isxdigit p.tail.tail = []
    · rw [if_pos h9] at h; cases h
    rw [if_neg h9] at h
    split at h
    · cases h
    · rename_i hc
      simp only [not_or, not_not] at hc
      obtain ⟨hc1, hc2, hc3⟩ := hc
      cases hu : codepoint_to_utf8 (hex_value (List.takeWhile isxdigit p.tail.tail)) with
      | none => rw [hu] at h; cases h
      | some u =>
        rw [hu] at h
        simp only [Option.map_some', Option.some.injEq, Prod.mk.injEq] at h
        obtain ⟨_, hrest⟩ := h
        have hdw := head?_tail _ 59 hc3
        rw [hrest] at hdw
        have hsplit := List.takeWhile_append_dropWhile isxdigit p.tail.tail
        rw [hdw] at hsplit
        have hx : ∀ c ∈ List.takeWhile isxdigit p.tail.tail, isxdigit c = true :=
          fun _ hc => List.mem_takeWhile_imp hc
        obtain ⟨hs, hhs⟩ : ∃ hs, hs = List.takeWhile isxdigit p.tail.tail := ⟨_, rfl⟩
        rw [← hhs] at hsplit hx hc1 hc2 hu
        have hfull : p = 35 :: 120 :: hs ++ 59 :: rest := by
          rw [hp, hp2, ← hsplit]; simp
        have h38 : 38 ∉ hs := fun hm => by have := hx 38 hm; revert this; decide
        refine ⟨Or.inr (Or.inr (Or.inr (Or.inr (Or.inr (Or.inr
          ⟨hs, rest, hfull, hx, by omega, by omega, ?_⟩))))),
          35 :: 120 :: hs ++ [59], ?_, ?_⟩
        · rw [← hex_value_eq]; exact codepoint_to_utf8_some _ _ hu
        · rw [hfull]; simp
        · simp [h38]
  rw [if_neg h8] at h
  split at h
  swap
  · cases h
  rename_i hdig
  split at h
  · cases h
  split at h
  · cases h
  split at h
  · cases h
  rename_i hz0 hz1 hc
  simp only [not_or, not_not] at hc
  obtain ⟨hc1, hc2, hc3⟩ := hc
  cases hu : codepoint_to_utf8 (List.foldl (fun cp c => cp * 10 + (c - 48)) 0
      (List.takeWhile isdigit (List.dropWhile (fun c => c == 48) p.tail))) with
  | none => rw [hu] at h; cases h
  | some u =>
    rw [hu] at h
    simp only [Option.map_some', Option.some.injEq, Prod.mk.injEq] at h
    obtain ⟨_, hrest⟩ := h
    have hdw := head?_tail _ 59 hc3
    rw [hrest] at hdw
    have hsplit := List.takeWhile_append_dropWhile isdigit
      (List.dropWhile (fun c => c == 48) p.tail)
    rw [hdw] at hsplit
    have hsplit0 := List.takeWhile_append_dropWhile (fun c => c == 48) p.tail
    have hzs : ∀ c ∈ List.takeWhile (fun c => c == 48) p.tail, c = 48 := by
      intro c hc
      simpa using List.mem_takeWhile_imp hc
    have hds : ∀ c ∈ List.takeWhile isdigit (List.dropWhile (fun c => c == 48) p.tail),
        isdigit c = true := fun _ hc => List.mem_takeWhile_imp hc
    have hhead : (List.takeWhile isdigit (List.dropWhile (fun c => c == 48) p.tail)).head?
        ≠ some 48 := by
      intro hh
      have h1 : (List.dropWhile (fun c => c == 48) p.tail).head? = some 48 := by
        have := head?_tail _ 48 hh
        rw [← hsplit, this]; rfl
      have := dropWhile_head_false (fun c => c == 48) p.tail 48 h1
      simp at this
    obtain ⟨ds, hhd⟩ : ∃ ds, ds = List.takeWhile isdigit
        (List.dropWhile (fun c => c == 48) p.tail) := ⟨_, rfl⟩
    rw [← hhd] at hsplit hds hhead hc1 hc2 hu
    obtain ⟨zs, hhz⟩ : ∃ zs, zs = List.takeWhile (fun c => c == 48) p.tail := ⟨_, rfl⟩
    rw [← hhz] at hsplit0 hzs
    rw [← hsplit] at hsplit0
    have hfull : p = 35 :: zs ++ ds ++ 59 :: rest := by
      rw [hp, ← hsplit0]; simp
    have h38z : 38 ∉ zs := fun hm => by have := hzs 38 hm; omega
    have h38d : 38 ∉ ds := fun hm => by have := hds 38 hm; revert this; decide
    refine ⟨Or.inr (Or.inr (Or.inr (Or.inr (Or.inr (Or.inl
      ⟨zs, ds, rest, hfull, hzs, hds, hhead, by omega, by omega, ?_⟩))))),
      35 :: zs ++ ds ++ [59], ?_, ?_⟩
    · exact codepoint_to_utf8_some _ _ hu
    · rw [hfull]; simp
    · simp [h38z, h38d]

theorem append_eq_append_no_mem (consumed r pre rest : List Nat) (h : consumed ++ r = pre ++ 38 :: rest)
    (hno : 38 ∉ consumed) : ∃ pre', r = pre' ++ 38 :: rest := by
  rcases List.append_eq_append_iff.mp h with ⟨a', _, hb⟩ | ⟨c', ha, hd⟩
  · exact ⟨a', hb⟩
  · cases c' with
    | nil => exact ⟨[], by simpa using hd.symm⟩
    | cons x c'' =>
      exfalso
      simp only [List.cons_append, List.cons.injEq] at hd
      apply hno
      rw [ha, ← hd.1]
      simp

/-- When the loop of `decode_text` succeeds, every `&` of the input starts a
reference of the specification. -/
theorem decode_text_loop_ok (fuel : Nat) :
    ∀ (p q : List Nat) (ret_len : Nat), p.length ≤ fuel →
      (decode_text_loop fuel p q ret_len).1 = S_OK →
      ∀ pre rest, p = pre ++ 38 :: rest → reference_start rest := by
  induction fuel with
  | zero =>
    intro p q n hlen _ pre rest hp
    rw [hp] at hlen
    simp at hlen
  | succ f ih =>
    intro p q n hlen hok pre rest hp
    cases p with
    | nil => cases pre <;> cases hp
    | cons c p' =>
      rw [decode_text_loop] at hok
      simp only [List.length_cons] at hlen
      by_cases hc : c = 38
      · rw [if_pos hc] at hok
        cases hr : decode_reference p' with
        | none => rw [hr] at hok; cases hok
        | some r =>
          obtain ⟨w, r'⟩ := r
          rw [hr] at hok
          obtain ⟨hstart, consumed, hcons, hno⟩ := decode_reference_some p' w r' hr
          have hshort := decode_reference_shorter p' w r' hr
          cases pre with
          | nil =>
            simp only [List.nil_append, List.cons.injEq] at hp
            rw [← hp.2]; exact hstart
          | cons a pre' =>
            simp only [List.cons_append, List.cons.injEq] at hp
            obtain ⟨pre'', hr'⟩ := append_eq_append_no_mem consumed r' pre' rest
              (by rw [← hcons]; exact hp.2) hno
            exact ih r' _ _ (by omega) hok pre'' rest hr'
      · rw [if_neg hc] at hok
        cases pre with
        | nil =>
          simp only [List.nil_append, List.cons.injEq] at hp
          exact absurd hp.1 hc
        | cons a pre' =>
          simp only [List.cons_append, List.cons.injEq] at hp
          exact ih p' _ _ (by omega) hok pre' rest hp.2

/-- `decode_reference` accepts exactly the references of the specification. -/
theorem reference_start_iff (p : List Nat) :
    reference_start p ↔ (decode_reference p).isSome = true := by
  constructor
  · intro h
    rcases h with h | h | h | h | h | ⟨zs, ds, rest, rfl, hz, hd, hh, h1, h7, he⟩ |
      ⟨hs, rest, rfl, hh, h1, h6, he⟩
    · obtain ⟨t, rfl⟩ := h
      simp [decode_reference]
    · obtain ⟨t, rfl⟩ := h
      simp [decode_reference]
    · obtain ⟨t, rfl⟩ := h
      simp [decode_reference]
    · obtain ⟨t, rfl⟩ := h
      simp [decode_reference]
    · obtain ⟨t, rfl⟩ := h
      simp [decode_reference]
    · have hne : ds ≠ [] := by
        intro h0; subst h0; simp at h1
      rw [decode_reference_decimal zs ds rest hz hd hne hh, if_neg (by omega),
        codepoint_to_utf8_eq _ he]
      rfl
    · rw [decode_reference_hex hs rest hh, if_neg (by omega), codepoint_to_utf8_eq _ he]
      rfl
  · intro h
    cases hr : decode_reference p with
    | none => rw [hr] at h; cases h
    | some r => exact (decode_reference_some p r.1 r.2 hr).1

/-- C12: when some `&` of the input is not followed by `lt;`, `gt;`, `amp;`,
`quot;`, `apos;`, a decimal reference `#d…;` (1 to 7 digits after the leading
zeros) or a hexadecimal reference `#xh…;` (1 to 6 digits) of a code point
with a UTF-8 encoding, `decode_text` fails with `WS_E_INVALID_FORMAT`. -/
theorem decode_text_rejects_other_reference (pre rest : List Nat)
    (h : ¬ reference_start rest) :
    (decode_text (pre ++ 38 :: rest)).1 = WS_E_INVALID_FORMAT := by
  rcases decode_text_result (pre ++ 38 :: rest) with hok | hfail
  · exact absurd (decode_text_loop_ok _ _ [] 0 (le_refl _) hok pre rest rfl) h
  · exact hfail

/-- The text "a&bogus;" fails. -/
theorem decode_text_rejects_other_reference_witness :
    ¬ reference_start [98, 111, 103, 117, 115, 59] ∧
    (decode_text ([97] ++ 38 :: [98, 111, 103, 117, 115, 59])).1 = WS_E_INVALID_FORMAT :=
  ⟨(reference_start_iff _).not.mpr (by decide),
    decode_text_rejects_other_reference [97] [98, 111, 103, 117, 115, 59]
      ((reference_start_iff _).not.mpr (by decide))⟩

/-- The texts "&bogus;", "&", "&#0;", "&#x0;", "&#65", "&#xD800;", "&#x110000;",
"&#1114112;" and "&amp;&" all fail with `WS_E_INVALID_FORMAT`. -/
theorem decode_text_rejects_examples :
    (decode_text [38, 98, 111, 103, 117, 115, 59]).1 = WS_E_INVALID_FORMAT ∧
    (decode_text [38]).1 = WS_E_INVALID_FORMAT ∧
    (decode_text [38, 35, 48, 59]).1 = WS_E_INVALID_FORMAT ∧
    (decode_text [38, 35, 120, 48, 59]).1 = WS_E_INVALID_FORMAT ∧
    (decode_text [38, 35, 54, 53]).1 = WS_E_INVALID_FORMAT ∧
    (decode_text [38, 35, 120, 68, 56, 48, 48, 59]).1 = WS_E_INVALID_FORMAT ∧
    (decode_text [38, 35, 120, 49, 49, 48, 48, 48, 48, 59]).1 = WS_E_INVALID_FORMAT ∧
    (decode_text [38, 35, 49, 49, 49, 52, 49, 49, 50, 59]).1 = WS_E_INVALID_FORMAT ∧
    (decode_text [38, 97, 109, 112, 59, 38]).1 = WS_E_INVALID_FORMAT := by
  decide

/-! ## The string dictionary -/

theorem cmp_string_loop_neg (a b : List Nat) :
    cmp_string_loop b a = - cmp_string_loop a b := by
  induction a generalizing b with
  | nil => cases b <;> simp [cmp_string_loop]
  | cons x a ih =>
    cases b with
    | nil => simp [cmp_string_loop]
    | cons y b =>
      simp only [cmp_string_loop]
      by_cases h : x = y
      · subst h
        simp [ih b]
      · have h' : ¬ y = x := fun e => h e.symm
        rw [if_neg h, if_neg h']
        omega

theorem cmp_string_neg (a b : List Nat) : cmp_string b a = - cmp_string a b := by
  unfold cmp_string
  by_cases h1 : a.length < b.length
  · have h2 : ¬ b.length < a.length := by omega
    simp [h1, h2]
  · by_cases h2 : b.length < a.length
    · simp [h1, h2]
    · simp [h1, h2, cmp_string_loop_neg a b]

theorem cmp_string_loop_eq_zero (a b : List Nat) (h : a.length = b.length) :
    cmp_string_loop a b = 0 ↔ a = b := by
  induction a generalizing b with
  | nil =>
    cases b with
    | nil => simp [cmp_string_loop]
    | cons y b => simp at h
  | cons x a ih =>
    cases b with
    | nil => simp at h
    | cons y b =>
      simp only [cmp_string_loop]
      have hl : a.length = b.length := by simpa using h
      by_cases hxy : x = y
      · subst hxy
        simp [ih b hl]
      · rw [if_neg hxy]
        constructor
        · intro h0
          omega
        · intro h0
          exact absurd (List.cons.inj h0).1 hxy

theorem cmp_string_eq_zero (a b : List Nat) : cmp_string a b = 0 ↔ a = b := by
  unfold cmp_string
  by_cases h1 : a.length < b.length
  · simp only [h1, if_true]
    constructor
    · intro h
      omega
    · intro h
      subst h
      omega
  · by_cases h2 : a.length > b.length
    · simp only [h1, h2, if_true, if_false]
      constructor
      · intro h
        omega
      · intro h
        subst h
        omega
    · simp only [h1, h2, if_false]
      exact cmp_string_loop_eq_zero a b (by omega)

theorem cmp_string_loop_trans (a b c : List Nat) (hab : a.length = b.length)
    (hbc : b.length = c.length) (h1 : cmp_string_loop a b < 0) (h2 : cmp_string_loop b c < 0) :
    cmp_string_loop a c < 0 := by
  induction a generalizing b c with
  | nil =>
    cases b with
    | nil => simp [cmp_string_loop] at h1
    | cons y b => simp at hab
  | cons x a ih =>
    cases b with
    | nil => simp at hab
    | cons y b =>
      cases c with
      | nil => simp at hbc
      | cons z c =>
        simp only [cmp_string_loop] at h1 h2 ⊢
        have hl1 : a.length = b.length := by simpa using hab
        have hl2 : b.length = c.length := by simpa using hbc
        by_cases hxy : x = y
        · subst hxy
          rw [if_pos rfl] at h1
          by_cases hxz : x = z
          · subst hxz
            rw [if_pos rfl] at h2 ⊢
            exact ih b c hl1 hl2 h1 h2
          · rw [if_neg hxz] at h2 ⊢
            exact h2
        · rw [if_neg hxy] at h1
          by_cases hyz : y = z
          · subst hyz
            rw [if_neg hxy]
            exact h1
          · rw [if_neg hyz] at h2
            have hxz : ¬ x = z := by omega
            rw [if_neg hxz]
            omega

theorem cmp_string_trans (a b c : List Nat) (h1 : cmp_string a b < 0) (h2 : cmp_string b c < 0) :
    cmp_string a c < 0 := by
  unfold cmp_string at h1 h2 ⊢
  by_cases hab : a.length < b.length
  · by_cases hbc : b.length < c.length
    · have : a.length < c.length := by omega
      simp [this]
    · by_cases hbc2 : b.length > c.length
      · simp [hbc, hbc2] at h2
      · have : a.length < c.length := by omega
        simp [this]
  · by_cases hab2 : a.length > b.length
    · simp [hab, hab2] at h1
    · rw [if_neg hab, if_neg hab2] at h1
      by_cases hbc : b.length < c.length
      · have : a.length < c.length := by omega
        simp [this]
      · by_cases hbc2 : b.length > c.length
        · simp [hbc, hbc2] at h2
        · rw [if_neg hbc, if_neg hbc2] at h2
          have e1 : ¬ a.length < c.length := by omega
          have e2 : ¬ a.length > c.length := by omega
          rw [if_neg e1, if_neg e2]
          exact cmp_string_loop_trans a b c (by omega) (by omega) h1 h2

theorem find_string_loop_spec (d : Dictionary) (s : List Nat)
    (hsorted : ∀ i j : Nat, i < j → j < d.stringCount →
      cmp_string (d.sorted_entry i).bytes (d.sorted_entry j).bytes < 0) :
    ∀ (fuel : Nat) (min max : Int), 0 ≤ min → max < d.stringCount → min ≤ max + 1 →
      max + 1 - min < fuel →
      (∀ i : Nat, (i : Int) < min → cmp_string (d.sorted_entry i).bytes s < 0) →
      (∀ i : Nat, max < i → i < d.stringCount → cmp_string s (d.sorted_entry i).bytes < 0) →
      (∃ i : Nat, i < d.stringCount ∧ (d.sorted_entry i).bytes = s ∧
        find_string_loop d s fuel min max = (-1, some (d.sorted_entry i).id)) ∨
      (∃ k : Nat, k ≤ d.stringCount ∧ find_string_loop d s fuel min max = ((k : Int), none) ∧
        (∀ i : Nat, i < k → cmp_string (d.sorted_entry i).bytes s < 0) ∧
        ∀ i : Nat, k ≤ i → i < d.stringCount → cmp_string s (d.sorted_entry i).bytes < 0) := by
  intro fuel
  induction fuel with
  | zero =>
    intro min max h0 hmax hle hfuel
    exfalso
    simp at hfuel
    omega
  | succ fuel ih =>
    intro min max h0 hmax hle hfuel hlo hhi
    rw [find_string_loop]
    by_cases hmm : min ≤ max
    · rw [if_pos hmm]
      dsimp only
      have hi : (min + max).tdiv 2 = (min + max) / 2 := Int.tdiv_eq_ediv (by omega) (by omega)
      rw [hi]
      obtain ⟨i, hidef⟩ : ∃ i : Nat, ((min + max) / 2 : Int) = i := ⟨((min + max) / 2).toNat, by omega⟩
      rw [hidef]
      simp only [Int.toNat_ofNat]
      have hi1 : min ≤ i := by omega
      have hi2 : (i : Int) ≤ max := by omega
      have hic : i < d.stringCount := by omega
      by_cases hc1 : cmp_string s (d.sorted_entry i).bytes < 0
      · rw [if_pos hc1]
        apply ih min ((i : Int) - 1) h0 (by omega) (by omega) (by push_cast at hfuel; omega) hlo
        intro j hj hjc
        by_cases hji : j = i
        · subst hji
          exact hc1
        · exact cmp_string_trans _ _ _ hc1 (hsorted i j (by omega) hjc)
      · rw [if_neg hc1]
        by_cases hc2 : cmp_string s (d.sorted_entry i).bytes > 0
        · rw [if_pos hc2]
          have hc3 : cmp_string (d.sorted_entry i).bytes s < 0 := by
            rw [cmp_string_neg s]
            omega
          apply ih ((i : Int) + 1) max (by omega) hmax (by omega) (by push_cast at hfuel; omega) _ hhi
          intro j hj
          by_cases hji : j = i
          · subst hji
            exact hc3
          · exact cmp_string_trans _ _ _ (hsorted j i (by omega) hic) hc3
        · rw [if_neg hc2]
          left
          refine ⟨i, hic, ?_, rfl⟩
          have : cmp_string s (d.sorted_entry i).bytes = 0 := by omega
          exact ((cmp_string_eq_zero _ _).mp this).symm
    · rw [if_neg hmm]
      right
      have hk : max + 1 = min := by omega
      refine ⟨min.toNat, by omega, ?_, ?_, ?_⟩
      · rw [hk]
        congr 1
        omega
      · intro j hj
        exact hlo j (by omega)
      · intro j hj hjc
        exact hhi j (by omega) hjc

theorem find_string_cases (d : Dictionary) (s : List Nat)
    (hsorted : ∀ i j : Nat, i < j → j < d.stringCount →
      cmp_string (d.sorted_entry i).bytes (d.sorted_entry j).bytes < 0) :
    (∃ i : Nat, i < d.stringCount ∧ (d.sorted_entry i).bytes = s ∧
      find_string d s = (-1, some (d.sorted_entry i).id)) ∨
    (∃ k : Nat, k ≤ d.stringCount ∧ find_string d s = ((k : Int), none) ∧
      (∀ i : Nat, i < k → cmp_string (d.sorted_entry i).bytes s < 0) ∧
      ∀ i : Nat, k ≤ i → i < d.stringCount → cmp_string s (d.sorted_entry i).bytes < 0) := by
  unfold find_string
  apply find_string_loop_spec d s hsorted
  · omega
  · omega
  · omega
  · push_cast
    omega
  · intro i hi
    omega
  · intro i hi hic
    omega

theorem getD_insert (l : List Nat) (k n i : Nat) (hk : k ≤ l.length) :
    (l.take k ++ n :: l.drop k).getD i 0 =
      if i < k then l.getD i 0 else if i = k then n else l.getD (i - 1) 0 := by
  simp only [List.getD_eq_getElem?_getD]
  have hlen : (List.take k l).length = k := by
    simp only [List.length_take]
    omega
  by_cases h1 : i < k
  · rw [if_pos h1, List.getElem?_append_left (by omega), List.getElem?_take_of_lt h1]
  · rw [if_neg h1, List.getElem?_append_right (by omega), hlen]
    by_cases h2 : i = k
    · subst h2
      simp
    · rw [if_neg h2]
      obtain ⟨m, hm⟩ : ∃ m, i - k = m + 1 := ⟨i - k - 1, by omega⟩
      rw [hm, List.getElem?_cons_succ, List.getElem?_drop]
      have : k + m = i - 1 := by omega
      rw [this]

theorem getD_append_one (l : List WS_XML_STRING) (e : WS_XML_STRING) (j : Nat) :
    (l ++ [e]).getD j default =
      if j < l.length then l.getD j default else if j = l.length then e else default := by
  simp only [List.getD_eq_getElem?_getD]
  by_cases h1 : j < l.length
  · rw [if_pos h1, List.getElem?_append_left h1]
  · rw [if_neg h1, List.getElem?_append_right (by omega)]
    by_cases h2 : j = l.length
    · subst h2
      simp
    · rw [if_neg h2]
      obtain ⟨m, hm⟩ : ∃ m, j - l.length = m + 1 := ⟨j - l.length - 1, by omega⟩
      rw [hm]
      simp

theorem grow_dict_one (d : Dictionary) (hI : d.Invariant) :
    (d.stringCount < 2048 → ∃ size : Nat,
      grow_dict d 1 = (true, { d with dict_size := size, allocated := true }) ∧
      d.stringCount + 1 ≤ size ∧
      (size = 256 ∨ size = 512 ∨ size = 1024 ∨ size = 2048)) ∧
    (2048 ≤ d.stringCount → grow_dict d 1 = (false, d)) := by
  have hc := hI.count_le
  have hs := hI.size_steps
  have ha := hI.allocated_iff
  constructor
  · intro hlt
    unfold grow_dict
    by_cases h1 : d.dict_size ≥ d.stringCount + 1
    · rw [if_pos h1]
      have hal : d.allocated = true := ha.mpr (by omega)
      refine ⟨d.dict_size, ?_, h1, by omega⟩
      cases d
      simp only at hal
      simp [hal]
    · rw [if_neg h1]
      have h2 : ¬ d.dict_size + 1 > MAX_DICTIONARY_SIZE := by
        unfold MAX_DICTIONARY_SIZE
        omega
      rw [if_neg h2]
      by_cases h3 : d.allocated = true
      · have h0 : d.dict_size ≠ 0 := ha.mp h3
        simp only [h3, Bool.not_true, Bool.false_eq_true, if_false]
        refine ⟨max (d.dict_size * 2) 1, rfl, ?_, ?_⟩
        · omega
        · omega
      · have h0 : d.dict_size = 0 := by
          by_contra hne
          exact h3 (ha.mpr hne)
        have h3' : d.allocated = false := by simpa using h3
        simp only [h3', Bool.not_false, if_true]
        refine ⟨max MIN_DICTIONARY_SIZE 1, rfl, ?_, ?_⟩
        · unfold MIN_DICTIONARY_SIZE
          omega
        · unfold MIN_DICTIONARY_SIZE
          omega
  · intro hge
    unfold grow_dict
    have h1 : ¬ d.dict_size ≥ d.stringCount + 1 := by omega
    have h2 : d.dict_size + 1 > MAX_DICTIONARY_SIZE := by
      unfold MAX_DICTIONARY_SIZE
      omega
    rw [if_neg h1, if_pos h2]

theorem inserted_sorted_entry (d : Dictionary) (hI : d.Invariant) (s : List Nat) (k size i : Nat)
    (hk : k ≤ d.stringCount) (hi : i ≤ d.stringCount) :
    (d.inserted s k size).sorted_entry i =
      if i < k then d.sorted_entry i
      else if i = k then ⟨s, some DictionaryRef.dict_builtin, d.stringCount⟩
      else d.sorted_entry (i - 1) := by
  have hsl := hI.sorted_length
  unfold Dictionary.sorted_entry Dictionary.inserted
  simp only
  rw [getD_insert _ _ _ _ (by omega), getD_append_one]
  have hcount : d.strings.length = d.stringCount := rfl
  by_cases h1 : i < k
  · have := hI.sorted_lt i (by omega)
    rw [if_pos h1, if_pos h1, if_pos (by omega)]
  · rw [if_neg h1, if_neg h1]
    by_cases h2 : i = k
    · rw [if_pos h2, if_pos h2, if_neg (by omega), if_pos hcount.symm]
    · have := hI.sorted_lt (i - 1) (by omega)
      rw [if_neg h2, if_neg h2, if_pos (by omega)]

theorem inserted_invariant (d : Dictionary) (hI : d.Invariant) (s : List Nat) (k size : Nat)
    (hk : k ≤ d.stringCount)
    (hlo : ∀ i : Nat, i < k → cmp_string (d.sorted_entry i).bytes s < 0)
    (hhi : ∀ i : Nat, k ≤ i → i < d.stringCount → cmp_string s (d.sorted_entry i).bytes < 0)
    (hsize : d.stringCount + 1 ≤ size)
    (hsteps : size = 256 ∨ size = 512 ∨ size = 1024 ∨ size = 2048) :
    (d.inserted s k size).Invariant := by
  have hsl := hI.sorted_length
  have hcount : (d.inserted s k size).stringCount = d.stringCount + 1 := by
    simp [Dictionary.inserted, Dictionary.stringCount]
  have hsorted : ∀ i : Nat, (d.inserted s k size).dict_sorted.getD i 0 =
      if i < k then d.dict_sorted.getD i 0 else if i = k then d.stringCount
      else d.dict_sorted.getD (i - 1) 0 := by
    intro i
    exact getD_insert _ _ _ _ (by omega)
  have hstrings : ∀ j : Nat, (d.inserted s k size).strings.getD j default =
      if j < d.stringCount then d.strings.getD j default
      else if j = d.stringCount then ⟨s, some DictionaryRef.dict_builtin, d.stringCount⟩
      else default := by
    intro j
    exact getD_append_one _ _ _
  refine ⟨?_, ?_, ?_, ?_, ?_, ?_, ?_, ?_⟩
  · rw [hcount]
    simp only [Dictionary.inserted, List.length_append, List.length_take, List.length_cons,
      List.length_drop]
    omega
  · intro j hj
    rw [hcount] at hj ⊢
    by_cases hjn : j = d.stringCount
    · refine ⟨k, by omega, ?_⟩
      rw [hsorted, if_neg (by omega), if_pos rfl, hjn]
    · obtain ⟨i, hi, hij⟩ := hI.sorted_cover j (by omega)
      by_cases hik : i < k
      · refine ⟨i, by omega, ?_⟩
        rw [hsorted, if_pos hik, hij]
      · refine ⟨i + 1, by omega, ?_⟩
        rw [hsorted, if_neg (by omega), if_neg (by omega)]
        simpa using hij
  · intro i hi
    rw [hcount] at hi ⊢
    rw [hsorted]
    by_cases h1 : i < k
    · have := hI.sorted_lt i (by omega)
      rw [if_pos h1]
      omega
    · rw [if_neg h1]
      by_cases h2 : i = k
      · rw [if_pos h2]
        omega
      · have := hI.sorted_lt (i - 1) (by omega)
        rw [if_neg h2]
        omega
  · intro i j hij hj
    rw [hcount] at hj
    rw [inserted_sorted_entry d hI s k size i hk (by omega),
      inserted_sorted_entry d hI s k size j hk (by omega)]
    by_cases hi1 : i < k
    · rw [if_pos hi1]
      by_cases hj1 : j < k
      · rw [if_pos hj1]
        exact hI.increasing i j hij (by omega)
      · rw [if_neg hj1]
        by_cases hj2 : j = k
        · rw [if_pos hj2]
          exact hlo i hi1
        · rw [if_neg hj2]
          exact cmp_string_trans _ _ _ (hlo i hi1) (hhi (j - 1) (by omega) (by omega))
    · have hj1 : ¬ j < k := by omega
      have hj2 : ¬ j = k := by omega
      rw [if_neg hi1, if_neg hj1, if_neg hj2]
      by_cases hi2 : i = k
      · rw [if_pos hi2]
        exact hhi (j - 1) (by omega) (by omega)
      · rw [if_neg hi2]
        exact hI.increasing (i - 1) (j - 1) (by omega) (by omega)
  · intro j hj
    rw [hcount] at hj
    rw [hstrings]
    by_cases h1 : j < d.stringCount
    · rw [if_pos h1]
      exact hI.ids j h1
    · rw [if_neg h1, if_pos (by omega)]
      exact ⟨by show d.stringCount = j; omega, rfl⟩
  · rw [hcount]
    exact hsize
  · show size = 0 ∨ size = 256 ∨ size = 512 ∨ size = 1024 ∨ size = 2048
    omega
  · show true = true ↔ size ≠ 0
    constructor
    · intro _
      omega
    · intro _
      rfl

theorem empty_invariant : Dictionary.empty.Invariant := by
  refine ⟨rfl, ?_, ?_, ?_, ?_, ?_, ?_, ?_⟩
  · intro k hk
    simp [Dictionary.empty, Dictionary.stringCount] at hk
  · intro k hk
    simp [Dictionary.empty, Dictionary.stringCount] at hk
  · intro i j _ hk
    simp [Dictionary.empty, Dictionary.stringCount] at hk
  · intro k hk
    simp [Dictionary.empty, Dictionary.stringCount] at hk
  · simp [Dictionary.empty, Dictionary.stringCount]
  · left
    rfl
  · simp [Dictionary.empty]

theorem sorted_entry_injective (d : Dictionary)
    (hsorted : ∀ i j : Nat, i < j → j < d.stringCount →
      cmp_string (d.sorted_entry i).bytes (d.sorted_entry j).bytes < 0)
    (i j : Nat) (hi : i < d.stringCount) (hj : j < d.stringCount)
    (h : (d.sorted_entry i).bytes = (d.sorted_entry j).bytes) : i = j := by
  by_contra hne
  rcases Nat.lt_or_gt_of_ne hne with hlt | hgt
  · have h1 := hsorted i j hlt hj
    have h2 := (cmp_string_eq_zero _ _).mpr h
    omega
  · have h1 := hsorted j i hgt hi
    have h2 := (cmp_string_eq_zero _ _).mpr h.symm
    omega

theorem Dictionary.Invariant.bytes_injective {d : Dictionary} (hI : d.Invariant) (k k' : Nat)
    (hk : k < d.stringCount) (hk' : k' < d.stringCount)
    (h : (d.strings.getD k default).bytes = (d.strings.getD k' default).bytes) : k = k' := by
  obtain ⟨i, hi, hik⟩ := hI.sorted_cover k hk
  obtain ⟨j, hj, hjk⟩ := hI.sorted_cover k' hk'
  have hij : i = j := by
    apply sorted_entry_injective d hI.increasing i j hi hj
    unfold Dictionary.sorted_entry
    rw [hik, hjk]
    exact h
  rw [← hik, ← hjk, hij]

theorem mem_strings_iff (d : Dictionary) (e : WS_XML_STRING) :
    e ∈ d.strings ↔ ∃ k : Nat, k < d.stringCount ∧ d.strings.getD k default = e := by
  constructor
  · intro he
    obtain ⟨k, hk, hke⟩ := List.getElem_of_mem he
    refine ⟨k, hk, ?_⟩
    rw [List.getD_eq_getElem _ _ hk]
    exact hke
  · rintro ⟨k, hk, hke⟩
    rw [List.getD_eq_getElem _ _ hk] at hke
    rw [← hke]
    exact List.getElem_mem hk

/-- C20: for every dictionary whose sorted index lists the entries in
strictly increasing `cmp_string` order and every byte string `s`:
`find_string` returns -1 and the id of the entry with content `s` when there
is one, and otherwise the index `k` with 0 ≤ k ≤ stringCount such that the
entries before place `k` of the sorted index are smaller than `s` and the
entries from place `k` on are greater. -/
theorem find_string_binary_search (d : Dictionary) (s : List Nat)
    (hsorted : ∀ i j : Nat, i < j → j < d.stringCount →
      cmp_string (d.sorted_entry i).bytes (d.sorted_entry j).bytes < 0) :
    (∀ i : Nat, i < d.stringCount → (d.sorted_entry i).bytes = s →
      find_string d s = (-1, some (d.sorted_entry i).id)) ∧
    ((∀ i : Nat, i < d.stringCount → (d.sorted_entry i).bytes ≠ s) →
      ∃ k : Nat, k ≤ d.stringCount ∧ find_string d s = ((k : Int), none) ∧
        (∀ i : Nat, i < k → cmp_string (d.sorted_entry i).bytes s < 0) ∧
        ∀ i : Nat, k ≤ i → i < d.stringCount → cmp_string (d.sorted_entry i).bytes s > 0) := by
  constructor
  · intro i hi hbytes
    rcases find_string_cases d s hsorted with ⟨j, hj, hjb, hfind⟩ | ⟨k, _, _, hlo, hhi⟩
    · have hij : i = j := sorted_entry_injective d hsorted i j hi hj (by rw [hbytes, hjb])
      rw [hij]
      exact hfind
    · exfalso
      by_cases hik : i < k
      · have h1 := hlo i hik
        have h2 := (cmp_string_eq_zero _ _).mpr hbytes
        omega
      · have h1 := hhi i (by omega) hi
        have h2 := (cmp_string_eq_zero _ _).mpr hbytes.symm
        omega
  · intro hnone
    rcases find_string_cases d s hsorted with ⟨j, hj, hjb, _⟩ | ⟨k, hk, hfind, hlo, hhi⟩
    · exact absurd hjb (hnone j hj)
    · refine ⟨k, hk, hfind, hlo, ?_⟩
      intro i hki hi
      have h1 := hhi i hki hi
      rw [cmp_string_neg s]
      omega

/-- Witness of C20: in the dictionary of "b" and "a" the sorted index lists
"a" then "b"; "a" is found with id 1. -/
theorem find_string_binary_search_witness :
    (∀ i j : Nat, i < j → j < dictionary_b_a.stringCount →
      cmp_string (dictionary_b_a.sorted_entry i).bytes (dictionary_b_a.sorted_entry j).bytes < 0) ∧
    (dictionary_b_a.sorted_entry 0).bytes = [97] ∧
    find_string dictionary_b_a [97] = (-1, some 1) :=
  have hs : ∀ i j : Nat, i < j → j < dictionary_b_a.stringCount →
      cmp_string (dictionary_b_a.sorted_entry i).bytes
        (dictionary_b_a.sorted_entry j).bytes < 0 := by
    intro i j hij hj
    have hj2 : j < 2 := hj
    have hj1 : j = 1 := by omega
    have hi0 : i = 0 := by omega
    subst hj1
    subst hi0
    decide
  ⟨hs, by decide, (find_string_binary_search dictionary_b_a [97] hs).1 0 (by decide) (by decide)⟩

/-- Evaluated examples of `find_string` on the dictionary of "b" and "a":
"b" is found with id 0; "" belongs at place 0, "ab" at place 2. -/
theorem find_string_examples :
    find_string dictionary_b_a [98] = (-1, some 0) ∧
    find_string dictionary_b_a [] = (0, none) ∧
    find_string dictionary_b_a [97, 98] = (2, none) ∧
    find_string Dictionary.empty [97] = (0, none) := by
  decide

/-! ## The scanner -/

theorem name_byte_iff (c : Nat) :
    name_byte c = true ↔
      (65 ≤ c ∧ c ≤ 90) ∨ (97 ≤ c ∧ c ≤ 122) ∨ (48 ≤ c ∧ c ≤ 57) ∨ c = 95 ∨ c = 45 ∨ c = 46 := by
  simp [name_byte, or_assoc]

theorem text_byte_iff (c : Nat) :
    text_byte c = true ↔
      (65 ≤ c ∧ c ≤ 90) ∨ (97 ≤ c ∧ c ≤ 122) ∨ (48 ≤ c ∧ c ≤ 57) ∨ c = 32 := by
  simp [text_byte, or_assoc]

theorem read_isnamechar_iff (c : Nat) :
    read_isnamechar c = true ↔
      (65 ≤ c ∧ c ≤ 90) ∨ (97 ≤ c ∧ c ≤ 122) ∨ (48 ≤ c ∧ c ≤ 57) ∨ c = 95 ∨ c = 45 ∨ c = 46 ∨
        c = 58 := by
  simp [read_isnamechar, or_assoc]

theorem name_byte_namechar (c : Nat) (h : name_byte c = true) :
    read_isnamechar c = true ∧ c ≠ 58 := by
  rw [name_byte_iff] at h
  rw [read_isnamechar_iff]
  omega

theorem read_isspace_iff (c : Nat) :
    read_isspace c = true ↔ c = 32 ∨ c = 9 ∨ c = 13 ∨ c = 10 := by
  simp [read_isspace, or_assoc]

theorem drop_eq_cons {l : List Nat} {n c : Nat} {rest : List Nat} (h : l.drop n = c :: rest) :
    n < l.length ∧ l.getD n 0 = c ∧ l.drop (n + 1) = rest := by
  have hlt : n < l.length := by
    by_contra hge
    rw [List.drop_eq_nil_of_le (by omega)] at h
    cases h
  refine ⟨hlt, ?_, ?_⟩
  · rw [List.getD_eq_getElem _ _ hlt]
    have := List.drop_eq_getElem_cons hlt
    rw [this] at h
    exact (List.cons.inj h).1
  · have := List.drop_eq_getElem_cons hlt
    rw [this] at h
    exact (List.cons.inj h).2

theorem read_current_ptr_length (r : reader) :
    (read_current_ptr r).length = r.read_size - r.read_pos := by
  simp [read_current_ptr, reader.read_size]

theorem read_end_of_data_nil (r : reader) (h : read_current_ptr r = []) :
    read_end_of_data r = true := by
  have := read_current_ptr_length r
  rw [h] at this
  simp only [List.length_nil] at this
  simp only [read_end_of_data, decide_eq_true_eq]
  omega

theorem read_end_of_data_cons (r : reader) (c : Nat) (rest : List Nat)
    (h : read_current_ptr r = c :: rest) : read_end_of_data r = false := by
  have := read_current_ptr_length r
  rw [h] at this
  simp only [List.length_cons] at this
  simp only [read_end_of_data, decide_eq_false_iff_not]
  omega

theorem read_utf8_char_ascii (r : reader) (c : Nat) (rest : List Nat)
    (h : read_current_ptr r = c :: rest) (hc : c < 128) : read_utf8_char r = (c, 1) := by
  obtain ⟨hlt, hget, _⟩ := drop_eq_cons h
  unfold read_utf8_char
  have h1 : ¬ r.read_pos ≥ r.read_size := by
    unfold reader.read_size
    omega
  have h2 : r.read_bufptr.getD r.read_pos 0 < 128 := by
    rw [hget]
    exact hc
  dsimp only
  rw [if_neg h1, if_pos h2, hget]

theorem read_skip_ptr (r : reader) (a rest : List Nat) (h : read_current_ptr r = a ++ rest) :
    read_skip r a.length = { r with read_pos := r.read_pos + a.length } ∧
    read_current_ptr { r with read_pos := r.read_pos + a.length } = rest := by
  have hlen := read_current_ptr_length r
  rw [h] at hlen
  simp only [List.length_append] at hlen
  constructor
  · unfold read_skip
    by_cases hgt : r.read_pos + a.length > r.read_size
    · have h0 : a.length = 0 := by omega
      rw [if_pos hgt, h0]
      rfl
    · rw [if_neg hgt]
  · unfold read_current_ptr at h ⊢
    simp only
    rw [← List.drop_drop, h]
    simp

theorem read_skip_one (r : reader) (c : Nat) (rest : List Nat) (h : read_current_ptr r = c :: rest) :
    read_skip r 1 = { r with read_pos := r.read_pos + 1 } ∧
    read_current_ptr { r with read_pos := r.read_pos + 1 } = rest :=
  read_skip_ptr r [c] rest h

theorem read_cmp_loop_zero_iff (str : List Nat) :
    ∀ ptr : List Nat, str.length ≤ ptr.length → (read_cmp_loop str ptr = 0 ↔ str <+: ptr) := by
  induction str with
  | nil =>
    intro ptr _
    simp [read_cmp_loop]
  | cons s str ih =>
    intro ptr hlen
    cases ptr with
    | nil => simp at hlen
    | cons p ptr =>
      simp only [read_cmp_loop, List.cons_prefix_cons]
      by_cases hsp : s = p
      · subst hsp
        simp only [ne_eq, not_true_eq_false, if_false, true_and]
        exact ih ptr (by simpa using hlen)
      · simp only [ne_eq, hsp, not_false_eq_true, if_true, false_and, iff_false]
        omega

theorem read_cmp_zero_iff (r : reader) (str : List Nat) (hne : str ≠ []) :
    read_cmp r str = 0 ↔ str <+: read_current_ptr r := by
  have hlen := read_current_ptr_length r
  have hpos : 0 < str.length := List.length_pos.mpr hne
  unfold read_cmp
  by_cases h : r.read_pos + str.length > r.read_size
  · rw [if_pos h]
    constructor
    · intro h0
      omega
    · intro hp
      have := hp.length_le
      omega
  · rw [if_neg h]
    exact read_cmp_loop_zero_iff str _ (by omega)

theorem read_skip_whitespace_none (r : reader) (c : Nat) (rest : List Nat)
    (h : read_current_ptr r = c :: rest) (hc : read_isspace c = false) :
    read_skip_whitespace r = r := by
  unfold read_skip_whitespace
  rw [h, List.takeWhile_cons, hc]
  rfl

theorem read_name_loop_spec (n : List Nat) :
    ∀ (fuel : Nat) (r : reader) (len c : Nat) (rest : List Nat),
      read_current_ptr r = n ++ c :: rest → (∀ x ∈ n, read_isnamechar x = true) →
      read_isnamechar c = false → c ≠ 0 → c < 128 → n.length < fuel →
      read_name_loop fuel r len =
        (S_OK, { r with read_pos := r.read_pos + n.length }, len + n.length) := by
  induction n with
  | nil =>
    intro fuel r len c rest hptr _ hc hc0 hc128 hfuel
    obtain ⟨f, rfl⟩ : ∃ f, fuel = f + 1 := ⟨fuel - 1, by simp at hfuel; omega⟩
    rw [read_name_loop]
    simp only [read_utf8_char_ascii r c rest hptr hc128, hc0, hc, if_false, Bool.not_false, if_true,
      List.length_nil, Nat.add_zero]
  | cons x n ih =>
    intro fuel r len c rest hptr hn hc hc0 hc128 hfuel
    obtain ⟨f, rfl⟩ : ∃ f, fuel = f + 1 := ⟨fuel - 1, by simp at hfuel; omega⟩
    have hx := hn x (List.mem_cons_self _ _)
    have hx2 := (read_isnamechar_iff x).mp hx
    have hx0 : x ≠ 0 := by omega
    rw [read_name_loop]
    simp only [read_utf8_char_ascii r x (n ++ c :: rest) hptr (by omega), hx0, hx, if_false,
      Bool.not_true, Bool.false_eq_true]
    obtain ⟨hs1, hs2⟩ := read_skip_one r x (n ++ c :: rest) hptr
    rw [hs1, ih f _ (len + 1) c rest hs2 (fun y hy => hn y (List.mem_cons_of_mem _ hy)) hc hc0 hc128
      (by simp at hfuel; omega)]
    simp only [List.length_cons]
    refine Prod.ext rfl (Prod.ext ?_ ?_)
    · show ({ r with read_pos := r.read_pos + 1 + n.length } : reader) = _
      rw [Nat.add_assoc, Nat.add_comm 1]
    · show len + 1 + n.length = len + (n.length + 1)
      omega

theorem read_text_loop_spec (t : List Nat) :
    ∀ (fuel : Nat) (r : reader) (len : Nat) (rest : List Nat),
      read_current_ptr r = t ++ 60 :: rest → (∀ x ∈ t, x ≠ 0 ∧ x ≠ 60 ∧ x < 128) →
      t.length < fuel →
      read_text_loop fuel r len =
        (S_OK, { r with read_pos := r.read_pos + t.length }, len + t.length) := by
  induction t with
  | nil =>
    intro fuel r len rest hptr _ hfuel
    obtain ⟨f, rfl⟩ : ∃ f, fuel = f + 1 := ⟨fuel - 1, by simp at hfuel; omega⟩
    rw [read_text_loop]
    simp only [read_end_of_data_cons r 60 rest hptr, read_utf8_char_ascii r 60 rest hptr (by omega),
      Bool.false_eq_true, if_false, if_true, List.length_nil, Nat.add_zero]
    simp
  | cons x t ih =>
    intro fuel r len rest hptr ht hfuel
    obtain ⟨f, rfl⟩ : ∃ f, fuel = f + 1 := ⟨fuel - 1, by simp at hfuel; omega⟩
    obtain ⟨hx0, hx60, hx128⟩ := ht x (List.mem_cons_self _ _)
    rw [read_text_loop]
    simp only [read_end_of_data_cons r x _ hptr, read_utf8_char_ascii r x (t ++ 60 :: rest) hptr hx128,
      hx0, hx60, if_false, Bool.false_eq_true]
    obtain ⟨hs1, hs2⟩ := read_skip_one r x (t ++ 60 :: rest) hptr
    rw [hs1, ih f _ (len + 1) rest hs2 (fun y hy => ht y (List.mem_cons_of_mem _ hy))
      (by simp at hfuel; omega)]
    simp only [List.length_cons]
    refine Prod.ext rfl (Prod.ext ?_ ?_)
    · show ({ r with read_pos := r.read_pos + 1 + t.length } : reader) = _
      rw [Nat.add_assoc, Nat.add_comm 1]
    · show len + 1 + t.length = len + (t.length + 1)
      omega

theorem read_endname_loop_spec (n : List Nat) :
    ∀ (fuel : Nat) (r : reader) (len : Nat) (rest : List Nat),
      read_current_ptr r = n ++ 62 :: rest → (∀ x ∈ n, read_isnamechar x = true) →
      n.length < fuel →
      read_endname_loop fuel r len =
        (S_OK, { r with read_pos := r.read_pos + n.length + 1 }, len + n.length) := by
  induction n with
  | nil =>
    intro fuel r len rest hptr _ hfuel
    obtain ⟨f, rfl⟩ : ∃ f, fuel = f + 1 := ⟨fuel - 1, by simp at hfuel; omega⟩
    rw [read_endname_loop]
    simp only [read_utf8_char_ascii r 62 rest hptr (by omega), (read_skip_one r 62 rest hptr).1,
      List.length_nil, Nat.add_zero]
    simp
  | cons x n ih =>
    intro fuel r len rest hptr hn hfuel
    obtain ⟨f, rfl⟩ : ∃ f, fuel = f + 1 := ⟨fuel - 1, by simp at hfuel; omega⟩
    have hx := hn x (List.mem_cons_self _ _)
    have hx2 := (read_isnamechar_iff x).mp hx
    have hx0 : x ≠ 0 := by omega
    have hx62 : x ≠ 62 := by omega
    rw [read_endname_loop]
    simp only [read_utf8_char_ascii r x (n ++ 62 :: rest) hptr (by omega), hx0, hx62, hx, if_false,
      Bool.not_true, Bool.false_eq_true]
    obtain ⟨hs1, hs2⟩ := read_skip_one r x (n ++ 62 :: rest) hptr
    rw [hs1, ih f _ (len + 1) rest hs2 (fun y hy => hn y (List.mem_cons_of_mem _ hy))
      (by simp at hfuel; omega)]
    simp only [List.length_cons]
    refine Prod.ext rfl (Prod.ext ?_ ?_)
    · show ({ r with read_pos := r.read_pos + 1 + n.length + 1 } : reader) = _
      have : r.read_pos + 1 + n.length + 1 = r.read_pos + (n.length + 1) + 1 := by omega
      rw [this]
    · show len + 1 + n.length = len + (n.length + 1)
      omega

theorem split_name_no_colon (str : List Nat) (h : ∀ x ∈ str, x ≠ 58) :
    split_name str = (S_OK, [], str) := by
  unfold split_name
  have htw : str.takeWhile (fun c => c != 58) = str := by
    rw [List.takeWhile_eq_self_iff]
    intro x hx
    simpa using h x hx
  simp only [htw, if_true]

theorem parse_name_no_colon (str : List Nat) (h : ∀ x ∈ str, x ≠ 58) :
    parse_name str = (S_OK, some [], some str) := by
  unfold parse_name
  simp [split_name_no_colon str h]

theorem decode_text_loop_plain (p : List Nat) :
    ∀ (fuel : Nat) (q : List Nat) (ret_len : Nat), (∀ x ∈ p, x ≠ 38) → p.length ≤ fuel →
      decode_text_loop fuel p q ret_len = (S_OK, q ++ p, ret_len + p.length) := by
  induction p with
  | nil =>
    intro fuel q n _ _
    cases fuel <;> simp [decode_text_loop]
  | cons c p ih =>
    intro fuel q n hp hfuel
    obtain ⟨f, rfl⟩ : ∃ f, fuel = f + 1 := ⟨fuel - 1, by simp at hfuel; omega⟩
    have hc : c ≠ 38 := hp c (List.mem_cons_self _ _)
    rw [decode_text_loop, if_neg hc, ih f _ _ (fun y hy => hp y (List.mem_cons_of_mem _ hy))
      (by simpa using hfuel)]
    simp only [List.append_assoc, List.singleton_append, List.length_cons]
    refine Prod.ext rfl (Prod.ext rfl ?_)
    show n + 1 + p.length = n + (p.length + 1)
    omega

theorem decode_text_plain (p : List Nat) (hp : ∀ x ∈ p, x ≠ 38) :
    decode_text p = (S_OK, p, p.length) := by
  unfold decode_text
  rw [decode_text_loop_plain p _ _ _ hp (le_refl _)]
  simp

theorem read_cmp_cons (r : reader) (s : Nat) (str : List Nat) (c : Nat) (rest : List Nat)
    (hptr : read_current_ptr r = c :: rest) :
    read_cmp r (s :: str) = 0 ↔ s = c ∧ str <+: rest := by
  rw [read_cmp_zero_iff _ _ (List.cons_ne_nil _ _), hptr, List.cons_prefix_cons]

theorem read_cmp_ne (r : reader) (s : Nat) (str : List Nat) (c : Nat) (rest : List Nat)
    (hptr : read_current_ptr r = c :: rest) (h : s ≠ c) : ¬ read_cmp r (s :: str) = 0 := by
  rw [read_cmp_cons r s str c rest hptr]
  exact fun h2 => h h2.1

theorem read_cmp_one (r : reader) (c : Nat) (rest : List Nat)
    (hptr : read_current_ptr r = c :: rest) : read_cmp r [c] = 0 := by
  rw [read_cmp_cons r c [] c rest hptr]
  exact ⟨rfl, List.nil_prefix⟩

theorem read_cmp_two (r : reader) (c d : Nat) (rest : List Nat)
    (hptr : read_current_ptr r = c :: d :: rest) : read_cmp r [c, d] = 0 := by
  rw [read_cmp_cons r c [d] c _ hptr, List.cons_prefix_cons]
  exact ⟨rfl, rfl, List.nil_prefix⟩

theorem read_cmp_ne_second (r : reader) (s t : Nat) (str : List Nat) (c d : Nat) (rest : List Nat)
    (hptr : read_current_ptr r = c :: d :: rest) (h : t ≠ d) : ¬ read_cmp r (s :: t :: str) = 0 := by
  rw [read_cmp_cons r s _ c _ hptr, List.cons_prefix_cons]
  exact fun h2 => h h2.2.1

/-- The result of `read_node_text` at the end of the input. -/
theorem read_node_text_end (fuel : Nat) (r : reader) (hptr : read_current_ptr r = []) :
    read_node_text (fuel + 1) r =
      (S_OK, { r with current := r.tail_child [], last := r.tail_child [],
                      state := READER_STATE_EOF }) := by
  rw [read_node_text, if_pos (read_end_of_data_nil r hptr)]

theorem read_node_text_element (fuel : Nat) (r : reader) (c : Nat) (rest : List Nat)
    (hptr : read_current_ptr r = 60 :: c :: rest) (h63 : c ≠ 63) (h47 : c ≠ 47) (h33 : c ≠ 33)
    (hs1 : r.state ≠ READER_STATE_STARTCDATA) (hs2 : r.state ≠ READER_STATE_CDATA) :
    read_node_text (fuel + 1) r = read_element_text r := by
  have e0 : ¬ read_end_of_data r = true := by
    rw [read_end_of_data_cons r _ _ hptr]
    simp
  have e1 := read_cmp_ne_second r 60 63 [] 60 c rest hptr h63.symm
  have e2 := read_cmp_ne_second r 60 47 [] 60 c rest hptr h47.symm
  have e3 := read_cmp_ne_second r 60 33 [91, 67, 68, 65, 84, 65, 91] 60 c rest hptr h33.symm
  have e4 := read_cmp_ne_second r 60 33 [45, 45] 60 c rest hptr h33.symm
  have e5 := read_cmp_one r 60 _ hptr
  rw [read_node_text, if_neg e0, if_neg hs1, if_neg hs2, if_neg e1, if_neg e2, if_neg e3, if_neg e4,
    if_pos e5]

theorem read_node_text_endelement (fuel : Nat) (r : reader) (rest : List Nat)
    (hptr : read_current_ptr r = 60 :: 47 :: rest)
    (hs1 : r.state ≠ READER_STATE_STARTCDATA) (hs2 : r.state ≠ READER_STATE_CDATA) :
    read_node_text (fuel + 1) r = read_endelement_text r := by
  have e0 : ¬ read_end_of_data r = true := by
    rw [read_end_of_data_cons r _ _ hptr]
    simp
  have e1 := read_cmp_ne_second r 60 63 [] 60 47 rest hptr (by decide)
  have e2 := read_cmp_two r 60 47 rest hptr
  rw [read_node_text, if_neg e0, if_neg hs1, if_neg hs2, if_neg e1, if_pos e2]

theorem read_node_text_gt (fuel : Nat) (r : reader) (rest : List Nat)
    (hptr : read_current_ptr r = 62 :: rest)
    (hs1 : r.state ≠ READER_STATE_STARTCDATA) (hs2 : r.state ≠ READER_STATE_CDATA) :
    read_node_text (fuel + 1) r = read_node_text fuel { r with read_pos := r.read_pos + 1 } := by
  have e0 : ¬ read_end_of_data r = true := by
    rw [read_end_of_data_cons r _ _ hptr]
    simp
  have e1 := read_cmp_ne r 60 [63] 62 rest hptr (by decide)
  have e2 := read_cmp_ne r 60 [47] 62 rest hptr (by decide)
  have e3 := read_cmp_ne r 60 [33, 91, 67, 68, 65, 84, 65, 91] 62 rest hptr (by decide)
  have e4 := read_cmp_ne r 60 [33, 45, 45] 62 rest hptr (by decide)
  have e5 := read_cmp_ne r 60 [] 62 rest hptr (by decide)
  have e6 := read_cmp_ne r 47 [62] 62 rest hptr (by decide)
  have e7 := read_cmp_one r 62 rest hptr
  have e8 : (decide (read_cmp r [47, 62] = 0) || decide (read_cmp r [62] = 0)) = true := by
    simp [e7]
  rw [read_node_text, if_neg e0, if_neg hs1, if_neg hs2, if_neg e1, if_neg e2, if_neg e3, if_neg e4,
    if_neg e5, if_pos e8]
  unfold read_startelement_text
  rw [read_skip_whitespace_none r 62 rest hptr (by decide)]
  simp only [if_neg e6, if_pos e7, (read_skip_one r 62 rest hptr).1]

theorem read_node_text_text (fuel : Nat) (r : reader) (c : Nat) (rest : List Nat)
    (hptr : read_current_ptr r = c :: rest) (h60 : c ≠ 60) (h47 : c ≠ 47) (h62 : c ≠ 62)
    (hs1 : r.state ≠ READER_STATE_STARTCDATA) (hs2 : r.state ≠ READER_STATE_CDATA) :
    read_node_text (fuel + 1) r = read_text_text r := by
  have e0 : ¬ read_end_of_data r = true := by
    rw [read_end_of_data_cons r _ _ hptr]
    simp
  have e1 := read_cmp_ne r 60 [63] c rest hptr h60.symm
  have e2 := read_cmp_ne r 60 [47] c rest hptr h60.symm
  have e3 := read_cmp_ne r 60 [33, 91, 67, 68, 65, 84, 65, 91] c rest hptr h60.symm
  have e4 := read_cmp_ne r 60 [33, 45, 45] c rest hptr h60.symm
  have e5 := read_cmp_ne r 60 [] c rest hptr h60.symm
  have e6 := read_cmp_ne r 47 [62] c rest hptr h47.symm
  have e7 := read_cmp_ne r 62 [] c rest hptr h62.symm
  have e8 : ¬ (decide (read_cmp r [47, 62] = 0) || decide (read_cmp r [62] = 0)) = true := by
    simp [e6, e7]
  rw [read_node_text, if_neg e0, if_neg hs1, if_neg hs2, if_neg e1, if_neg e2, if_neg e3, if_neg e4,
    if_neg e5, if_neg e8]

theorem find_parent_congr (r r' : reader) (h1 : r'.root = r.root) (h2 : r'.current = r.current) :
    find_parent r' = find_parent r := by
  unfold find_parent reader.node_at
  rw [h1, h2]

theorem get_namespace_congr (r r' : reader) (h : r'.prefixes = r.prefixes) (p : Option (List Nat)) :
    get_namespace r' p = get_namespace r p := by
  unfold get_namespace
  rw [h]

theorem read_attributes_text_none (r : reader) (rest : List Nat) (elem : WS_XML_ELEMENT_NODE)
    (hptr : read_current_ptr r = 62 :: rest) :
    read_attributes_text r elem = (S_OK, { r with current_attr := 0 }, elem) := by
  unfold read_attributes_text
  have hptr' : read_current_ptr { r with current_attr := 0 } = 62 :: rest := hptr
  rw [read_attributes_text_loop, read_skip_whitespace_none _ 62 rest hptr' (by decide)]
  have e := read_cmp_one _ 62 rest hptr'
  simp only [e, decide_True, Bool.true_or, if_true]

/-- The start tag of an element without prefix and without attributes. -/
theorem read_element_text_plain (r : reader) (n rest : List Nat)
    (hptr : read_current_ptr r = 60 :: (n ++ 62 :: rest)) (hne : n ≠ [])
    (hn : ∀ x ∈ n, name_byte x = true) (parent : List Nat) (hpar : find_parent r = some parent)
    (ns : List Nat) (hns : get_namespace r (some []) = some ns) :
    read_element_text r =
      (S_OK,
        { (read_insert_node { r with read_pos := r.read_pos + 1 + n.length, current_attr := 0 } parent
            (node.mk WS_XML_NODE_TYPE.ELEMENT ⟨some [], some n, some ns, []⟩ none []
              [alloc_node WS_XML_NODE_TYPE.END_ELEMENT])) with
          state := READER_STATE_STARTELEMENT }) := by
  have e0 : ¬ read_end_of_data r = true := by
    rw [read_end_of_data_cons r _ _ hptr]
    simp
  have e1 : ¬ read_cmp r [60] ≠ 0 := not_not.mpr (read_cmp_one r 60 _ hptr)
  obtain ⟨hs1, hs2⟩ := read_skip_one r 60 _ hptr
  obtain ⟨x, n', hxn⟩ : ∃ x n', n = x :: n' := by
    cases n with
    | nil => exact absurd rfl hne
    | cons x n' => exact ⟨x, n', rfl⟩
  have hnc : ∀ y ∈ n, read_isnamechar y = true := fun y hy => (name_byte_namechar y (hn y hy)).1
  have hx : read_isnamechar x = true := hnc x (by rw [hxn]; exact List.mem_cons_self _ _)
  have hx128 : x < 128 := by
    have := (read_isnamechar_iff x).mp hx
    omega
  have hs2' : read_current_ptr { r with read_pos := r.read_pos + 1 } = x :: (n' ++ 62 :: rest) := by
    rw [hs2, hxn]
    rfl
  have hchar := read_utf8_char_ascii _ x _ hs2' hx128
  have hlen := read_current_ptr_length { r with read_pos := r.read_pos + 1 }
  rw [hs2] at hlen
  simp only [List.length_append, List.length_cons] at hlen
  have hfuel : n.length < ({ r with read_pos := r.read_pos + 1 } : reader).read_size -
      ({ r with read_pos := r.read_pos + 1 } : reader).read_pos + 1 := by
    show n.length < _ - (r.read_pos + 1) + 1
    omega
  have hloop := read_name_loop_spec n _ { r with read_pos := r.read_pos + 1 } 0 62
    rest hs2 hnc (by decide) (by decide) (by decide) hfuel
  have hn0 : ¬ (0 + n.length = 0) := by
    have := List.length_pos.mpr hne
    omega
  have htake : List.take (0 + n.length) (n ++ 62 :: rest) = n := by
    rw [Nat.zero_add, List.take_left']
    rfl
  have hparse := parse_name_no_colon n (fun y hy => (name_byte_namechar y (hn y hy)).2)
  have hptr2 : read_current_ptr { r with read_pos := r.read_pos + 1 + n.length } = 62 :: rest := by
    have := (read_skip_ptr { r with read_pos := r.read_pos + 1 } n (62 :: rest) hs2).2
    exact this
  have hattrs := read_attributes_text_none { r with read_pos := r.read_pos + 1 + n.length } rest
    ⟨some [], some n, none, []⟩ hptr2
  have hns' : get_namespace { r with read_pos := r.read_pos + 1 + n.length, current_attr := 0 }
      (some []) = some ns := hns
  unfold read_element_text
  rw [if_neg e0, if_neg e1]
  simp only [hs1, hchar, hx, Bool.not_true, Bool.false_eq_true, if_false, hs2, hloop, htake,
    ne_eq, not_true_eq_false, hn0]
  have hpar' : find_parent { r with read_pos := r.read_pos + 1 + n.length } = some parent := hpar
  rw [hpar']
  simp only [hparse, ne_eq, not_true_eq_false, if_false, hattrs]
  simp only [set_namespaces, hns', set_namespaces_loop, ne_eq, not_true_eq_false, if_false]
  rfl

/-- A text without markup or references in front of a `<`. -/
theorem read_text_text_plain (r : reader) (t rest : List Nat)
    (hptr : read_current_ptr r = t ++ 60 :: rest)
    (ht : ∀ x ∈ t, x ≠ 0 ∧ x ≠ 60 ∧ x < 128 ∧ x ≠ 38)
    (parent : List Nat) (hpar : find_parent r = some parent) :
    read_text_text r =
      (S_OK,
        { (read_insert_node { r with read_pos := r.read_pos + t.length } parent
            (node.mk WS_XML_NODE_TYPE.TEXT ⟨none, none, none, []⟩ (some t) [] [])) with
          state := READER_STATE_TEXT, text_conv_offset := 0 }) := by
  have hlen := read_current_ptr_length r
  rw [hptr] at hlen
  simp only [List.length_append, List.length_cons] at hlen
  have hloop := read_text_loop_spec t (r.read_size - r.read_pos + 1) r 0 rest hptr
    (fun x hx => ⟨(ht x hx).1, (ht x hx).2.1, (ht x hx).2.2.1⟩) (by omega)
  have htake : List.take (0 + t.length) (t ++ 60 :: rest) = t := by
    rw [Nat.zero_add, List.take_left']
    rfl
  have hdec := decode_text_plain t (fun x hx => (ht x hx).2.2.2)
  have hpar' : find_parent { r with read_pos := r.read_pos + t.length } = some parent := hpar
  unfold read_text_text
  simp only [hloop, hptr, htake, hdec, hpar', ne_eq, not_true_eq_false, if_false]
  rfl

theorem find_startelement_congr (r r' : reader) (h1 : r'.root = r.root)
    (h2 : r'.current = r.current) (p l : List Nat) :
    find_startelement r' p l = find_startelement r p l := by
  have hloop : ∀ q : List Nat, find_startelement_loop r' p l q = find_startelement_loop r p l q := by
    intro q
    induction q with
    | nil => simp only [find_startelement_loop, reader.node_at, h1]
    | cons i q ih => simp only [find_startelement_loop, reader.node_at, h1, ih]
  unfold find_startelement
  rw [h2, hloop]

/-- What `read_endelement_text` does with a close tag whose name consists of
name bytes. -/
theorem read_endelement_text_eq (r : reader) (nm rest : List Nat)
    (hptr : read_current_ptr r = 60 :: 47 :: (nm ++ 62 :: rest))
    (hnm : ∀ x ∈ nm, read_isnamechar x = true) :
    read_endelement_text r =
      if (parse_name nm).1 ≠ S_OK then ((parse_name nm).1, after_close_tag r nm)
      else
        match find_startelement r ((parse_name nm).2.1.getD []) ((parse_name nm).2.2.getD []) with
        | none => (WS_E_INVALID_FORMAT, after_close_tag r nm)
        | some parent =>
          (S_OK,
            { after_close_tag r nm with
              current := r.tail_child parent
              last := r.tail_child parent
              state := READER_STATE_ENDELEMENT }) := by
  have e1 : ¬ read_cmp r [60, 47] ≠ 0 := not_not.mpr (read_cmp_two r 60 47 _ hptr)
  obtain ⟨hs1, hs2⟩ := read_skip_ptr r [60, 47] (nm ++ 62 :: rest) hptr
  simp only [List.length_cons, List.length_nil, Nat.zero_add, Nat.reduceAdd] at hs1 hs2
  have hlen := read_current_ptr_length { r with read_pos := r.read_pos + 2 }
  rw [hs2] at hlen
  simp only [List.length_append, List.length_cons] at hlen
  have hfuel : nm.length < ({ r with read_pos := r.read_pos + 2 } : reader).read_size -
      ({ r with read_pos := r.read_pos + 2 } : reader).read_pos + 1 := by
    show nm.length < _ - (r.read_pos + 2) + 1
    omega
  have hloop := read_endname_loop_spec nm _ { r with read_pos := r.read_pos + 2 } 0 rest hs2 hnm hfuel
  have htake : List.take (0 + nm.length) (nm ++ 62 :: rest) = nm := by
    rw [Nat.zero_add, List.take_left']
    rfl
  have hfind : ∀ p l : List Nat,
      find_startelement { r with read_pos := r.read_pos + 2 + nm.length + 1 } p l =
        find_startelement r p l :=
    fun p l => find_startelement_congr r { r with read_pos := r.read_pos + 2 + nm.length + 1 }
      rfl rfl p l
  unfold read_endelement_text
  rw [if_neg e1]
  simp only [hs1, hs2, hloop, htake, ne_eq, not_true_eq_false, if_false, hfind]
  by_cases hp : (parse_name nm).1 = S_OK
  · simp only [hp, not_true_eq_false, if_false]
    cases hf : find_startelement r ((parse_name nm).2.1.getD []) ((parse_name nm).2.2.getD []) with
    | none => rfl
    | some q => rfl
  · simp only [hp, not_false_eq_true, if_true]
    rfl

theorem WsSetInput_eq (data : List Nat) :
    WsSetInput data =
      reader_at data 0 READER_STATE_INITIAL
        (node.mk WS_XML_NODE_TYPE.BOF ⟨none, none, none, []⟩ none [] [alloc_node WS_XML_NODE_TYPE.EOF])
        [] := by
  rfl

theorem cmp_name_loop_self (n : List Nat) : cmp_name_loop n n = 0 := by
  induction n with
  | nil => rfl
  | cons x n ih => simp [cmp_name_loop, ih]

theorem cmp_name_self (n : List Nat) : cmp_name n n = 0 := by
  simp [cmp_name, cmp_name_loop_self]

theorem name_byte_facts (c : Nat) (h : name_byte c = true) :
    c ≠ 63 ∧ c ≠ 47 ∧ c ≠ 33 ∧ c ≠ 58 := by
  rw [name_byte_iff] at h
  omega

theorem text_byte_facts (c : Nat) (h : text_byte c = true) :
    c ≠ 0 ∧ c ≠ 60 ∧ c < 128 ∧ c ≠ 38 ∧ c ≠ 47 ∧ c ≠ 62 := by
  rw [text_byte_iff] at h
  omega

theorem exists_cons_of_ne_nil {l : List Nat} (h : l ≠ []) : ∃ x l', l = x :: l' := by
  cases l with
  | nil => exact absurd rfl h
  | cons x l' => exact ⟨x, l', rfl⟩

theorem read_node_first (n rest : List Nat) (hne : n ≠ []) (hn : ∀ x ∈ n, name_byte x = true) :
    read_node (WsSetInput (60 :: (n ++ 62 :: rest))) =
      (S_OK, reader_at (60 :: (n ++ 62 :: rest)) (0 + 1 + n.length) READER_STATE_STARTELEMENT
        (element_tree n []) [0]) := by
  rw [WsSetInput_eq]
  obtain ⟨x, n', hxn⟩ := exists_cons_of_ne_nil hne
  subst hxn
  have hx := name_byte_facts x (hn x (List.mem_cons_self _ _))
  have hptr : read_current_ptr (reader_at (60 :: (x :: n' ++ 62 :: rest)) 0 READER_STATE_INITIAL
      (node.mk WS_XML_NODE_TYPE.BOF ⟨none, none, none, []⟩ none [] [alloc_node WS_XML_NODE_TYPE.EOF])
      []) = 60 :: (x :: n' ++ 62 :: rest) := rfl
  have hs1 : (reader_at (60 :: (x :: n' ++ 62 :: rest)) 0 READER_STATE_INITIAL
      (node.mk WS_XML_NODE_TYPE.BOF ⟨none, none, none, []⟩ none [] [alloc_node WS_XML_NODE_TYPE.EOF])
      []).state ≠ READER_STATE_STARTCDATA := by
    show READER_STATE_INITIAL ≠ READER_STATE_STARTCDATA
    decide
  have hs2 : (reader_at (60 :: (x :: n' ++ 62 :: rest)) 0 READER_STATE_INITIAL
      (node.mk WS_XML_NODE_TYPE.BOF ⟨none, none, none, []⟩ none [] [alloc_node WS_XML_NODE_TYPE.EOF])
      []).state ≠ READER_STATE_CDATA := by
    show READER_STATE_INITIAL ≠ READER_STATE_CDATA
    decide
  rw [read_node_text_mode _ rfl]
  rw [read_node_text_element _ _ x (n' ++ 62 :: rest) hptr hx.1 hx.2.1 hx.2.2.1 hs1 hs2]
  rw [read_element_text_plain _ (x :: n') rest hptr hne hn [] rfl [] rfl]
  rfl

theorem read_node_second (n t rest : List Nat) (ht : t ≠ []) (htb : ∀ x ∈ t, text_byte x = true) :
    read_node (reader_at (60 :: (n ++ 62 :: (t ++ 60 :: rest))) (0 + 1 + n.length)
        READER_STATE_STARTELEMENT (element_tree n []) [0]) =
      (S_OK, reader_at (60 :: (n ++ 62 :: (t ++ 60 :: rest))) (0 + 1 + n.length + 1 + t.length)
        READER_STATE_TEXT
        (element_tree n [node.mk WS_XML_NODE_TYPE.TEXT ⟨none, none, none, []⟩ (some t) [] []])
        [0, 0]) := by
  obtain ⟨y, t', hyt⟩ := exists_cons_of_ne_nil ht
  subst hyt
  have hy := text_byte_facts y (htb y (List.mem_cons_self _ _))
  obtain ⟨R, hR⟩ : ∃ R, R = reader_at (60 :: (n ++ 62 :: (y :: t' ++ 60 :: rest))) (0 + 1 + n.length)
      READER_STATE_STARTELEMENT (element_tree n []) [0] := ⟨_, rfl⟩
  have hptr : read_current_ptr R = 62 :: (y :: t' ++ 60 :: rest) := by
    rw [hR]
    show List.drop (0 + 1 + n.length) (60 :: (n ++ 62 :: (y :: t' ++ 60 :: rest))) = _
    have : (60 :: (n ++ 62 :: (y :: t' ++ 60 :: rest))) =
        (60 :: n) ++ (62 :: (y :: t' ++ 60 :: rest)) := rfl
    rw [this, List.drop_left']
    simp only [List.length_cons]
    omega
  have hs1 : R.state ≠ READER_STATE_STARTCDATA := by
    rw [hR]
    show READER_STATE_STARTELEMENT ≠ READER_STATE_STARTCDATA
    decide
  have hs2 : R.state ≠ READER_STATE_CDATA := by
    rw [hR]
    show READER_STATE_STARTELEMENT ≠ READER_STATE_CDATA
    decide
  have hptr2 := (read_skip_one _ 62 _ hptr).2
  have hfuel : R.read_size - R.read_pos + 1 = ((y :: t').length + rest.length + 1) + 1 + 1 := by
    rw [hR]
    show (60 :: (n ++ 62 :: (y :: t' ++ 60 :: rest))).length - (0 + 1 + n.length) + 1 = _
    simp only [List.length_cons, List.length_append]
    omega
  have hpar : find_parent { R with read_pos := R.read_pos + 1 } = some [0] := by
    rw [hR]
    rfl
  rw [← hR]
  rw [read_node_text_mode _ (by rw [hR]; rfl)]
  rw [hfuel, read_node_text_gt _ _ _ hptr hs1 hs2,
    read_node_text_text _ _ y _ hptr2 hy.2.1 hy.2.2.2.2.1 hy.2.2.2.2.2 hs1 hs2,
    read_text_text_plain _ (y :: t') rest hptr2
      (fun x hx => ⟨(text_byte_facts x (htb x hx)).1, (text_byte_facts x (htb x hx)).2.1,
        (text_byte_facts x (htb x hx)).2.2.1, (text_byte_facts x (htb x hx)).2.2.2.1⟩) [0] hpar]
  rw [hR]
  rfl

theorem read_node_third (n t : List Nat) (hn : ∀ x ∈ n, name_byte x = true) (content : List node)
    (pos : Nat) (hpos : pos = (60 :: (n ++ 62 :: t)).length) (state : reader_state)
    (hs1 : state ≠ READER_STATE_STARTCDATA) (hs2 : state ≠ READER_STATE_CDATA)
    (current : List Nat)
    (hfind : find_startelement (reader_at (60 :: (n ++ 62 :: (t ++ 60 :: 47 :: (n ++ [62])))) pos
      state (element_tree n content) current) [] n = some [0]) :
    read_node (reader_at (60 :: (n ++ 62 :: (t ++ 60 :: 47 :: (n ++ [62])))) pos state
        (element_tree n content) current) =
      (S_OK, reader_at (60 :: (n ++ 62 :: (t ++ 60 :: 47 :: (n ++ [62])))) (pos + 2 + n.length + 1)
        READER_STATE_ENDELEMENT (element_tree n content) [content.length, 0]) := by
  have hptr : read_current_ptr (reader_at (60 :: (n ++ 62 :: (t ++ 60 :: 47 :: (n ++ [62])))) pos
      state (element_tree n content) current) = 60 :: 47 :: (n ++ 62 :: []) := by
    show List.drop pos (60 :: (n ++ 62 :: (t ++ 60 :: 47 :: (n ++ [62])))) = _
    have : (60 :: (n ++ 62 :: (t ++ 60 :: 47 :: (n ++ [62])))) =
        (60 :: (n ++ 62 :: t)) ++ (60 :: 47 :: (n ++ [62])) := by simp
    rw [this, List.drop_left' hpos.symm]
  have hparse := parse_name_no_colon n (fun y hy => (name_byte_namechar y (hn y hy)).2)
  have hs1' : (reader_at (60 :: (n ++ 62 :: (t ++ 60 :: 47 :: (n ++ [62])))) pos
      state (element_tree n content) current).state ≠ READER_STATE_STARTCDATA := hs1
  have hs2' : (reader_at (60 :: (n ++ 62 :: (t ++ 60 :: 47 :: (n ++ [62])))) pos
      state (element_tree n content) current).state ≠ READER_STATE_CDATA := hs2
  rw [read_node_text_mode _ rfl]
  rw [read_node_text_endelement _ _ _ hptr hs1' hs2',
    read_endelement_text_eq _ n [] hptr (fun y hy => (name_byte_namechar y (hn y hy)).1)]
  simp only [hparse, ne_eq, not_true_eq_false, if_false, Option.getD_some, hfind]
  simp [reader_at, after_close_tag, reader.tail_child, reader.node_at, element_tree, node.get?,
    node.children]

theorem read_node_fourth (data : List Nat) (pos : Nat) (hpos : pos = data.length)
    (state : reader_state) (n : List Nat) (content : List node) (current : List Nat) :
    read_node (reader_at data pos state (element_tree n content) current) =
      (S_OK, reader_at data pos READER_STATE_EOF (element_tree n content) [1]) := by
  have hptr : read_current_ptr (reader_at data pos state (element_tree n content) current) = [] := by
    show List.drop pos data = []
    rw [hpos]
    exact List.drop_length data
  rw [read_node_text_mode _ rfl]
  rw [read_node_text_end _ _ hptr]
  rfl

theorem find_startelement_text_child (data : List Nat) (pos : Nat) (state : reader_state)
    (n : List Nat) (x : node) (hx : x.nodeType ≠ WS_XML_NODE_TYPE.ELEMENT) :
    find_startelement (reader_at data pos state (element_tree n [x]) [0, 0]) [] n = some [0] := by
  cases x with
  | mk t h tx v c =>
    have ht : ¬ t = WS_XML_NODE_TYPE.ELEMENT := hx
    simp [find_startelement, find_startelement_loop, reader_at, reader.node_at, element_tree,
      node.get?, node.children, node.nodeType, node.hdr, cmp_name_self, ht]

theorem get?_append (path : List Nat) :
    ∀ (n m : node) (i : Nat), n.get? path = some m → n.get? (path ++ [i]) = m.children[i]? := by
  induction path with
  | nil =>
    intro n m i h
    simp [node.get?] at h
    subst h
    simp only [List.nil_append, node.get?]
    cases (n.children[i]?) <;> rfl
  | cons j path ih =>
    intro n m i h
    rw [node.get?] at h
    simp only [List.cons_append]
    rw [node.get?]
    cases hc : (n.children[j]?) with
    | none => simp [hc] at h
    | some child =>
      simp only [hc] at h ⊢
      exact ih child m i h

/-- Evaluated examples of the end-element matching: inside `<a><b>` the
close tag `</A>` moves the cursor to the EndElement node of `a`, at the place
1 of the element at the place 0 of the root; the close tag `</c>` fails and
leaves the cursor on `b`. -/
theorem read_endelement_text_examples :
    (read_endelement_text { reader_in_b with
        read_bufptr := [60, 97, 62, 60, 98, 62, 60, 47, 65, 62] }).1 = S_OK ∧
    (read_endelement_text { reader_in_b with
        read_bufptr := [60, 97, 62, 60, 98, 62, 60, 47, 65, 62] }).2.current = [1, 0] ∧
    (read_endelement_text { reader_in_b with
        read_bufptr := [60, 97, 62, 60, 98, 62, 60, 47, 99, 62] }).1 = WS_E_INVALID_FORMAT ∧
    (read_endelement_text { reader_in_b with
        read_bufptr := [60, 97, 62, 60, 98, 62, 60, 47, 99, 62] }).2.current = [0, 0] ∧
    reader_in_b.current = [0, 0] := by
  decide

/-! ## Close tags and the ancestor chain -/

theorem read_skip_frame (r : reader) (count : Nat) :
    (read_skip r count).root = r.root ∧ (read_skip r count).current = r.current ∧
    (read_skip r count).last = r.last ∧ (read_skip r count).prefixes = r.prefixes := by
  unfold read_skip
  by_cases h : r.read_pos + count > r.read_size
  · rw [if_pos h]
    exact ⟨rfl, rfl, rfl, rfl⟩
  · rw [if_neg h]
    exact ⟨rfl, rfl, rfl, rfl⟩

theorem read_name_loop_frame (fuel : Nat) :
    ∀ (r : reader) (len : Nat),
      (read_name_loop fuel r len).2.1.root = r.root ∧
      (read_name_loop fuel r len).2.1.current = r.current ∧
      (read_name_loop fuel r len).2.1.last = r.last ∧
      (read_name_loop fuel r len).2.1.prefixes = r.prefixes := by
  induction fuel with
  | zero =>
    intro r len
    exact ⟨rfl, rfl, rfl, rfl⟩
  | succ f ih =>
    intro r len
    rw [read_name_loop]
    have hs := read_skip_frame r (read_utf8_char r).2
    have hi := ih (read_skip r (read_utf8_char r).2) (len + (read_utf8_char r).2)
    split_ifs
    · exact ⟨rfl, rfl, rfl, rfl⟩
    · exact ⟨rfl, rfl, rfl, rfl⟩
    · exact ⟨hi.1.trans hs.1, hi.2.1.trans hs.2.1, hi.2.2.1.trans hs.2.2.1, hi.2.2.2.trans hs.2.2.2⟩

theorem read_value_loop_frame (quote fuel : Nat) :
    ∀ (r : reader) (len : Nat),
      (read_value_loop quote fuel r len).2.1.root = r.root ∧
      (read_value_loop quote fuel r len).2.1.current = r.current ∧
      (read_value_loop quote fuel r len).2.1.last = r.last ∧
      (read_value_loop quote fuel r len).2.1.prefixes = r.prefixes := by
  induction fuel with
  | zero =>
    intro r len
    exact ⟨rfl, rfl, rfl, rfl⟩
  | succ f ih =>
    intro r len
    rw [read_value_loop]
    have hs := read_skip_frame r (read_utf8_char r).2
    have hi := ih (read_skip r (read_utf8_char r).2) (len + (read_utf8_char r).2)
    split_ifs
    · exact ⟨rfl, rfl, rfl, rfl⟩
    · exact ⟨rfl, rfl, rfl, rfl⟩
    · exact ⟨hi.1.trans hs.1, hi.2.1.trans hs.2.1, hi.2.2.1.trans hs.2.2.1, hi.2.2.2.trans hs.2.2.2⟩

theorem bind_prefix_frame (r : reader) (p ns : Option (List Nat)) :
    ( bind_prefix r p ns).2.root = r.root ∧ ( bind_prefix r p ns).2.current = r.current ∧
    ( bind_prefix r p ns).2.last = r.last := by
  unfold bind_prefix
  cases bind_prefix_loop p ns r.prefixes with
  | none => exact ⟨rfl, rfl, rfl⟩
  | some t => exact ⟨rfl, rfl, rfl⟩

/-- `read_attribute_value_text` leaves the tree and the cursor alone, and
the prefixes too unless the attribute is an xmlns declaration. -/
theorem read_attribute_value_text_frame (r : reader) (attr : WS_XML_ATTRIBUTE) :
    (read_attribute_value_text r attr).2.1.root = r.root ∧
    (read_attribute_value_text r attr).2.1.current = r.current ∧
    (read_attribute_value_text r attr).2.1.last = r.last ∧
    (read_attribute_value_text r attr).2.2.isXmlNs = attr.isXmlNs ∧
    (attr.isXmlNs = false → (read_attribute_value_text r attr).2.1.prefixes = r.prefixes) := by
  unfold read_attribute_value_text
  dsimp only
  obtain ⟨r2, hr2⟩ : ∃ r2, r2 = read_skip_whitespace (read_skip (read_skip_whitespace r) 1) :=
    ⟨_, rfl⟩
  have s1 := read_skip_frame (read_skip_whitespace r) 1
  have f2 : r2.root = r.root ∧ r2.current = r.current ∧ r2.last = r.last ∧
      r2.prefixes = r.prefixes := by
    rw [hr2]
    exact ⟨s1.1, s1.2.1, s1.2.2.1, s1.2.2.2⟩
  rw [← hr2]
  obtain ⟨l, hl⟩ : ∃ l, l = read_value_loop (read_utf8_char r2).1
    ((read_skip r2 1).read_size - (read_skip r2 1).read_pos + 1) (read_skip r2 1) 0 := ⟨_, rfl⟩
  have s3 := read_skip_frame r2 1
  have l3 := read_value_loop_frame (read_utf8_char r2).1
    ((read_skip r2 1).read_size - (read_skip r2 1).read_pos + 1) (read_skip r2 1) 0
  rw [← hl] at l3 ⊢
  have f3 : l.2.1.root = r.root ∧ l.2.1.current = r.current ∧ l.2.1.last = r.last ∧
      l.2.1.prefixes = r.prefixes :=
    ⟨l3.1.trans (s3.1.trans f2.1), l3.2.1.trans (s3.2.1.trans f2.2.1),
      l3.2.2.1.trans (s3.2.2.1.trans f2.2.2.1), l3.2.2.2.trans (s3.2.2.2.trans f2.2.2.2)⟩
  have s4 := read_skip_frame l.2.1 1
  have f4 : (read_skip l.2.1 1).root = r.root ∧ (read_skip l.2.1 1).current = r.current ∧
      (read_skip l.2.1 1).last = r.last ∧ (read_skip l.2.1 1).prefixes = r.prefixes :=
    ⟨s4.1.trans f3.1, s4.2.1.trans f3.2.1, s4.2.2.1.trans f3.2.2.1, s4.2.2.2.trans f3.2.2.2⟩
  have b := bind_prefix_frame (read_skip l.2.1 1) attr.prefix_
    (some (List.take l.2.2 (read_current_ptr (read_skip r2 1))))
  split_ifs with c1 c2 c3 c4 c5 c6
  · exact ⟨rfl, rfl, rfl, rfl, fun _ => rfl⟩
  · exact ⟨f2.1, f2.2.1, f2.2.2.1, rfl, fun _ => f2.2.2.2⟩
  · exact ⟨f3.1, f3.2.1, f3.2.2.1, rfl, fun _ => f3.2.2.2⟩
  · exact ⟨b.1.trans f4.1, b.2.1.trans f4.2.1, b.2.2.trans f4.2.2.1, rfl,
      fun h => by rw [c4] at h; cases h⟩
  · exact ⟨b.1.trans f4.1, b.2.1.trans f4.2.1, b.2.2.trans f4.2.2.1, rfl,
      fun h => by rw [c4] at h; cases h⟩
  · exact ⟨f4.1, f4.2.1, f4.2.2.1, rfl, fun _ => f4.2.2.2⟩
  · exact ⟨f4.1, f4.2.1, f4.2.2.1, rfl, fun _ => f4.2.2.2⟩

theorem read_attribute_text_frame (r : reader) :
    (read_attribute_text r).2.1.root = r.root ∧
    (read_attribute_text r).2.1.current = r.current ∧
    (read_attribute_text r).2.1.last = r.last ∧
    ((read_attribute_text r).2.2.isXmlNs = false →
      (read_attribute_text r).2.1.prefixes = r.prefixes) := by
  unfold read_attribute_text
  dsimp only
  obtain ⟨l, hl⟩ : ∃ l, l = read_name_loop (r.read_size - r.read_pos + 1) r 0 := ⟨_, rfl⟩
  have l1 := read_name_loop_frame (r.read_size - r.read_pos + 1) r 0
  rw [← hl] at l1 ⊢
  split_ifs with c1 c2 c3 c4 c5
  · exact ⟨l1.1, l1.2.1, l1.2.2.1, fun _ => l1.2.2.2⟩
  · exact ⟨l1.1, l1.2.1, l1.2.2.1, fun _ => l1.2.2.2⟩
  · exact ⟨l1.1, l1.2.1, l1.2.2.1, fun _ => l1.2.2.2⟩
  · have v := read_attribute_value_text_frame l.2.1
      { singleQuote := false, isXmlNs := true, prefix_ := (parse_name (List.take l.2.2 (read_current_ptr r))).2.2,
        localName := (parse_name (List.take l.2.2 (read_current_ptr r))).2.2, ns := none, value := none }
    refine ⟨v.1.trans l1.1, v.2.1.trans l1.2.1, v.2.2.1.trans l1.2.2.1, ?_⟩
    intro h
    rw [v.2.2.2.1] at h
    cases h
  · have v := read_attribute_value_text_frame l.2.1
      { singleQuote := false, isXmlNs := true, prefix_ := (parse_name (List.take l.2.2 (read_current_ptr r))).2.1,
        localName := (parse_name (List.take l.2.2 (read_current_ptr r))).2.2, ns := none, value := none }
    refine ⟨v.1.trans l1.1, v.2.1.trans l1.2.1, v.2.2.1.trans l1.2.2.1, ?_⟩
    intro h
    rw [v.2.2.2.1] at h
    cases h
  · have v := read_attribute_value_text_frame l.2.1
      { singleQuote := false, isXmlNs := false, prefix_ := (parse_name (List.take l.2.2 (read_current_ptr r))).2.1,
        localName := (parse_name (List.take l.2.2 (read_current_ptr r))).2.2, ns := none, value := none }
    exact ⟨v.1.trans l1.1, v.2.1.trans l1.2.1, v.2.2.1.trans l1.2.2.1,
      fun _ => (v.2.2.2.2 rfl).trans l1.2.2.2⟩

theorem read_attributes_text_loop_frame (fuel : Nat) :
    ∀ (r : reader) (elem : WS_XML_ELEMENT_NODE),
      (read_attributes_text_loop fuel r elem).2.1.root = r.root ∧
      (read_attributes_text_loop fuel r elem).2.1.current = r.current ∧
      (read_attributes_text_loop fuel r elem).2.1.last = r.last ∧
      (read_attributes_text_loop fuel r elem).2.2.prefix_ = elem.prefix_ ∧
      (read_attributes_text_loop fuel r elem).2.2.localName = elem.localName ∧
      elem.attributes <+: (read_attributes_text_loop fuel r elem).2.2.attributes ∧
      ((read_attributes_text_loop fuel r elem).1 = S_OK →
        (∀ a ∈ (read_attributes_text_loop fuel r elem).2.2.attributes, a.isXmlNs = false) →
        (read_attributes_text_loop fuel r elem).2.1.prefixes = r.prefixes) := by
  induction fuel with
  | zero =>
    intro r elem
    exact ⟨rfl, rfl, rfl, rfl, rfl, List.prefix_refl _, fun _ _ => rfl⟩
  | succ f ih =>
    intro r elem
    rw [read_attributes_text_loop]
    dsimp only
    have a := read_attribute_text_frame (read_skip_whitespace r)
    obtain ⟨x, hx⟩ : ∃ x, x = read_attribute_text (read_skip_whitespace r) := ⟨_, rfl⟩
    rw [← hx] at a ⊢
    have hi := ih { x.2.1 with current_attr := x.2.1.current_attr + 1 } (append_attribute elem x.2.2)
    split_ifs with c1 c2
    · exact ⟨rfl, rfl, rfl, rfl, rfl, List.prefix_refl _, fun _ _ => rfl⟩
    · exact ⟨a.1, a.2.1, a.2.2.1, rfl, rfl, List.prefix_refl _, fun h _ => absurd h c2⟩
    · refine ⟨hi.1.trans a.1, hi.2.1.trans a.2.1, hi.2.2.1.trans a.2.2.1, hi.2.2.2.1, hi.2.2.2.2.1, ?_, ?_⟩
      · exact List.IsPrefix.trans (List.prefix_append _ _) hi.2.2.2.2.2.1
      · intro hok hall
        have hp := hi.2.2.2.2.2.2 hok hall
        have hmem : x.2.2 ∈ (read_attributes_text_loop f
            { x.2.1 with current_attr := x.2.1.current_attr + 1 }
            (append_attribute elem x.2.2)).2.2.attributes := by
          apply hi.2.2.2.2.2.1.subset
          simp [append_attribute]
        exact hp.trans (a.2.2.2 (hall _ hmem))

/-- Evaluated examples of the namespaces of a start tag:
`<p:a b='c' xmlns:p="urn"/>` gives the element the namespace `urn`; `<p:a>`
and `<a q:b='c'/>` fail with WS_E_INVALID_FORMAT and leave the tree of
`WsSetInput`; `<a>` gives the empty namespace. -/
theorem read_element_text_examples :
    ((read_node (WsSetInput [60, 112, 58, 97, 32, 98, 61, 39, 99, 39, 32, 120, 109, 108, 110,
      115, 58, 112, 61, 34, 117, 114, 110, 34, 47, 62])).2.node_at [0]).map
        (fun n => n.hdr.ns) = some (some [117, 114, 110]) ∧
    (read_node (WsSetInput [60, 112, 58, 97, 62])).1 = WS_E_INVALID_FORMAT ∧
    (read_node (WsSetInput [60, 112, 58, 97, 62])).2.root = (WsSetInput [60, 112, 58, 97, 62]).root ∧
    (read_node (WsSetInput [60, 97, 32, 113, 58, 98, 61, 39, 99, 39, 47, 62])).1 =
      WS_E_INVALID_FORMAT ∧
    (read_node (WsSetInput [60, 97, 32, 113, 58, 98, 61, 39, 99, 39, 47, 62])).2.root =
      (WsSetInput []).root ∧
    ((read_node (WsSetInput [60, 97, 62])).2.node_at [0]).map (fun n => n.hdr.ns) =
      some (some []) := by
  decide

/-! ## Duplication of a tree -/

/-- What `dup_attribute` copies: every field but the namespace, which is
made from the local name. -/
theorem dup_attribute_fields (src : WS_XML_ATTRIBUTE) :
    (dup_attribute src).singleQuote = src.singleQuote ∧
    (dup_attribute src).isXmlNs = src.isXmlNs ∧
    (dup_attribute src).prefix_ = src.prefix_ ∧
    (dup_attribute src).localName = src.localName ∧
    (dup_attribute src).value = src.value ∧
    (dup_attribute src).ns = src.localName :=
  ⟨rfl, rfl, rfl, rfl, rfl, rfl⟩

/-- C17 fails on the tree parsed from `<a b="c"/>`: `dup_tree` returns S_OK
with a tree that differs from the source.  The attribute `b` has the empty
namespace in the source and the namespace `b` in the copy; the empty prefix
of the element `a` is a null prefix in the copy. -/
theorem dup_tree_attribute_namespace :
    (dup_tree none tree_a_b_c).1 = S_OK ∧
    (dup_tree none tree_a_b_c).2 ≠ tree_a_b_c ∧
    (tree_a_b_c.get? [0]).map (fun n => n.hdr.attributes.map (fun a => (a.localName, a.ns))) =
      some [(some [98], some [])] ∧
    ((dup_tree none tree_a_b_c).2.get? [0]).map
        (fun n => n.hdr.attributes.map (fun a => (a.localName, a.ns))) =
      some [(some [98], some [98])] ∧
    (tree_a_b_c.get? [0]).map (fun n => n.hdr.prefix_) = some (some []) ∧
    ((dup_tree none tree_a_b_c).2.get? [0]).map (fun n => n.hdr.prefix_) = some none := by
  decide

/-! ## The pairing of elements with their EndElement nodes -/

theorem modify_nodeType (f : node → node) (hf : ∀ m, (f m).nodeType = m.nodeType)
    (path : List Nat) (n : node) : (n.modify f path).nodeType = n.nodeType := by
  cases path with
  | nil => exact hf n
  | cons i path =>
    cases n with
    | mk t h x v cs => rfl

theorem map_nodeType_modify (g : node → node) (hg : ∀ m, (g m).nodeType = m.nodeType)
    (cs : List node) : ∀ i : Nat, (cs.modify g i).map node.nodeType = cs.map node.nodeType := by
  induction cs with
  | nil =>
    intro i
    cases i <;> rfl
  | cons a cs ih =>
    intro i
    cases i with
    | zero => simp [List.modify, List.modifyTailIdx, List.modifyHead, hg]
    | succ i =>
      have := ih i
      simp only [List.modify_succ_cons, List.map_cons, this]

theorem paired_list_modify (g : node → node) (hg : ∀ m, m.paired = true → (g m).paired = true)
    (cs : List node) :
    ∀ i : Nat, node.paired_list cs = true → node.paired_list (cs.modify g i) = true := by
  induction cs with
  | nil =>
    intro i h
    cases i <;> exact h
  | cons a cs ih =>
    intro i h
    rw [node.paired_list, Bool.and_eq_true] at h
    cases i with
    | zero =>
      simp only [List.modify, List.modifyTailIdx, List.modifyHead]
      rw [node.paired_list, Bool.and_eq_true]
      exact ⟨hg a h.1, h.2⟩
    | succ i =>
      simp only [List.modify_succ_cons]
      rw [node.paired_list, Bool.and_eq_true]
      exact ⟨h.1, ih i h.2⟩

theorem paired_modify (f : node → node)
    (hf : ∀ m, m.paired = true → (f m).paired = true) (hft : ∀ m, (f m).nodeType = m.nodeType)
    (path : List Nat) : ∀ n : node, n.paired = true → (n.modify f path).paired = true := by
  induction path with
  | nil =>
    intro n hn
    exact hf n hn
  | cons i path ih =>
    intro n hn
    cases n with
    | mk t h x v cs =>
      rw [node.paired, Bool.and_eq_true] at hn
      rw [node.modify, node.paired, Bool.and_eq_true]
      constructor
      · have hmap := map_nodeType_modify (node.modify f path) (modify_nodeType f hft path) cs i
        have hlast : (cs.modify (node.modify f path) i).getLast?.map node.nodeType =
            cs.getLast?.map node.nodeType := by
          rw [← List.getLast?_map, ← List.getLast?_map, hmap]
        rw [hlast]
        exact hn.1
      · exact paired_list_modify _ ih cs i hn.2

theorem paired_list_append (l1 l2 : List node) :
    node.paired_list (l1 ++ l2) = (node.paired_list l1 && node.paired_list l2) := by
  induction l1 with
  | nil => simp [node.paired_list]
  | cons a l ih => simp [node.paired_list, ih, Bool.and_assoc]

theorem paired_list_of_mem (l : List node) (h : ∀ m ∈ l, m.paired = true) :
    node.paired_list l = true := by
  induction l with
  | nil => rfl
  | cons a l ih =>
    rw [node.paired_list, Bool.and_eq_true]
    exact ⟨h a (List.mem_cons_self _ _), ih (fun m hm => h m (List.mem_cons_of_mem _ hm))⟩

theorem mem_of_paired_list (l : List node) (h : node.paired_list l = true) :
    ∀ m ∈ l, m.paired = true := by
  induction l with
  | nil =>
    intro m hm
    cases hm
  | cons a l ih =>
    intro m hm
    rw [node.paired_list, Bool.and_eq_true] at h
    rcases List.mem_cons.mp hm with e | e
    · rw [e]
      exact h.1
    · exact ih h.2 m e

theorem insert_before_tail_paired (n p : node) (hn : n.paired = true) (hp : p.paired = true) :
    (node.insert_before_tail n p).paired = true := by
  cases p with
  | mk t h x v cs =>
    rw [node.paired, Bool.and_eq_true] at hp
    rw [node.insert_before_tail, node.paired, Bool.and_eq_true]
    have hmem := mem_of_paired_list cs hp.2
    constructor
    · cases hl : cs.getLast? with
      | none =>
        have hp1 := hp.1
        rw [hl] at hp1
        simp only [Option.map_none', Bool.or_eq_true, decide_eq_true_eq] at hp1
        rcases hp1 with h1 | h1
        · simp [h1]
        · cases h1
      | some last =>
        have hp1 := hp.1
        rw [hl] at hp1
        have : (cs.dropLast ++ n :: (some last).toList).getLast? = some last := by
          simp [Option.toList]
        rw [this]
        exact hp1
    · apply paired_list_of_mem
      intro m hm
      rcases List.mem_append.mp hm with h1 | h1
      · exact hmem m (List.dropLast_subset cs h1)
      · rcases List.mem_cons.mp h1 with h2 | h2
        · rw [h2]
          exact hn
        · have : cs.getLast? = some m := by
            cases hl : cs.getLast? with
            | none => simp [hl] at h2
            | some last =>
              simp only [hl, Option.toList, List.mem_singleton] at h2
              rw [h2]
          exact hmem m (List.mem_of_getLast?_eq_some this)

theorem insert_before_tail_nodeType (n p : node) :
    (node.insert_before_tail n p).nodeType = p.nodeType := by
  cases p with
  | mk t h x v cs => rfl

/-- `read_insert_node` keeps the elements of the tree paired when the new
node is. -/
theorem read_insert_node_paired (r : reader) (parent : List Nat) (n : node)
    (hr : r.root.paired = true) (hn : n.paired = true) :
    (read_insert_node r parent n).root.paired = true := by
  unfold read_insert_node
  exact paired_modify _ (fun m hm => insert_before_tail_paired n m hn hm)
    (insert_before_tail_nodeType n) _ _ hr

theorem read_text_loop_root (fuel : Nat) :
    ∀ (r : reader) (len : Nat), (read_text_loop fuel r len).2.1.root = r.root ∧
      (read_text_loop fuel r len).2.1.current = r.current := by
  induction fuel with
  | zero =>
    intro r len
    exact ⟨rfl, rfl⟩
  | succ f ih =>
    intro r len
    rw [read_text_loop]
    have hs := read_skip_frame r (read_utf8_char r).2
    have hi := ih (read_skip r (read_utf8_char r).2) (len + (read_utf8_char r).2)
    try dsimp only
    split_ifs
    · exact ⟨rfl, rfl⟩
    · exact ⟨rfl, rfl⟩
    · exact ⟨rfl, rfl⟩
    · exact ⟨hi.1.trans hs.1, hi.2.trans hs.2.1⟩

theorem read_endname_loop_root (fuel : Nat) :
    ∀ (r : reader) (len : Nat), (read_endname_loop fuel r len).2.1.root = r.root := by
  induction fuel with
  | zero =>
    intro r len
    rfl
  | succ f ih =>
    intro r len
    rw [read_endname_loop]
    have hs := read_skip_frame r (read_utf8_char r).2
    have hs1 := read_skip_frame r 1
    have hi := ih (read_skip r (read_utf8_char r).2) (len + (read_utf8_char r).2)
    try dsimp only
    split_ifs
    · rfl
    · exact hs1.1
    · rfl
    · exact hi.trans hs.1

theorem read_comment_loop_root (fuel : Nat) :
    ∀ (r : reader) (len : Nat), (read_comment_loop fuel r len).2.1.root = r.root ∧
      (read_comment_loop fuel r len).2.1.current = r.current := by
  induction fuel with
  | zero =>
    intro r len
    exact ⟨rfl, rfl⟩
  | succ f ih =>
    intro r len
    rw [read_comment_loop]
    have hs := read_skip_frame r (read_utf8_char r).2
    have hs3 := read_skip_frame r 3
    have hi := ih (read_skip r (read_utf8_char r).2) (len + (read_utf8_char r).2)
    try dsimp only
    split_ifs
    · exact ⟨hs3.1, hs3.2.1⟩
    · exact ⟨rfl, rfl⟩
    · exact ⟨hi.1.trans hs.1, hi.2.trans hs.2.1⟩

theorem read_cdata_loop_root (fuel : Nat) :
    ∀ (r : reader) (len : Nat), (read_cdata_loop fuel r len).2.1.root = r.root := by
  induction fuel with
  | zero =>
    intro r len
    rfl
  | succ f ih =>
    intro r len
    rw [read_cdata_loop]
    have hs := read_skip_frame r (read_utf8_char r).2
    have hi := ih (read_skip r (read_utf8_char r).2) (len + (read_utf8_char r).2)
    try dsimp only
    split_ifs
    · rfl
    · rfl
    · exact hi.trans hs.1

theorem read_xmldecl_root (r : reader) : (read_xmldecl r).2.root = r.root := by
  unfold read_xmldecl
  have h6 := read_skip_frame r 6
  have h2 := read_skip_frame (read_xmldecl_skip (read_skip r 6)) 2
  dsimp only
  split_ifs
  · rfl
  · rfl
  · rfl
  · exact h6.1
  · exact h2.1.trans h6.1

theorem read_attributes_text_root (r : reader) (elem : WS_XML_ELEMENT_NODE) :
    (read_attributes_text r elem).2.1.root = r.root :=
  (read_attributes_text_loop_frame _ _ elem).1

theorem read_element_text_paired (r : reader) (hr : r.root.paired = true) :
    (read_element_text r).2.root.paired = true := by
  unfold read_element_text
  dsimp only
  have s1 := read_skip_frame r 1
  have l1 := read_name_loop_frame ((read_skip r 1).read_size - (read_skip r 1).read_pos + 1)
    (read_skip r 1) 0
  obtain ⟨l, hl⟩ : ∃ l, l = read_name_loop ((read_skip r 1).read_size - (read_skip r 1).read_pos + 1)
    (read_skip r 1) 0 := ⟨_, rfl⟩
  rw [← hl] at l1 ⊢
  have hlroot : l.2.1.root = r.root := l1.1.trans s1.1
  have a1 := read_attributes_text_root l.2.1
    ⟨(parse_name (List.take l.2.2 (read_current_ptr (read_skip r 1)))).2.1,
      (parse_name (List.take l.2.2 (read_current_ptr (read_skip r 1)))).2.2, none, []⟩
  have hs1 : (read_rewind (read_skip r 1) 1).root.paired = true := by
    show (read_skip r 1).root.paired = true
    rw [s1.1]
    exact hr
  cases hpar : find_parent l.2.1 with
  | none =>
    dsimp only
    split_ifs
    all_goals first | exact hr | exact hs1 | (rw [hlroot]; exact hr)
  | some parent =>
    dsimp only
    split_ifs
    all_goals first | exact hr | exact hs1 | (rw [hlroot]; exact hr) | (rw [a1, hlroot]; exact hr) |
      (apply read_insert_node_paired
       · rw [a1, hlroot]
         exact hr
       · rfl)

theorem read_text_text_paired (r : reader) (hr : r.root.paired = true) :
    (read_text_text r).2.root.paired = true := by
  unfold read_text_text
  dsimp only
  have l1 := read_text_loop_root (r.read_size - r.read_pos + 1) r 0
  cases hpar : find_parent (read_text_loop (r.read_size - r.read_pos + 1) r 0).2.1 with
  | none =>
    dsimp only
    split_ifs
    all_goals first | exact hr | (rw [l1.1]; exact hr)
  | some parent =>
    dsimp only
    split_ifs
    all_goals first | exact hr | (rw [l1.1]; exact hr) |
      (apply read_insert_node_paired
       · rw [l1.1]
         exact hr
       · rfl)

theorem read_endelement_text_root (r : reader) : (read_endelement_text r).2.root = r.root := by
  unfold read_endelement_text
  dsimp only
  have s2 := read_skip_frame r 2
  have l1 := read_endname_loop_root ((read_skip r 2).read_size - (read_skip r 2).read_pos + 1)
    (read_skip r 2) 0
  obtain ⟨l, hl⟩ : ∃ l, l = read_endname_loop ((read_skip r 2).read_size - (read_skip r 2).read_pos + 1)
    (read_skip r 2) 0 := ⟨_, rfl⟩
  rw [← hl] at l1 ⊢
  cases hf : find_startelement l.2.1
      ((parse_name (List.take l.2.2 (read_current_ptr (read_skip r 2)))).2.1.getD [])
      ((parse_name (List.take l.2.2 (read_current_ptr (read_skip r 2)))).2.2.getD []) with
  | none =>
    dsimp only
    split_ifs
    all_goals first | rfl | exact l1.trans s2.1
  | some q =>
    dsimp only
    split_ifs
    all_goals first | rfl | exact l1.trans s2.1

theorem read_comment_text_paired (r : reader) (hr : r.root.paired = true) :
    (read_comment_text r).2.root.paired = true := by
  unfold read_comment_text
  dsimp only
  have s4 := read_skip_frame r 4
  have l1 := read_comment_loop_root ((read_skip r 4).read_size - (read_skip r 4).read_pos + 1)
    (read_skip r 4) 0
  cases hpar : find_parent (read_comment_loop
      ((read_skip r 4).read_size - (read_skip r 4).read_pos + 1) (read_skip r 4) 0).2.1 with
  | none =>
    dsimp only
    split_ifs
    all_goals first | exact hr | (rw [l1.1, s4.1]; exact hr)
  | some parent =>
    dsimp only
    split_ifs
    all_goals first | exact hr | (rw [l1.1, s4.1]; exact hr) |
      (apply read_insert_node_paired
       · rw [l1.1, s4.1]
         exact hr
       · rfl)

theorem read_startcdata_paired (r : reader) (hr : r.root.paired = true) :
    (read_startcdata r).2.root.paired = true := by
  unfold read_startcdata
  dsimp only
  have s9 := read_skip_frame r 9
  cases hpar : find_parent (read_skip r 9) with
  | none =>
    dsimp only
    split_ifs
    all_goals first | exact hr | (rw [s9.1, hr])
  | some parent =>
    dsimp only
    split_ifs
    all_goals first | exact hr |
      (apply read_insert_node_paired
       · rw [s9.1]
         exact hr
       · rfl)

theorem read_cdata_paired (r : reader) (hr : r.root.paired = true) :
    (read_cdata r).2.root.paired = true := by
  unfold read_cdata
  dsimp only
  have l1 := read_cdata_loop_root (r.read_size - r.read_pos + 1) r 0
  split_ifs with c1
  · rw [l1]
    exact hr
  · apply read_insert_node_paired
    · rw [l1]
      exact hr
    · rfl

theorem read_endcdata_root (r : reader) : (read_endcdata r).2.root = r.root := by
  unfold read_endcdata
  dsimp only
  have s3 := read_skip_frame r 3
  split_ifs with c1
  · rfl
  · exact s3.1
  · exact s3.1

/-- Every pass of `read_node_text` keeps the elements of the tree paired
with their EndElement nodes. -/
theorem read_node_text_paired (fuel : Nat) :
    ∀ r : reader, r.root.paired = true → (read_node_text fuel r).2.root.paired = true := by
  induction fuel with
  | zero =>
    intro r hr
    exact hr
  | succ f ih =>
    intro r hr
    rw [read_node_text]
    have hx := read_xmldecl_root r
    split_ifs with c1 c2 c3 c4 c5 c6 c7 c8 c9
    · exact hr
    · exact read_cdata_paired r hr
    · rw [read_endcdata_root]
      exact hr
    · by_cases hF : FAILED (read_xmldecl r).1 = true
      · rw [if_pos hF, hx]
        exact hr
      · rw [if_neg hF]
        exact ih _ (by rw [hx]; exact hr)
    · rw [read_endelement_text_root]
      exact hr
    · exact read_startcdata_paired r hr
    · exact read_comment_text_paired r hr
    · exact read_element_text_paired r hr
    · unfold read_startelement_text
      dsimp only
      have s2 := read_skip_frame (read_skip_whitespace r) 2
      have s1 := read_skip_frame (read_skip_whitespace r) 1
      split_ifs
      · show (read_skip (read_skip_whitespace r) 2).root.paired = true
        rw [s2.1]
        exact hr
      · exact ih _ (by rw [s1.1]; exact hr)
      · exact hr
    · exact read_text_text_paired r hr

/-! ## The bounds on the loops of the reader are never used up -/

theorem utf8_result_skip (res : Option Nat) (len : Nat) (h : (utf8_result res len).1 ≠ 0) :
    (utf8_result res len).2 = len + 1 := by
  unfold utf8_result at h ⊢
  cases res with
  | none => exact absurd rfl h
  | some x =>
    dsimp only at h ⊢
    split_ifs at h ⊢ with c
    · exact absurd rfl h
    · rfl

theorem read_utf8_char_skip (r : reader) (h : (read_utf8_char r).1 ≠ 0) :
    1 ≤ (read_utf8_char r).2 ∧ r.read_pos + (read_utf8_char r).2 ≤ r.read_size := by
  unfold read_utf8_char at h ⊢
  dsimp only at h ⊢
  by_cases c1 : r.read_pos ≥ r.read_size
  · rw [if_pos c1] at h
    exact absurd rfl h
  · rw [if_neg c1] at h ⊢
    by_cases c2 : r.read_bufptr.getD r.read_pos 0 < 128
    · rw [if_pos c2]
      exact ⟨le_refl _, by omega⟩
    · rw [if_neg c2] at h ⊢
      by_cases c3 : r.read_pos + utf8_length.getD (r.read_bufptr.getD r.read_pos 0 - 128) 0 ≥ r.read_size
      · rw [if_pos c3] at h
        exact absurd rfl h
      · rw [if_neg c3] at h ⊢
        rw [utf8_result_skip _ _ h]
        exact ⟨by omega, by omega⟩

theorem read_skip_pos (r : reader) (count : Nat) (h : r.read_pos + count ≤ r.read_size) :
    (read_skip r count).read_pos = r.read_pos + count ∧
    (read_skip r count).read_size = r.read_size := by
  unfold read_skip
  rw [if_neg (by omega)]
  exact ⟨rfl, rfl⟩

theorem read_skip_size (r : reader) (count : Nat) :
    (read_skip r count).read_size = r.read_size ∧ r.read_pos ≤ (read_skip r count).read_pos := by
  unfold read_skip
  split_ifs
  · exact ⟨rfl, le_refl _⟩
  · exact ⟨rfl, Nat.le_add_right _ _⟩

/-- The loop over a name does not use up a bound above the number of bytes
left; it leaves the size of the input alone and moves the position forward by
the length it adds to `len`. -/
theorem read_name_loop_bound (fuel : Nat) :
    ∀ (r : reader) (len : Nat), r.read_size - r.read_pos < fuel →
      (read_name_loop fuel r len).1 ≠ E_NOTIMPL ∧
      (read_name_loop fuel r len).2.1.read_size = r.read_size ∧
      (read_name_loop fuel r len).2.1.read_pos + len = r.read_pos + (read_name_loop fuel r len).2.2 ∧
      len ≤ (read_name_loop fuel r len).2.2 := by
  induction fuel with
  | zero =>
    intro r len h
    omega
  | succ f ih =>
    intro r len h
    rw [read_name_loop]
    try dsimp only
    by_cases c1 : (read_utf8_char r).1 = 0
    · rw [if_pos c1]
      exact ⟨by simp, rfl, rfl, le_refl _⟩
    · rw [if_neg c1]
      have hs := read_utf8_char_skip r c1
      have hp := read_skip_pos r _ hs.2
      have hi := ih (read_skip r (read_utf8_char r).2) (len + (read_utf8_char r).2)
        (by rw [hp.1, hp.2]; omega)
      split_ifs
      · exact ⟨by simp, rfl, rfl, le_refl _⟩
      · refine ⟨hi.1, hi.2.1.trans hp.2, ?_, ?_⟩
        · have := hi.2.2.1
          rw [hp.1] at this
          omega
        · omega

theorem read_value_loop_bound (quote fuel : Nat) :
    ∀ (r : reader) (len : Nat), r.read_size - r.read_pos < fuel →
      (read_value_loop quote fuel r len).1 ≠ E_NOTIMPL ∧
      (read_value_loop quote fuel r len).2.1.read_size = r.read_size ∧
      r.read_pos ≤ (read_value_loop quote fuel r len).2.1.read_pos := by
  induction fuel with
  | zero =>
    intro r len h
    omega
  | succ f ih =>
    intro r len h
    rw [read_value_loop]
    try dsimp only
    by_cases c1 : (read_utf8_char r).1 = 0
    · rw [if_pos c1]
      exact ⟨by simp, rfl, le_refl _⟩
    · rw [if_neg c1]
      have hs := read_utf8_char_skip r c1
      have hp := read_skip_pos r _ hs.2
      have hi := ih (read_skip r (read_utf8_char r).2) (len + (read_utf8_char r).2)
        (by rw [hp.1, hp.2]; omega)
      split_ifs
      · exact ⟨by simp, rfl, le_refl _⟩
      · refine ⟨hi.1, hi.2.1.trans hp.2, ?_⟩
        have := hi.2.2
        rw [hp.1] at this
        omega

theorem read_text_loop_bound (fuel : Nat) :
    ∀ (r : reader) (len : Nat), r.read_size - r.read_pos < fuel →
      (read_text_loop fuel r len).1 ≠ E_NOTIMPL := by
  induction fuel with
  | zero =>
    intro r len h
    omega
  | succ f ih =>
    intro r len h
    rw [read_text_loop]
    by_cases c0 : read_end_of_data r = true
    · rw [if_pos c0]
      simp
    · rw [if_neg c0]
      try dsimp only
      by_cases c1 : (read_utf8_char r).1 = 0
      · rw [if_pos c1]
        simp
      · rw [if_neg c1]
        have hs := read_utf8_char_skip r c1
        have hp := read_skip_pos r _ hs.2
        have hi := ih (read_skip r (read_utf8_char r).2) (len + (read_utf8_char r).2)
          (by rw [hp.1, hp.2]; omega)
        split_ifs
        · simp
        · exact hi

theorem read_endname_loop_bound (fuel : Nat) :
    ∀ (r : reader) (len : Nat), r.read_size - r.read_pos < fuel →
      (read_endname_loop fuel r len).1 ≠ E_NOTIMPL := by
  induction fuel with
  | zero =>
    intro r len h
    omega
  | succ f ih =>
    intro r len h
    rw [read_endname_loop]
    try dsimp only
    by_cases c1 : (read_utf8_char r).1 = 0
    · rw [if_pos c1]
      simp
    · rw [if_neg c1]
      have hs := read_utf8_char_skip r c1
      have hp := read_skip_pos r _ hs.2
      have hi := ih (read_skip r (read_utf8_char r).2) (len + (read_utf8_char r).2)
        (by rw [hp.1, hp.2]; omega)
      split_ifs
      · simp
      · simp
      · exact hi

theorem read_comment_loop_bound (fuel : Nat) :
    ∀ (r : reader) (len : Nat), r.read_size - r.read_pos < fuel →
      (read_comment_loop fuel r len).1 ≠ E_NOTIMPL := by
  induction fuel with
  | zero =>
    intro r len h
    omega
  | succ f ih =>
    intro r len h
    rw [read_comment_loop]
    by_cases c0 : read_cmp r [45, 45, 62] = 0
    · rw [if_pos c0]
      simp
    · rw [if_neg c0]
      try dsimp only
      by_cases c1 : (read_utf8_char r).1 = 0
      · rw [if_pos c1]
        simp
      · rw [if_neg c1]
        have hs := read_utf8_char_skip r c1
        have hp := read_skip_pos r _ hs.2
        exact ih (read_skip r (read_utf8_char r).2) (len + (read_utf8_char r).2)
          (by rw [hp.1, hp.2]; omega)

theorem read_cdata_loop_bound (fuel : Nat) :
    ∀ (r : reader) (len : Nat), r.read_size - r.read_pos < fuel →
      (read_cdata_loop fuel r len).1 ≠ E_NOTIMPL := by
  induction fuel with
  | zero =>
    intro r len h
    omega
  | succ f ih =>
    intro r len h
    rw [read_cdata_loop]
    by_cases c0 : read_cmp r [93, 93, 62] = 0
    · rw [if_pos c0]
      simp
    · rw [if_neg c0]
      try dsimp only
      by_cases c1 : (read_utf8_char r).1 = 0
      · rw [if_pos c1]
        simp
      · rw [if_neg c1]
        have hs := read_utf8_char_skip r c1
        have hp := read_skip_pos r _ hs.2
        exact ih (read_skip r (read_utf8_char r).2) (len + (read_utf8_char r).2)
          (by rw [hp.1, hp.2]; omega)

theorem read_name_loop_pos (fuel : Nat) :
    ∀ (r : reader) (len : Nat),
      (read_name_loop fuel r len).2.1.read_size = r.read_size ∧
      (read_name_loop fuel r len).2.1.read_pos + len = r.read_pos + (read_name_loop fuel r len).2.2 ∧
      ((read_name_loop fuel r len).2.1.read_pos ≤ r.read_size ∨
        (read_name_loop fuel r len).2.1.read_pos = r.read_pos) := by
  induction fuel with
  | zero =>
    intro r len
    exact ⟨rfl, rfl, Or.inr rfl⟩
  | succ f ih =>
    intro r len
    rw [read_name_loop]
    try dsimp only
    by_cases c1 : (read_utf8_char r).1 = 0
    · rw [if_pos c1]
      exact ⟨rfl, rfl, Or.inr rfl⟩
    · rw [if_neg c1]
      have hs := read_utf8_char_skip r c1
      have hp := read_skip_pos r _ hs.2
      have hi := ih (read_skip r (read_utf8_char r).2) (len + (read_utf8_char r).2)
      rw [hp.1, hp.2] at hi
      split_ifs
      · exact ⟨rfl, rfl, Or.inr rfl⟩
      · refine ⟨hi.1, by omega, Or.inl ?_⟩
        rcases hi.2.2 with h | h
        · exact h
        · omega

theorem read_value_loop_pos (quote fuel : Nat) :
    ∀ (r : reader) (len : Nat),
      (read_value_loop quote fuel r len).2.1.read_size = r.read_size ∧
      r.read_pos ≤ (read_value_loop quote fuel r len).2.1.read_pos := by
  induction fuel with
  | zero =>
    intro r len
    exact ⟨rfl, le_refl _⟩
  | succ f ih =>
    intro r len
    rw [read_value_loop]
    try dsimp only
    by_cases c1 : (read_utf8_char r).1 = 0
    · rw [if_pos c1]
      exact ⟨rfl, le_refl _⟩
    · rw [if_neg c1]
      have hs := read_utf8_char_skip r c1
      have hp := read_skip_pos r _ hs.2
      have hi := ih (read_skip r (read_utf8_char r).2) (len + (read_utf8_char r).2)
      rw [hp.1, hp.2] at hi
      split_ifs
      · exact ⟨rfl, le_refl _⟩
      · exact ⟨hi.1, by omega⟩

theorem read_skip_whitespace_pos (r : reader) :
    (read_skip_whitespace r).read_size = r.read_size ∧
    r.read_pos ≤ (read_skip_whitespace r).read_pos ∧
    ((read_skip_whitespace r).read_pos ≤ r.read_size ∨
      (read_skip_whitespace r).read_pos = r.read_pos) := by
  have hlen := read_current_ptr_length r
  have htw := (List.takeWhile_sublist read_isspace (l := read_current_ptr r)).length_le
  refine ⟨rfl, Nat.le_add_right _ _, ?_⟩
  show r.read_pos + _ ≤ r.read_size ∨ r.read_pos + _ = r.read_pos
  by_cases h : r.read_pos ≤ r.read_size
  · left
    omega
  · right
    omega

theorem bind_prefix_pos (r : reader) (p ns : Option (List Nat)) :
    ( bind_prefix r p ns).1 = S_OK ∧ ( bind_prefix r p ns).2.read_size = r.read_size ∧
    ( bind_prefix r p ns).2.read_pos = r.read_pos := by
  unfold bind_prefix
  cases bind_prefix_loop p ns r.prefixes with
  | none => exact ⟨rfl, rfl, rfl⟩
  | some t => exact ⟨rfl, rfl, rfl⟩

theorem decode_text_ne_notimpl (str : List Nat) : (decode_text str).1 ≠ E_NOTIMPL := by
  rcases decode_text_result str with h | h
  · rw [h]
    decide
  · rw [h]
    decide

/-- `read_attribute_value_text` does not use up the bound of its loop, and it
does not move the position backwards. -/
theorem read_attribute_value_text_pos (r : reader) (attr : WS_XML_ATTRIBUTE) :
    (read_attribute_value_text r attr).1 ≠ E_NOTIMPL ∧
    (read_attribute_value_text r attr).2.1.read_size = r.read_size ∧
    r.read_pos ≤ (read_attribute_value_text r attr).2.1.read_pos := by
  unfold read_attribute_value_text
  dsimp only
  have w1 := read_skip_whitespace_pos r
  have s1 := read_skip_size (read_skip_whitespace r) 1
  have w2 := read_skip_whitespace_pos (read_skip (read_skip_whitespace r) 1)
  obtain ⟨r2, hr2⟩ : ∃ r2, r2 = read_skip_whitespace (read_skip (read_skip_whitespace r) 1) :=
    ⟨_, rfl⟩
  rw [← hr2] at w2 ⊢
  have f2 : r2.read_size = r.read_size ∧ r.read_pos ≤ r2.read_pos :=
    ⟨w2.1.trans (s1.1.trans w1.1), le_trans w1.2.1 (le_trans s1.2 w2.2.1)⟩
  have s3 := read_skip_size r2 1
  have hb := read_value_loop_bound (read_utf8_char r2).1
    ((read_skip r2 1).read_size - (read_skip r2 1).read_pos + 1) (read_skip r2 1) 0
    (Nat.lt_succ_self _)
  obtain ⟨l, hl⟩ : ∃ l, l = read_value_loop (read_utf8_char r2).1
    ((read_skip r2 1).read_size - (read_skip r2 1).read_pos + 1) (read_skip r2 1) 0 := ⟨_, rfl⟩
  rw [← hl] at hb ⊢
  have f3 : l.2.1.read_size = r.read_size ∧ r.read_pos ≤ l.2.1.read_pos :=
    ⟨hb.2.1.trans (s3.1.trans f2.1), le_trans f2.2 (le_trans s3.2 hb.2.2)⟩
  have s4 := read_skip_size l.2.1 1
  have f4 : (read_skip l.2.1 1).read_size = r.read_size ∧ r.read_pos ≤ (read_skip l.2.1 1).read_pos :=
    ⟨s4.1.trans f3.1, le_trans f3.2 s4.2⟩
  have b := bind_prefix_pos (read_skip l.2.1 1) attr.prefix_
    (some (List.take l.2.2 (read_current_ptr (read_skip r2 1))))
  have hd := decode_text_ne_notimpl (List.take l.2.2 (read_current_ptr (read_skip r2 1)))
  split_ifs with c1 c2 c3 c4 c5 c6
  · exact ⟨by simp, w1.1, w1.2.1⟩
  · exact ⟨by simp, f2.1, f2.2⟩
  · exact ⟨hb.1, f3.1, f3.2⟩
  · exact absurd b.1 c5
  · exact ⟨by simp, b.2.1.trans f4.1, by rw [b.2.2]; exact f4.2⟩
  · exact ⟨hd, f4.1, f4.2⟩
  · exact ⟨by simp, f4.1, f4.2⟩

/-- `read_attribute_text` does not use up the bounds of its loops, and a
successful call consumes at least one byte. -/
theorem read_attribute_text_pos (r : reader) :
    (read_attribute_text r).1 ≠ E_NOTIMPL ∧
    (read_attribute_text r).2.1.read_size = r.read_size ∧
    ((read_attribute_text r).1 = S_OK →
      r.read_pos < (read_attribute_text r).2.1.read_pos ∧ r.read_pos < r.read_size) := by
  unfold read_attribute_text
  dsimp only
  have hb := read_name_loop_bound (r.read_size - r.read_pos + 1) r 0 (Nat.lt_succ_self _)
  have hq := read_name_loop_pos (r.read_size - r.read_pos + 1) r 0
  obtain ⟨l, hl⟩ : ∃ l, l = read_name_loop (r.read_size - r.read_pos + 1) r 0 := ⟨_, rfl⟩
  rw [← hl] at hb hq ⊢
  have hparse : ∀ s : List Nat, (parse_name s).1 ≠ S_OK → (parse_name s).1 ≠ E_NOTIMPL := by
    intro s _
    unfold parse_name split_name
    dsimp only
    split_ifs <;> simp
  have key : ∀ attr : WS_XML_ATTRIBUTE, ¬ l.2.2 = 0 →
      (read_attribute_value_text l.2.1 attr).1 ≠ E_NOTIMPL ∧
      (read_attribute_value_text l.2.1 attr).2.1.read_size = r.read_size ∧
      ((read_attribute_value_text l.2.1 attr).1 = S_OK →
        r.read_pos < (read_attribute_value_text l.2.1 attr).2.1.read_pos ∧
          r.read_pos < r.read_size) := by
    intro attr hlen
    have v := read_attribute_value_text_pos l.2.1 attr
    refine ⟨v.1, v.2.1.trans hq.1, fun _ => ?_⟩
    have h1 := hq.2.1
    have h2 := hq.2.2
    have h3 := v.2.2
    constructor
    · omega
    · rcases h2 with h | h
      · omega
      · omega
  split_ifs with c1 c2 c3 c4 c5
  · exact ⟨hb.1, hq.1, fun h => absurd h c1⟩
  · exact ⟨by simp, hq.1, fun h => by simp at h⟩
  · exact ⟨hparse _ c3, hq.1, fun h => absurd h c3⟩
  · exact key _ c2
  · exact key _ c2
  · exact key _ c2

theorem read_attributes_text_loop_bound (fuel : Nat) :
    ∀ (r : reader) (elem : WS_XML_ELEMENT_NODE), r.read_size - r.read_pos < fuel →
      (read_attributes_text_loop fuel r elem).1 ≠ E_NOTIMPL := by
  induction fuel with
  | zero =>
    intro r elem h
    omega
  | succ f ih =>
    intro r elem h
    rw [read_attributes_text_loop]
    dsimp only
    have w := read_skip_whitespace_pos r
    have a := read_attribute_text_pos (read_skip_whitespace r)
    split_ifs with c1 c2
    · simp
    · exact a.1
    · have hok : (read_attribute_text (read_skip_whitespace r)).1 = S_OK := not_not.mp c2
      have hp := a.2.2 hok
      apply ih
      show (read_attribute_text (read_skip_whitespace r)).2.1.read_size -
        (read_attribute_text (read_skip_whitespace r)).2.1.read_pos < f
      rw [a.2.1, w.1]
      rw [w.1] at hp
      omega

theorem read_cmp_zero_size (r : reader) (str : List Nat) (h : read_cmp r str = 0) :
    r.read_pos + str.length ≤ r.read_size := by
  unfold read_cmp at h
  by_contra hc
  rw [if_pos (by omega)] at h
  simp at h

theorem parse_name_ne_notimpl (s : List Nat) : (parse_name s).1 ≠ E_NOTIMPL := by
  unfold parse_name split_name
  dsimp only
  split_ifs <;> simp

theorem set_namespaces_loop_ne_notimpl (r : reader) (attrs : List WS_XML_ATTRIBUTE) :
    (set_namespaces_loop r attrs).1 ≠ E_NOTIMPL := by
  induction attrs with
  | nil => simp [set_namespaces_loop]
  | cons a as ih =>
    rw [set_namespaces_loop]
    split_ifs
    · exact ih
    · cases get_namespace r a.prefix_ with
      | none => simp
      | some ns => exact ih

theorem set_namespaces_ne_notimpl (r : reader) (elem : WS_XML_ELEMENT_NODE) :
    (set_namespaces r elem).1 ≠ E_NOTIMPL := by
  unfold set_namespaces
  cases get_namespace r elem.prefix_ with
  | none => simp
  | some ns => exact set_namespaces_loop_ne_notimpl r elem.attributes

/-- `read_element_text` does not use up the bounds of its loops. -/
theorem read_element_text_ne_notimpl (r : reader) : (read_element_text r).1 ≠ E_NOTIMPL := by
  unfold read_element_text
  dsimp only
  obtain ⟨r1, hr1⟩ : ∃ r1, r1 = read_skip r 1 := ⟨_, rfl⟩
  rw [← hr1]
  have hb := read_name_loop_bound (r1.read_size - r1.read_pos + 1) r1 0 (Nat.lt_succ_self _)
  obtain ⟨l, hl⟩ : ∃ l, l = read_name_loop (r1.read_size - r1.read_pos + 1) r1 0 := ⟨_, rfl⟩
  rw [← hl] at hb ⊢
  have ha : ∀ elem, (read_attributes_text l.2.1 elem).1 ≠ E_NOTIMPL := fun elem =>
    read_attributes_text_loop_bound _ _ elem (Nat.lt_succ_self _)
  cases hpar : find_parent l.2.1 with
  | none =>
    try dsimp only
    split_ifs <;> first | exact hb.1 | simp
  | some parent =>
    try dsimp only
    split_ifs <;>
      first
      | exact hb.1
      | exact parse_name_ne_notimpl _
      | exact ha _
      | exact set_namespaces_ne_notimpl _ _
      | simp

/-- `read_text_text` does not use up the bound of its loop. -/
theorem read_text_text_ne_notimpl (r : reader) : (read_text_text r).1 ≠ E_NOTIMPL := by
  unfold read_text_text
  dsimp only
  have hb := read_text_loop_bound (r.read_size - r.read_pos + 1) r 0 (Nat.lt_succ_self _)
  obtain ⟨l, hl⟩ : ∃ l, l = read_text_loop (r.read_size - r.read_pos + 1) r 0 := ⟨_, rfl⟩
  rw [← hl] at hb ⊢
  cases hpar : find_parent l.2.1 with
  | none =>
    try dsimp only
    split_ifs <;> first | exact hb | simp
  | some parent =>
    try dsimp only
    split_ifs <;> first | exact hb | exact decode_text_ne_notimpl _ | simp

/-- `read_endelement_text` does not use up the bound of its loop. -/
theorem read_endelement_text_ne_notimpl (r : reader) :
    (read_endelement_text r).1 ≠ E_NOTIMPL := by
  unfold read_endelement_text
  dsimp only
  obtain ⟨r1, hr1⟩ : ∃ r1, r1 = read_skip r 2 := ⟨_, rfl⟩
  rw [← hr1]
  have hb := read_endname_loop_bound (r1.read_size - r1.read_pos + 1) r1 0 (Nat.lt_succ_self _)
  obtain ⟨l, hl⟩ : ∃ l, l = read_endname_loop (r1.read_size - r1.read_pos + 1) r1 0 := ⟨_, rfl⟩
  rw [← hl] at hb ⊢
  cases hpar : find_startelement l.2.1 ((parse_name (List.take l.2.2 (read_current_ptr r1))).2.1.getD [])
      ((parse_name (List.take l.2.2 (read_current_ptr r1))).2.2.getD []) with
  | none =>
    try dsimp only
    split_ifs <;> first | exact hb | exact parse_name_ne_notimpl _ | simp
  | some parent =>
    try dsimp only
    split_ifs <;> first | exact hb | exact parse_name_ne_notimpl _ | simp

/-- `read_comment_text` does not use up the bound of its loop. -/
theorem read_comment_text_ne_notimpl (r : reader) : (read_comment_text r).1 ≠ E_NOTIMPL := by
  unfold read_comment_text
  dsimp only
  obtain ⟨r1, hr1⟩ : ∃ r1, r1 = read_skip r 4 := ⟨_, rfl⟩
  rw [← hr1]
  have hb := read_comment_loop_bound (r1.read_size - r1.read_pos + 1) r1 0 (Nat.lt_succ_self _)
  obtain ⟨l, hl⟩ : ∃ l, l = read_comment_loop (r1.read_size - r1.read_pos + 1) r1 0 := ⟨_, rfl⟩
  rw [← hl] at hb ⊢
  cases hpar : find_parent l.2.1 with
  | none =>
    try dsimp only
    split_ifs <;> first | exact hb | simp
  | some parent =>
    try dsimp only
    split_ifs <;> first | exact hb | simp

theorem read_startcdata_ne_notimpl (r : reader) : (read_startcdata r).1 ≠ E_NOTIMPL := by
  unfold read_startcdata
  dsimp only
  cases hpar : find_parent (read_skip r 9) with
  | none =>
    try dsimp only
    split_ifs <;> simp
  | some parent =>
    try dsimp only
    split_ifs <;> simp

/-- `read_cdata` does not use up the bound of its loop. -/
theorem read_cdata_ne_notimpl (r : reader) : (read_cdata r).1 ≠ E_NOTIMPL := by
  unfold read_cdata
  dsimp only
  have hb := read_cdata_loop_bound (r.read_size - r.read_pos + 1) r 0 (Nat.lt_succ_self _)
  obtain ⟨l, hl⟩ : ∃ l, l = read_cdata_loop (r.read_size - r.read_pos + 1) r 0 := ⟨_, rfl⟩
  rw [← hl] at hb ⊢
  split_ifs <;> first | exact hb | simp

theorem read_endcdata_ne_notimpl (r : reader) : (read_endcdata r).1 ≠ E_NOTIMPL := by
  unfold read_endcdata
  dsimp only
  split_ifs <;> simp

theorem read_xmldecl_skip_pos (r : reader) :
    (read_xmldecl_skip r).read_size = r.read_size ∧ r.read_pos ≤ (read_xmldecl_skip r).read_pos :=
  ⟨rfl, Nat.le_add_right _ _⟩

/-- `read_xmldecl` at `<?` either fails or consumes at least one byte. -/
theorem read_xmldecl_pos (r : reader) (h : read_cmp r [60, 63] = 0) :
    (read_xmldecl r).1 ≠ E_NOTIMPL ∧ (read_xmldecl r).2.read_size = r.read_size ∧
    (FAILED (read_xmldecl r).1 = false → r.read_pos < (read_xmldecl r).2.read_pos) := by
  have hsz := read_cmp_zero_size r _ h
  simp only [List.length_cons, List.length_nil] at hsz
  have h1 : read_cmp r [60] = 0 := by
    rw [read_cmp_zero_iff _ _ (List.cons_ne_nil _ _)] at h ⊢
    obtain ⟨t, ht⟩ := h
    exact ⟨63 :: t, by rw [← ht]; rfl⟩
  unfold read_xmldecl
  dsimp only
  have s1 := read_skip_size r 6
  have s2 := read_xmldecl_skip_pos (read_skip r 6)
  obtain ⟨r2, hr2⟩ : ∃ r2, r2 = read_xmldecl_skip (read_skip r 6) := ⟨_, rfl⟩
  rw [← hr2] at s2 ⊢
  split_ifs with c1 c2 c3 c4
  · exact ⟨by simp, rfl, fun hf => by simp [FAILED] at hf⟩
  · simp [h, h1] at c2
  · exact ⟨by simp, rfl, fun hf => by simp [FAILED] at hf⟩
  · exact ⟨by simp, s2.1.trans s1.1, fun hf => by simp [FAILED] at hf⟩
  · have c5 : read_cmp r2 [63, 62] = 0 := not_not.mp c4
    have hz := read_cmp_zero_size r2 _ c5
    simp only [List.length_cons, List.length_nil] at hz
    have hp := read_skip_pos r2 2 hz
    refine ⟨by simp, ?_, fun _ => ?_⟩
    · show (read_skip r2 2).read_size = r.read_size
      rw [hp.2, s2.1, s1.1]
    · show r.read_pos < (read_skip r2 2).read_pos
      rw [hp.1]
      have := s1.2
      have := s2.2
      omega

/-- A bound above the number of bytes left is never used up by
`read_node_text`: the result is not the value that stands for a used-up
bound. -/
theorem read_node_text_bound (fuel : Nat) :
    ∀ r : reader, r.read_size - r.read_pos < fuel → (read_node_text fuel r).1 ≠ E_NOTIMPL := by
  induction fuel with
  | zero =>
    intro r h
    omega
  | succ f ih =>
    intro r h
    rw [read_node_text]
    split_ifs with c1 c2 c3 c4 c6 c7 c8 c9 c10
    · simp
    · exact read_cdata_ne_notimpl r
    · exact read_endcdata_ne_notimpl r
    · have x := read_xmldecl_pos r c4
      have hsz := read_cmp_zero_size r _ c4
      simp only [List.length_cons, List.length_nil] at hsz
      dsimp only
      split_ifs with c5
      · exact x.1
      · have hf : FAILED (read_xmldecl r).1 = false := by simpa using c5
        have hp := x.2.2 hf
        apply ih
        rw [x.2.1]
        omega
    · exact read_endelement_text_ne_notimpl r
    · exact read_startcdata_ne_notimpl r
    · exact read_comment_text_ne_notimpl r
    · exact read_element_text_ne_notimpl r
    · unfold read_startelement_text
      dsimp only
      have w := read_skip_whitespace_pos r
      split_ifs with d1 d2
      · simp
      · have hz := read_cmp_zero_size _ _ d2
        simp only [List.length_cons, List.length_nil] at hz
        have hp := read_skip_pos _ 1 hz
        apply ih
        rw [hp.1, hp.2, w.1]
        rw [w.1] at hz
        have := w.2.1
        omega
      · simp
    · exact read_text_text_ne_notimpl r

/-! ## The order of `cmp_string` -/

theorem cmp_string_loop_sign (a b : List Nat) (h : a.length = b.length) :
    Int.sign (cmp_string_loop a b) = ordering_sign (lex_compare a b) := by
  induction a generalizing b with
  | nil =>
    cases b with
    | nil => rfl
    | cons y b => simp at h
  | cons x a ih =>
    cases b with
    | nil => simp at h
    | cons y b =>
      simp only [List.length_cons, Nat.add_right_cancel_iff] at h
      simp only [cmp_string_loop, lex_compare]
      by_cases hxy : x = y
      · subst hxy
        simp only [if_true, lt_irrefl, if_false]
        exact ih b h
      · rw [if_neg hxy]
        by_cases hlt : x < y
        · rw [if_pos hlt]
          have : (x : Int) - (y : Int) < 0 := by omega
          rw [Int.sign_eq_neg_one_of_neg this]
          rfl
        · have hgt : y < x := by omega
          rw [if_neg hlt, if_pos hgt]
          have : 0 < (x : Int) - (y : Int) := by omega
          rw [Int.sign_eq_one_of_pos this]
          rfl

theorem cmp_string_sign (a b : List Nat) :
    Int.sign (cmp_string a b) = ordering_sign (length_then_bytes a b) := by
  unfold cmp_string length_then_bytes
  by_cases h1 : a.length < b.length
  · rw [if_pos h1, if_pos h1]
    rfl
  · rw [if_neg h1, if_neg h1]
    by_cases h2 : a.length > b.length
    · rw [if_pos h2, if_pos h2]
      rfl
    · rw [if_neg h2, if_neg h2]
      exact cmp_string_loop_sign a b (by omega)

/-- The reference comparison is the lexicographic order of lists of Mathlib. -/
theorem lex_compare_lt_iff (a b : List Nat) :
    lex_compare a b = Ordering.lt ↔ List.Lex (fun x y => x < y) a b := by
  induction a generalizing b with
  | nil =>
    cases b with
    | nil => simp [lex_compare]
    | cons y b => simp [lex_compare, List.Lex.nil]
  | cons x a ih =>
    cases b with
    | nil => simp [lex_compare]
    | cons y b =>
      simp only [lex_compare]
      by_cases hlt : x < y
      · simp [hlt, List.Lex.rel]
      · by_cases hgt : y < x
        · have hne : x ≠ y := by omega
          simp only [hlt, hgt, if_false, if_true]
          constructor
          · intro h
            simp at h
          · intro h
            cases h with
            | cons h => exact absurd rfl hne
            | rel h => exact absurd h hlt
        · have heq : x = y := by omega
          subst heq
          simp only [hlt, if_false]
          rw [ih, List.Lex.cons_iff]

/-- C21: `cmp_string` is the length-then-bytes order.  Its sign is the one of
the comparison by length first and then, for equal lengths, of the
lexicographic comparison of the bytes as unsigned values: negative for a
shorter and positive for a longer first string.  It is zero exactly for equal
strings, exchanging the arguments negates the sign, and being negative is
transitive. -/
theorem cmp_string_total_order (a b : List Nat) :
    Int.sign (cmp_string a b) = ordering_sign (length_then_bytes a b) ∧
    (a.length < b.length → cmp_string a b < 0) ∧
    (b.length < a.length → 0 < cmp_string a b) ∧
    (a.length = b.length → Int.sign (cmp_string a b) = ordering_sign (lex_compare a b)) ∧
    (cmp_string a b = 0 ↔ a = b) ∧
    Int.sign (cmp_string b a) = - Int.sign (cmp_string a b) ∧
    (∀ c : List Nat, cmp_string a b < 0 → cmp_string b c < 0 → cmp_string a c < 0) := by
  refine ⟨cmp_string_sign a b, ?_, ?_, ?_, cmp_string_eq_zero a b, ?_,
    fun c h1 h2 => cmp_string_trans a b c h1 h2⟩
  · intro h
    unfold cmp_string
    rw [if_pos h]
    decide
  · intro h
    unfold cmp_string
    rw [if_neg (by omega), if_pos h]
    decide
  · intro h
    rw [cmp_string_sign]
    unfold length_then_bytes
    rw [if_neg (by omega), if_neg (by omega)]
  · rw [cmp_string_neg a b, Int.sign_neg]

/-- The order of `cmp_string` on the strings "b", "ab", "ac": "b" is shorter
than "ab", and "ab" comes before "ac". -/
theorem cmp_string_total_order_witness :
    [98].length < [97, 98].length ∧ cmp_string [98] [97, 98] < 0 ∧
    Int.sign (cmp_string [97, 98] [97, 99]) = ordering_sign (lex_compare [97, 98] [97, 99]) ∧
    cmp_string [98] [97, 99] < 0 :=
  ⟨by decide, (cmp_string_total_order [98] [97, 98]).2.1 (by decide),
    (cmp_string_total_order [97, 98] [97, 99]).2.2.2.1 rfl,
    (cmp_string_total_order [98] [97, 98]).2.2.2.2.2.2 [97, 99] (by decide) (by decide)⟩

/-! ## GUIDs -/

theorem exists_cons_of_length_succ {l : List Nat} {n : Nat} (h : l.length = n + 1) :
    ∃ c t, l = c :: t ∧ t.length = n := by
  cases l with
  | nil => simp at h
  | cons c t => exact ⟨c, t, rfl, by simpa using h⟩

theorem length_36 (p : List Nat) (h : p.length = 36) :
    ∃ c0 c1 c2 c3 c4 c5 c6 c7 c8 c9 c10 c11 c12 c13 c14 c15 c16 c17 c18 c19 c20 c21 c22 c23 c24 c25 c26 c27 c28 c29 c30 c31 c32 c33 c34 c35, p = (c0 :: c1 :: c2 :: c3 :: c4 :: c5 :: c6 :: c7 :: c8 :: c9 :: c10 :: c11 :: c12 :: c13 :: c14 :: c15 :: c16 :: c17 :: c18 :: c19 :: c20 :: c21 :: c22 :: c23 :: c24 :: c25 :: c26 :: c27 :: c28 :: c29 :: c30 :: c31 :: c32 :: c33 :: c34 :: c35 :: []) := by
  obtain ⟨c0, t0, ht0, h0⟩ := exists_cons_of_length_succ h
  subst ht0
  obtain ⟨c1, t1, ht1, h1⟩ := exists_cons_of_length_succ h0
  subst ht1
  obtain ⟨c2, t2, ht2, h2⟩ := exists_cons_of_length_succ h1
  subst ht2
  obtain ⟨c3, t3, ht3, h3⟩ := exists_cons_of_length_succ h2
  subst ht3
  obtain ⟨c4, t4, ht4, h4⟩ := exists_cons_of_length_succ h3
  subst ht4
  obtain ⟨c5, t5, ht5, h5⟩ := exists_cons_of_length_succ h4
  subst ht5
  obtain ⟨c6, t6, ht6, h6⟩ := exists_cons_of_length_succ h5
  subst ht6
  obtain ⟨c7, t7, ht7, h7⟩ := exists_cons_of_length_succ h6
  subst ht7
  obtain ⟨c8, t8, ht8, h8⟩ := exists_cons_of_length_succ h7
  subst ht8
  obtain ⟨c9, t9, ht9, h9⟩ := exists_cons_of_length_succ h8
  subst ht9
  obtain ⟨c10, t10, ht10, h10⟩ := exists_cons_of_length_succ h9
  subst ht10
  obtain ⟨c11, t11, ht11, h11⟩ := exists_cons_of_length_succ h10
  subst ht11
  obtain ⟨c12, t12, ht12, h12⟩ := exists_cons_of_length_succ h11
  subst ht12
  obtain ⟨c13, t13, ht13, h13⟩ := exists_cons_of_length_succ h12
  subst ht13
  obtain ⟨c14, t14, ht14, h14⟩ := exists_cons_of_length_succ h13
  subst ht14
  obtain ⟨c15, t15, ht15, h15⟩ := exists_cons_of_length_succ h14
  subst ht15
  obtain ⟨c16, t16, ht16, h16⟩ := exists_cons_of_length_succ h15
  subst ht16
  obtain ⟨c17, t17, ht17, h17⟩ := exists_cons_of_length_succ h16
  subst ht17
  obtain ⟨c18, t18, ht18, h18⟩ := exists_cons_of_length_succ h17
  subst ht18
  obtain ⟨c19, t19, ht19, h19⟩ := exists_cons_of_length_succ h18
  subst ht19
  obtain ⟨c20, t20, ht20, h20⟩ := exists_cons_of_length_succ h19
  subst ht20
  obtain ⟨c21, t21, ht21, h21⟩ := exists_cons_of_length_succ h20
  subst ht21
  obtain ⟨c22, t22, ht22, h22⟩ := exists_cons_of_length_succ h21
  subst ht22
  obtain ⟨c23, t23, ht23, h23⟩ := exists_cons_of_length_succ h22
  subst ht23
  obtain ⟨c24, t24, ht24, h24⟩ := exists_cons_of_length_succ h23
  subst ht24
  obtain ⟨c25, t25, ht25, h25⟩ := exists_cons_of_length_succ h24
  subst ht25
  obtain ⟨c26, t26, ht26, h26⟩ := exists_cons_of_length_succ h25
  subst ht26
  obtain ⟨c27, t27, ht27, h27⟩ := exists_cons_of_length_succ h26
  subst ht27
  obtain ⟨c28, t28, ht28, h28⟩ := exists_cons_of_length_succ h27
  subst ht28
  obtain ⟨c29, t29, ht29, h29⟩ := exists_cons_of_length_succ h28
  subst ht29
  obtain ⟨c30, t30, ht30, h30⟩ := exists_cons_of_length_succ h29
  subst ht30
  obtain ⟨c31, t31, ht31, h31⟩ := exists_cons_of_length_succ h30
  subst ht31
  obtain ⟨c32, t32, ht32, h32⟩ := exists_cons_of_length_succ h31
  subst ht32
  obtain ⟨c33, t33, ht33, h33⟩ := exists_cons_of_length_succ h32
  subst ht33
  obtain ⟨c34, t34, ht34, h34⟩ := exists_cons_of_length_succ h33
  subst ht34
  obtain ⟨c35, t35, ht35, h35⟩ := exists_cons_of_length_succ h34
  subst ht35
  have := List.length_eq_zero.mp h35
  subst this
  exact ⟨c0, c1, c2, c3, c4, c5, c6, c7, c8, c9, c10, c11, c12, c13, c14, c15, c16, c17, c18, c19, c20, c21, c22, c23, c24, c25, c26, c27, c28, c29, c30, c31, c32, c33, c34, c35, rfl⟩

theorem hex_table_value :
    ∀ c : Nat, c < 103 → hex_digit_byte c = true → hex.getD c 0 = hex_digit_value c := by
  decide

theorem hex_table_reject :
    ∀ c : Nat, c < 103 → (hex.getD c 0 == 0 && c != 48) = !hex_digit_byte c := by
  decide

theorem hex_digit_byte_le (c : Nat) (h : hex_digit_byte c = true) : c < 103 := by
  simp only [hex_digit_byte, Bool.or_eq_true, Bool.and_eq_true, decide_eq_true_eq] at h
  omega

theorem hex_getD_value (c : Nat) (h : hex_digit_byte c = true) :
    hex.getD c 0 = hex_digit_value c :=
  hex_table_value c (hex_digit_byte_le c h) h

theorem hex_digit_value_lt (c : Nat) (h : hex_digit_byte c = true) : hex_digit_value c < 16 := by
  simp only [hex_digit_byte, Bool.or_eq_true, Bool.and_eq_true, decide_eq_true_eq] at h
  unfold hex_digit_value
  split_ifs <;> omega

/-- The test of the loop of `str_to_guid` fails exactly on the bytes that
are not hexadecimal digits. -/
theorem hex_reject_iff (c : Nat) :
    (decide (c > 102) || (hex.getD c 0 == 0 && c != 48)) = !hex_digit_byte c := by
  by_cases h : c < 103
  · rw [hex_table_reject c h]
    have : ¬ c > 102 := by omega
    simp [this]
  · have h1 : c > 102 := by omega
    have h2 : hex_digit_byte c = false := by
      cases hb : hex_digit_byte c with
      | false => rfl
      | true => exact absurd (hex_digit_byte_le c hb) h
    simp [h1, h2]

theorem or_nibble (a h k : Nat) (hh : h < 16) (ha : 2 ^ (k + 4) ∣ a) :
    a ||| h <<< k = a + h * 2 ^ k := by
  rw [Nat.shiftLeft_eq]
  apply or_eq_add_of_lt _ _ (k + 4) _ ha
  rw [pow_add]
  have : 0 < 2 ^ k := Nat.pow_pos (by decide)
  calc h * 2 ^ k < 16 * 2 ^ k := Nat.mul_lt_mul_of_pos_right hh this
    _ = 2 ^ k * 2 ^ 4 := by ring

theorem or_nibbles_2 (h0 h1 : Nat) (a0 : h0 < 16) (a1 : h1 < 16) :
    (h0 <<< 4 ||| h1) % 2 ^ 8 = h0 * 16 + h1 := by
  rw [shiftLeft_or h0 h1 4 (by omega)]
  omega

theorem or_nibbles_4 (h0 h1 h2 h3 : Nat) (a0 : h0 < 16) (a1 : h1 < 16) (a2 : h2 < 16)
    (a3 : h3 < 16) :
    (h0 <<< 12 ||| h1 <<< 8 ||| h2 <<< 4 ||| h3) % 2 ^ 16 =
      ((h0 * 16 + h1) * 16 + h2) * 16 + h3 := by
  rw [Nat.shiftLeft_eq h0 12, or_nibble _ h1 8 a1 (by omega), or_nibble _ h2 4 a2 (by omega),
    or_eq_add_of_lt _ h3 4 (by omega) (by omega)]
  omega

theorem or_nibbles_8 (h0 h1 h2 h3 h4 h5 h6 h7 : Nat) (a0 : h0 < 16) (a1 : h1 < 16)
    (a2 : h2 < 16) (a3 : h3 < 16) (a4 : h4 < 16) (a5 : h5 < 16) (a6 : h6 < 16) (a7 : h7 < 16) :
    (h0 <<< 28 ||| h1 <<< 24 ||| h2 <<< 20 ||| h3 <<< 16 ||| h4 <<< 12 ||| h5 <<< 8 |||
        h6 <<< 4 ||| h7) % 2 ^ 32 =
      ((((((h0 * 16 + h1) * 16 + h2) * 16 + h3) * 16 + h4) * 16 + h5) * 16 + h6) * 16 + h7 := by
  rw [Nat.shiftLeft_eq h0 28, or_nibble _ h1 24 a1 (by omega), or_nibble _ h2 20 a2 (by omega),
    or_nibble _ h3 16 a3 (by omega), or_nibble _ h4 12 a4 (by omega),
    or_nibble _ h5 8 a5 (by omega), or_nibble _ h6 4 a6 (by omega),
    or_eq_add_of_lt _ h7 4 (by omega) (by omega)]
  omega

theorem range_36 :
    List.range 36 = [0, 1, 2, 3, 4, 5, 6, 7, 8, 9, 10, 11, 12, 13, 14, 15, 16, 17, 18, 19, 20,
      21, 22, 23, 24, 25, 26, 27, 28, 29, 30, 31, 32, 33, 34, 35] := by
  decide

/-- The acceptance test of `str_to_guid` on the trimmed input is the
canonical form. -/
theorem guid_canonical_iff (p : List Nat) :
    guid_canonical p = true ↔
      p.length = 36 ∧
      ¬ (p.getD 8 0 ≠ 45 ∨ p.getD 13 0 ≠ 45 ∨ p.getD 18 0 ≠ 45 ∨ p.getD 23 0 ≠ 45) ∧
      (List.range 36).any (fun i =>
        !(i == 8 || i == 13 || i == 18 || i == 23) &&
          (decide (p.getD i 0 > 102) ||
            (hex.getD (p.getD i 0) 0 == 0 && p.getD i 0 != 48))) = false := by
  have hfun : (fun i : Nat =>
      !(i == 8 || i == 13 || i == 18 || i == 23) &&
        (decide (p.getD i 0 > 102) || (hex.getD (p.getD i 0) 0 == 0 && p.getD i 0 != 48))) =
      fun i : Nat => !(i == 8 || i == 13 || i == 18 || i == 23 || hex_digit_byte (p.getD i 0)) := by
    funext i
    rw [hex_reject_iff]
    cases (i == 8 || i == 13 || i == 18 || i == 23) <;> cases hex_digit_byte (p.getD i 0) <;> rfl
  rw [hfun, List.any_eq_not_all_not]
  simp only [guid_canonical, Bool.and_eq_true, beq_iff_eq, Bool.not_not, Bool.not_eq_false_eq_eq_true,
    Bool.not_eq_eq_eq_not, Bool.not_false, ne_eq, not_or, not_not, and_assoc]

/-- `str_to_guid` accepts exactly the inputs that are in canonical form once
the surrounding whitespace is removed, and returns the GUID the text stands
for. -/
theorem str_to_guid_eq (str : List Nat) :
    str_to_guid str =
      if guid_canonical (trim_space str) = true then .ok (guid_of_text (trim_space str))
      else .error WS_E_INVALID_FORMAT := by
  unfold str_to_guid
  dsimp only
  generalize trim_space str = p
  by_cases hc : guid_canonical p = true
  · rw [if_pos hc]
    have hc2 := (guid_canonical_iff p).mp hc
    rw [if_neg (not_not.mpr hc2.1), if_neg hc2.2.1, if_neg (by rw [hc2.2.2]; decide)]
    obtain ⟨c0, c1, c2, c3, c4, c5, c6, c7, c8, c9, c10, c11, c12, c13, c14, c15, c16, c17, c18,
      c19, c20, c21, c22, c23, c24, c25, c26, c27, c28, c29, c30, c31, c32, c33, c34, c35, rfl⟩ :=
      length_36 p hc2.1
    have hall : ∀ i : Nat, i < 36 → (i == 8 || i == 13 || i == 18 || i == 23 ||
        hex_digit_byte ((c0 :: c1 :: c2 :: c3 :: c4 :: c5 :: c6 :: c7 :: c8 :: c9 :: c10 :: c11 ::
          c12 :: c13 :: c14 :: c15 :: c16 :: c17 :: c18 :: c19 :: c20 :: c21 :: c22 :: c23 ::
          c24 :: c25 :: c26 :: c27 :: c28 :: c29 :: c30 :: c31 :: c32 :: c33 :: c34 :: c35 ::
          []).getD i 0)) = true := by
      intro i hi
      simp only [guid_canonical, Bool.and_eq_true, List.all_eq_true, List.mem_range] at hc
      exact hc.2 i hi
    have d0 : hex_digit_byte c0 = true := by simpa using hall 0 (by decide)
    have d1 : hex_digit_byte c1 = true := by simpa using hall 1 (by decide)
    have d2 : hex_digit_byte c2 = true := by simpa using hall 2 (by decide)
    have d3 : hex_digit_byte c3 = true := by simpa using hall 3 (by decide)
    have d4 : hex_digit_byte c4 = true := by simpa using hall 4 (by decide)
    have d5 : hex_digit_byte c5 = true := by simpa using hall 5 (by decide)
    have d6 : hex_digit_byte c6 = true := by simpa using hall 6 (by decide)
    have d7 : hex_digit_byte c7 = true := by simpa using hall 7 (by decide)
    have d9 : hex_digit_byte c9 = true := by simpa using hall 9 (by decide)
    have d10 : hex_digit_byte c10 = true := by simpa using hall 10 (by decide)
    have d11 : hex_digit_byte c11 = true := by simpa using hall 11 (by decide)
    have d12 : hex_digit_byte c12 = true := by simpa using hall 12 (by decide)
    have d14 : hex_digit_byte c14 = true := by simpa using hall 14 (by decide)
    have d15 : hex_digit_byte c15 = true := by simpa using hall 15 (by decide)
    have d16 : hex_digit_byte c16 = true := by simpa using hall 16 (by decide)
    have d17 : hex_digit_byte c17 = true := by simpa using hall 17 (by decide)
    have d19 : hex_digit_byte c19 = true := by simpa using hall 19 (by decide)
    have d20 : hex_digit_byte c20 = true := by simpa using hall 20 (by decide)
    have d21 : hex_digit_byte c21 = true := by simpa using hall 21 (by decide)
    have d22 : hex_digit_byte c22 = true := by simpa using hall 22 (by decide)
    have d24 : hex_digit_byte c24 = true := by simpa using hall 24 (by decide)
    have d25 : hex_digit_byte c25 = true := by simpa using hall 25 (by decide)
    have d26 : hex_digit_byte c26 = true := by simpa using hall 26 (by decide)
    have d27 : hex_digit_byte c27 = true := by simpa using hall 27 (by decide)
    have d28 : hex_digit_byte c28 = true := by simpa using hall 28 (by decide)
    have d29 : hex_digit_byte c29 = true := by simpa using hall 29 (by decide)
    have d30 : hex_digit_byte c30 = true := by simpa using hall 30 (by decide)
    have d31 : hex_digit_byte c31 = true := by simpa using hall 31 (by decide)
    have d32 : hex_digit_byte c32 = true := by simpa using hall 32 (by decide)
    have d33 : hex_digit_byte c33 = true := by simpa using hall 33 (by decide)
    have d34 : hex_digit_byte c34 = true := by simpa using hall 34 (by decide)
    have d35 : hex_digit_byte c35 = true := by simpa using hall 35 (by decide)
    simp only [List.getD_cons_zero, List.getD_cons_succ, guid_of_text, List.take_succ_cons,
      List.take_zero, List.drop_succ_cons, List.drop_zero, hex_number, List.foldl_cons,
      List.foldl_nil, Nat.zero_mul, Nat.zero_add, hex_getD_value _ d0, hex_getD_value _ d1,
      hex_getD_value _ d2, hex_getD_value _ d3, hex_getD_value _ d4, hex_getD_value _ d5,
      hex_getD_value _ d6, hex_getD_value _ d7, hex_getD_value _ d9, hex_getD_value _ d10,
      hex_getD_value _ d11, hex_getD_value _ d12, hex_getD_value _ d14, hex_getD_value _ d15,
      hex_getD_value _ d16, hex_getD_value _ d17, hex_getD_value _ d19, hex_getD_value _ d20,
      hex_getD_value _ d21, hex_getD_value _ d22, hex_getD_value _ d24, hex_getD_value _ d25,
      hex_getD_value _ d26, hex_getD_value _ d27, hex_getD_value _ d28, hex_getD_value _ d29,
      hex_getD_value _ d30, hex_getD_value _ d31, hex_getD_value _ d32, hex_getD_value _ d33,
      hex_getD_value _ d34, hex_getD_value _ d35]
    rw [or_nibbles_8 _ _ _ _ _ _ _ _ (hex_digit_value_lt _ d0) (hex_digit_value_lt _ d1)
        (hex_digit_value_lt _ d2) (hex_digit_value_lt _ d3) (hex_digit_value_lt _ d4)
        (hex_digit_value_lt _ d5) (hex_digit_value_lt _ d6) (hex_digit_value_lt _ d7),
      or_nibbles_4 _ _ _ _ (hex_digit_value_lt _ d9) (hex_digit_value_lt _ d10)
        (hex_digit_value_lt _ d11) (hex_digit_value_lt _ d12),
      or_nibbles_4 _ _ _ _ (hex_digit_value_lt _ d14) (hex_digit_value_lt _ d15)
        (hex_digit_value_lt _ d16) (hex_digit_value_lt _ d17),
      or_nibbles_2 _ _ (hex_digit_value_lt _ d19) (hex_digit_value_lt _ d20),
      or_nibbles_2 _ _ (hex_digit_value_lt _ d21) (hex_digit_value_lt _ d22),
      or_nibbles_2 _ _ (hex_digit_value_lt _ d24) (hex_digit_value_lt _ d25),
      or_nibbles_2 _ _ (hex_digit_value_lt _ d26) (hex_digit_value_lt _ d27),
      or_nibbles_2 _ _ (hex_digit_value_lt _ d28) (hex_digit_value_lt _ d29),
      or_nibbles_2 _ _ (hex_digit_value_lt _ d30) (hex_digit_value_lt _ d31),
      or_nibbles_2 _ _ (hex_digit_value_lt _ d32) (hex_digit_value_lt _ d33),
      or_nibbles_2 _ _ (hex_digit_value_lt _ d34) (hex_digit_value_lt _ d35)]
  · rw [if_neg hc]
    rw [guid_canonical_iff] at hc
    by_cases h1 : p.length = 36
    · rw [if_neg (not_not.mpr h1)]
      by_cases h2 : p.getD 8 0 ≠ 45 ∨ p.getD 13 0 ≠ 45 ∨ p.getD 18 0 ≠ 45 ∨ p.getD 23 0 ≠ 45
      · rw [if_pos h2]
      · rw [if_neg h2]
        split_ifs with h3
        · rfl
        · exact absurd ⟨h1, h2, (Bool.not_eq_true _).mp h3⟩ hc
    · rw [if_pos h1]

theorem hex_digit_char_byte (u : Bool) (v : Nat) (h : v < 16) :
    hex_digit_byte (hex_digit_char u v) = true := by
  unfold hex_digit_char hex_digit_byte
  simp only [Bool.or_eq_true, Bool.and_eq_true, decide_eq_true_eq]
  split_ifs <;> omega

theorem hex_digit_char_value (u : Bool) (v : Nat) (h : v < 16) :
    hex_digit_value (hex_digit_char u v) = v := by
  unfold hex_digit_char hex_digit_value
  split_ifs <;> omega

theorem hex_digit_byte_not_space (c : Nat) (h : hex_digit_byte c = true) :
    read_isspace c = false := by
  simp only [hex_digit_byte, Bool.or_eq_true, Bool.and_eq_true, decide_eq_true_eq] at h
  simp only [read_isspace, Bool.or_eq_false_iff, beq_eq_false_iff_ne, ne_eq]
  omega

/-- A text in canonical form has no whitespace around it to remove. -/
theorem trim_space_canonical (s : List Nat) (hc : guid_canonical s = true) :
    trim_space s = s := by
  have hlen : s.length = 36 := ((guid_canonical_iff s).mp hc).1
  have hall : ∀ i : Nat, i < 36 → (i == 8 || i == 13 || i == 18 || i == 23 ||
      hex_digit_byte (s.getD i 0)) = true := by
    intro i hi
    simp only [guid_canonical, Bool.and_eq_true, List.all_eq_true, List.mem_range] at hc
    exact hc.2 i hi
  have h0 := hall 0 (by decide)
  have h35 := hall 35 (by decide)
  obtain ⟨c0, c1, c2, c3, c4, c5, c6, c7, c8, c9, c10, c11, c12, c13, c14, c15, c16, c17, c18,
    c19, c20, c21, c22, c23, c24, c25, c26, c27, c28, c29, c30, c31, c32, c33, c34, c35, rfl⟩ :=
    length_36 s hlen
  have e0 : hex_digit_byte c0 = true := by simpa using h0
  have e35 : hex_digit_byte c35 = true := by simpa using h35
  have := trim_space_surrounded [] []
    (c0 :: c1 :: c2 :: c3 :: c4 :: c5 :: c6 :: c7 :: c8 :: c9 :: c10 :: c11 ::
      c12 :: c13 :: c14 :: c15 :: c16 :: c17 :: c18 :: c19 :: c20 :: c21 :: c22 :: c23 ::
      c24 :: c25 :: c26 :: c27 :: c28 :: c29 :: c30 :: c31 :: c32 :: c33 :: c34 :: c35 :: [])
    (by simp) (by simp)
    (by
      intro c hcc
      simp only [List.head?_cons, Option.some.injEq] at hcc
      subst hcc
      exact hex_digit_byte_not_space _ e0)
    (by
      intro c hcc
      simp only [List.getLast?_cons_cons, List.getLast?_singleton, Option.some.injEq] at hcc
      subst hcc
      exact hex_digit_byte_not_space _ e35)
  simpa using this

/-- The canonical text of a GUID is in canonical form and stands for the
GUID. -/
theorem guid_text_canonical (g : GUID) (hg : g.valid) (upper : Nat → Nat → Bool) :
    guid_canonical (guid_text upper g) = true ∧ guid_of_text (guid_text upper g) = g := by
  obtain ⟨D1, D2, D3, D4⟩ := g
  obtain ⟨h1, h2, h3, h4, h5⟩ := hg
  simp only at h1 h2 h3 h4 h5
  obtain ⟨b0, t0, rfl, g0⟩ := exists_cons_of_length_succ h4
  obtain ⟨b1, t1, rfl, g1⟩ := exists_cons_of_length_succ g0
  obtain ⟨b2, t2, rfl, g2⟩ := exists_cons_of_length_succ g1
  obtain ⟨b3, t3, rfl, g3⟩ := exists_cons_of_length_succ g2
  obtain ⟨b4, t4, rfl, g4⟩ := exists_cons_of_length_succ g3
  obtain ⟨b5, t5, rfl, g5⟩ := exists_cons_of_length_succ g4
  obtain ⟨b6, t6, rfl, g6⟩ := exists_cons_of_length_succ g5
  obtain ⟨b7, t7, rfl, g7⟩ := exists_cons_of_length_succ g6
  have := List.length_eq_zero.mp g7
  subst this
  have k0 : b0 < 2 ^ 8 := h5 b0 (by simp)
  have k1 : b1 < 2 ^ 8 := h5 b1 (by simp)
  have k2 : b2 < 2 ^ 8 := h5 b2 (by simp)
  have k3 : b3 < 2 ^ 8 := h5 b3 (by simp)
  have k4 : b4 < 2 ^ 8 := h5 b4 (by simp)
  have k5 : b5 < 2 ^ 8 := h5 b5 (by simp)
  have k6 : b6 < 2 ^ 8 := h5 b6 (by simp)
  have k7 : b7 < 2 ^ 8 := h5 b7 (by simp)
  have hb : ∀ (u : Bool) (v : Nat), hex_digit_byte (hex_digit_char u (v % 16)) = true :=
    fun u v => hex_digit_char_byte u _ (Nat.mod_lt _ (by decide))
  have hv : ∀ (u : Bool) (v : Nat), hex_digit_value (hex_digit_char u (v % 16)) = v % 16 :=
    fun u v => hex_digit_char_value u _ (Nat.mod_lt _ (by decide))
  constructor
  · simp only [guid_canonical, guid_text, hex_digits, List.nil_append, List.cons_append,
      List.append_assoc, List.singleton_append, List.getD_cons_zero, List.getD_cons_succ,
      List.length_cons, List.length_nil, range_36, List.all_cons, List.all_nil, hb]
    decide
  · simp only [guid_of_text, guid_text, hex_digits, List.nil_append, List.cons_append,
      List.append_assoc, List.singleton_append, List.getD_cons_zero, List.getD_cons_succ,
      List.take_succ_cons, List.take_zero, List.drop_succ_cons, List.drop_zero, hex_number,
      List.foldl_cons, List.foldl_nil, hv, GUID.mk.injEq, List.cons.injEq, and_true]
    refine ⟨?_, ?_, ?_, ?_, ?_, ?_, ?_, ?_, ?_, ?_, ?_⟩ <;> omega

/-- C27: `str_to_guid` decodes the canonical text of a GUID.  Every text in
canonical form that stands for the GUID `g`, with each group written most
significant digit first and each digit in lower or upper case, gives `S_OK`
and `g`; and every GUID with fields of 32, 16, 16 and eight times 8 bits has
such texts, whatever the case chosen for each digit. -/
theorem str_to_guid_canonical_text (g : GUID) :
    (∀ s : List Nat, guid_canonical s = true → guid_of_text s = g → str_to_guid s = .ok g) ∧
    (g.valid → ∀ upper : Nat → Nat → Bool,
      guid_canonical (guid_text upper g) = true ∧ guid_of_text (guid_text upper g) = g ∧
      str_to_guid (guid_text upper g) = .ok g) := by
  have key : ∀ s : List Nat, guid_canonical s = true → guid_of_text s = g →
      str_to_guid s = .ok g := by
    intro s hc hg
    rw [str_to_guid_eq, trim_space_canonical s hc, if_pos hc, hg]
  refine ⟨key, fun hg upper => ?_⟩
  have h := guid_text_canonical g hg upper
  exact ⟨h.1, h.2, key _ h.1 h.2⟩

/-- The text `01234567-89ab-cdef-0123-456789ABCDEF` is decoded to its
GUID. -/
theorem str_to_guid_canonical_text_witness :
    guid_canonical guid_example_text = true ∧ guid_of_text guid_example_text = guid_example ∧
    str_to_guid guid_example_text = .ok guid_example :=
  ⟨by decide, by decide,
    (str_to_guid_canonical_text guid_example).1 guid_example_text (by decide) (by decide)⟩

/-- C28, as stated, fails: the canonical text of a GUID with a space before it
and a line feed after it has 38 bytes and is not in canonical form, and
`str_to_guid` accepts it. -/
theorem str_to_guid_accepts_whitespace :
    ([32] ++ guid_example_text ++ [10]).length = 38 ∧
    guid_canonical ([32] ++ guid_example_text ++ [10]) = false ∧
    str_to_guid ([32] ++ guid_example_text ++ [10]) = .ok guid_example := by
  decide

/-- C28, amended: `str_to_guid` removes the whitespace around its input
first.  If what remains is not exactly 36 bytes with `-` at the offsets 8,
13, 18 and 23 and a hexadecimal digit at every other offset, the result is
`WS_E_INVALID_FORMAT`; if it is, the input is accepted, so a text in
canonical form with whitespace before and after it is accepted. -/
theorem str_to_guid_rejects (str : List Nat) :
    (guid_canonical (trim_space str) = false → str_to_guid str = .error WS_E_INVALID_FORMAT) ∧
    (guid_canonical (trim_space str) = true →
      str_to_guid str = .ok (guid_of_text (trim_space str))) ∧
    (∀ ws1 ws2 s : List Nat, str = ws1 ++ s ++ ws2 → (∀ c ∈ ws1, read_isspace c = true) →
      (∀ c ∈ ws2, read_isspace c = true) → guid_canonical s = true →
      str_to_guid str = .ok (guid_of_text s)) := by
  refine ⟨fun h => ?_, fun h => ?_, ?_⟩
  · rw [str_to_guid_eq, h]
    rfl
  · rw [str_to_guid_eq, if_pos h]
  · intro ws1 ws2 s hs h1 h2 hc
    have ht : trim_space str = s := by
      rw [hs]
      have hts := trim_space_canonical s hc
      unfold trim_space at hts ⊢
      rw [List.append_assoc, dropWhile_append_all _ _ h1]
      have hd : (s ++ ws2).dropWhile read_isspace = s.dropWhile read_isspace ++ ws2 := by
        cases s with
        | nil => simp [guid_canonical] at hc
        | cons c s =>
          have hlen : ((c :: s).dropWhile read_isspace).length = (c :: s).length := by
            have := congrArg List.length hts
            have h3 := (List.rdropWhile_prefix read_isspace
              (l := (c :: s).dropWhile read_isspace)).length_le
            have h4 := (List.dropWhile_suffix read_isspace (l := c :: s)).length_le
            omega
          have hc0 : read_isspace c = false := by
            cases hcs : read_isspace c with
            | false => rfl
            | true =>
              rw [List.dropWhile_cons, hcs, if_pos rfl] at hlen
              have h4 := (List.dropWhile_suffix read_isspace (l := s)).length_le
              simp only [List.length_cons] at hlen
              omega
          simp [List.dropWhile_cons, hc0]
      rw [hd, rdropWhile_append_all _ _ h2]
      exact hts
    rw [str_to_guid_eq, ht, if_pos hc]

/-- Braces around the text, a missing hyphen, a letter that is not a
hexadecimal digit and a space inside the text are rejected. -/
theorem str_to_guid_rejects_witness :
    guid_canonical (trim_space ([123] ++ guid_example_text ++ [125])) = false ∧
    str_to_guid ([123] ++ guid_example_text ++ [125]) = .error WS_E_INVALID_FORMAT ∧
    str_to_guid (guid_example_text.eraseIdx 8) = .error WS_E_INVALID_FORMAT ∧
    str_to_guid (guid_example_text.set 3 103) = .error WS_E_INVALID_FORMAT ∧
    str_to_guid (guid_example_text.set 3 32) = .error WS_E_INVALID_FORMAT :=
  ⟨by decide, (str_to_guid_rejects ([123] ++ guid_example_text ++ [125])).1 (by decide),
    by decide, by decide, by decide⟩

/-! ## Floating point -/

/-- A text without digits in the integer and fraction part, that is not empty
and not a sign alone, is rejected: the part of `str_to_double` behind the
sign, on the text `u` behind the sign. -/
theorem str_to_double_digit_free (str : List Nat)
    (hl : double_literal (trim_space str) = false) (hd : digit_free (trim_space str) = true)
    (hu : unsigned_text (trim_space str) ≠ []) :
    str_to_double str = .error WS_E_INVALID_FORMAT := by
  unfold str_to_double
  dsimp only
  generalize trim_space str = p at hl hd hu
  simp only [double_literal, Bool.or_eq_false_iff, decide_eq_false_iff_not] at hl
  have hp : p ≠ [] := by
    intro h
    subst h
    simp [unsigned_text] at hu
  rw [if_neg hp, if_neg hl.1.1, if_neg hl.1.2, if_neg hl.2]
  simp only [digit_free, integer_part, fraction_part, Bool.and_eq_true, decide_eq_true_eq] at hd
  unfold unsigned_text at hu hd
  generalize (if p.head? = some 45 ∨ p.head? = some 43 then p.tail else p) = u at hu hd
  rw [if_neg hu]
  obtain ⟨hi, hf⟩ := hd
  have hdw : u.dropWhile isdigit = u := by
    cases u with
    | nil => rfl
    | cons c r =>
      by_cases hc : isdigit c = true
      · simp [List.takeWhile_cons, hc] at hi
      · simp [List.dropWhile_cons, hc]
  rw [hdw] at hf ⊢
  rw [hi]
  by_cases h46 : u.head? = some 46
  · have hu46 : u = 46 :: u.tail := by
      cases u with
      | nil => simp at h46
      | cons c r =>
        simp only [List.head?_cons, Option.some.injEq] at h46
        subst h46
        rfl
    have hf2 : u.tail.takeWhile isdigit = [] := by
      rw [hu46] at hf
      simpa using hf
    simp only [h46, if_true, hf2, List.length_nil, Nat.zero_or]
    split_ifs with h1 h2
    · rfl
    · rfl
    · exact absurd (Or.inl trivial) h2
  · simp only [h46, if_false, List.length_nil]
    split_ifs with h1 h2
    · rfl
    · rfl
    · exact absurd (Or.inl trivial) h2

theorem unsigned_text_sign (sgn body : List Nat) (hs : sgn = [] ∨ sgn = [45] ∨ sgn = [43])
    (hb : ∀ c, body.head? = some c → c ≠ 45 ∧ c ≠ 43) : unsigned_text (sgn ++ body) = body := by
  unfold unsigned_text
  rcases hs with rfl | rfl | rfl
  · rw [List.nil_append, if_neg]
    rintro (h | h)
    · exact (hb _ h).1 rfl
    · exact (hb _ h).2 rfl
  · simp
  · simp

theorem head?_append_cons (l : List Nat) (x : Nat) (r : List Nat) (c : Nat)
    (h : (l ++ x :: r).head? = some c) : c ∈ l ∨ c = x := by
  cases l with
  | nil =>
    simp only [List.nil_append, List.head?_cons, Option.some.injEq] at h
    exact Or.inr h.symm
  | cons a l =>
    simp only [List.cons_append, List.head?_cons, Option.some.injEq] at h
    exact Or.inl (h ▸ List.mem_cons_self _ _)

/-- The exponent of `str_to_double` followed by further characters is
rejected, whatever mantissa stands before it. -/
theorem str_to_double_after_exponent (str sgn m1 fr es ed rest : List Nat) (e : Nat)
    (hstr : trim_space str = sgn ++ (m1 ++ (fr ++ e :: (es ++ (ed ++ rest)))))
    (hsgn : sgn = [] ∨ sgn = [45] ∨ sgn = [43])
    (hm1 : ∀ c ∈ m1, isdigit c = true)
    (hfr : fr = [] ∨ ∃ m2, fr = 46 :: m2 ∧ ∀ c ∈ m2, isdigit c = true)
    (he : e = 101 ∨ e = 69)
    (hes : es = [] ∨ es = [45] ∨ es = [43])
    (hed : ed ≠ [] ∧ ∀ c ∈ ed, isdigit c = true)
    (hrest : rest ≠ [] ∧ ∀ c, rest.head? = some c → isdigit c = false) :
    str_to_double str = .error WS_E_INVALID_FORMAT := by
  have hnd : isdigit e = false := by rcases he with rfl | rfl <;> decide
  have hlow : tolower e = 101 := by rcases he with rfl | rfl <;> decide
  have hdig : ∀ c, isdigit c = true → c ≠ 45 ∧ c ≠ 43 ∧ c ≠ 46 := by
    intro c hc
    rw [isdigit_iff] at hc
    omega
  obtain ⟨x, r, hxr, hx⟩ : ∃ x r, fr ++ e :: (es ++ (ed ++ rest)) = x :: r ∧
      isdigit x = false ∧ x ≠ 45 ∧ x ≠ 43 := by
    rcases hfr with rfl | ⟨m2, rfl, _⟩
    · refine ⟨e, _, rfl, hnd, ?_, ?_⟩ <;> rcases he with rfl | rfl <;> decide
    · exact ⟨46, _, rfl, by decide, by decide, by decide⟩
  have hu : unsigned_text (trim_space str) = m1 ++ (fr ++ e :: (es ++ (ed ++ rest))) := by
    rw [hstr]
    apply unsigned_text_sign _ _ hsgn
    intro c hc
    rw [hxr] at hc
    rcases head?_append_cons _ _ _ _ hc with h | h
    · exact ⟨(hdig c (hm1 c h)).1, (hdig c (hm1 c h)).2.1⟩
    · subst h
      exact hx.2
  have hp3 : unsigned_text (es ++ (ed ++ rest)) = ed ++ rest := by
    apply unsigned_text_sign _ _ hes
    intro c hc
    obtain ⟨y, rest2, hy⟩ := List.exists_cons_of_ne_nil hrest.1
    rw [hy] at hc
    rcases head?_append_cons _ _ _ _ hc with h | h
    · exact ⟨(hdig c (hed.2 c h)).1, (hdig c (hed.2 c h)).2.1⟩
    · cases ed with
      | nil => exact absurd rfl hed.1
      | cons a ed =>
        simp only [List.cons_append, List.head?_cons, Option.some.injEq] at hc
        subst hc
        exact ⟨(hdig a (hed.2 a (List.mem_cons_self _ _))).1,
          (hdig a (hed.2 a (List.mem_cons_self _ _))).2.1⟩
  obtain ⟨y, rest2, hy⟩ := List.exists_cons_of_ne_nil hrest.1
  have hyd : isdigit y = false := hrest.2 y (by rw [hy]; rfl)
  unfold unsigned_text at hu hp3
  unfold str_to_double
  dsimp only
  have hlit : ∀ l : List Nat, (101 ∉ l ∧ 69 ∉ l) → trim_space str ≠ l := by
    intro l hl h
    have hmem : e ∈ trim_space str := by
      rw [hstr]
      simp
    rw [h] at hmem
    rcases he with rfl | rfl
    · exact hl.1 hmem
    · exact hl.2 hmem
  rw [if_neg (hlit [] (by simp)), if_neg (hlit _ (by decide)), if_neg (hlit _ (by decide)),
    if_neg (hlit _ (by decide)), hu, if_neg (by simp)]
  rw [hxr, takeWhile_append_stop m1 x r hm1 hx.1, dropWhile_append_stop m1 x r hm1 hx.1, ← hxr]
  rcases hfr with rfl | ⟨m2, rfl, hm2⟩
  · have h46 : ¬ ([] ++ e :: (es ++ (ed ++ rest))).head? = some 46 := by
      rcases he with rfl | rfl <;> simp
    simp only [h46, if_false]
    rw [if_pos ⟨by cases ed with
      | nil => exact absurd rfl hed.1
      | cons a ed => simp, by simpa using hlow⟩]
    by_cases hz : m1.length = 0
    · rw [if_pos hz]
    · rw [if_neg hz]
      simp only [List.nil_append, List.tail_cons]
      rw [hp3, hy, takeWhile_append_stop ed y rest2 hed.2 hyd,
        dropWhile_append_stop ed y rest2 hed.2 hyd, if_pos (Or.inr (by simp))]
  · have h46 : ((46 :: m2) ++ e :: (es ++ (ed ++ rest))).head? = some 46 := rfl
    simp only [h46, if_true]
    simp only [List.cons_append, List.tail_cons]
    simp only [takeWhile_append_stop m2 e _ hm2 hnd, dropWhile_append_stop m2 e _ hm2 hnd]
    rw [if_pos ⟨by cases ed with
      | nil => exact absurd rfl hed.1
      | cons a ed => simp, by simpa using hlow⟩]
    by_cases hz : m1.length ||| m2.length = 0
    · rw [if_pos hz]
    · rw [if_neg hz]
      simp only [List.tail_cons]
      rw [hp3, hy, takeWhile_append_stop ed y rest2 hed.2 hyd,
        dropWhile_append_stop ed y rest2 hed.2 hyd, if_pos (Or.inr (by simp))]

/-- C29, as stated, fails: the inputs `-` and `+` are not literals and have
no digit in the integer and fraction part, and `str_to_double` returns `S_OK`
for them, with the value `0.0`. -/
theorem str_to_double_lone_sign :
    double_literal (trim_space [45]) = false ∧ digit_free (trim_space [45]) = true ∧
    str_to_double [45] = .ok double_value.zero ∧
    double_literal (trim_space [43]) = false ∧ digit_free (trim_space [43]) = true ∧
    str_to_double [43] = .ok double_value.zero := by
  decide

/-- C29, amended: with `p` the input without the surrounding whitespace, if
`p` is not one of the literals `NaN`, `INF`, `-INF` and has no decimal digit
in its integer part and in its fraction part, then `str_to_double` fails with
`WS_E_INVALID_FORMAT`, unless `p` is a sign `-` or `+` alone, for which it
returns `S_OK` and the value `0.0`.  An exponent (`e` or `E`, an optional
sign, one or more digits) followed by further characters is rejected with
`WS_E_INVALID_FORMAT`, whatever sign, integer digits and fraction stand before
it. -/
theorem str_to_double_rejects (str : List Nat) :
    (double_literal (trim_space str) = false → digit_free (trim_space str) = true →
      (trim_space str ≠ [45] → trim_space str ≠ [43] →
        str_to_double str = .error WS_E_INVALID_FORMAT) ∧
      (trim_space str = [45] ∨ trim_space str = [43] →
        str_to_double str = .ok double_value.zero)) ∧
    (∀ (sgn m1 fr es ed rest : List Nat) (e : Nat),
      trim_space str = sgn ++ (m1 ++ (fr ++ e :: (es ++ (ed ++ rest)))) →
      (sgn = [] ∨ sgn = [45] ∨ sgn = [43]) →
      (∀ c ∈ m1, isdigit c = true) →
      (fr = [] ∨ ∃ m2, fr = 46 :: m2 ∧ ∀ c ∈ m2, isdigit c = true) →
      (e = 101 ∨ e = 69) →
      (es = [] ∨ es = [45] ∨ es = [43]) →
      (ed ≠ [] ∧ ∀ c ∈ ed, isdigit c = true) →
      (rest ≠ [] ∧ ∀ c, rest.head? = some c → isdigit c = false) →
      str_to_double str = .error WS_E_INVALID_FORMAT) := by
  refine ⟨fun hl hd => ⟨fun h1 h2 => ?_, fun h => ?_⟩,
    fun sgn m1 fr es ed rest e h1 h2 h3 h4 h5 h6 h7 h8 =>
      str_to_double_after_exponent str sgn m1 fr es ed rest e h1 h2 h3 h4 h5 h6 h7 h8⟩
  · by_cases hp : trim_space str = []
    · unfold str_to_double
      dsimp only
      rw [if_pos hp]
    · apply str_to_double_digit_free str hl hd
      unfold unsigned_text
      cases hts : trim_space str with
      | nil => exact absurd hts hp
      | cons c t =>
        rw [hts] at h1 h2
        simp only [List.head?_cons, Option.some.injEq, List.tail_cons]
        split_ifs with hc
        · intro ht
          subst ht
          rcases hc with rfl | rfl
          · exact h1 rfl
          · exact h2 rfl
        · simp
  · unfold str_to_double
    dsimp only
    rcases h with h | h <;> rw [h] <;> rfl

/-- The inputs `.` and `e5` are rejected, and so is `1.5e3x`, a number with
an exponent followed by a further character. -/
theorem str_to_double_rejects_witness :
    str_to_double [46] = .error WS_E_INVALID_FORMAT ∧
    str_to_double [101, 53] = .error WS_E_INVALID_FORMAT ∧
    str_to_double [49, 46, 53, 101, 51, 120] = .error WS_E_INVALID_FORMAT :=
  ⟨((str_to_double_rejects [46]).1 (by decide) (by decide)).1 (by decide) (by decide),
    ((str_to_double_rejects [101, 53]).1 (by decide) (by decide)).1 (by decide) (by decide),
    (str_to_double_rejects [49, 46, 53, 101, 51, 120]).2 [] [49] [46, 53] [] [51] [120] 101
      (by decide) (by decide) (by decide) (Or.inr ⟨[53], rfl, by decide⟩) (by decide)
      (by decide) (by decide) ⟨by decide, by decide⟩⟩

/-! ## The binary encoding -/

theorem read_byte_cons (r : reader) (b : Nat) (rest : List Nat)
    (h : read_current_ptr r = b :: rest) :
    read_byte r = (S_OK, { r with read_pos := r.read_pos + 1 }, b) ∧
    read_current_ptr { r with read_pos := r.read_pos + 1 } = rest := by
  obtain ⟨hlt, hget, hdrop⟩ := drop_eq_cons h
  unfold read_byte
  rw [if_neg (by unfold reader.read_size; omega), hget]
  exact ⟨rfl, hdrop⟩

theorem read_byte_nil (r : reader) (h : read_current_ptr r = []) :
    read_byte r = (WS_E_INVALID_FORMAT, r, 0) := by
  have hlen := read_current_ptr_length r
  rw [h] at hlen
  simp only [List.length_nil] at hlen
  unfold read_byte
  rw [if_pos (by omega)]

theorem and_127 (x : Nat) : x &&& 0x7f = x % 128 :=
  Nat.and_pow_two_sub_one_eq_mod x 7

theorem and_7 (x : Nat) : x &&& 0x07 = x % 8 :=
  Nat.and_pow_two_sub_one_eq_mod x 3

theorem and_128 (x : Nat) : x &&& 0x80 = x / 128 % 2 * 128 := by
  have h := Nat.and_two_pow x 7
  rw [Nat.toNat_testBit] at h
  exact h

theorem read_int31_one (r : reader) (b0 : Nat) (rest : List Nat)
    (h : read_current_ptr r = b0 :: rest) (c0 : b0 / 128 % 2 = 0) :
    read_int31 r = (S_OK, { r with read_pos := r.read_pos + 1 }, b0 % 128) := by
  have h0 := read_byte_cons r b0 _ h
  unfold read_int31
  simp only [h0.1, ne_eq, not_true_eq_false, if_false, and_127, and_128, c0, Nat.zero_mul,
    if_true]

theorem read_int31_two (r : reader) (b0 b1 : Nat) (rest : List Nat)
    (h : read_current_ptr r = b0 :: b1 :: rest) (c0 : b0 / 128 % 2 = 1) (c1 : b1 / 128 % 2 = 0) :
    read_int31 r = (S_OK, { r with read_pos := r.read_pos + 2 },
      (b0 % 128 + (b1 % 128) <<< 7) % 2 ^ 32) := by
  have h0 := read_byte_cons r b0 _ h
  have h1 := read_byte_cons _ b1 _ h0.2
  unfold read_int31
  simp only [h0.1, h1.1, ne_eq, not_true_eq_false, if_false, and_127, and_128, c0, c1,
    Nat.zero_mul, Nat.one_mul, if_true, OfNat.ofNat_ne_zero]

theorem read_int31_three (r : reader) (b0 b1 b2 : Nat) (rest : List Nat)
    (h : read_current_ptr r = b0 :: b1 :: b2 :: rest) (c0 : b0 / 128 % 2 = 1)
    (c1 : b1 / 128 % 2 = 1) (c2 : b2 / 128 % 2 = 0) :
    read_int31 r = (S_OK, { r with read_pos := r.read_pos + 3 },
      ((b0 % 128 + (b1 % 128) <<< 7) % 2 ^ 32 + (b2 % 128) <<< 14) % 2 ^ 32) := by
  have h0 := read_byte_cons r b0 _ h
  have h1 := read_byte_cons _ b1 _ h0.2
  have h2 := read_byte_cons _ b2 _ h1.2
  unfold read_int31
  simp only [h0.1, h1.1, h2.1, ne_eq, not_true_eq_false, if_false, and_127, and_128, c0, c1, c2,
    Nat.zero_mul, Nat.one_mul, if_true, OfNat.ofNat_ne_zero]

theorem read_int31_four (r : reader) (b0 b1 b2 b3 : Nat) (rest : List Nat)
    (h : read_current_ptr r = b0 :: b1 :: b2 :: b3 :: rest) (c0 : b0 / 128 % 2 = 1)
    (c1 : b1 / 128 % 2 = 1) (c2 : b2 / 128 % 2 = 1) (c3 : b3 / 128 % 2 = 0) :
    read_int31 r = (S_OK, { r with read_pos := r.read_pos + 4 },
      (((b0 % 128 + (b1 % 128) <<< 7) % 2 ^ 32 + (b2 % 128) <<< 14) % 2 ^ 32 +
        (b3 % 128) <<< 21) % 2 ^ 32) := by
  have h0 := read_byte_cons r b0 _ h
  have h1 := read_byte_cons _ b1 _ h0.2
  have h2 := read_byte_cons _ b2 _ h1.2
  have h3 := read_byte_cons _ b3 _ h2.2
  unfold read_int31
  simp only [h0.1, h1.1, h2.1, h3.1, ne_eq, not_true_eq_false, if_false, and_127, and_128, c0,
    c1, c2, c3, Nat.zero_mul, Nat.one_mul, if_true, OfNat.ofNat_ne_zero]

theorem read_int31_five (r : reader) (b0 b1 b2 b3 b4 : Nat) (rest : List Nat)
    (h : read_current_ptr r = b0 :: b1 :: b2 :: b3 :: b4 :: rest) (c0 : b0 / 128 % 2 = 1)
    (c1 : b1 / 128 % 2 = 1) (c2 : b2 / 128 % 2 = 1) (c3 : b3 / 128 % 2 = 1) :
    read_int31 r = (S_OK, { r with read_pos := r.read_pos + 5 },
      ((((b0 % 128 + (b1 % 128) <<< 7) % 2 ^ 32 + (b2 % 128) <<< 14) % 2 ^ 32 +
        (b3 % 128) <<< 21) % 2 ^ 32 + (b4 % 8) <<< 28) % 2 ^ 32) := by
  have h0 := read_byte_cons r b0 _ h
  have h1 := read_byte_cons _ b1 _ h0.2
  have h2 := read_byte_cons _ b2 _ h1.2
  have h3 := read_byte_cons _ b3 _ h2.2
  have h4 := read_byte_cons _ b4 _ h3.2
  unfold read_int31
  simp only [h0.1, h1.1, h2.1, h3.1, h4.1, ne_eq, not_true_eq_false, if_false, and_127, and_7,
    and_128, c0, c1, c2, c3, Nat.zero_mul, Nat.one_mul, if_true, OfNat.ofNat_ne_zero]

theorem encode_int31_small (n : Nat) (h : n < 128) : encode_int31 n = [n] := by
  rw [encode_int31, if_pos h]

theorem encode_int31_large (n : Nat) (h : ¬ n < 128) :
    encode_int31 n = (n % 128 + 128) :: encode_int31 (n / 128) := by
  rw [encode_int31, if_neg h]

/-- The encodings of the numbers below `2 ^ 31`, by their length. -/
theorem encode_int31_cases (n : Nat) (h : n < 2 ^ 31) :
    (n < 2 ^ 7 ∧ encode_int31 n = [n]) ∨
    (2 ^ 7 ≤ n ∧ n < 2 ^ 14 ∧ encode_int31 n = [n % 128 + 128, n / 128]) ∨
    (2 ^ 14 ≤ n ∧ n < 2 ^ 21 ∧
      encode_int31 n = [n % 128 + 128, n / 128 % 128 + 128, n / 128 / 128]) ∨
    (2 ^ 21 ≤ n ∧ n < 2 ^ 28 ∧
      encode_int31 n =
        [n % 128 + 128, n / 128 % 128 + 128, n / 128 / 128 % 128 + 128, n / 128 / 128 / 128]) ∨
    (2 ^ 28 ≤ n ∧
      encode_int31 n =
        [n % 128 + 128, n / 128 % 128 + 128, n / 128 / 128 % 128 + 128,
          n / 128 / 128 / 128 % 128 + 128, n / 128 / 128 / 128 / 128]) := by
  by_cases h1 : n < 2 ^ 7
  · exact Or.inl ⟨h1, encode_int31_small n h1⟩
  · right
    rw [encode_int31_large n h1]
    by_cases h2 : n < 2 ^ 14
    · exact Or.inl ⟨by omega, h2, by rw [encode_int31_small _ (by omega)]⟩
    · right
      rw [encode_int31_large _ (by omega)]
      by_cases h3 : n < 2 ^ 21
      · exact Or.inl ⟨by omega, h3, by rw [encode_int31_small _ (by omega)]⟩
      · right
        rw [encode_int31_large _ (by omega)]
        by_cases h4 : n < 2 ^ 28
        · exact Or.inl ⟨by omega, h4, by rw [encode_int31_small _ (by omega)]⟩
        · right
          rw [encode_int31_large _ (by omega)]
          exact ⟨by omega, by rw [encode_int31_small _ (by omega)]⟩

/-- `read_int31` at the encoding of a number below `2 ^ 31`. -/
theorem read_int31_encode (r : reader) (n : Nat) (rest : List Nat) (hn : n < 2 ^ 31)
    (h : read_current_ptr r = encode_int31 n ++ rest) :
    read_int31 r = (S_OK, { r with read_pos := r.read_pos + (encode_int31 n).length }, n) := by
  rcases encode_int31_cases n hn with ⟨h1, he⟩ | ⟨h1, h2, he⟩ | ⟨h1, h2, he⟩ | ⟨h1, h2, he⟩ |
    ⟨h1, he⟩
  · rw [he] at h ⊢
    rw [read_int31_one r n rest h (by omega)]
    simp only [List.length_singleton, Prod.mk.injEq, true_and]
    omega
  · rw [he] at h ⊢
    rw [read_int31_two r _ _ rest h (by omega) (by omega)]
    simp only [List.length_cons, List.length_nil, Prod.mk.injEq, true_and, Nat.shiftLeft_eq]
    omega
  · rw [he] at h ⊢
    rw [read_int31_three r _ _ _ rest h (by omega) (by omega) (by omega)]
    simp only [List.length_cons, List.length_nil, Prod.mk.injEq, true_and, Nat.shiftLeft_eq]
    omega
  · rw [he] at h ⊢
    rw [read_int31_four r _ _ _ _ rest h (by omega) (by omega) (by omega) (by omega)]
    simp only [List.length_cons, List.length_nil, Prod.mk.injEq, true_and, Nat.shiftLeft_eq]
    omega
  · rw [he] at h ⊢
    rw [read_int31_five r _ _ _ _ _ rest h (by omega) (by omega) (by omega) (by omega)]
    simp only [List.length_cons, List.length_nil, Prod.mk.injEq, true_and, Nat.shiftLeft_eq]
    omega

/-- The value `read_int31` leaves in `*len` is below `2 ^ 31`. -/
theorem read_int31_lt (r : reader) : (read_int31 r).2.2 < 2 ^ 31 := by
  unfold read_int31
  dsimp only
  generalize read_byte r = x0
  generalize read_byte x0.2.1 = x1
  generalize read_byte x1.2.1 = x2
  generalize read_byte x2.2.1 = x3
  generalize read_byte x3.2.1 = x4
  simp only [and_127, and_7, Nat.shiftLeft_eq]
  obtain ⟨l0, hl0, k0⟩ : ∃ l0, l0 = x0.2.2 % 128 ∧ l0 < 2 ^ 7 := ⟨_, rfl, by omega⟩
  rw [← hl0]
  obtain ⟨l1, hl1, k1⟩ : ∃ l1, l1 = (l0 + x1.2.2 % 128 * 2 ^ 7) % 2 ^ 32 ∧ l1 < 2 ^ 14 :=
    ⟨_, rfl, by omega⟩
  rw [← hl1]
  obtain ⟨l2, hl2, k2⟩ : ∃ l2, l2 = (l1 + x2.2.2 % 128 * 2 ^ 14) % 2 ^ 32 ∧ l2 < 2 ^ 21 :=
    ⟨_, rfl, by omega⟩
  rw [← hl2]
  obtain ⟨l3, hl3, k3⟩ : ∃ l3, l3 = (l2 + x3.2.2 % 128 * 2 ^ 21) % 2 ^ 32 ∧ l3 < 2 ^ 28 :=
    ⟨_, rfl, by omega⟩
  rw [← hl3]
  obtain ⟨l4, hl4, k4⟩ : ∃ l4, l4 = (l3 + x4.2.2 % 8 * 2 ^ 28) % 2 ^ 32 ∧ l4 < 2 ^ 31 :=
    ⟨_, rfl, by omega⟩
  rw [← hl4]
  clear hl0 hl1 hl2 hl3 hl4
  have z : (0 : Nat) < 2 ^ 31 := by omega
  have k0 : l0 < 2 ^ 31 := by omega
  have k1 : l1 < 2 ^ 31 := by omega
  have k2 : l2 < 2 ^ 31 := by omega
  have k3 : l3 < 2 ^ 31 := by omega
  by_cases c0 : x0.1 ≠ S_OK
  · rw [if_pos c0]
    exact z
  rw [if_neg c0]
  by_cases d0 : x0.2.2 &&& 128 = 0
  · rw [if_pos d0]
    exact k0
  rw [if_neg d0]
  by_cases c1 : x1.1 ≠ S_OK
  · rw [if_pos c1]
    exact k0
  rw [if_neg c1]
  by_cases d1 : x1.2.2 &&& 128 = 0
  · rw [if_pos d1]
    exact k1
  rw [if_neg d1]
  by_cases c2 : x2.1 ≠ S_OK
  · rw [if_pos c2]
    exact k1
  rw [if_neg c2]
  by_cases d2 : x2.2.2 &&& 128 = 0
  · rw [if_pos d2]
    exact k2
  rw [if_neg d2]
  by_cases c3 : x3.1 ≠ S_OK
  · rw [if_pos c3]
    exact k2
  rw [if_neg c3]
  by_cases d3 : x3.2.2 &&& 128 = 0
  · rw [if_pos d3]
    exact k3
  rw [if_neg d3]
  by_cases c4 : x4.1 ≠ S_OK
  · rw [if_pos c4]
    exact k3
  rw [if_neg c4]
  exact k4

/-- The result of `read_byte` is `S_OK` or `WS_E_INVALID_FORMAT`. -/
theorem read_byte_result (r : reader) :
    (read_byte r).1 = S_OK ∨ (read_byte r).1 = WS_E_INVALID_FORMAT := by
  unfold read_byte
  split_ifs
  · exact Or.inr rfl
  · exact Or.inl rfl

/-- `read_int31` fails with `WS_E_INVALID_FORMAT` when the input ends behind
fewer than five bytes that all have the high bit set. -/
theorem read_int31_truncated (r : reader) (bs : List Nat) (h : read_current_ptr r = bs)
    (hlen : bs.length < 5) (hb : ∀ b ∈ bs, 128 ≤ b ∧ b < 256) :
    (read_int31 r).1 = WS_E_INVALID_FORMAT := by
  have hc : ∀ b ∈ bs, b / 128 % 2 = 1 := fun b hm => by
    have := hb b hm
    omega
  unfold read_int31
  match bs, h, hlen, hc with
  | [], h, _, _ =>
    simp only [read_byte_nil r h, ne_eq, not_false_eq_true, if_true, reduceCtorEq]
  | [b0], h, _, hc =>
    have h0 := read_byte_cons r b0 _ h
    have c0 := hc b0 (by simp)
    simp only [h0.1, read_byte_nil _ h0.2, ne_eq, not_true_eq_false, if_false, and_128, c0,
      Nat.one_mul, OfNat.ofNat_ne_zero, not_false_eq_true, if_true, reduceCtorEq]
  | [b0, b1], h, _, hc =>
    have h0 := read_byte_cons r b0 _ h
    have h1 := read_byte_cons _ b1 _ h0.2
    have c0 := hc b0 (by simp)
    have c1 := hc b1 (by simp)
    simp only [h0.1, h1.1, read_byte_nil _ h1.2, ne_eq, not_true_eq_false, if_false, and_128,
      c0, c1, Nat.one_mul, OfNat.ofNat_ne_zero, not_false_eq_true, if_true, reduceCtorEq]
  | [b0, b1, b2], h, _, hc =>
    have h0 := read_byte_cons r b0 _ h
    have h1 := read_byte_cons _ b1 _ h0.2
    have h2 := read_byte_cons _ b2 _ h1.2
    have c0 := hc b0 (by simp)
    have c1 := hc b1 (by simp)
    have c2 := hc b2 (by simp)
    simp only [h0.1, h1.1, h2.1, read_byte_nil _ h2.2, ne_eq, not_true_eq_false, if_false,
      and_128, c0, c1, c2, Nat.one_mul, OfNat.ofNat_ne_zero, not_false_eq_true, if_true,
      reduceCtorEq]
  | [b0, b1, b2, b3], h, _, hc =>
    have h0 := read_byte_cons r b0 _ h
    have h1 := read_byte_cons _ b1 _ h0.2
    have h2 := read_byte_cons _ b2 _ h1.2
    have h3 := read_byte_cons _ b3 _ h2.2
    have c0 := hc b0 (by simp)
    have c1 := hc b1 (by simp)
    have c2 := hc b2 (by simp)
    have c3 := hc b3 (by simp)
    simp only [h0.1, h1.1, h2.1, h3.1, read_byte_nil _ h3.2, ne_eq, not_true_eq_false, if_false,
      and_128, c0, c1, c2, c3, Nat.one_mul, OfNat.ofNat_ne_zero, not_false_eq_true, if_true,
      reduceCtorEq]
  | _ :: _ :: _ :: _ :: _ :: _, _, hlen, _ =>
    simp only [List.length_cons] at hlen
    omega

/-- C30: `read_int31` decodes the 31-bit variable-length integer.  At the
start of the little-endian base-128 encoding of a number `n` below `2 ^ 31`,
which has at most five bytes, it returns `S_OK` with the value `n` and moves
the read position forward by the length of the encoding.  On every input the
value it leaves is below `2 ^ 31`.  When the input ends behind fewer than
five bytes that all have the high bit set, it fails with
`WS_E_INVALID_FORMAT`. -/
theorem read_int31_decodes (r : reader) :
    (∀ (n : Nat) (rest : List Nat), n < 2 ^ 31 → read_current_ptr r = encode_int31 n ++ rest →
      read_int31 r = (S_OK, { r with read_pos := r.read_pos + (encode_int31 n).length }, n) ∧
      (encode_int31 n).length ≤ 5) ∧
    (read_int31 r).2.2 < 2 ^ 31 ∧
    (∀ bs : List Nat, read_current_ptr r = bs → bs.length < 5 →
      (∀ b ∈ bs, 128 ≤ b ∧ b < 256) → (read_int31 r).1 = WS_E_INVALID_FORMAT) := by
  refine ⟨fun n rest hn h => ⟨read_int31_encode r n rest hn h, ?_⟩, read_int31_lt r,
    fun bs h hlen hb => read_int31_truncated r bs h hlen hb⟩
  rcases encode_int31_cases n hn with ⟨_, he⟩ | ⟨_, _, he⟩ | ⟨_, _, he⟩ | ⟨_, _, he⟩ | ⟨_, he⟩ <;>
    rw [he] <;> simp

/-- The number 300 is encoded in the bytes `0xac 0x02`; `read_int31` reads it
from the input `0xac 0x02 0x41` and stops behind the two bytes, and it fails on
the input `0xac`. -/
theorem read_int31_decodes_witness :
    read_int31 (WsSetInput [0xac, 0x02, 0x41]) =
      (S_OK, { (WsSetInput [0xac, 0x02, 0x41]) with read_pos := 0 + (encode_int31 300).length },
        300) ∧
    (encode_int31 300).length ≤ 5 ∧
    (read_int31 (WsSetInput [0xac])).1 = WS_E_INVALID_FORMAT :=
  ⟨((read_int31_decodes (WsSetInput [0xac, 0x02, 0x41])).1 300 [0x41] (by decide)
      (by rw [encode_int31_large 300 (by decide), encode_int31_small _ (by decide)]; rfl)).1,
    ((read_int31_decodes (WsSetInput [0xac, 0x02, 0x41])).1 300 [0x41] (by decide)
      (by rw [encode_int31_large 300 (by decide), encode_int31_small _ (by decide)]; rfl)).2,
    (read_int31_decodes (WsSetInput [0xac])).2.2 [0xac] (by decide) (by decide) (by decide)⟩

/-! ## Moving to the next element -/

/-- The loop over the following nodes finds the first Element node. -/
theorem first_element_spec (l : List node) :
    ∀ i : Nat,
      (∀ j : Nat, (l[j]?).map node.nodeType = some WS_XML_NODE_TYPE.ELEMENT →
        (∀ k : Nat, k < j → (l[k]?).map node.nodeType ≠ some WS_XML_NODE_TYPE.ELEMENT) →
        first_element l i = some (i + j)) ∧
      ((∀ k : Nat, (l[k]?).map node.nodeType ≠ some WS_XML_NODE_TYPE.ELEMENT) →
        first_element l i = none) := by
  induction l with
  | nil =>
    intro i
    refine ⟨fun j hj _ => ?_, fun _ => rfl⟩
    simp at hj
  | cons n rest ih =>
    intro i
    constructor
    · intro j hj hk
      cases j with
      | zero =>
        simp only [List.getElem?_cons_zero, Option.map_some', Option.some.injEq] at hj
        simp [first_element, hj]
      | succ j =>
        have h0 := hk 0 (Nat.succ_pos _)
        simp only [List.getElem?_cons_zero, Option.map_some', ne_eq, Option.some.injEq] at h0
        rw [first_element, if_neg h0]
        simp only [List.getElem?_cons_succ] at hj
        rw [(ih (i + 1)).1 j hj (fun k hkj => by
          have := hk (k + 1) (Nat.succ_lt_succ hkj)
          simpa only [List.getElem?_cons_succ] using this)]
        congr 1
        omega
    · intro hk
      have h0 := hk 0
      simp only [List.getElem?_cons_zero, Option.map_some', ne_eq, Option.some.injEq] at h0
      rw [first_element, if_neg h0]
      exact (ih (i + 1)).2 (fun k => by
        have := hk (k + 1)
        simpa only [List.getElem?_cons_succ] using this)

/-- C22: `move_to_next_element` moves to the nearest following element
sibling or does nothing.  With the cursor on the child `i` of the node at
`parent`: if the child `j` behind it is an Element and no child between them
is one, the result is `TRUE` and the cursor is on the child `j`; if no child
behind it is an Element, the result is `FALSE` and the cursor is left where
it is.  With the cursor on the root, which has no parent, the result is
`FALSE` and the cursor is left where it is. -/
theorem move_to_next_element_nearest (r : reader) :
    (∀ (i : Nat) (parent : List Nat), r.current = i :: parent →
      (∀ j : Nat, i < j →
        ((r.children_at parent)[j]?).map node.nodeType = some WS_XML_NODE_TYPE.ELEMENT →
        (∀ k : Nat, i < k → k < j →
          ((r.children_at parent)[k]?).map node.nodeType ≠ some WS_XML_NODE_TYPE.ELEMENT) →
        move_to_next_element r = (true, { r with current := j :: parent })) ∧
      ((∀ k : Nat, i < k →
          ((r.children_at parent)[k]?).map node.nodeType ≠ some WS_XML_NODE_TYPE.ELEMENT) →
        move_to_next_element r = (false, r))) ∧
    (r.current = [] → move_to_next_element r = (false, r)) := by
  constructor
  · intro i parent hcur
    have hget : ∀ k : Nat, ((r.children_at parent).drop (i + 1))[k]? =
        (r.children_at parent)[i + 1 + k]? := fun k => List.getElem?_drop _ _ _
    constructor
    · intro j hij hj hk
      unfold move_to_next_element
      rw [hcur]
      dsimp only
      have hspec := (first_element_spec ((r.children_at parent).drop (i + 1)) (i + 1)).1
        (j - (i + 1))
        (by rw [hget]; rw [show i + 1 + (j - (i + 1)) = j by omega]; exact hj)
        (fun k hkj => by rw [hget]; exact hk _ (by omega) (by omega))
      rw [hspec, show i + 1 + (j - (i + 1)) = j by omega]
    · intro hk
      unfold move_to_next_element
      rw [hcur]
      dsimp only
      rw [(first_element_spec ((r.children_at parent).drop (i + 1)) (i + 1)).2
        (fun k => by rw [hget]; exact hk _ (by omega))]
  · intro hcur
    unfold move_to_next_element
    rw [hcur]

/-- In `<a><x/>t<!--c--><b/></a>` the move from the element `x` skips the text
and the comment and ends on the element `b`, and the move from `b`, the last
element, fails and leaves the cursor on `b`. -/
theorem move_to_next_element_nearest_witness :
    move_to_next_element (siblings_reader 0) =
      (true, { (siblings_reader 0) with current := [3, 0] }) ∧
    move_to_next_element (siblings_reader 3) = (false, siblings_reader 3) :=
  ⟨((move_to_next_element_nearest (siblings_reader 0)).1 0 [0] rfl).1 3 (by decide) (by decide)
      (fun k h1 h2 => by
        have hk : k = 1 ∨ k = 2 := by omega
        rcases hk with rfl | rfl <;> decide),
    ((move_to_next_element_nearest (siblings_reader 3)).1 3 [0] rfl).2
      (fun k hk => by
        have hk2 : k = 4 ∨ 5 ≤ k := by omega
        rcases hk2 with rfl | h5
        · decide
        · have hlen : ((siblings_reader 3).children_at [0]).length = 5 := by decide
          rw [List.getElem?_eq_none (by omega)]
          simp)⟩

/-! ## Skipping a node -/

/-- `read_node` in text mode at the end of the input. -/
theorem read_node_end_of_data (r : reader) (htext : r.input_enc = WS_XML_READER_ENCODING_TYPE_TEXT)
    (hend : read_end_of_data r = true) : read_node r = (S_OK, at_eof r) := by
  rw [read_node_text_mode r htext, read_node_text, if_pos hend]
  rfl

/-- With the cursor left on a node of the tree that is not the EndElement
child of the element `parent`, at the end of the input, the loop of
`skip_node` goes on for ever: every pass reads the end of the input again. -/
theorem skip_node_loop_end_of_data (fuel : Nat) :
    ∀ (r : reader) (parent : List Nat), r.input_enc = WS_XML_READER_ENCODING_TYPE_TEXT →
      read_end_of_data r = true →
      (r.node_at (r.tail_child [])).map node.nodeType ≠ some WS_XML_NODE_TYPE.END_ELEMENT →
      skip_node_loop fuel (some parent) r = none := by
  induction fuel with
  | zero =>
    intro r parent _ _ _
    rfl
  | succ f ih =>
    intro r parent htext hend htail
    have htail2 : ((at_eof r).node_at (at_eof r).current).map node.nodeType ≠
        some WS_XML_NODE_TYPE.END_ELEMENT := htail
    rw [skip_node_loop, read_node_end_of_data r htext hend]
    dsimp only
    rw [if_neg (by simp), if_pos htail2]
    exact ih (at_eof r) parent htext hend htail

/-- The loop of `skip_node` with an element to skip ends with `S_OK` only
behind the first pass that leaves the cursor on an EndElement child of the
element. -/
theorem skip_node_loop_success (fuel : Nat) :
    ∀ (r : reader) (parent : List Nat) (res : HRESULT × reader),
      skip_node_loop fuel (some parent) r = some res → res.1 = S_OK →
      ∃ k : Nat, k < fuel ∧
        (∀ j : Nat, j ≤ k → (read_node (read_nodes j r)).1 = S_OK) ∧
        ((read_nodes (k + 1) r).node_at (read_nodes (k + 1) r).current).map node.nodeType =
          some WS_XML_NODE_TYPE.END_ELEMENT ∧
        parent_of (read_nodes (k + 1) r).current = some parent ∧
        (∀ j : Nat, 1 ≤ j → j ≤ k →
          ¬ (((read_nodes j r).node_at (read_nodes j r).current).map node.nodeType =
              some WS_XML_NODE_TYPE.END_ELEMENT ∧
            parent_of (read_nodes j r).current = some parent)) ∧
        res = read_node (read_nodes (k + 1) r) := by
  induction fuel with
  | zero =>
    intro r parent res h _
    simp [skip_node_loop] at h
  | succ f ih =>
    intro r parent res h hok
    rw [skip_node_loop] at h
    by_cases hn : (read_node r).1 = S_OK
    · have hrec : ∀ res2, skip_node_loop f (some parent) (read_node r).2 = some res2 →
          res2 = res →
          ¬ (((read_node r).2.node_at (read_node r).2.current).map node.nodeType =
              some WS_XML_NODE_TYPE.END_ELEMENT ∧
            parent_of (read_node r).2.current = some parent) →
          ∃ k : Nat, k < f + 1 ∧
            (∀ j : Nat, j ≤ k → (read_node (read_nodes j r)).1 = S_OK) ∧
            ((read_nodes (k + 1) r).node_at (read_nodes (k + 1) r).current).map node.nodeType =
              some WS_XML_NODE_TYPE.END_ELEMENT ∧
            parent_of (read_nodes (k + 1) r).current = some parent ∧
            (∀ j : Nat, 1 ≤ j → j ≤ k →
              ¬ (((read_nodes j r).node_at (read_nodes j r).current).map node.nodeType =
                  some WS_XML_NODE_TYPE.END_ELEMENT ∧
                parent_of (read_nodes j r).current = some parent)) ∧
            res = read_node (read_nodes (k + 1) r) := by
        intro res2 h2 heq hnot
        subst heq
        obtain ⟨k, hk, h1, h3, h4, h5, h6⟩ := ih (read_node r).2 parent res2 h2 hok
        refine ⟨k + 1, by omega, ?_, h3, h4, ?_, h6⟩
        · intro j hj
          cases j with
          | zero => exact hn
          | succ j => exact h1 j (by omega)
        · intro j hj1 hj2
          cases j with
          | zero => omega
          | succ j =>
            cases j with
            | zero => exact hnot
            | succ j => exact h5 (j + 1) (by omega) (by omega)
      rw [if_neg (by simp [hn])] at h
      by_cases ht : ((read_node r).2.node_at (read_node r).2.current).map node.nodeType ≠
          some WS_XML_NODE_TYPE.END_ELEMENT
      · rw [if_pos ht] at h
        exact hrec res h rfl (fun hc => ht hc.1)
      · rw [if_neg ht] at h
        by_cases hp : parent_of (read_node r).2.current = some parent
        · rw [if_pos hp] at h
          refine ⟨0, by omega, ?_, not_not.mp ht, hp, ?_, (Option.some.inj h).symm⟩
          · intro j hj
            have : j = 0 := by omega
            subst this
            exact hn
          · intro j hj1 hj2
            omega
        · rw [if_neg hp] at h
          exact hrec res h rfl (fun hc => hp hc.2)
    · rw [if_pos (Or.inl (by simp [hn]))] at h
      have := Option.some.inj h
      rw [← this] at hok
      simp [hn] at hok

/-- When the first `read_node` of `skip_node` fails, `skip_node` returns
`S_FALSE`, the value of the comparison `read_node( reader ) != S_OK`, with the
reader as `read_node` leaves it. -/
theorem skip_node_first_failure (r : reader) (fuel : Nat)
    (hcur : (r.node_at r.current).map node.nodeType ≠ some WS_XML_NODE_TYPE.EOF)
    (hfail : (read_node r).1 ≠ S_OK) :
    skip_node (fuel + 1) r = some (S_FALSE, (read_node r).2) := by
  unfold skip_node
  rw [if_neg hcur, skip_node_loop]
  rw [if_pos hfail, if_pos (Or.inl (by decide))]

/-- With the cursor on a node that is not an element and not the EOF node,
`skip_node` calls `read_node` once. -/
theorem skip_node_other (r : reader) (fuel : Nat)
    (hcur : (r.node_at r.current).map node.nodeType ≠ some WS_XML_NODE_TYPE.EOF)
    (hel : (r.node_at r.current).map node.nodeType ≠ some WS_XML_NODE_TYPE.ELEMENT) :
    skip_node (fuel + 1) r =
      some (if (read_node r).1 ≠ S_OK then S_FALSE else S_OK, (read_node r).2) := by
  unfold skip_node
  rw [if_neg hcur, if_neg hel, skip_node_loop]
  rw [if_pos (Or.inr rfl)]

/-- `skip_node` on an element at the end of the input of a text reader never
returns. -/
theorem skip_node_at_end_of_data (r : reader)
    (htext : r.input_enc = WS_XML_READER_ENCODING_TYPE_TEXT)
    (hcur : (r.node_at r.current).map node.nodeType = some WS_XML_NODE_TYPE.ELEMENT)
    (hend : read_end_of_data r = true)
    (htail : (r.node_at (r.tail_child [])).map node.nodeType ≠
      some WS_XML_NODE_TYPE.END_ELEMENT) (fuel : Nat) :
    skip_node fuel r = none := by
  unfold skip_node
  rw [if_neg (by rw [hcur]; decide), if_pos hcur]
  exact skip_node_loop_end_of_data fuel r r.current htext hend htail

/-- C24, refuted: a failure of the `read_node` step in the loop of `skip_node`
is not returned.  When the cursor is not on the EOF node and `read_node`
fails, `skip_node` returns `S_FALSE`, the value 1 that the assignment
`hr = read_node( reader ) != S_OK` stores in `hr`, whatever code `read_node`
returned. -/
theorem skip_node_drops_error_code (r : reader) (fuel : Nat)
    (hcur : (r.node_at r.current).map node.nodeType ≠ some WS_XML_NODE_TYPE.EOF)
    (hfail : (read_node r).1 ≠ S_OK) :
    skip_node (fuel + 1) r = some (S_FALSE, (read_node r).2) :=
  skip_node_first_failure r fuel hcur hfail

/-- On the input `<>`, `read_node` fails with `WS_E_INVALID_FORMAT` and
`skip_node` returns `S_FALSE`. -/
theorem skip_node_drops_error_code_witness :
    (read_node (WsSetInput [60, 62])).1 = WS_E_INVALID_FORMAT ∧
    skip_node (0 + 1) (WsSetInput [60, 62]) = some (S_FALSE, (read_node (WsSetInput [60, 62])).2) :=
  ⟨by decide, skip_node_drops_error_code (WsSetInput [60, 62]) 0 (by decide) (by decide)⟩

/-- C25, refuted: `skip_node` does not always return.  On the input `<a>`,
with the cursor on the element `a` that the first `read_node` has read,
`skip_node` is still in its loop after any number of passes: `read_node`
reaches the end of the input, leaves the cursor on the EOF node and returns
`S_OK`, again and again.  The same holds on the input `<a/>` when the tree has
been read to the end and the cursor has been moved back to the element `a`
with `WS_MOVE_TO_ROOT_ELEMENT`. -/
theorem skip_node_never_returns :
    ((read_node (WsSetInput [60, 97, 62])).1 = S_OK ∧
      ((read_node (WsSetInput [60, 97, 62])).2.node_at
        (read_node (WsSetInput [60, 97, 62])).2.current).map node.nodeType =
        some WS_XML_NODE_TYPE.ELEMENT ∧
      ∀ fuel : Nat, skip_node fuel (read_node (WsSetInput [60, 97, 62])).2 = none) ∧
    (∃ r : reader,
      read_move_to 4 (WsSetInput [60, 97, 47, 62]) WS_MOVE_TO_ROOT_ELEMENT true =
        some (S_OK, r, true) ∧
      (r.node_at r.current).map node.nodeType = some WS_XML_NODE_TYPE.ELEMENT ∧
      ∀ fuel : Nat, skip_node fuel r = none) := by
  constructor
  · refine ⟨by decide, by decide, fun fuel => ?_⟩
    cases fuel with
    | zero => rfl
    | succ f =>
      unfold skip_node
      rw [if_neg (by decide), if_pos (by decide), skip_node_loop]
      rw [if_neg (by decide), if_pos (by decide)]
      exact skip_node_loop_end_of_data f _ _ (by decide) (by decide) (by decide)
  · refine ⟨{ (read_nodes 3 (WsSetInput [60, 97, 47, 62])) with current := [0] }, rfl, by decide,
      fun fuel => ?_⟩
    exact skip_node_at_end_of_data _ (by decide) (by decide) (by decide) (by decide) fuel

/-- On the input `<n>t</n>`, with the cursor on the element `n` that the
first `read_node` has read, `skip_node` returns `S_OK` and leaves the reader
as the fourth `read_node` does, on the EOF node that follows the element. -/
theorem skip_node_simple_element (n t : List Nat) (hn : n ≠ [])
    (hnb : ∀ x ∈ n, name_byte x = true) (ht : t ≠ []) (htb : ∀ x ∈ t, text_byte x = true)
    (fuel : Nat) :
    skip_node (fuel + 2)
        (read_node (WsSetInput ([60] ++ n ++ [62] ++ t ++ [60, 47] ++ n ++ [62]))).2 =
      some (read_node (read_nodes 3
        (WsSetInput ([60] ++ n ++ [62] ++ t ++ [60, 47] ++ n ++ [62])))) ∧
    (read_node (read_nodes 3
        (WsSetInput ([60] ++ n ++ [62] ++ t ++ [60, 47] ++ n ++ [62])))).1 = S_OK ∧
    ((read_node (read_nodes 3
        (WsSetInput ([60] ++ n ++ [62] ++ t ++ [60, 47] ++ n ++ [62])))).2.node_at
      (read_node (read_nodes 3
        (WsSetInput ([60] ++ n ++ [62] ++ t ++ [60, 47] ++ n ++ [62])))).2.current).map
        node.nodeType = some WS_XML_NODE_TYPE.EOF := by
  have hdata : [60] ++ n ++ [62] ++ t ++ [60, 47] ++ n ++ [62] =
      60 :: (n ++ 62 :: (t ++ 60 :: 47 :: (n ++ [62]))) := by simp
  have h1 := read_node_first n (t ++ 60 :: 47 :: (n ++ [62])) hn hnb
  have h2 := read_node_second n t (47 :: (n ++ [62])) ht htb
  have h3 := read_node_third n t hnb
    [node.mk WS_XML_NODE_TYPE.TEXT ⟨none, none, none, []⟩ (some t) [] []]
    (0 + 1 + n.length + 1 + t.length) (by simp; omega) READER_STATE_TEXT (by decide) (by decide)
    [0, 0] (find_startelement_text_child _ _ _ n _
      (by show WS_XML_NODE_TYPE.TEXT ≠ WS_XML_NODE_TYPE.ELEMENT; decide))
  simp only [List.length_singleton] at h3
  have h4 := read_node_fourth (60 :: (n ++ 62 :: (t ++ 60 :: 47 :: (n ++ [62]))))
    (0 + 1 + n.length + 1 + t.length + 2 + n.length + 1) (by simp; omega) READER_STATE_ENDELEMENT n
    [node.mk WS_XML_NODE_TYPE.TEXT ⟨none, none, none, []⟩ (some t) [] []] [1, 0]
  simp only [read_nodes]
  rw [hdata, h1, h2, h3, h4]
  refine ⟨?_, rfl, rfl⟩
  unfold skip_node
  rw [if_neg (by show ¬ some WS_XML_NODE_TYPE.ELEMENT = some WS_XML_NODE_TYPE.EOF; decide),
    if_pos (by rfl), skip_node_loop, h2]
  rw [if_neg (by simp),
    if_pos (by show ¬ some WS_XML_NODE_TYPE.TEXT = some WS_XML_NODE_TYPE.END_ELEMENT; decide),
    skip_node_loop, h3]
  rw [if_neg (by simp),
    if_neg (by
      show ¬ ¬ some WS_XML_NODE_TYPE.END_ELEMENT = some WS_XML_NODE_TYPE.END_ELEMENT
      simp),
    if_pos (by rfl), h4]

/-- C23: `skip_node` skips a whole element.  With the cursor on an Element
node `e`, a `skip_node` that returns `S_OK` has called `read_node` until the
cursor was for the first time on an EndElement node whose parent is `e`, all
these calls returning `S_OK`, and then once more: the reader is left as that
last `read_node` leaves it.  With the cursor on a node that is neither an
Element nor the EOF node, `skip_node` leaves the reader as one `read_node`
does, and it returns `S_OK` when that `read_node` does.  With the cursor on
the EOF node it returns `WS_E_INVALID_OPERATION` and leaves the reader as it
is. -/
theorem skip_node_skips_element (r : reader) (fuel : Nat) :
    ((r.node_at r.current).map node.nodeType = some WS_XML_NODE_TYPE.ELEMENT →
      ∀ res : HRESULT × reader, skip_node fuel r = some res → res.1 = S_OK →
      ∃ k : Nat, k < fuel ∧
        (∀ j : Nat, j ≤ k → (read_node (read_nodes j r)).1 = S_OK) ∧
        ((read_nodes (k + 1) r).node_at (read_nodes (k + 1) r).current).map node.nodeType =
          some WS_XML_NODE_TYPE.END_ELEMENT ∧
        parent_of (read_nodes (k + 1) r).current = some r.current ∧
        (∀ j : Nat, 1 ≤ j → j ≤ k →
          ¬ (((read_nodes j r).node_at (read_nodes j r).current).map node.nodeType =
              some WS_XML_NODE_TYPE.END_ELEMENT ∧
            parent_of (read_nodes j r).current = some r.current)) ∧
        res = read_node (read_nodes (k + 1) r)) ∧
    ((r.node_at r.current).map node.nodeType ≠ some WS_XML_NODE_TYPE.ELEMENT →
      (r.node_at r.current).map node.nodeType ≠ some WS_XML_NODE_TYPE.EOF →
      ((skip_node (fuel + 1) r).map Prod.snd = some (read_node r).2 ∧
        ((read_node r).1 = S_OK → skip_node (fuel + 1) r = some (read_node r)))) ∧
    ((r.node_at r.current).map node.nodeType = some WS_XML_NODE_TYPE.EOF →
      skip_node fuel r = some (WS_E_INVALID_OPERATION, r)) := by
  refine ⟨fun hel res h hok => ?_, fun hel hcur => ?_, fun heof => ?_⟩
  · unfold skip_node at h
    rw [if_neg (by rw [hel]; decide), if_pos hel] at h
    exact skip_node_loop_success fuel r r.current res h hok
  · rw [skip_node_other r fuel hcur hel]
    refine ⟨rfl, fun hok => ?_⟩
    rw [if_neg (not_not.mpr hok), ← hok]
  · unfold skip_node
    rw [if_pos heof]

/-- On the input `<n>t</n>`: from the element `n`, `skip_node` reads the
text and the EndElement node of `n` and then the EOF node; from the text it
reads once, as `read_node` does; on the EOF node it fails. -/
theorem skip_node_skips_element_witness :
    skip_node 5 (read_nodes 1 simple_reader) = some (read_node (read_nodes 3 simple_reader)) ∧
    (∃ k : Nat, k < 5 ∧
      (∀ j : Nat, j ≤ k → (read_node (read_nodes j (read_nodes 1 simple_reader))).1 = S_OK) ∧
      ((read_nodes (k + 1) (read_nodes 1 simple_reader)).node_at
        (read_nodes (k + 1) (read_nodes 1 simple_reader)).current).map node.nodeType =
        some WS_XML_NODE_TYPE.END_ELEMENT ∧
      parent_of (read_nodes (k + 1) (read_nodes 1 simple_reader)).current = some (read_nodes 1 simple_reader).current ∧
      (∀ j : Nat, 1 ≤ j → j ≤ k →
        ¬ (((read_nodes j (read_nodes 1 simple_reader)).node_at
              (read_nodes j (read_nodes 1 simple_reader)).current).map node.nodeType =
            some WS_XML_NODE_TYPE.END_ELEMENT ∧
          parent_of (read_nodes j (read_nodes 1 simple_reader)).current = some (read_nodes 1 simple_reader).current)) ∧
      read_node (read_nodes 3 simple_reader) = read_node (read_nodes (k + 1) (read_nodes 1 simple_reader))) ∧
    skip_node (0 + 1) (read_nodes 2 simple_reader) = some (read_node (read_nodes 2 simple_reader)) ∧
    skip_node 0 (read_nodes 4 simple_reader) = some (WS_E_INVALID_OPERATION, read_nodes 4 simple_reader) :=
  ⟨rfl,
    (skip_node_skips_element (read_nodes 1 simple_reader) 5).1 (by decide) _ rfl (by decide),
    ((skip_node_skips_element (read_nodes 2 simple_reader) 0).2.1 (by decide) (by decide)).2 (by decide),
    (skip_node_skips_element (read_nodes 4 simple_reader) 0).2.2 (by decide)⟩

/-! ## The scanning of the input leaves the tree alone -/

theorem reader.scanned.refl (r : reader) : r.scanned r :=
  ⟨rfl, le_refl _, rfl, rfl, rfl, rfl, rfl, rfl⟩

theorem reader.scanned.trans {a b c : reader} (h1 : a.scanned b) (h2 : b.scanned c) :
    a.scanned c :=
  ⟨h2.bufptr.trans h1.bufptr, le_trans h1.pos h2.pos, h2.state.trans h1.state,
    h2.root.trans h1.root, h2.current.trans h1.current, h2.last.trans h1.last,
    h2.input_enc.trans h1.input_enc, h2.dict.trans h1.dict⟩

theorem reader.scanned.size {a b : reader} (h : a.scanned b) : b.read_size = a.read_size := by
  unfold reader.read_size
  rw [h.bufptr]

theorem reader.scanned.node_at {a b : reader} (h : a.scanned b) (p : List Nat) :
    b.node_at p = a.node_at p := by
  unfold reader.node_at
  rw [h.root]

theorem reader.scanned.tail_child {a b : reader} (h : a.scanned b) (p : List Nat) :
    b.tail_child p = a.tail_child p := by
  unfold reader.tail_child
  rw [h.node_at]

theorem reader.scanned.find_parent {a b : reader} (h : a.scanned b) :
    find_parent b = find_parent a := by
  unfold Webservices.find_parent
  simp only [h.node_at, h.current]

theorem scanned_pos (r : reader) (pos : Nat) (h : r.read_pos ≤ pos) :
    r.scanned { r with read_pos := pos } :=
  ⟨rfl, h, rfl, rfl, rfl, rfl, rfl, rfl⟩

/-- `read_byte` scans one byte when it succeeds. -/
theorem read_byte_scanned (r : reader) :
    r.scanned (read_byte r).2.1 ∧ (read_byte r).1 ≠ E_NOTIMPL ∧
    ((read_byte r).1 = S_OK → (read_byte r).2.1.read_pos = r.read_pos + 1 ∧
      r.read_pos < r.read_size) := by
  unfold read_byte
  split_ifs with h
  · exact ⟨reader.scanned.refl r, by simp, fun h2 => by simp at h2⟩
  · exact ⟨scanned_pos r _ (Nat.le_succ _), by simp, fun _ => ⟨rfl, by omega⟩⟩

theorem read_bytes_scanned (r : reader) (len : Nat) :
    r.scanned (read_bytes r len).2.1 ∧ (read_bytes r len).1 ≠ E_NOTIMPL := by
  unfold read_bytes
  split_ifs with h
  · exact ⟨reader.scanned.refl r, by simp⟩
  · exact ⟨scanned_pos r _ (Nat.le_add_right _ _), by simp⟩

theorem read_int31_scanned (r : reader) :
    r.scanned (read_int31 r).2.1 ∧ (read_int31 r).1 ≠ E_NOTIMPL := by
  unfold read_int31
  dsimp only
  have h0 := read_byte_scanned r
  generalize read_byte r = x0 at h0
  have h1 := read_byte_scanned x0.2.1
  generalize read_byte x0.2.1 = x1 at h1
  have h2 := read_byte_scanned x1.2.1
  generalize read_byte x1.2.1 = x2 at h2
  have h3 := read_byte_scanned x2.2.1
  generalize read_byte x2.2.1 = x3 at h3
  have h4 := read_byte_scanned x3.2.1
  generalize read_byte x3.2.1 = x4 at h4
  have s1 := h0.1.trans h1.1
  have s2 := s1.trans h2.1
  have s3 := s2.trans h3.1
  have s4 := s3.trans h4.1
  by_cases c0 : x0.1 ≠ S_OK
  · rw [if_pos c0]
    exact ⟨h0.1, h0.2.1⟩
  rw [if_neg c0]
  by_cases d0 : x0.2.2 &&& 128 = 0
  · rw [if_pos d0]
    exact ⟨h0.1, by simp⟩
  rw [if_neg d0]
  by_cases c1 : x1.1 ≠ S_OK
  · rw [if_pos c1]
    exact ⟨s1, h1.2.1⟩
  rw [if_neg c1]
  by_cases d1 : x1.2.2 &&& 128 = 0
  · rw [if_pos d1]
    exact ⟨s1, by simp⟩
  rw [if_neg d1]
  by_cases c2 : x2.1 ≠ S_OK
  · rw [if_pos c2]
    exact ⟨s2, h2.2.1⟩
  rw [if_neg c2]
  by_cases d2 : x2.2.2 &&& 128 = 0
  · rw [if_pos d2]
    exact ⟨s2, by simp⟩
  rw [if_neg d2]
  by_cases c3 : x3.1 ≠ S_OK
  · rw [if_pos c3]
    exact ⟨s3, h3.2.1⟩
  rw [if_neg c3]
  by_cases d3 : x3.2.2 &&& 128 = 0
  · rw [if_pos d3]
    exact ⟨s3, by simp⟩
  rw [if_neg d3]
  by_cases c4 : x4.1 ≠ S_OK
  · rw [if_pos c4]
    exact ⟨s4, h4.2.1⟩
  rw [if_neg c4]
  exact ⟨s4, by simp⟩

theorem read_string_scanned (r : reader) :
    r.scanned (read_string r).2.1 ∧ (read_string r).1 ≠ E_NOTIMPL := by
  unfold read_string
  dsimp only
  have h0 := read_int31_scanned r
  have h1 := read_bytes_scanned (read_int31 r).2.1 (read_int31 r).2.2
  split_ifs with c1 c2
  · exact h0
  · exact ⟨h0.1.trans h1.1, by simp⟩
  · exact ⟨h0.1.trans h1.1, h1.2⟩

theorem read_dict_string_scanned (r : reader) :
    r.scanned (read_dict_string r).2.1 ∧ (read_dict_string r).1 ≠ E_NOTIMPL := by
  unfold read_dict_string
  dsimp only
  have h0 := read_int31_scanned r
  cases hd : (read_int31 r).2.1.dict with
  | none =>
    dsimp only
    split_ifs
    · exact h0
    · exact ⟨h0.1, by simp⟩
  | some d =>
    dsimp only
    split_ifs
    · exact h0
    · exact ⟨h0.1, by simp⟩
    · exact ⟨h0.1, by simp⟩

theorem read_text_bytes_scanned (r : reader) (len : Nat) :
    r.scanned (read_text_bytes r len).2.1 ∧ (read_text_bytes r len).1 ≠ E_NOTIMPL := by
  unfold read_text_bytes
  dsimp only
  have h1 := read_bytes_scanned r len
  split_ifs
  · exact h1
  · exact ⟨h1.1, by simp⟩

theorem read_dict_text_scanned (r : reader) :
    r.scanned (read_dict_text r).2.1 ∧ (read_dict_text r).1 ≠ E_NOTIMPL := by
  unfold read_dict_text
  dsimp only
  have h0 := read_int31_scanned r
  cases hd : (read_int31 r).2.1.dict with
  | none =>
    dsimp only
    split_ifs
    · exact h0
    · exact ⟨h0.1, by simp⟩
  | some d =>
    dsimp only
    split_ifs
    · exact h0
    · exact ⟨h0.1, by simp⟩
    · exact ⟨h0.1, by simp⟩

theorem bind_prefix_scanned (r : reader) (p ns : Option (List Nat)) :
    r.scanned ( bind_prefix r p ns).2 ∧ ( bind_prefix r p ns).1 = S_OK := by
  unfold bind_prefix
  cases bind_prefix_loop p ns r.prefixes with
  | none => exact ⟨⟨rfl, le_refl _, rfl, rfl, rfl, rfl, rfl, rfl⟩, rfl⟩
  | some t => exact ⟨⟨rfl, le_refl _, rfl, rfl, rfl, rfl, rfl, rfl⟩, rfl⟩

theorem scanned_current_attr (r : reader) (k : Nat) :
    r.scanned { r with current_attr := k } :=
  ⟨rfl, le_refl _, rfl, rfl, rfl, rfl, rfl, rfl⟩

theorem read_attribute_value_bin_scanned (r : reader) (attr : WS_XML_ATTRIBUTE) :
    r.scanned (read_attribute_value_bin r attr).2.1 ∧
    (read_attribute_value_bin r attr).1 ≠ E_NOTIMPL := by
  unfold read_attribute_value_bin
  dsimp only
  have h0 := read_byte_scanned r
  generalize read_byte r = t at h0
  by_cases c0 : t.1 ≠ S_OK
  · rw [if_pos c0]
    exact ⟨h0.1, h0.2.1⟩
  rw [if_neg c0]
  by_cases c1 : (!is_text_type t.2.2) = true
  · rw [if_pos c1]
    exact ⟨h0.1, by simp⟩
  rw [if_neg c1]
  obtain ⟨u, hu⟩ : ∃ u : HRESULT × reader × Option (List Nat), u =
      (if t.2.2 = RECORD_ZERO_TEXT then (S_OK, t.2.1, some [48])
      else if t.2.2 = RECORD_ONE_TEXT then (S_OK, t.2.1, some [49])
      else if t.2.2 = RECORD_FALSE_TEXT then (S_OK, t.2.1, some [102, 97, 108, 115, 101])
      else if t.2.2 = RECORD_TRUE_TEXT then (S_OK, t.2.1, some [116, 114, 117, 101])
      else if t.2.2 = RECORD_CHARS8_TEXT then
        if (read_byte t.2.1).1 ≠ S_OK then ((read_byte t.2.1).1, (read_byte t.2.1).2.1, none)
        else read_text_bytes (read_byte t.2.1).2.1 (read_byte t.2.1).2.2
      else if t.2.2 = RECORD_EMPTY_TEXT then read_text_bytes t.2.1 0
      else if t.2.2 = RECORD_DICTIONARY_TEXT then read_dict_text t.2.1
      else (WS_E_NOT_SUPPORTED, t.2.1, none)) := ⟨_, rfl⟩
  have hu2 : t.2.1.scanned u.2.1 ∧ u.1 ≠ E_NOTIMPL := by
    rw [hu]
    have b1 := read_byte_scanned t.2.1
    have b2 := read_text_bytes_scanned (read_byte t.2.1).2.1 (read_byte t.2.1).2.2
    have b3 := read_text_bytes_scanned t.2.1 0
    have b4 := read_dict_text_scanned t.2.1
    split_ifs
    · exact ⟨reader.scanned.refl _, by simp⟩
    · exact ⟨reader.scanned.refl _, by simp⟩
    · exact ⟨reader.scanned.refl _, by simp⟩
    · exact ⟨reader.scanned.refl _, by simp⟩
    · exact ⟨b1.1, b1.2.1⟩
    · exact ⟨b1.1.trans b2.1, b2.2⟩
    · exact b3
    · exact b4
    · exact ⟨reader.scanned.refl _, by simp⟩
  rw [← hu]
  split_ifs
  · exact ⟨h0.1.trans hu2.1, hu2.2⟩
  · exact ⟨h0.1.trans hu2.1, by simp⟩

theorem read_attribute_bin_name_scanned
    (read_name : reader → HRESULT × reader × Option (List Nat))
    (hn : ∀ r, r.scanned (read_name r).2.1 ∧ (read_name r).1 ≠ E_NOTIMPL)
    (r : reader) (attr : WS_XML_ATTRIBUTE) :
    r.scanned (read_attribute_bin_name read_name r attr).2.1 ∧
    (read_attribute_bin_name read_name r attr).1 ≠ E_NOTIMPL := by
  unfold read_attribute_bin_name
  dsimp only
  have h0 := hn r
  split_ifs
  · exact h0
  · have h1 := read_attribute_value_bin_scanned (read_name r).2.1
      { attr with localName := (read_name r).2.2 }
    exact ⟨h0.1.trans h1.1, h1.2⟩

theorem read_attribute_bin_xmlns_scanned
    (read_ns : reader → HRESULT × reader × Option (List Nat))
    (hn : ∀ r, r.scanned (read_ns r).2.1 ∧ (read_ns r).1 ≠ E_NOTIMPL)
    (r : reader) (attr : WS_XML_ATTRIBUTE) :
    r.scanned (read_attribute_bin_xmlns read_ns r attr).2.1 ∧
    (read_attribute_bin_xmlns read_ns r attr).1 ≠ E_NOTIMPL := by
  unfold read_attribute_bin_xmlns
  dsimp only
  have h0 := hn r
  have h1 := bind_prefix_scanned (read_ns r).2.1 attr.prefix_ (read_ns r).2.2
  split_ifs with c1 c2
  · exact h0
  · exact absurd h1.2 c2
  · exact ⟨h0.1.trans h1.1, by simp⟩

theorem read_attribute_bin_named_scanned
    (rest : reader → WS_XML_ATTRIBUTE → HRESULT × reader × WS_XML_ATTRIBUTE)
    (hn : ∀ r a, r.scanned (rest r a).2.1 ∧ (rest r a).1 ≠ E_NOTIMPL)
    (r : reader) (attr : WS_XML_ATTRIBUTE) :
    r.scanned (read_attribute_bin_named rest r attr).2.1 ∧
    (read_attribute_bin_named rest r attr).1 ≠ E_NOTIMPL := by
  unfold read_attribute_bin_named
  dsimp only
  have h0 := read_string_scanned r
  split_ifs
  · exact h0
  · have h1 := hn (read_string r).2.1 { attr with prefix_ := (read_string r).2.2 }
    exact ⟨h0.1.trans h1.1, h1.2⟩

/-- `read_attribute_bin` scans at least one byte when it succeeds. -/
theorem read_attribute_bin_scanned (r : reader) :
    r.scanned (read_attribute_bin r).2.1 ∧ (read_attribute_bin r).1 ≠ E_NOTIMPL ∧
    ((read_attribute_bin r).1 = S_OK → r.read_pos < (read_attribute_bin r).2.1.read_pos) := by
  have key : ∀ (t : reader) (x : HRESULT × reader × WS_XML_ATTRIBUTE), r.scanned t →
      r.read_pos < t.read_pos → (t.scanned x.2.1 ∧ x.1 ≠ E_NOTIMPL) →
      r.scanned x.2.1 ∧ x.1 ≠ E_NOTIMPL ∧ (x.1 = S_OK → r.read_pos < x.2.1.read_pos) :=
    fun t x h1 h2 h3 => ⟨h1.trans h3.1, h3.2, fun _ => lt_of_lt_of_le h2 h3.1.pos⟩
  unfold read_attribute_bin
  dsimp only
  have h0 := read_byte_scanned r
  generalize read_byte r = t at h0
  by_cases c0 : t.1 ≠ S_OK
  · rw [if_pos c0]
    exact ⟨h0.1, h0.2.1, fun h => absurd h c0⟩
  rw [if_neg c0]
  have hpos : r.read_pos < t.2.1.read_pos := by
    have := (h0.2.2 (not_not.mp c0)).1
    omega
  by_cases c1 : (!is_attribute_type t.2.2) = true
  · rw [if_pos c1]
    exact ⟨h0.1, by simp, fun h => by simp at h⟩
  rw [if_neg c1]
  have n1 := read_attribute_bin_name_scanned read_string read_string_scanned
  have n2 := read_attribute_bin_name_scanned read_dict_string read_dict_string_scanned
  have x1 := read_attribute_bin_xmlns_scanned read_string read_string_scanned
  have x2 := read_attribute_bin_xmlns_scanned read_dict_string read_dict_string_scanned
  by_cases d0 : t.2.2 ≥ RECORD_PREFIX_ATTRIBUTE_A ∧ t.2.2 ≤ RECORD_PREFIX_ATTRIBUTE_Z
  · rw [if_pos d0]
    exact key _ _ h0.1 hpos (n1 _ _)
  rw [if_neg d0]
  by_cases d1 : t.2.2 ≥ RECORD_PREFIX_DICTIONARY_ATTRIBUTE_A ∧
      t.2.2 ≤ RECORD_PREFIX_DICTIONARY_ATTRIBUTE_Z
  · rw [if_pos d1]
    exact key _ _ h0.1 hpos (n2 _ _)
  rw [if_neg d1]
  by_cases d2 : t.2.2 = RECORD_SHORT_ATTRIBUTE
  · rw [if_pos d2]
    exact key _ _ h0.1 hpos (n1 _ _)
  rw [if_neg d2]
  by_cases d3 : t.2.2 = RECORD_ATTRIBUTE
  · rw [if_pos d3]
    exact key _ _ h0.1 hpos (read_attribute_bin_named_scanned _ n1 _ _)
  rw [if_neg d3]
  by_cases d4 : t.2.2 = RECORD_SHORT_DICTIONARY_ATTRIBUTE
  · rw [if_pos d4]
    exact key _ _ h0.1 hpos (n2 _ _)
  rw [if_neg d4]
  by_cases d5 : t.2.2 = RECORD_DICTIONARY_ATTRIBUTE
  · rw [if_pos d5]
    exact key _ _ h0.1 hpos (read_attribute_bin_named_scanned _ n2 _ _)
  rw [if_neg d5]
  by_cases d6 : t.2.2 = RECORD_SHORT_XMLNS_ATTRIBUTE
  · rw [if_pos d6]
    exact key _ _ h0.1 hpos (x1 _ _)
  rw [if_neg d6]
  by_cases d7 : t.2.2 = RECORD_XMLNS_ATTRIBUTE
  · rw [if_pos d7]
    exact key _ _ h0.1 hpos (read_attribute_bin_named_scanned _ x1 _ _)
  rw [if_neg d7]
  by_cases d8 : t.2.2 = RECORD_SHORT_DICTIONARY_XMLNS_ATTRIBUTE
  · rw [if_pos d8]
    exact key _ _ h0.1 hpos (x2 _ _)
  rw [if_neg d8]
  by_cases d9 : t.2.2 = RECORD_DICTIONARY_XMLNS_ATTRIBUTE
  · rw [if_pos d9]
    exact key _ _ h0.1 hpos (read_attribute_bin_named_scanned _ x2 _ _)
  rw [if_neg d9]
  exact ⟨h0.1, by simp, fun h => by simp at h⟩

theorem read_peek_ok (r : reader) (h : (read_peek r).1 = S_OK) : r.read_pos < r.read_size := by
  unfold read_peek at h
  split_ifs at h with c
  omega

theorem read_attributes_bin_loop_scanned (fuel : Nat) (r : reader) (elem : WS_XML_ELEMENT_NODE) :
    r.scanned (read_attributes_bin_loop fuel r elem).2.1 ∧
    (r.read_size - r.read_pos < fuel → (read_attributes_bin_loop fuel r elem).1 ≠ E_NOTIMPL) := by
  induction fuel generalizing r elem with
  | zero => exact ⟨reader.scanned.refl r, fun h => absurd h (Nat.not_lt_zero _)⟩
  | succ fuel ih =>
    rw [read_attributes_bin_loop]
    dsimp only
    by_cases c0 : (read_peek r).1 ≠ S_OK
    · rw [if_pos c0]
      refine ⟨reader.scanned.refl r, fun _ => ?_⟩
      unfold read_peek at c0 ⊢
      split_ifs at c0 ⊢ with c
      · simp
      · exact absurd rfl c0
    rw [if_neg c0]
    by_cases c1 : (!is_attribute_type (read_peek r).2) = true
    · rw [if_pos c1]
      exact ⟨reader.scanned.refl r, fun _ => by simp⟩
    rw [if_neg c1]
    have ha := read_attribute_bin_scanned r
    generalize read_attribute_bin r = a at ha
    by_cases c2 : a.1 ≠ S_OK
    · rw [if_pos c2]
      exact ⟨ha.1, fun _ => ha.2.1⟩
    rw [if_neg c2]
    have hs : r.scanned { a.2.1 with current_attr := a.2.1.current_attr + 1 } :=
      ha.1.trans (scanned_current_attr _ _)
    have hi := ih { a.2.1 with current_attr := a.2.1.current_attr + 1 }
      (append_attribute elem a.2.2)
    refine ⟨hs.trans hi.1, fun hf => hi.2 ?_⟩
    have hp := ha.2.2 (not_not.mp c2)
    have hsz := hs.size
    show ({ a.2.1 with current_attr := a.2.1.current_attr + 1 } : reader).read_size -
      a.2.1.read_pos < fuel
    rw [hsz]
    have := read_peek_ok r (not_not.mp c0)
    omega

theorem read_attributes_bin_scanned (r : reader) (elem : WS_XML_ELEMENT_NODE) :
    r.scanned (read_attributes_bin r elem).2.1 ∧ (read_attributes_bin r elem).1 ≠ E_NOTIMPL := by
  unfold read_attributes_bin
  have h := read_attributes_bin_loop_scanned (r.read_size - r.read_pos + 1)
    { r with current_attr := 0 } elem
  exact ⟨(scanned_current_attr r 0).trans h.1, h.2 (Nat.lt_succ_self _)⟩

theorem read_element_bin_name_scanned (r : reader) (type : Nat) :
    r.scanned (read_element_bin_name r type).2.1 ∧
    (read_element_bin_name r type).1 ≠ E_NOTIMPL := by
  unfold read_element_bin_name
  dsimp only
  have s1 := read_string_scanned r
  have d1 := read_dict_string_scanned r
  have s2 := read_string_scanned (read_string r).2.1
  have d2 := read_dict_string_scanned (read_string r).2.1
  by_cases c1 : type ≥ RECORD_PREFIX_ELEMENT_A ∧ type ≤ RECORD_PREFIX_ELEMENT_Z
  · rw [if_pos c1]
    exact s1
  rw [if_neg c1]
  by_cases c2 : type ≥ RECORD_PREFIX_DICTIONARY_ELEMENT_A ∧
      type ≤ RECORD_PREFIX_DICTIONARY_ELEMENT_Z
  · rw [if_pos c2]
    exact d1
  rw [if_neg c2]
  by_cases c3 : type = RECORD_SHORT_ELEMENT
  · rw [if_pos c3]
    exact s1
  rw [if_neg c3]
  by_cases c4 : type = RECORD_ELEMENT
  · rw [if_pos c4]
    by_cases c5 : (read_string r).1 ≠ S_OK
    · rw [if_pos c5]
      exact s1
    · rw [if_neg c5]
      dsimp only
      exact ⟨s1.1.trans s2.1, s2.2⟩
  rw [if_neg c4]
  by_cases c6 : type = RECORD_SHORT_DICTIONARY_ELEMENT
  · rw [if_pos c6]
    exact d1
  rw [if_neg c6]
  by_cases c7 : type = RECORD_DICTIONARY_ELEMENT
  · rw [if_pos c7]
    by_cases c5 : (read_string r).1 ≠ S_OK
    · rw [if_pos c5]
      exact s1
    · rw [if_neg c5]
      dsimp only
      exact ⟨s1.1.trans d2.1, d2.2⟩
  rw [if_neg c7]
  exact ⟨reader.scanned.refl r, by simp⟩

theorem read_skip_scanned (r : reader) (count : Nat) : r.scanned (read_skip r count) := by
  unfold read_skip
  split_ifs
  · exact reader.scanned.refl r
  · exact scanned_pos r _ (Nat.le_add_right _ _)

theorem read_skip_whitespace_scanned (r : reader) : r.scanned (read_skip_whitespace r) :=
  scanned_pos r _ (Nat.le_add_right _ _)

theorem read_xmldecl_skip_scanned (r : reader) : r.scanned (read_xmldecl_skip r) :=
  scanned_pos r _ (Nat.le_add_right _ _)

theorem read_name_loop_scanned (fuel : Nat) :
    ∀ (r : reader) (len : Nat), r.scanned (read_name_loop fuel r len).2.1 := by
  induction fuel with
  | zero => exact fun r _ => reader.scanned.refl r
  | succ f ih =>
    intro r len
    rw [read_name_loop]
    try dsimp only
    split_ifs
    · exact reader.scanned.refl r
    · exact reader.scanned.refl r
    · exact (read_skip_scanned r _).trans (ih _ _)

theorem read_value_loop_scanned (quote fuel : Nat) :
    ∀ (r : reader) (len : Nat), r.scanned (read_value_loop quote fuel r len).2.1 := by
  induction fuel with
  | zero => exact fun r _ => reader.scanned.refl r
  | succ f ih =>
    intro r len
    rw [read_value_loop]
    try dsimp only
    split_ifs
    · exact reader.scanned.refl r
    · exact reader.scanned.refl r
    · exact (read_skip_scanned r _).trans (ih _ _)

theorem read_text_loop_scanned (fuel : Nat) :
    ∀ (r : reader) (len : Nat), r.scanned (read_text_loop fuel r len).2.1 := by
  induction fuel with
  | zero => exact fun r _ => reader.scanned.refl r
  | succ f ih =>
    intro r len
    rw [read_text_loop]
    try dsimp only
    split_ifs
    · exact reader.scanned.refl r
    · exact reader.scanned.refl r
    · exact reader.scanned.refl r
    · exact (read_skip_scanned r _).trans (ih _ _)

theorem read_endname_loop_scanned (fuel : Nat) :
    ∀ (r : reader) (len : Nat), r.scanned (read_endname_loop fuel r len).2.1 := by
  induction fuel with
  | zero => exact fun r _ => reader.scanned.refl r
  | succ f ih =>
    intro r len
    rw [read_endname_loop]
    try dsimp only
    split_ifs
    · exact reader.scanned.refl r
    · exact read_skip_scanned r 1
    · exact reader.scanned.refl r
    · exact (read_skip_scanned r _).trans (ih _ _)

theorem read_comment_loop_scanned (fuel : Nat) :
    ∀ (r : reader) (len : Nat), r.scanned (read_comment_loop fuel r len).2.1 := by
  induction fuel with
  | zero => exact fun r _ => reader.scanned.refl r
  | succ f ih =>
    intro r len
    rw [read_comment_loop]
    try dsimp only
    split_ifs
    · exact read_skip_scanned r 3
    · exact reader.scanned.refl r
    · exact (read_skip_scanned r _).trans (ih _ _)

theorem read_cdata_loop_scanned (fuel : Nat) :
    ∀ (r : reader) (len : Nat), r.scanned (read_cdata_loop fuel r len).2.1 := by
  induction fuel with
  | zero => exact fun r _ => reader.scanned.refl r
  | succ f ih =>
    intro r len
    rw [read_cdata_loop]
    try dsimp only
    split_ifs
    · exact reader.scanned.refl r
    · exact reader.scanned.refl r
    · exact (read_skip_scanned r _).trans (ih _ _)

theorem read_attribute_value_text_scanned (r : reader) (attr : WS_XML_ATTRIBUTE) :
    r.scanned (read_attribute_value_text r attr).2.1 := by
  unfold read_attribute_value_text
  dsimp only
  have w1 := read_skip_whitespace_scanned r
  obtain ⟨r1, hr1⟩ : ∃ r1, r1 = read_skip_whitespace r := ⟨_, rfl⟩
  rw [← hr1] at w1 ⊢
  have w2 := w1.trans ((read_skip_scanned r1 1).trans
    (read_skip_whitespace_scanned (read_skip r1 1)))
  obtain ⟨r2, hr2⟩ : ∃ r2, r2 = read_skip_whitespace (read_skip r1 1) := ⟨_, rfl⟩
  rw [← hr2] at w2 ⊢
  have w3 := w2.trans (read_skip_scanned r2 1)
  obtain ⟨r3, hr3⟩ : ∃ r3, r3 = read_skip r2 1 := ⟨_, rfl⟩
  rw [← hr3] at w3 ⊢
  have w4 := w3.trans (read_value_loop_scanned (read_utf8_char r2).1
    (r3.read_size - r3.read_pos + 1) r3 0)
  obtain ⟨l, hl⟩ : ∃ l, l = read_value_loop (read_utf8_char r2).1
    (r3.read_size - r3.read_pos + 1) r3 0 := ⟨_, rfl⟩
  rw [← hl] at w4 ⊢
  have w5 := w4.trans (read_skip_scanned l.2.1 1)
  obtain ⟨r5, hr5⟩ : ∃ r5, r5 = read_skip l.2.1 1 := ⟨_, rfl⟩
  rw [← hr5] at w5 ⊢
  by_cases c1 : read_cmp r1 [61] ≠ 0
  · rw [if_pos c1]
    exact w1
  rw [if_neg c1]
  by_cases c2 : (read_cmp r2 [34] ≠ 0 && read_cmp r2 [39] ≠ 0) = true
  · rw [if_pos c2]
    exact w2
  rw [if_neg c2]
  by_cases c3 : l.1 ≠ S_OK
  · rw [if_pos c3]
    exact w4
  rw [if_neg c3]
  by_cases c4 : attr.isXmlNs = true
  · rw [if_pos c4]
    have b := bind_prefix_scanned r5 attr.prefix_
      (some (List.take l.2.2 (read_current_ptr r3)))
    split_ifs
    · exact w5.trans b.1
    · exact w5.trans b.1
  · rw [if_neg c4]
    split_ifs
    · exact w5
    · exact w5

theorem read_attribute_text_scanned (r : reader) : r.scanned (read_attribute_text r).2.1 := by
  unfold read_attribute_text
  dsimp only
  have w1 := read_name_loop_scanned (r.read_size - r.read_pos + 1) r 0
  obtain ⟨l, hl⟩ : ∃ l, l = read_name_loop (r.read_size - r.read_pos + 1) r 0 := ⟨_, rfl⟩
  rw [← hl] at w1 ⊢
  by_cases c1 : l.1 ≠ S_OK
  · rw [if_pos c1]
    exact w1
  rw [if_neg c1]
  by_cases c2 : l.2.2 = 0
  · rw [if_pos c2]
    exact w1
  rw [if_neg c2]
  by_cases c3 : (parse_name (List.take l.2.2 (read_current_ptr r))).1 ≠ S_OK
  · rw [if_pos c3]
    exact w1
  rw [if_neg c3]
  exact w1.trans (read_attribute_value_text_scanned _ _)

theorem read_attributes_text_loop_scanned (fuel : Nat) :
    ∀ (r : reader) (elem : WS_XML_ELEMENT_NODE),
      r.scanned (read_attributes_text_loop fuel r elem).2.1 := by
  induction fuel with
  | zero => exact fun r _ => reader.scanned.refl r
  | succ f ih =>
    intro r elem
    rw [read_attributes_text_loop]
    try dsimp only
    have w := read_skip_whitespace_scanned r
    have a := read_attribute_text_scanned (read_skip_whitespace r)
    split_ifs
    · exact w
    · exact w.trans a
    · exact (w.trans a).trans ((scanned_current_attr _ _).trans (ih _ _))

theorem read_attributes_text_scanned (r : reader) (elem : WS_XML_ELEMENT_NODE) :
    r.scanned (read_attributes_text r elem).2.1 := by
  unfold read_attributes_text
  exact (scanned_current_attr r 0).trans (read_attributes_text_loop_scanned _ _ _)

set_option maxRecDepth 8192 in
theorem utf8_length_le (k : Nat) : utf8_length.getD k 0 ≤ 3 := by
  have h : ∀ x ∈ utf8_length, x ≤ 3 := by
    unfold utf8_length
    decide
  rw [List.getD_eq_getElem?_getD]
  cases hk : utf8_length[k]? with
  | none => simp
  | some x => exact h x (List.getElem?_mem hk)

theorem utf8_result_ne_60 (res : Option Nat) (len : Nat) (h1 : 1 ≤ len) (h3 : len ≤ 3) :
    (utf8_result res len).1 ≠ 60 := by
  unfold utf8_result
  cases res with
  | none => simp
  | some x =>
    dsimp only
    have hm : 128 ≤ utf8_minval.getD len 0 := by
      interval_cases len <;> simp [utf8_minval]
    split_ifs with c
    · simp
    · show x ≠ 60
      omega

/-- The character `<` is read from the byte `<` only. -/
theorem read_utf8_char_lt (r : reader) (h : (read_utf8_char r).1 = 60) : read_cmp r [60] = 0 := by
  unfold read_utf8_char at h
  dsimp only at h
  by_cases c1 : r.read_pos ≥ r.read_size
  · rw [if_pos c1] at h
    simp at h
  rw [if_neg c1] at h
  by_cases c2 : r.read_bufptr.getD r.read_pos 0 < 128
  · rw [if_pos c2] at h
    rw [read_cmp_zero_iff r [60] (List.cons_ne_nil _ _)]
    have hlt : r.read_pos < r.read_bufptr.length := by
      unfold reader.read_size at c1
      omega
    unfold read_current_ptr
    rw [List.drop_eq_getElem_cons hlt]
    have : r.read_bufptr[r.read_pos] = 60 := by
      have h2 : r.read_bufptr.getD r.read_pos 0 = 60 := h
      rw [List.getD_eq_getElem?_getD, List.getElem?_eq_getElem hlt] at h2
      simpa using h2
    rw [this]
    exact ⟨_, rfl⟩
  rw [if_neg c2] at h
  by_cases c3 : r.read_pos + utf8_length.getD (r.read_bufptr.getD r.read_pos 0 - 128) 0 ≥
      r.read_size
  · rw [if_pos c3] at h
    simp at h
  rw [if_neg c3] at h
  have hl := utf8_length_le (r.read_bufptr.getD r.read_pos 0 - 128)
  generalize utf8_length.getD (r.read_bufptr.getD r.read_pos 0 - 128) 0 = len at h hl
  by_cases c4 : len = 0
  · rw [if_pos c4] at h
    simp [utf8_result] at h
  · rw [if_neg c4] at h
    exact absurd h (utf8_result_ne_60 _ _ (by omega) hl)

theorem reader.stepped.same (r : reader) : r.stepped r := ⟨rfl, rfl, rfl⟩

theorem reader.stepped.chain {a b c : reader} (h1 : a.stepped b) (h2 : b.stepped c) :
    a.stepped c :=
  ⟨h2.bufptr.trans h1.bufptr, h2.input_enc.trans h1.input_enc, h2.dict.trans h1.dict⟩

theorem reader.stepped.size_eq {a b : reader} (h : a.stepped b) : b.read_size = a.read_size := by
  unfold reader.read_size
  rw [h.bufptr]

theorem reader.scanned.stepped {a b : reader} (h : a.scanned b) : a.stepped b :=
  ⟨h.bufptr, h.input_enc, h.dict⟩

theorem read_end_of_data_false (r : reader) (h : ¬read_end_of_data r = true) :
    r.read_pos < r.read_size := by
  unfold read_end_of_data at h
  simpa using h

/-- `read_skip` moves the position by the length of a string that
`read_cmp` has found. -/
theorem read_skip_cmp (r : reader) (str : List Nat) (h : read_cmp r str = 0) :
    (read_skip r str.length).read_pos = r.read_pos + str.length :=
  (read_skip_pos r _ (read_cmp_zero_size r str h)).1

theorem read_element_text_step (r : reader) :
    r.stepped (read_element_text r).2 ∧
    ((read_element_text r).1 = S_OK → (read_element_text r).2.state = READER_STATE_EOF ∨
      r.read_pos < (read_element_text r).2.read_pos) := by
  unfold read_element_text
  by_cases c0 : read_end_of_data r = true
  · rw [if_pos c0]
    exact ⟨⟨rfl, rfl, rfl⟩, fun _ => Or.inl rfl⟩
  rw [if_neg c0]
  by_cases c1 : read_cmp r [60] ≠ 0
  · rw [if_pos c1]
    exact ⟨reader.stepped.same r, fun h => by simp at h⟩
  rw [if_neg c1]
  dsimp only
  have hp : (read_skip r 1).read_pos = r.read_pos + 1 := read_skip_cmp r [60] (not_not.mp c1)
  have w1 := read_skip_scanned r 1
  obtain ⟨r1, hr1⟩ : ∃ r1, r1 = read_skip r 1 := ⟨_, rfl⟩
  rw [← hr1] at w1 hp ⊢
  by_cases c2 : (!read_isnamechar (read_utf8_char r1).1) = true
  · rw [if_pos c2]
    exact ⟨⟨w1.bufptr, w1.input_enc, w1.dict⟩, fun h => by simp at h⟩
  rw [if_neg c2]
  have v2 := read_name_loop_scanned (r1.read_size - r1.read_pos + 1) r1 0
  obtain ⟨l, hl⟩ : ∃ l, l = read_name_loop (r1.read_size - r1.read_pos + 1) r1 0 := ⟨_, rfl⟩
  rw [← hl] at v2 ⊢
  have w2 := w1.trans v2
  by_cases c3 : l.1 ≠ S_OK
  · rw [if_pos c3]
    exact ⟨w2.stepped, fun h => absurd h c3⟩
  rw [if_neg c3]
  by_cases c4 : l.2.2 = 0
  · rw [if_pos c4]
    exact ⟨w2.stepped, fun h => by simp at h⟩
  rw [if_neg c4]
  cases hfp : find_parent l.2.1 with
  | none => exact ⟨w2.stepped, fun h => by simp at h⟩
  | some parent =>
    dsimp only
    by_cases c5 : (parse_name (List.take l.2.2 (read_current_ptr r1))).1 ≠ S_OK
    · rw [if_pos c5]
      exact ⟨w2.stepped, fun h => absurd h c5⟩
    rw [if_neg c5]
    have v3 := read_attributes_text_scanned l.2.1
      ⟨(parse_name (List.take l.2.2 (read_current_ptr r1))).2.1,
        (parse_name (List.take l.2.2 (read_current_ptr r1))).2.2, none, []⟩
    obtain ⟨a, ha⟩ : ∃ a, a = read_attributes_text l.2.1
      ⟨(parse_name (List.take l.2.2 (read_current_ptr r1))).2.1,
        (parse_name (List.take l.2.2 (read_current_ptr r1))).2.2, none, []⟩ := ⟨_, rfl⟩
    rw [← ha] at v3 ⊢
    have w3 := w2.trans v3
    by_cases c6 : a.1 ≠ S_OK
    · rw [if_pos c6]
      exact ⟨w3.stepped, fun h => absurd h c6⟩
    rw [if_neg c6]
    by_cases c7 : (set_namespaces a.2.1 a.2.2).1 ≠ S_OK
    · rw [if_pos c7]
      exact ⟨w3.stepped, fun h => absurd h c7⟩
    rw [if_neg c7]
    refine ⟨⟨w3.bufptr, w3.input_enc, w3.dict⟩, fun _ => Or.inr ?_⟩
    show r.read_pos < a.2.1.read_pos
    have := (v2.trans v3).pos
    omega

theorem read_text_text_step (r : reader) (h0 : ¬read_end_of_data r = true)
    (h1 : read_cmp r [60] ≠ 0) :
    r.stepped (read_text_text r).2 ∧
    ((read_text_text r).1 = S_OK → r.read_pos < (read_text_text r).2.read_pos) := by
  unfold read_text_text
  dsimp only
  have v1 := read_text_loop_scanned (r.read_size - r.read_pos + 1) r 0
  have hadv : (read_text_loop (r.read_size - r.read_pos + 1) r 0).1 = S_OK →
      r.read_pos < (read_text_loop (r.read_size - r.read_pos + 1) r 0).2.1.read_pos := by
    rw [read_text_loop, if_neg h0]
    dsimp only
    by_cases d1 : (read_utf8_char r).1 = 0
    · rw [if_pos d1]
      intro h
      simp at h
    rw [if_neg d1]
    by_cases d2 : (read_utf8_char r).1 = 60
    · exact absurd (read_utf8_char_lt r d2) h1
    rw [if_neg d2]
    intro _
    have hs := read_utf8_char_skip r d1
    have hp := read_skip_pos r _ hs.2
    have := (read_text_loop_scanned (r.read_size - r.read_pos)
      (read_skip r (read_utf8_char r).2) (0 + (read_utf8_char r).2)).pos
    omega
  obtain ⟨l, hl⟩ : ∃ l, l = read_text_loop (r.read_size - r.read_pos + 1) r 0 := ⟨_, rfl⟩
  rw [← hl] at v1 hadv ⊢
  by_cases c1 : l.1 ≠ S_OK
  · rw [if_pos c1]
    exact ⟨v1.stepped, fun h => absurd h c1⟩
  rw [if_neg c1]
  cases hfp : find_parent l.2.1 with
  | none => exact ⟨v1.stepped, fun h => by simp at h⟩
  | some parent =>
    dsimp only
    split_ifs with c2
    · exact ⟨v1.stepped, fun h => absurd h c2⟩
    · exact ⟨⟨v1.bufptr, v1.input_enc, v1.dict⟩, fun _ => hadv (not_not.mp c1)⟩

theorem read_endelement_text_step (r : reader) :
    r.stepped (read_endelement_text r).2 ∧
    ((read_endelement_text r).1 = S_OK → r.read_pos < (read_endelement_text r).2.read_pos) := by
  unfold read_endelement_text
  by_cases c1 : read_cmp r [60, 47] ≠ 0
  · rw [if_pos c1]
    exact ⟨reader.stepped.same r, fun h => by simp at h⟩
  rw [if_neg c1]
  dsimp only
  have hp : (read_skip r 2).read_pos = r.read_pos + 2 := read_skip_cmp r [60, 47] (not_not.mp c1)
  have w1 := read_skip_scanned r 2
  obtain ⟨r1, hr1⟩ : ∃ r1, r1 = read_skip r 2 := ⟨_, rfl⟩
  rw [← hr1] at w1 hp ⊢
  have v2 := read_endname_loop_scanned (r1.read_size - r1.read_pos + 1) r1 0
  obtain ⟨l, hl⟩ : ∃ l, l = read_endname_loop (r1.read_size - r1.read_pos + 1) r1 0 := ⟨_, rfl⟩
  rw [← hl] at v2 ⊢
  have w2 := w1.trans v2
  by_cases c3 : l.1 ≠ S_OK
  · rw [if_pos c3]
    exact ⟨w2.stepped, fun h => absurd h c3⟩
  rw [if_neg c3]
  by_cases c5 : (parse_name (List.take l.2.2 (read_current_ptr r1))).1 ≠ S_OK
  · rw [if_pos c5]
    exact ⟨w2.stepped, fun h => absurd h c5⟩
  rw [if_neg c5]
  cases hfp : find_startelement l.2.1
      ((parse_name (List.take l.2.2 (read_current_ptr r1))).2.1.getD [])
      ((parse_name (List.take l.2.2 (read_current_ptr r1))).2.2.getD []) with
  | none => exact ⟨w2.stepped, fun h => by simp at h⟩
  | some parent =>
    refine ⟨⟨w2.bufptr, w2.input_enc, w2.dict⟩, fun _ => ?_⟩
    show r.read_pos < l.2.1.read_pos
    have := v2.pos
    omega

theorem read_comment_text_step (r : reader) :
    r.stepped (read_comment_text r).2 ∧
    ((read_comment_text r).1 = S_OK → r.read_pos < (read_comment_text r).2.read_pos) := by
  unfold read_comment_text
  by_cases c1 : read_cmp r [60, 33, 45, 45] ≠ 0
  · rw [if_pos c1]
    exact ⟨reader.stepped.same r, fun h => by simp at h⟩
  rw [if_neg c1]
  dsimp only
  have hp : (read_skip r 4).read_pos = r.read_pos + 4 :=
    read_skip_cmp r [60, 33, 45, 45] (not_not.mp c1)
  have w1 := read_skip_scanned r 4
  obtain ⟨r1, hr1⟩ : ∃ r1, r1 = read_skip r 4 := ⟨_, rfl⟩
  rw [← hr1] at w1 hp ⊢
  have v2 := read_comment_loop_scanned (r1.read_size - r1.read_pos + 1) r1 0
  obtain ⟨l, hl⟩ : ∃ l, l = read_comment_loop (r1.read_size - r1.read_pos + 1) r1 0 := ⟨_, rfl⟩
  rw [← hl] at v2 ⊢
  have w2 := w1.trans v2
  by_cases c3 : l.1 ≠ S_OK
  · rw [if_pos c3]
    exact ⟨w2.stepped, fun h => absurd h c3⟩
  rw [if_neg c3]
  cases hfp : find_parent l.2.1 with
  | none => exact ⟨w2.stepped, fun h => by simp at h⟩
  | some parent =>
    refine ⟨⟨w2.bufptr, w2.input_enc, w2.dict⟩, fun _ => ?_⟩
    show r.read_pos < l.2.1.read_pos
    have := v2.pos
    omega

theorem read_startcdata_step (r : reader) :
    r.stepped (read_startcdata r).2 ∧
    ((read_startcdata r).1 = S_OK → r.read_pos < (read_startcdata r).2.read_pos) := by
  unfold read_startcdata
  by_cases c1 : read_cmp r [60, 33, 91, 67, 68, 65, 84, 65, 91] ≠ 0
  · rw [if_pos c1]
    exact ⟨reader.stepped.same r, fun h => by simp at h⟩
  rw [if_neg c1]
  dsimp only
  have hp : (read_skip r 9).read_pos = r.read_pos + 9 :=
    read_skip_cmp r [60, 33, 91, 67, 68, 65, 84, 65, 91] (not_not.mp c1)
  have w1 := read_skip_scanned r 9
  obtain ⟨r1, hr1⟩ : ∃ r1, r1 = read_skip r 9 := ⟨_, rfl⟩
  rw [← hr1] at w1 hp ⊢
  cases hfp : find_parent r1 with
  | none => exact ⟨w1.stepped, fun h => by simp at h⟩
  | some parent =>
    refine ⟨⟨w1.bufptr, w1.input_enc, w1.dict⟩, fun _ => ?_⟩
    show r.read_pos < r1.read_pos
    omega

theorem read_cdata_step (r : reader) :
    r.stepped (read_cdata r).2 ∧
    ((read_cdata r).1 = S_OK → (read_cdata r).2.state = READER_STATE_CDATA ∧
      r.read_pos ≤ (read_cdata r).2.read_pos) := by
  unfold read_cdata
  dsimp only
  have v1 := read_cdata_loop_scanned (r.read_size - r.read_pos + 1) r 0
  obtain ⟨l, hl⟩ : ∃ l, l = read_cdata_loop (r.read_size - r.read_pos + 1) r 0 := ⟨_, rfl⟩
  rw [← hl] at v1 ⊢
  split_ifs with c1
  · exact ⟨v1.stepped, fun h => absurd h c1⟩
  · exact ⟨⟨v1.bufptr, v1.input_enc, v1.dict⟩, fun _ => ⟨rfl, v1.pos⟩⟩

theorem read_endcdata_step (r : reader) :
    r.stepped (read_endcdata r).2 ∧
    ((read_endcdata r).1 = S_OK → r.read_pos < (read_endcdata r).2.read_pos) := by
  unfold read_endcdata
  by_cases c1 : read_cmp r [93, 93, 62] ≠ 0
  · rw [if_pos c1]
    exact ⟨reader.stepped.same r, fun h => by simp at h⟩
  rw [if_neg c1]
  dsimp only
  have hp : (read_skip r 3).read_pos = r.read_pos + 3 :=
    read_skip_cmp r [93, 93, 62] (not_not.mp c1)
  have w1 := read_skip_scanned r 3
  obtain ⟨r1, hr1⟩ : ∃ r1, r1 = read_skip r 3 := ⟨_, rfl⟩
  rw [← hr1] at w1 hp ⊢
  refine ⟨⟨w1.bufptr, w1.input_enc, w1.dict⟩, fun _ => ?_⟩
  show r.read_pos < r1.read_pos
  omega

theorem read_xmldecl_stepped (r : reader) : r.stepped (read_xmldecl r).2 := by
  unfold read_xmldecl
  dsimp only
  have w := (read_skip_scanned r 6).trans (read_xmldecl_skip_scanned (read_skip r 6))
  have w2 := w.trans (read_skip_scanned _ 2)
  split_ifs
  · exact reader.stepped.same r
  · exact ⟨rfl, rfl, rfl⟩
  · exact reader.stepped.same r
  · exact w.stepped
  · exact ⟨w2.bufptr, w2.input_enc, w2.dict⟩

/-- What a successful `read_node` has done: the end of the tree is reached,
or input has been consumed, or the text of a CDATA section has been read,
which may be empty. -/
theorem read_node_text_step (fuel : Nat) :
    ∀ r : reader, r.stepped (read_node_text fuel r).2 ∧
      ((read_node_text fuel r).1 = S_OK →
        (read_node_text fuel r).2.state = READER_STATE_EOF ∨
        (r.read_pos < (read_node_text fuel r).2.read_pos ∧ r.read_pos < r.read_size) ∨
        (r.state = READER_STATE_STARTCDATA ∧
          (read_node_text fuel r).2.state = READER_STATE_CDATA ∧
          r.read_pos ≤ (read_node_text fuel r).2.read_pos)) := by
  induction fuel with
  | zero =>
    intro r
    exact ⟨reader.stepped.same r, fun h => by simp [read_node_text] at h⟩
  | succ f ih =>
    intro r
    rw [read_node_text]
    by_cases c1 : read_end_of_data r = true
    · rw [if_pos c1]
      exact ⟨⟨rfl, rfl, rfl⟩, fun _ => Or.inl rfl⟩
    rw [if_neg c1]
    have hlt := read_end_of_data_false r c1
    by_cases c2 : r.state = READER_STATE_STARTCDATA
    · rw [if_pos c2]
      have h := read_cdata_step r
      exact ⟨h.1, fun hk => Or.inr (Or.inr ⟨c2, h.2 hk⟩)⟩
    rw [if_neg c2]
    by_cases c3 : r.state = READER_STATE_CDATA
    · rw [if_pos c3]
      have h := read_endcdata_step r
      exact ⟨h.1, fun hk => Or.inr (Or.inl ⟨h.2 hk, hlt⟩)⟩
    rw [if_neg c3]
    by_cases c4 : read_cmp r [60, 63] = 0
    · rw [if_pos c4]
      dsimp only
      have x := read_xmldecl_pos r c4
      have xs := read_xmldecl_stepped r
      by_cases c5 : FAILED (read_xmldecl r).1 = true
      · rw [if_pos c5]
        refine ⟨xs, fun hk => ?_⟩
        rw [hk] at c5
        simp [FAILED] at c5
      · rw [if_neg c5]
        have hp := x.2.2 (by simpa using c5)
        have hi := ih (read_xmldecl r).2
        refine ⟨xs.chain hi.1, fun hk => ?_⟩
        rcases hi.2 hk with e | e | e
        · exact Or.inl e
        · exact Or.inr (Or.inl ⟨by omega, hlt⟩)
        · exact Or.inr (Or.inl ⟨by omega, hlt⟩)
    rw [if_neg c4]
    by_cases c6 : read_cmp r [60, 47] = 0
    · rw [if_pos c6]
      have h := read_endelement_text_step r
      exact ⟨h.1, fun hk => Or.inr (Or.inl ⟨h.2 hk, hlt⟩)⟩
    rw [if_neg c6]
    by_cases c7 : read_cmp r [60, 33, 91, 67, 68, 65, 84, 65, 91] = 0
    · rw [if_pos c7]
      have h := read_startcdata_step r
      exact ⟨h.1, fun hk => Or.inr (Or.inl ⟨h.2 hk, hlt⟩)⟩
    rw [if_neg c7]
    by_cases c8 : read_cmp r [60, 33, 45, 45] = 0
    · rw [if_pos c8]
      have h := read_comment_text_step r
      exact ⟨h.1, fun hk => Or.inr (Or.inl ⟨h.2 hk, hlt⟩)⟩
    rw [if_neg c8]
    by_cases c9 : read_cmp r [60] = 0
    · rw [if_pos c9]
      have h := read_element_text_step r
      refine ⟨h.1, fun hk => ?_⟩
      rcases h.2 hk with e | e
      · exact Or.inl e
      · exact Or.inr (Or.inl ⟨e, hlt⟩)
    rw [if_neg c9]
    by_cases c10 : (read_cmp r [47, 62] = 0 || read_cmp r [62] = 0) = true
    · rw [if_pos c10]
      unfold read_startelement_text
      dsimp only
      have w := read_skip_whitespace_scanned r
      obtain ⟨r1, hr1⟩ : ∃ r1, r1 = read_skip_whitespace r := ⟨_, rfl⟩
      rw [← hr1] at w ⊢
      by_cases d1 : read_cmp r1 [47, 62] = 0
      · rw [if_pos d1]
        have hp : (read_skip r1 2).read_pos = r1.read_pos + 2 := read_skip_cmp r1 [47, 62] d1
        have w2 := w.trans (read_skip_scanned r1 2)
        refine ⟨⟨w2.bufptr, w2.input_enc, w2.dict⟩, fun _ => Or.inr (Or.inl ⟨?_, hlt⟩)⟩
        show r.read_pos < (read_skip r1 2).read_pos
        have := w.pos
        omega
      rw [if_neg d1]
      by_cases d2 : read_cmp r1 [62] = 0
      · rw [if_pos d2]
        have hp : (read_skip r1 1).read_pos = r1.read_pos + 1 := read_skip_cmp r1 [62] d2
        have w2 := w.trans (read_skip_scanned r1 1)
        have hi := ih (read_skip r1 1)
        refine ⟨w2.stepped.chain hi.1, fun hk => ?_⟩
        have := w.pos
        rcases hi.2 hk with e | e | e
        · exact Or.inl e
        · exact Or.inr (Or.inl ⟨by omega, hlt⟩)
        · exact Or.inr (Or.inl ⟨by omega, hlt⟩)
      rw [if_neg d2]
      exact ⟨w.stepped, fun h => by simp at h⟩
    rw [if_neg c10]
    have h := read_text_text_step r c1 c9
    exact ⟨h.1, fun hk => Or.inr (Or.inl ⟨h.2 hk, hlt⟩)⟩

/-! ## The sentinels of the tree -/

theorem shaped_list_of_mem (l : List node) (h : ∀ m ∈ l, m.shaped = true) :
    node.shaped_list l = true := by
  induction l with
  | nil => rfl
  | cons a l ih =>
    rw [node.shaped_list, Bool.and_eq_true]
    exact ⟨h a (List.mem_cons_self _ _), ih (fun m hm => h m (List.mem_cons_of_mem _ hm))⟩

theorem mem_of_shaped_list (l : List node) (h : node.shaped_list l = true) :
    ∀ m ∈ l, m.shaped = true := by
  induction l with
  | nil =>
    intro m hm
    cases hm
  | cons a l ih =>
    intro m hm
    rw [node.shaped_list, Bool.and_eq_true] at h
    rcases List.mem_cons.mp hm with e | e
    · rw [e]
      exact h.1
    · exact ih h.2 m e

/-- Every node of a shaped tree is shaped. -/
theorem shaped_get (path : List Nat) :
    ∀ n m : node, n.shaped = true → n.get? path = some m → m.shaped = true := by
  induction path with
  | nil =>
    intro n m hn h
    simp only [node.get?, Option.some.injEq] at h
    rw [← h]
    exact hn
  | cons i path ih =>
    intro n m hn h
    cases n with
    | mk t hd x v cs =>
      rw [node.get?] at h
      simp only [node.children] at h
      rw [node.shaped, Bool.and_eq_true] at hn
      cases hc : (cs[i]?) with
      | none => simp [hc] at h
      | some child =>
        simp only [hc] at h
        exact ih child m (mem_of_shaped_list cs hn.2 child (List.getElem?_mem hc)) h

theorem shaped_list_modify (g : node → node) (cs : List node) :
    ∀ i : Nat, (∀ a, cs[i]? = some a → a.shaped = true → (g a).shaped = true) →
      node.shaped_list cs = true → node.shaped_list (cs.modify g i) = true := by
  induction cs with
  | nil =>
    intro i _ h
    cases i <;> exact h
  | cons a cs ih =>
    intro i hg h
    rw [node.shaped_list, Bool.and_eq_true] at h
    cases i with
    | zero =>
      simp only [List.modify, List.modifyTailIdx, List.modifyHead]
      rw [node.shaped_list, Bool.and_eq_true]
      exact ⟨hg a (by simp) h.1, h.2⟩
    | succ i =>
      simp only [List.modify_succ_cons]
      rw [node.shaped_list, Bool.and_eq_true]
      exact ⟨h.1, ih i (fun b hb => hg b (by simpa using hb)) h.2⟩

/-- A change of the node at `path` that keeps its type and its shape keeps
the tree shaped. -/
theorem shaped_modify (f : node → node) (hft : ∀ m, (f m).nodeType = m.nodeType)
    (path : List Nat) :
    ∀ n : node, (∀ m, n.get? path = some m → m.shaped = true → (f m).shaped = true) →
      n.shaped = true → (n.modify f path).shaped = true := by
  induction path with
  | nil =>
    intro n hf hn
    exact hf n rfl hn
  | cons i path ih =>
    intro n hf hn
    cases n with
    | mk t h x v cs =>
      rw [node.shaped, Bool.and_eq_true] at hn
      rw [node.modify, node.shaped, Bool.and_eq_true]
      constructor
      · rw [map_nodeType_modify (node.modify f path) (modify_nodeType f hft path) cs i]
        exact hn.1
      · apply shaped_list_modify _ cs i _ hn.2
        intro a ha hsa
        apply ih a _ hsa
        intro m hm
        apply hf m
        rw [node.get?]
        simp only [node.children, ha]
        exact hm

theorem shape_ok_insert (t : WS_XML_NODE_TYPE) (cts : List WS_XML_NODE_TYPE)
    (x : WS_XML_NODE_TYPE) (h : shape_ok t cts = true)
    (hv : t = WS_XML_NODE_TYPE.ELEMENT ∨ t = WS_XML_NODE_TYPE.BOF) :
    shape_ok t (cts.dropLast ++ x :: cts.getLast?.toList) = true := by
  have key : ∀ s, cts.getLast? = some s → (cts.dropLast ++ x :: cts.getLast?.toList).getLast? =
      some s := by
    intro s hs
    rw [hs]
    simp [Option.toList]
  rcases hv with e | e
  · subst e
    simp only [shape_ok, decide_eq_true_eq] at h ⊢
    exact key _ h
  · subst e
    simp only [shape_ok, decide_eq_true_eq] at h ⊢
    exact key _ h

theorem map_getLast?_toList (cs : List node) :
    cs.getLast?.toList.map node.nodeType = (cs.map node.nodeType).getLast?.toList := by
  rw [List.getLast?_map]
  cases cs.getLast? <;> rfl

/-- A shaped node put in front of the last child of an Element node or of
the BOF node of a shaped tree. -/
theorem insert_before_tail_shaped (n p : node) (hn : n.shaped = true) (hp : p.shaped = true)
    (hv : is_valid_parent (some p) = true) : (node.insert_before_tail n p).shaped = true := by
  cases p with
  | mk t h x v cs =>
    rw [node.shaped, Bool.and_eq_true] at hp
    rw [node.insert_before_tail, node.shaped, Bool.and_eq_true]
    have hmem := mem_of_shaped_list cs hp.2
    have hv2 : t = WS_XML_NODE_TYPE.ELEMENT ∨ t = WS_XML_NODE_TYPE.BOF := by
      simpa [is_valid_parent, node.nodeType] using hv
    constructor
    · have := shape_ok_insert t (cs.map node.nodeType) n.nodeType hp.1 hv2
      rw [List.map_append, List.map_cons, List.map_dropLast, map_getLast?_toList]
      exact this
    · apply shaped_list_of_mem
      intro m hm
      rcases List.mem_append.mp hm with h1 | h1
      · exact hmem m (List.dropLast_subset cs h1)
      · rcases List.mem_cons.mp h1 with h2 | h2
        · rw [h2]
          exact hn
        · have : cs.getLast? = some m := by
            cases hl : cs.getLast? with
            | none => simp [hl] at h2
            | some last =>
              simp only [hl, Option.toList, List.mem_singleton] at h2
              rw [h2]
          exact hmem m (List.mem_of_getLast?_eq_some this)

/-- `read_insert_node` at an Element node or at the BOF node keeps the tree
shaped when the new node is. -/
theorem read_insert_node_shaped (r : reader) (parent : List Nat) (n : node)
    (hr : r.root.shaped = true) (hn : n.shaped = true)
    (hv : is_valid_parent (r.node_at parent) = true) :
    (read_insert_node r parent n).root.shaped = true := by
  unfold read_insert_node
  apply shaped_modify _ (insert_before_tail_nodeType n) _ _ _ hr
  intro m hm hsm
  apply insert_before_tail_shaped n m hn hsm
  unfold reader.node_at at hv
  rw [hm] at hv
  exact hv

/-- The node that `find_parent` returns is an Element node or the BOF
node. -/
theorem find_parent_is_valid (r : reader) (q : List Nat) (h : find_parent r = some q) :
    is_valid_parent (r.node_at q) = true := by
  unfold find_parent at h
  split_ifs at h with c1 c2 c3 c4
  · rw [h] at c2
    exact c2
  · cases h
    exact c3
  · rw [h] at c4
    exact c4

/-- The last child of a node of a shaped tree is not a Text node. -/
theorem shaped_last_ne_text (m : node) (h : m.shaped = true) :
    m.children.getLast?.map node.nodeType ≠ some WS_XML_NODE_TYPE.TEXT := by
  cases m with
  | mk t hd x v cs =>
    rw [node.shaped, Bool.and_eq_true] at h
    have h1 := h.1
    simp only [node.children]
    rw [← List.getLast?_map]
    generalize (List.map node.nodeType cs) = cts at h1
    cases t <;> simp only [shape_ok, decide_eq_true_eq, List.isEmpty_iff] at h1 <;>
      rw [h1] <;> simp

theorem alloc_element_pair_shaped (elem : WS_XML_ELEMENT_NODE) :
    (alloc_element_pair.set_hdr elem).shaped = true := rfl

theorem alloc_text_shaped (text : Option (List Nat)) :
    ((alloc_node WS_XML_NODE_TYPE.TEXT).set_text text).shaped = true := rfl

theorem alloc_comment_shaped (value : List Nat) :
    ((alloc_node WS_XML_NODE_TYPE.COMMENT).set_value value).shaped = true := rfl

theorem alloc_element_pair_paired (elem : WS_XML_ELEMENT_NODE) :
    (alloc_element_pair.set_hdr elem).paired = true := rfl

theorem alloc_text_paired (text : Option (List Nat)) :
    ((alloc_node WS_XML_NODE_TYPE.TEXT).set_text text).paired = true := rfl

theorem alloc_comment_paired (value : List Nat) :
    ((alloc_node WS_XML_NODE_TYPE.COMMENT).set_value value).paired = true := rfl

/-- The tree of a reader in binary mode is shaped when the input is set. -/
theorem WsSetInput_binary_shaped (d : Option WS_XML_DICTIONARY) (data : List Nat) :
    (WsSetInput_binary d data).root.shaped = true := rfl

/-- The tree of a reader in text mode is shaped when the input is set. -/
theorem WsSetInput_shaped (data : List Nat) : (WsSetInput data).root.shaped = true := rfl

/-! ## The steps of the reader in binary mode -/

theorem reader.scanned.grown {a b : reader} (h : a.scanned b) : a.grown b :=
  ⟨fun hs => by rw [h.root]; exact hs, fun hs => by rw [h.root]; exact hs⟩

/-- The insertion of a node at the parent that `find_parent` has found. -/
theorem read_insert_node_grown (r x y : reader) (parent : List Nat) (n : node)
    (hx : r.scanned x) (hy : x.scanned y) (hfp : find_parent x = some parent)
    (hn : n.shaped = true) (hn2 : n.paired = true) :
    r.grown (read_insert_node y parent n) := by
  constructor
  · intro hs
    apply read_insert_node_shaped y parent n _ hn
    · rw [hy.node_at]
      exact find_parent_is_valid x parent hfp
    · rw [hy.root, hx.root]
      exact hs
  · intro hs
    apply read_insert_node_paired y parent n _ hn2
    rw [hy.root, hx.root]
    exact hs

theorem read_peek_ne_notimpl (r : reader) : (read_peek r).1 ≠ E_NOTIMPL := by
  unfold read_peek
  split_ifs <;> simp

theorem read_endelement_bin_step (r : reader) :
    r.stepped (read_endelement_bin r).2 ∧ (read_endelement_bin r).1 ≠ E_NOTIMPL ∧
    r.grown (read_endelement_bin r).2 ∧
    ((read_endelement_bin r).1 = S_OK →
      r.read_pos < (read_endelement_bin r).2.read_pos ∧ r.read_pos < r.read_size) := by
  unfold read_endelement_bin
  dsimp only
  have h0 := read_byte_scanned r
  generalize read_byte r = t at h0
  by_cases c0 : t.1 ≠ S_OK
  · rw [if_pos c0]
    exact ⟨h0.1.stepped, h0.2.1, h0.1.grown, fun h => absurd h c0⟩
  rw [if_neg c0]
  have hp := h0.2.2 (not_not.mp c0)
  by_cases c1 : t.2.2 ≠ RECORD_ENDELEMENT
  · rw [if_pos c1]
    exact ⟨h0.1.stepped, by simp, h0.1.grown, fun h => by simp at h⟩
  rw [if_neg c1]
  cases hfp : find_parent t.2.1 with
  | none => exact ⟨h0.1.stepped, by simp, h0.1.grown, fun h => by simp at h⟩
  | some parent =>
    refine ⟨⟨h0.1.bufptr, h0.1.input_enc, h0.1.dict⟩, by simp,
      ⟨fun hs => ?_, fun hs => ?_⟩, fun _ => ⟨?_, hp.2⟩⟩
    · show t.2.1.root.shaped = true
      rw [h0.1.root]
      exact hs
    · show t.2.1.root.paired = true
      rw [h0.1.root]
      exact hs
    · show r.read_pos < t.2.1.read_pos
      omega

theorem read_comment_bin_step (r : reader) :
    r.stepped (read_comment_bin r).2 ∧ (read_comment_bin r).1 ≠ E_NOTIMPL ∧
    r.grown (read_comment_bin r).2 ∧
    ((read_comment_bin r).1 = S_OK →
      r.read_pos < (read_comment_bin r).2.read_pos ∧ r.read_pos < r.read_size) := by
  unfold read_comment_bin
  dsimp only
  have h0 := read_byte_scanned r
  generalize read_byte r = t at h0
  by_cases c0 : t.1 ≠ S_OK
  · rw [if_pos c0]
    exact ⟨h0.1.stepped, h0.2.1, h0.1.grown, fun h => absurd h c0⟩
  rw [if_neg c0]
  have hp := h0.2.2 (not_not.mp c0)
  by_cases c1 : t.2.2 ≠ RECORD_COMMENT
  · rw [if_pos c1]
    exact ⟨h0.1.stepped, by simp, h0.1.grown, fun h => by simp at h⟩
  rw [if_neg c1]
  have h1 := read_int31_scanned t.2.1
  generalize read_int31 t.2.1 = l at h1
  have w1 := h0.1.trans h1.1
  by_cases c2 : l.1 ≠ S_OK
  · rw [if_pos c2]
    exact ⟨w1.stepped, h1.2, w1.grown, fun h => absurd h c2⟩
  rw [if_neg c2]
  cases hfp : find_parent l.2.1 with
  | none => exact ⟨w1.stepped, by simp, w1.grown, fun h => by simp at h⟩
  | some parent =>
    dsimp only
    have h2 := read_bytes_scanned l.2.1 l.2.2
    generalize read_bytes l.2.1 l.2.2 = b at h2
    have w2 := w1.trans h2.1
    by_cases c3 : b.1 ≠ S_OK
    · rw [if_pos c3]
      exact ⟨w2.stepped, by simp, w2.grown, fun h => by simp at h⟩
    rw [if_neg c3]
    have hg := read_insert_node_grown r l.2.1 b.2.1 parent
      ((alloc_node WS_XML_NODE_TYPE.COMMENT).set_value b.2.2) w1 h2.1 hfp
      (alloc_comment_shaped _) (alloc_comment_paired _)
    refine ⟨⟨w2.bufptr, w2.input_enc, w2.dict⟩, by simp, ⟨hg.shaped, hg.paired⟩,
      fun _ => ⟨?_, hp.2⟩⟩
    show r.read_pos < b.2.1.read_pos
    have := h1.1.pos
    have := h2.1.pos
    omega

theorem read_element_bin_step (r : reader) :
    r.stepped (read_element_bin r).2 ∧ (read_element_bin r).1 ≠ E_NOTIMPL ∧
    r.grown (read_element_bin r).2 ∧
    ((read_element_bin r).1 = S_OK →
      r.read_pos < (read_element_bin r).2.read_pos ∧ r.read_pos < r.read_size) := by
  unfold read_element_bin
  dsimp only
  have h0 := read_byte_scanned r
  generalize read_byte r = t at h0
  by_cases c0 : t.1 ≠ S_OK
  · rw [if_pos c0]
    exact ⟨h0.1.stepped, h0.2.1, h0.1.grown, fun h => absurd h c0⟩
  rw [if_neg c0]
  have hp := h0.2.2 (not_not.mp c0)
  by_cases c1 : (!is_element_type t.2.2) = true
  · rw [if_pos c1]
    exact ⟨h0.1.stepped, by simp, h0.1.grown, fun h => by simp at h⟩
  rw [if_neg c1]
  have h1 := read_element_bin_name_scanned t.2.1 t.2.2
  generalize read_element_bin_name t.2.1 t.2.2 = n at h1
  have w1 := h0.1.trans h1.1
  by_cases c2 : n.1 ≠ S_OK
  · rw [if_pos c2]
    exact ⟨w1.stepped, h1.2, w1.grown, fun h => absurd h c2⟩
  rw [if_neg c2]
  cases hfp : find_parent n.2.1 with
  | none => exact ⟨w1.stepped, by simp, w1.grown, fun h => by simp at h⟩
  | some parent =>
    dsimp only
    have h2 := read_attributes_bin_scanned n.2.1 ⟨n.2.2.1, n.2.2.2, none, []⟩
    generalize read_attributes_bin n.2.1 ⟨n.2.2.1, n.2.2.2, none, []⟩ = a at h2
    have w2 := w1.trans h2.1
    by_cases c3 : a.1 ≠ S_OK
    · rw [if_pos c3]
      exact ⟨w2.stepped, h2.2, w2.grown, fun h => absurd h c3⟩
    rw [if_neg c3]
    by_cases c4 : (set_namespaces a.2.1 a.2.2).1 ≠ S_OK
    · rw [if_pos c4]
      refine ⟨w2.stepped, ?_, w2.grown, fun h => absurd h c4⟩
      exact set_namespaces_ne_notimpl _ _
    rw [if_neg c4]
    have hg := read_insert_node_grown r n.2.1 a.2.1 parent
      (alloc_element_pair.set_hdr (set_namespaces a.2.1 a.2.2).2) w1 h2.1 hfp
      (alloc_element_pair_shaped _) (alloc_element_pair_paired _)
    refine ⟨⟨w2.bufptr, w2.input_enc, w2.dict⟩, by simp, ⟨hg.shaped, hg.paired⟩,
      fun _ => ⟨?_, hp.2⟩⟩
    show r.read_pos < a.2.1.read_pos
    have := h1.1.pos
    have := h2.1.pos
    omega

theorem read_text_bin_step (r : reader) :
    r.stepped (read_text_bin r).2 ∧ (read_text_bin r).1 ≠ E_NOTIMPL ∧
    r.grown (read_text_bin r).2 ∧
    ((read_text_bin r).1 = S_OK →
      r.read_pos < (read_text_bin r).2.read_pos ∧ r.read_pos < r.read_size) := by
  unfold read_text_bin
  dsimp only
  have h0 := read_byte_scanned r
  generalize read_byte r = t at h0
  by_cases c0 : t.1 ≠ S_OK
  · rw [if_pos c0]
    exact ⟨h0.1.stepped, h0.2.1, h0.1.grown, fun h => absurd h c0⟩
  rw [if_neg c0]
  have hp := h0.2.2 (not_not.mp c0)
  cases hfp : (if is_text_type t.2.2 = true then find_parent t.2.1 else none) with
  | none => exact ⟨h0.1.stepped, by simp, h0.1.grown, fun h => by simp at h⟩
  | some parent =>
    dsimp only
    have hfp2 : find_parent t.2.1 = some parent := by
      split_ifs at hfp
      exact hfp
    obtain ⟨u, hu⟩ : ∃ u : HRESULT × reader × Option (List Nat), u =
        (if t.2.2 = RECORD_ZERO_TEXT ∨ t.2.2 = RECORD_ZERO_TEXT_WITH_ENDELEMENT then
          (S_OK, t.2.1, some [48])
        else if t.2.2 = RECORD_ONE_TEXT ∨ t.2.2 = RECORD_ONE_TEXT_WITH_ENDELEMENT then
          (S_OK, t.2.1, some [49])
        else if t.2.2 = RECORD_FALSE_TEXT ∨ t.2.2 = RECORD_FALSE_TEXT_WITH_ENDELEMENT then
          (S_OK, t.2.1, some [102, 97, 108, 115, 101])
        else if t.2.2 = RECORD_TRUE_TEXT ∨ t.2.2 = RECORD_TRUE_TEXT_WITH_ENDELEMENT then
          (S_OK, t.2.1, some [116, 114, 117, 101])
        else if t.2.2 = RECORD_CHARS8_TEXT ∨ t.2.2 = RECORD_CHARS8_TEXT_WITH_ENDELEMENT then
          if (read_byte t.2.1).1 ≠ S_OK then ((read_byte t.2.1).1, (read_byte t.2.1).2.1, none)
          else read_text_bytes (read_byte t.2.1).2.1 (read_byte t.2.1).2.2
        else if t.2.2 = RECORD_EMPTY_TEXT ∨ t.2.2 = RECORD_EMPTY_TEXT_WITH_ENDELEMENT then
          read_text_bytes t.2.1 0
        else if t.2.2 = RECORD_DICTIONARY_TEXT ∨
            t.2.2 = RECORD_DICTIONARY_TEXT_WITH_ENDELEMENT then
          read_dict_text t.2.1
        else (WS_E_NOT_SUPPORTED, t.2.1, none)) := ⟨_, rfl⟩
    have hu2 : t.2.1.scanned u.2.1 ∧ u.1 ≠ E_NOTIMPL := by
      rw [hu]
      have b1 := read_byte_scanned t.2.1
      have b2 := read_text_bytes_scanned (read_byte t.2.1).2.1 (read_byte t.2.1).2.2
      have b3 := read_text_bytes_scanned t.2.1 0
      have b4 := read_dict_text_scanned t.2.1
      split_ifs
      · exact ⟨reader.scanned.refl _, by simp⟩
      · exact ⟨reader.scanned.refl _, by simp⟩
      · exact ⟨reader.scanned.refl _, by simp⟩
      · exact ⟨reader.scanned.refl _, by simp⟩
      · exact ⟨b1.1, b1.2.1⟩
      · exact ⟨b1.1.trans b2.1, b2.2⟩
      · exact b3
      · exact b4
      · exact ⟨reader.scanned.refl _, by simp⟩
    rw [← hu]
    have w2 := h0.1.trans hu2.1
    by_cases c3 : u.1 ≠ S_OK
    · rw [if_pos c3]
      exact ⟨w2.stepped, hu2.2, w2.grown, fun h => absurd h c3⟩
    rw [if_neg c3]
    have hg := read_insert_node_grown r t.2.1 u.2.1 parent
      ((alloc_node WS_XML_NODE_TYPE.TEXT).set_text u.2.2) h0.1 hu2.1 hfp2
      (alloc_text_shaped _) (alloc_text_paired _)
    refine ⟨⟨w2.bufptr, w2.input_enc, w2.dict⟩, by simp, ⟨hg.shaped, hg.paired⟩,
      fun _ => ⟨?_, hp.2⟩⟩
    show r.read_pos < u.2.1.read_pos
    have := hu2.1.pos
    omega

theorem get?_append_none (path : List Nat) :
    ∀ (n : node) (i : Nat), n.get? path = none → n.get? (path ++ [i]) = none := by
  induction path with
  | nil =>
    intro n i h
    simp [node.get?] at h
  | cons j path ih =>
    intro n i h
    rw [node.get?] at h
    simp only [List.cons_append]
    rw [node.get?]
    cases hc : (n.children[j]?) with
    | none => rfl
    | some child =>
      simp only [hc] at h ⊢
      exact ih child i h

/-- In a shaped tree no last child is a Text node. -/
theorem tail_child_ne_text (r : reader) (hs : r.root.shaped = true) (p : List Nat) :
    (r.node_at (r.tail_child p)).map node.nodeType ≠ some WS_XML_NODE_TYPE.TEXT := by
  unfold reader.tail_child
  cases hp : r.node_at p with
  | none =>
    have : r.node_at (((((none : Option node).map node.children).getD []).length - 1) :: p) =
        none := by
      unfold reader.node_at at hp ⊢
      simp only [List.reverse_cons]
      exact get?_append_none _ _ _ hp
    rw [this]
    simp
  | some m =>
    have hm := shaped_get p.reverse r.root m hs hp
    have : r.node_at (((((some m : Option node).map node.children).getD []).length - 1) :: p) =
        m.children.getLast? := by
      unfold reader.node_at at hp ⊢
      simp only [List.reverse_cons, Option.map_some', Option.getD_some]
      rw [get?_append _ _ _ _ hp, List.getLast?_eq_getElem?]
    rw [this]
    exact shaped_last_ne_text m hm

/-- What `read_node_bin` has done: the tree has grown by at most one node,
and after a success the end of the tree is reached, or input has been
consumed, or the cursor has moved from a Text node to the node that closes
its parent. -/
theorem read_node_bin_step (r : reader) :
    r.stepped (read_node_bin r).2 ∧ (read_node_bin r).1 ≠ E_NOTIMPL ∧
    r.grown (read_node_bin r).2 ∧
    ((read_node_bin r).1 = S_OK →
      (read_node_bin r).2.state = READER_STATE_EOF ∨
      (r.read_pos < (read_node_bin r).2.read_pos ∧ r.read_pos < r.read_size) ∨
      ((r.node_at r.current).map node.nodeType = some WS_XML_NODE_TYPE.TEXT ∧
        (r.root.shaped = true → ((read_node_bin r).2.node_at (read_node_bin r).2.current).map
          node.nodeType ≠ some WS_XML_NODE_TYPE.TEXT) ∧
        (read_node_bin r).2.read_pos = r.read_pos)) := by
  unfold read_node_bin
  by_cases c0 : (r.node_at r.current).map node.nodeType = some WS_XML_NODE_TYPE.TEXT
  · rw [if_pos c0]
    refine ⟨⟨rfl, rfl, rfl⟩, by simp, ⟨fun h => h, fun h => h⟩,
      fun _ => Or.inr (Or.inr ⟨c0, fun hs => ?_, rfl⟩)⟩
    exact tail_child_ne_text r hs _
  rw [if_neg c0]
  by_cases c1 : read_end_of_data r = true
  · rw [if_pos c1]
    exact ⟨⟨rfl, rfl, rfl⟩, by simp, ⟨fun h => h, fun h => h⟩, fun _ => Or.inl rfl⟩
  rw [if_neg c1]
  dsimp only
  by_cases c2 : (read_peek r).1 ≠ S_OK
  · rw [if_pos c2]
    exact ⟨reader.stepped.same r, read_peek_ne_notimpl r, ⟨fun h => h, fun h => h⟩,
      fun h => absurd h c2⟩
  rw [if_neg c2]
  by_cases c3 : (read_peek r).2 = RECORD_ENDELEMENT
  · rw [if_pos c3]
    have h := read_endelement_bin_step r
    exact ⟨h.1, h.2.1, h.2.2.1, fun hk => Or.inr (Or.inl (h.2.2.2 hk))⟩
  rw [if_neg c3]
  by_cases c4 : (read_peek r).2 = RECORD_COMMENT
  · rw [if_pos c4]
    have h := read_comment_bin_step r
    exact ⟨h.1, h.2.1, h.2.2.1, fun hk => Or.inr (Or.inl (h.2.2.2 hk))⟩
  rw [if_neg c4]
  by_cases c5 : (read_peek r).2 ≥ RECORD_SHORT_ELEMENT ∧ (read_peek r).2 ≤ RECORD_PREFIX_ELEMENT_Z
  · rw [if_pos c5]
    have h := read_element_bin_step r
    exact ⟨h.1, h.2.1, h.2.2.1, fun hk => Or.inr (Or.inl (h.2.2.2 hk))⟩
  rw [if_neg c5]
  by_cases c6 : (read_peek r).2 ≥ RECORD_ZERO_TEXT ∧
      (read_peek r).2 ≤ RECORD_QNAME_DICTIONARY_TEXT_WITH_ENDELEMENT
  · rw [if_pos c6]
    have h := read_text_bin_step r
    exact ⟨h.1, h.2.1, h.2.2.1, fun hk => Or.inr (Or.inl (h.2.2.2 hk))⟩
  rw [if_neg c6]
  exact ⟨reader.stepped.same r, by simp, ⟨fun h => h, fun h => h⟩, fun h => by simp at h⟩

/-! ## The loop of `read_move_to` ends -/

/-- What `read_node` has done, in both encodings. -/
theorem read_node_step (r : reader) :
    r.stepped (read_node r).2 ∧ (read_node r).1 ≠ E_NOTIMPL ∧
    (r.input_enc = WS_XML_READER_ENCODING_TYPE_BINARY → r.grown (read_node r).2) ∧
    (r.root.paired = true → (read_node r).2.root.paired = true) ∧
    ((read_node r).1 = S_OK →
      (r.input_enc = WS_XML_READER_ENCODING_TYPE_BINARY → r.root.shaped = true) →
      (read_node r).2.state = READER_STATE_EOF ∨
      (r.read_pos < (read_node r).2.read_pos ∧ r.read_pos < r.read_size) ∨
      (r.pending = true ∧ (read_node r).2.pending = false ∧
        r.read_pos ≤ (read_node r).2.read_pos)) := by
  cases he : r.input_enc with
  | WS_XML_READER_ENCODING_TYPE_TEXT =>
    rw [read_node_text_mode r he]
    have h := read_node_text_step (r.read_size - r.read_pos + 1) r
    refine ⟨h.1, read_node_text_bound _ r (Nat.lt_succ_self _), (fun hb => by cases hb),
      read_node_text_paired _ r, fun hk _ => ?_⟩
    rcases h.2 hk with e | e | e
    · exact Or.inl e
    · exact Or.inr (Or.inl e)
    · refine Or.inr (Or.inr ⟨?_, ?_, e.2.2⟩)
      · unfold reader.pending
        rw [he]
        simp [e.1]
      · unfold reader.pending
        rw [h.1.input_enc, he]
        simp [e.2.1]
  | WS_XML_READER_ENCODING_TYPE_BINARY =>
    have hn : read_node r = read_node_bin r := by
      unfold read_node
      rw [he]
    rw [hn]
    have h := read_node_bin_step r
    refine ⟨h.1, h.2.1, fun _ => h.2.2.1, h.2.2.1.paired, fun hk hs => ?_⟩
    rcases h.2.2.2 hk with e | e | e
    · exact Or.inl e
    · exact Or.inr (Or.inl e)
    · refine Or.inr (Or.inr ⟨?_, ?_, le_of_eq e.2.2.symm⟩)
      · unfold reader.pending
        rw [he]
        simp [e.1]
      · unfold reader.pending
        rw [h.1.input_enc, he]
        simpa using e.2.1 (hs rfl)
  | WS_XML_READER_ENCODING_TYPE_MTOM =>
    have hn : read_node r = (WS_E_NOT_SUPPORTED, r) := by
      unfold read_node
      rw [he]
    rw [hn]
    exact ⟨reader.stepped.same r, by simp, (fun hb => by cases hb), fun h => h,
      fun hk => by simp at hk⟩
  | WS_XML_READER_ENCODING_TYPE_RAW =>
    have hn : read_node r = (WS_E_NOT_SUPPORTED, r) := by
      unfold read_node
      rw [he]
    rw [hn]
    exact ⟨reader.stepped.same r, by simp, (fun hb => by cases hb), fun h => h,
      fun hk => by simp at hk⟩

/-- The tree of a reader stays paired under `read_node`, and it is paired
after `WsSetInput`. -/
theorem read_node_paired (r : reader) (hr : r.root.paired = true) :
    (read_node r).2.root.paired = true ∧ (WsSetInput r.read_bufptr).root.paired = true :=
  ⟨(read_node_step r).2.2.2.1 hr, rfl⟩

/-- `read_node` always returns a result of the reader: the bounds of the
model on the loops of the reader are never used up. -/
theorem read_node_ne_notimpl (r : reader) : (read_node r).1 ≠ E_NOTIMPL :=
  (read_node_step r).2.1

/-- The tree of a reader in binary mode stays shaped under `read_node`. -/
theorem read_node_shaped (r : reader) (he : r.input_enc = WS_XML_READER_ENCODING_TYPE_BINARY)
    (hs : r.root.shaped = true) :
    (read_node r).2.input_enc = WS_XML_READER_ENCODING_TYPE_BINARY ∧
    (read_node r).2.root.shaped = true :=
  ⟨(read_node_step r).1.input_enc.trans he, ((read_node_step r).2.2.1 he).shaped hs⟩

theorem measure_le (r : reader) : r.measure ≤ 2 * (r.read_size - r.read_pos) + 1 := by
  unfold reader.measure
  split_ifs <;> omega

/-- A successful `read_node` reaches the end of the tree or makes the measure
smaller. -/
theorem read_node_measure (r : reader)
    (hs : r.input_enc = WS_XML_READER_ENCODING_TYPE_BINARY → r.root.shaped = true)
    (hk : (read_node r).1 = S_OK) :
    (read_node r).2.state = READER_STATE_EOF ∨ (read_node r).2.measure < r.measure := by
  have h := read_node_step r
  have hsz := h.1.size_eq
  rcases h.2.2.2.2 hk hs with e | e | e
  · exact Or.inl e
  · right
    have := measure_le (read_node r).2
    rw [hsz] at this
    have h2 : 2 * (r.read_size - r.read_pos) ≤ r.measure := Nat.le_add_right _ _
    omega
  · right
    unfold reader.measure
    rw [e.1, e.2.1, hsz]
    simp only [if_true, Bool.false_eq_true, if_false]
    omega

theorem read_move_to_loop_some (fuel : Nat) :
    ∀ r : reader, (r.input_enc = WS_XML_READER_ENCODING_TYPE_BINARY → r.root.shaped = true) →
      (r.measure + 2 ≤ fuel ∨ (r.state = READER_STATE_EOF ∧ 1 ≤ fuel)) →
      ∃ res, read_move_to_loop fuel r = some res := by
  induction fuel with
  | zero =>
    intro r _ h
    omega
  | succ f ih =>
    intro r hs h
    rw [read_move_to_loop]
    by_cases c1 : r.state = READER_STATE_EOF
    · rw [if_pos c1]
      exact ⟨_, rfl⟩
    rw [if_neg c1]
    dsimp only
    by_cases c2 : (read_node r).1 = S_OK
    · rw [if_pos c2]
      have hm : r.measure + 2 ≤ f + 1 := by
        rcases h with h | h
        · exact h
        · exact absurd h.1 c1
      apply ih
      · intro he
        have he0 : r.input_enc = WS_XML_READER_ENCODING_TYPE_BINARY :=
          (read_node_step r).1.input_enc.symm.trans he
        exact (read_node_shaped r he0 (hs he0)).2
      · rcases read_node_measure r hs c2 with e | e
        · exact Or.inr ⟨e, by omega⟩
        · exact Or.inl (by omega)
    · rw [if_neg c2]
      exact ⟨_, rfl⟩

/-- The loop of `read_move_to` in the model.  For every reader in text mode,
and for every reader in binary mode whose tree has its sentinels in place,
the loop that repeats `read_node` until the state is EOF or a read fails
returns within twice the number of bytes left plus three passes, and so does
`read_move_to`, for every move; and of two consecutive successful `read_node`
steps one reaches EOF or the two together consume at least one byte of the
input.  This is a statement about the code as far as its behaviour is
defined: where a read goes through a cursor that is no node, frees a string
twice, or a move reads the parent of the root, the model gives a value that
stands for no behaviour of the code. -/
theorem read_move_to_terminates (r : reader)
    (hs : r.input_enc = WS_XML_READER_ENCODING_TYPE_BINARY → r.root.shaped = true) :
    (∃ res, read_move_to_loop (2 * (r.read_size - r.read_pos) + 3) r = some res) ∧
    (∀ (move : WS_MOVE_TO) (found : Bool),
      ∃ res, read_move_to (2 * (r.read_size - r.read_pos) + 3) r move found = some res) ∧
    ((read_node r).1 = S_OK → (read_node (read_node r).2).1 = S_OK →
      (read_node r).2.state = READER_STATE_EOF ∨
      (read_node (read_node r).2).2.state = READER_STATE_EOF ∨
      r.read_pos < (read_node (read_node r).2).2.read_pos) := by
  have hloop := read_move_to_loop_some (2 * (r.read_size - r.read_pos) + 3) r hs
    (Or.inl (by have := measure_le r; omega))
  refine ⟨hloop, fun move found => ?_, fun h1 h2 => ?_⟩
  · have hsome : ∃ l, (if (!read_end_of_data r) = true then
        read_move_to_loop (2 * (r.read_size - r.read_pos) + 3) r else some (S_OK, r)) =
        some l := by
      split_ifs
      · exact hloop
      · exact ⟨_, rfl⟩
    obtain ⟨l, hl⟩ := hsome
    unfold read_move_to
    rw [hl]
    dsimp only
    split_ifs <;> exact ⟨_, rfl⟩
  · have s1 := read_node_step r
    have s2 := read_node_step (read_node r).2
    have hs2 : (read_node r).2.input_enc = WS_XML_READER_ENCODING_TYPE_BINARY →
        (read_node r).2.root.shaped = true := by
      intro he
      have he0 : r.input_enc = WS_XML_READER_ENCODING_TYPE_BINARY :=
        s1.1.input_enc.symm.trans he
      exact (read_node_shaped r he0 (hs he0)).2
    rcases s1.2.2.2.2 h1 hs with e | e | e
    · exact Or.inl e
    · rcases s2.2.2.2.2 h2 hs2 with g | g | g
      · exact Or.inr (Or.inl g)
      · exact Or.inr (Or.inr (by omega))
      · exact Or.inr (Or.inr (by omega))
    · rcases s2.2.2.2.2 h2 hs2 with g | g | g
      · exact Or.inr (Or.inl g)
      · exact Or.inr (Or.inr (by omega))
      · rw [e.2.1] at g
        exact absurd g.1 (by simp)

theorem read_move_to_terminates_witness :
    (binary_reader.input_enc = WS_XML_READER_ENCODING_TYPE_BINARY →
      binary_reader.root.shaped = true) ∧
    ((∃ res, read_move_to_loop (2 * (binary_reader.read_size - binary_reader.read_pos) + 3)
        binary_reader = some res) ∧
    (∀ (move : WS_MOVE_TO) (found : Bool),
      ∃ res, read_move_to (2 * (binary_reader.read_size - binary_reader.read_pos) + 3)
        binary_reader move found = some res) ∧
    ((read_node binary_reader).1 = S_OK → (read_node (read_node binary_reader).2).1 = S_OK →
      (read_node binary_reader).2.state = READER_STATE_EOF ∨
      (read_node (read_node binary_reader).2).2.state = READER_STATE_EOF ∨
      binary_reader.read_pos < (read_node (read_node binary_reader).2).2.read_pos)) :=
  ⟨fun _ => rfl, read_move_to_terminates binary_reader (fun _ => rfl)⟩

/-- The loop of `read_move_to` on the example in the binary encoding and on
the text `<a>x</a>`: the whole input is read and the state is EOF. -/
theorem read_move_to_loop_examples :
    (read_move_to_loop 11 binary_reader).map (fun x => (x.1, x.2.state, x.2.read_pos)) =
      some (S_OK, READER_STATE_EOF, 4) ∧
    (read_move_to_loop 19 (WsSetInput [60, 97, 62, 120, 60, 47, 97, 62])).map
      (fun x => (x.1, x.2.state, x.2.read_pos)) = some (S_OK, READER_STATE_EOF, 8) :=
  ⟨by decide, by decide⟩

/-! ## `decode_text` writes no more than it reads -/

theorem codepoint_to_utf8_length (cp : Nat) (w : List Nat) (h : codepoint_to_utf8 cp = some w) :
    1 ≤ w.length ∧ w.length ≤ 4 := by
  unfold codepoint_to_utf8 at h
  split_ifs at h <;> cases h <;> simp only [List.length_cons, List.length_nil] <;> omega

theorem length_takeWhile_add_dropWhile (f : Nat → Bool) (l : List Nat) :
    (l.takeWhile f).length + (l.dropWhile f).length = l.length := by
  rw [← List.length_append, List.takeWhile_append_dropWhile]

theorem length_tail_add_one (p : List Nat) (h : p ≠ []) : p.tail.length + 1 = p.length := by
  cases p with
  | nil => exact absurd rfl h
  | cons c cs => simp

/-- A reference takes at least as many bytes of the input, the `&` included,
as it makes the loop of `decode_text` write. -/
theorem decode_reference_length (p written rest : List Nat)
    (h : decode_reference p = some (written, rest)) :
    written.length + rest.length ≤ p.length + 1 := by
  unfold decode_reference at h
  by_cases h0 : p = []
  · rw [if_pos h0] at h; cases h
  rw [if_neg h0] at h
  by_cases h1 : p.take 3 = [108, 116, 59]
  · rw [if_pos h1] at h
    cases h
    simp only [List.length_singleton, List.length_drop]
    omega
  rw [if_neg h1] at h
  by_cases h2 : p.take 3 = [103, 116, 59]
  · rw [if_pos h2] at h
    cases h
    simp only [List.length_singleton, List.length_drop]
    omega
  rw [if_neg h2] at h
  by_cases h3 : p.take 5 = [113, 117, 111, 116, 59]
  · rw [if_pos h3] at h
    cases h
    simp only [List.length_singleton, List.length_drop]
    omega
  rw [if_neg h3] at h
  by_cases h4 : p.take 4 = [97, 109, 112, 59]
  · rw [if_pos h4] at h
    cases h
    simp only [List.length_singleton, List.length_drop]
    omega
  rw [if_neg h4] at h
  by_cases h5 : p.take 5 = [97, 112, 111, 115, 59]
  · rw [if_pos h5] at h
    cases h
    simp only [List.length_singleton, List.length_drop]
    omega
  rw [if_neg h5] at h
  by_cases h6 : p.head? = some 35
  · rw [if_pos h6] at h
    dsimp only at h
    have t1 := length_tail_add_one p h0
    by_cases h7 : p.tail = []
    · rw [if_pos h7] at h; cases h
    rw [if_neg h7] at h
    have t2 := length_tail_add_one p.tail h7
    by_cases h8 : p.tail.head? = some 120
    · rw [if_pos h8] at h
      have t3 := length_takeWhile_add_dropWhile isxdigit p.tail.tail
      by_cases h9 : List.dropWhile isxdigit p.tail.tail = []
      · rw [if_pos h9] at h; cases h
      rw [if_neg h9] at h
      have t4 := length_tail_add_one _ h9
      split at h
      · cases h
      · rename_i hd
        cases hc : codepoint_to_utf8 (hex_value (List.takeWhile isxdigit p.tail.tail)) with
        | none => rw [hc] at h; cases h
        | some u =>
          rw [hc] at h
          simp only [Option.map_some', Option.some.injEq, Prod.mk.injEq] at h
          obtain ⟨rfl, rfl⟩ := h
          have := (codepoint_to_utf8_length _ _ hc).2
          omega
    rw [if_neg h8] at h
    split at h
    · have t3 := length_dropWhile_le (fun c => c == 48) p.tail
      have t4 := length_takeWhile_add_dropWhile isdigit
        (List.dropWhile (fun c => c == 48) p.tail)
      split at h
      · cases h
      · split at h
        · cases h
        · rename_i hne
          have t5 := length_tail_add_one _ hne
          split at h
          · cases h
          · rename_i hd
            cases hc : codepoint_to_utf8 (List.foldl (fun cp c => cp * 10 + (c - 48)) 0
                (List.takeWhile isdigit (List.dropWhile (fun c => c == 48) p.tail))) with
            | none => rw [hc] at h; cases h
            | some u =>
              rw [hc] at h
              simp only [Option.map_some', Option.some.injEq, Prod.mk.injEq] at h
              obtain ⟨rfl, rfl⟩ := h
              have := (codepoint_to_utf8_length _ _ hc).2
              omega
    · cases h
  rw [if_neg h6] at h
  cases h

/-- The loop of `decode_text` keeps the bytes written and the input left
within the length of the input, and `*ret_len` equal to the number of bytes
written. -/
theorem decode_text_loop_written (fuel : Nat) :
    ∀ (p q : List Nat) (ret_len : Nat),
      (decode_text_loop fuel p q ret_len).2.1.length ≤ q.length + p.length ∧
      (ret_len = q.length →
        (decode_text_loop fuel p q ret_len).2.2 =
          (decode_text_loop fuel p q ret_len).2.1.length) ∧
      q <+: (decode_text_loop fuel p q ret_len).2.1 := by
  induction fuel with
  | zero =>
    intro p q n
    cases p with
    | nil =>
      rw [decode_text_loop]
      exact ⟨by simp, fun h => h, List.prefix_refl _⟩
    | cons c p =>
      rw [decode_text_loop]
      exact ⟨by simp, fun h => h, List.prefix_refl _⟩
  | succ f ih =>
    intro p q n
    cases p with
    | nil =>
      rw [decode_text_loop]
      exact ⟨by simp, fun h => h, List.prefix_refl _⟩
    | cons c p =>
      rw [decode_text_loop]
      by_cases hc : c = 38
      · rw [if_pos hc]
        cases hr : decode_reference p with
        | none => exact ⟨by simp, fun h => h, List.prefix_refl _⟩
        | some r =>
          obtain ⟨w, rest⟩ := r
          have hl := decode_reference_length p w rest hr
          have hi := ih rest (q ++ w) (n + w.length)
          dsimp only
          refine ⟨?_, fun h => hi.2.1 (by rw [h, List.length_append]), ?_⟩
          · have := hi.1
            simp only [List.length_append, List.length_cons] at this ⊢
            omega
          · exact (List.prefix_append q w).trans hi.2.2
      · rw [if_neg hc]
        have hi := ih p (q ++ [c]) (n + 1)
        refine ⟨?_, fun h => hi.2.1 (by rw [h, List.length_append]; rfl), ?_⟩
        · have := hi.1
          simp only [List.length_append, List.length_cons, List.length_nil] at this ⊢
          omega
        · exact (List.prefix_append q [c]).trans hi.2.2

/-- C38: `decode_text` never writes more bytes than it reads.  For every
input, whatever the result, the number of bytes written to the output is at
most the length of the input, and `*ret_len` is the number of bytes written;
the result is `S_OK` or `WS_E_INVALID_FORMAT`.  A character reference of nine
bytes expands to four bytes, and the shortest reference, of four bytes, to
one. -/
theorem decode_text_written_le (str : List Nat) :
    (decode_text str).2.1.length ≤ str.length ∧
    (decode_text str).2.2 = (decode_text str).2.1.length ∧
    ((decode_text str).1 = S_OK ∨ (decode_text str).1 = WS_E_INVALID_FORMAT) ∧
    decode_text [38, 35, 120, 49, 48, 48, 48, 48, 59] = (S_OK, [0xf0, 0x90, 0x80, 0x80], 4) ∧
    decode_text [38, 35, 57, 59] = (S_OK, [9], 1) ∧
    decode_text [97, 98, 38, 35, 57] = (WS_E_INVALID_FORMAT, [97, 98], 2) := by
  have h := decode_text_loop_written str.length str [] 0
  refine ⟨?_, h.2.1 rfl, decode_text_result str, by decide, by decide, by decide⟩
  have := h.1
  simpa using this

/-! ## The UTF-8 decoder of the reader -/

set_option maxRecDepth 8192 in
theorem utf8_length_lead (x : Nat) :
    (x < 32 → utf8_length.getD (0xC0 + x - 0x80) 0 = if x < 2 then 0 else 1) ∧
    (x < 16 → utf8_length.getD (0xE0 + x - 0x80) 0 = 2) ∧
    (x < 8 → utf8_length.getD (0xF0 + x - 0x80) 0 = if x < 5 then 3 else 0) := by
  refine ⟨fun h => ?_, fun h => ?_, fun h => ?_⟩
  · interval_cases x <;> rfl
  · interval_cases x <;> rfl
  · interval_cases x <;> rfl

theorem utf8_mask_lead (x : Nat) :
    (x < 32 → (0xC0 + x) &&& 0x1f = x) ∧ (x < 16 → (0xE0 + x) &&& 0x0f = x) ∧
    (x < 8 → (0xF0 + x) &&& 0x07 = x) := by
  refine ⟨fun h => ?_, fun h => ?_, fun h => ?_⟩
  · interval_cases x <;> rfl
  · interval_cases x <;> rfl
  · interval_cases x <;> rfl

theorem utf8_trail_continuation (res y : Nat) (hy : y < 64) :
    utf8_trail (some res) (0x80 + y) = some (res * 64 + y) := by
  have hx : ((0x80 + y) ^^^ 0x80) % 256 = y := by
    interval_cases y <;> rfl
  unfold utf8_trail
  dsimp only
  rw [hx, if_neg (by omega), shiftLeft_or res y 6 hy]
  rfl

/-- `read_utf8_char` at a lead byte of a sequence of two bytes. -/
theorem read_utf8_char_two (r : reader) (x y : Nat) (rest : List Nat)
    (h : read_current_ptr r = (0xC0 + x) :: (0x80 + y) :: rest) (hx : x < 32) (hy : y < 64) :
    read_utf8_char r = if 64 * x + y < 0x80 then (0, 0) else (64 * x + y, 2) := by
  unfold read_current_ptr at h
  obtain ⟨l0, g0, h1⟩ := drop_eq_cons h
  obtain ⟨l1, g1, _⟩ := drop_eq_cons h1
  unfold read_utf8_char
  dsimp only
  have hsz : r.read_size = r.read_bufptr.length := rfl
  rw [if_neg (by omega), g0, if_neg (by omega), (utf8_length_lead x).1 hx]
  by_cases c : x < 2
  · rw [if_pos c, if_neg (by omega), if_pos rfl, if_pos (by omega)]
    rfl
  · rw [if_neg c, if_neg (by omega)]
    have hm : utf8_mask.getD 1 0 = 0x1f := rfl
    rw [hm, (utf8_mask_lead x).1 hx]
    rw [if_neg (by decide), if_neg (by decide), if_neg (by decide), g1,
      utf8_trail_continuation x y hy]
    unfold utf8_result
    have hv : utf8_minval.getD 1 0 = 0x80 := rfl
    dsimp only
    rw [hv, if_neg (by omega), if_neg (by omega)]
    rw [Nat.mul_comm]

/-- `read_utf8_char` at a lead byte of a sequence of three bytes. -/
theorem read_utf8_char_three (r : reader) (x y z : Nat) (rest : List Nat)
    (h : read_current_ptr r = (0xE0 + x) :: (0x80 + y) :: (0x80 + z) :: rest)
    (hx : x < 16) (hy : y < 64) (hz : z < 64) :
    read_utf8_char r =
      if 4096 * x + 64 * y + z < 0x800 then (0, 0) else (4096 * x + 64 * y + z, 3) := by
  unfold read_current_ptr at h
  obtain ⟨l0, g0, h1⟩ := drop_eq_cons h
  obtain ⟨l1, g1, h2⟩ := drop_eq_cons h1
  obtain ⟨l2, g2, _⟩ := drop_eq_cons h2
  unfold read_utf8_char
  dsimp only
  have hsz : r.read_size = r.read_bufptr.length := rfl
  rw [if_neg (by omega), g0, if_neg (by omega), (utf8_length_lead x).2.1 hx]
  rw [if_neg (by omega)]
  have hm : utf8_mask.getD 2 0 = 0x0f := rfl
  rw [hm, (utf8_mask_lead x).2.1 hx]
  rw [if_neg (by decide), if_pos (Or.inr rfl), if_neg (by decide)]
  have e1 : r.read_pos + 2 - 1 = r.read_pos + 1 := rfl
  rw [e1, g1, g2, utf8_trail_continuation x y hy, utf8_trail_continuation _ z hz]
  unfold utf8_result
  have hv : utf8_minval.getD 2 0 = 0x800 := rfl
  dsimp only
  rw [hv]
  have e : (x * 64 + y) * 64 + z = 4096 * x + 64 * y + z := by ring
  rw [e]

/-- `read_utf8_char` at a lead byte of a sequence of four bytes. -/
theorem read_utf8_char_four (r : reader) (x y z w : Nat) (rest : List Nat)
    (h : read_current_ptr r = (0xF0 + x) :: (0x80 + y) :: (0x80 + z) :: (0x80 + w) :: rest)
    (hx : x < 5) (hy : y < 64) (hz : z < 64) (hw : w < 64) :
    read_utf8_char r =
      if 262144 * x + 4096 * y + 64 * z + w < 0x10000 then (0, 0)
      else (262144 * x + 4096 * y + 64 * z + w, 4) := by
  unfold read_current_ptr at h
  obtain ⟨l0, g0, h1⟩ := drop_eq_cons h
  obtain ⟨l1, g1, h2⟩ := drop_eq_cons h1
  obtain ⟨l2, g2, h3⟩ := drop_eq_cons h2
  obtain ⟨l3, g3, _⟩ := drop_eq_cons h3
  unfold read_utf8_char
  dsimp only
  have hsz : r.read_size = r.read_bufptr.length := rfl
  rw [if_neg (by omega), g0, if_neg (by omega), (utf8_length_lead x).2.2 (by omega),
    if_pos hx]
  rw [if_neg (by omega)]
  have hm : utf8_mask.getD 3 0 = 0x07 := rfl
  rw [hm, (utf8_mask_lead x).2.2 (by omega)]
  rw [if_pos rfl, if_pos (Or.inl rfl), if_neg (by decide)]
  have e1 : r.read_pos + 3 - 2 = r.read_pos + 1 := rfl
  have e2 : r.read_pos + 3 - 1 = r.read_pos + 2 := rfl
  rw [e1, e2, g1, g2, g3, utf8_trail_continuation x y hy, utf8_trail_continuation _ z hz,
    utf8_trail_continuation _ w hw]
  unfold utf8_result
  have hv : utf8_minval.getD 3 0 = 0x10000 := rfl
  dsimp only
  rw [hv]
  have e : ((x * 64 + y) * 64 + z) * 64 + w = 262144 * x + 4096 * y + 64 * z + w := by ring
  rw [e]

/-- C33, as stated, fails: the three bytes ED A0 80 are the encoding of the
surrogate U+D800, EF BF BE and EF BF BF of the non-characters U+FFFE and
U+FFFF, and F4 90 80 80 of the value 0x110000, which is above U+10FFFF;
`read_utf8_char` returns each of these values with the width of its sequence.
They are the values that the encoder `codepoint_to_utf8` refuses. -/
theorem read_utf8_char_accepts_surrogate :
    read_utf8_char (WsSetInput [0xED, 0xA0, 0x80]) = (0xD800, 3) ∧
    read_utf8_char (WsSetInput [0xEF, 0xBF, 0xBE]) = (0xFFFE, 3) ∧
    read_utf8_char (WsSetInput [0xEF, 0xBF, 0xBF]) = (0xFFFF, 3) ∧
    read_utf8_char (WsSetInput [0xF4, 0x90, 0x80, 0x80]) = (0x110000, 4) ∧
    codepoint_to_utf8 0xD800 = none ∧ codepoint_to_utf8 0xFFFE = none ∧
    codepoint_to_utf8 0xFFFF = none ∧ codepoint_to_utf8 0x110000 = none := by
  decide

/-- C33, amended: `read_utf8_char` rejects the overlong encodings and nothing
else among the sequences of a lead byte and its continuation bytes.  At a
sequence of two, three or four bytes with the value `v` it returns 0 without
a width when `v` is below 0x80, 0x800 or 0x10000, that is when `v` fits in a
shorter sequence, and otherwise it returns `v` with the width of the
sequence: surrogates, the non-characters U+FFFE and U+FFFF, and the values
from 0x110000 to 0x13FFFF are returned. -/
theorem read_utf8_char_overlong (r : reader) :
    (∀ (x y : Nat) (rest : List Nat),
      read_current_ptr r = (0xC0 + x) :: (0x80 + y) :: rest → x < 32 → y < 64 →
      read_utf8_char r = if 64 * x + y < 0x80 then (0, 0) else (64 * x + y, 2)) ∧
    (∀ (x y z : Nat) (rest : List Nat),
      read_current_ptr r = (0xE0 + x) :: (0x80 + y) :: (0x80 + z) :: rest →
      x < 16 → y < 64 → z < 64 →
      read_utf8_char r =
        if 4096 * x + 64 * y + z < 0x800 then (0, 0) else (4096 * x + 64 * y + z, 3)) ∧
    (∀ (x y z w : Nat) (rest : List Nat),
      read_current_ptr r = (0xF0 + x) :: (0x80 + y) :: (0x80 + z) :: (0x80 + w) :: rest →
      x < 5 → y < 64 → z < 64 → w < 64 →
      read_utf8_char r =
        if 262144 * x + 4096 * y + 64 * z + w < 0x10000 then (0, 0)
        else (262144 * x + 4096 * y + 64 * z + w, 4)) :=
  ⟨fun x y rest h hx hy => read_utf8_char_two r x y rest h hx hy,
    fun x y z rest h hx hy hz => read_utf8_char_three r x y z rest h hx hy hz,
    fun x y z w rest h hx hy hz hw => read_utf8_char_four r x y z w rest h hx hy hz hw⟩

theorem read_utf8_char_overlong_witness :
    read_utf8_char (WsSetInput [0xC1, 0xBF]) = (0, 0) ∧
    read_utf8_char (WsSetInput [0xE0, 0x9F, 0xBF]) = (0, 0) ∧
    read_utf8_char (WsSetInput [0xF0, 0x8F, 0xBF, 0xBF]) = (0, 0) ∧
    read_utf8_char (WsSetInput [0xED, 0xBF, 0xBF]) = (0xDFFF, 3) :=
  ⟨((read_utf8_char_overlong (WsSetInput [0xC1, 0xBF])).1 1 63 [] rfl (by decide)
      (by decide)).trans (if_pos (by decide)),
    ((read_utf8_char_overlong (WsSetInput [0xE0, 0x9F, 0xBF])).2.1 0 31 63 [] rfl (by decide)
      (by decide) (by decide)).trans (if_pos (by decide)),
    ((read_utf8_char_overlong (WsSetInput [0xF0, 0x8F, 0xBF, 0xBF])).2.2 0 15 63 63 [] rfl
      (by decide) (by decide) (by decide) (by decide)).trans (if_pos (by decide)),
    ((read_utf8_char_overlong (WsSetInput [0xED, 0xBF, 0xBF])).2.1 13 63 63 [] rfl (by decide)
      (by decide) (by decide)).trans (if_neg (by decide))⟩

/-- C39: the decoder `read_utf8_char` inverts the encoder
`codepoint_to_utf8`.  When the encoder succeeds on the code point `cp`, which
it does exactly for the code points from 1 to 0x10FFFF that are not
surrogates and not 0xFFFE or 0xFFFF, and the bytes it writes stand at the
read position, followed by any bytes or by the end of the buffer, the decoder
returns `cp` and sets the width to the number of these bytes. -/
theorem read_utf8_char_codepoint_to_utf8 (cp : Nat) (w : List Nat)
    (h : codepoint_to_utf8 cp = some w) (r : reader) (rest : List Nat)
    (hr : read_current_ptr r = w ++ rest) :
    read_utf8_char r = (cp, w.length) ∧ encodable cp ∧ 1 ≤ w.length ∧ w.length ≤ 4 := by
  have he := codepoint_to_utf8_some cp w h
  refine ⟨?_, he, ?_⟩
  · rw [codepoint_to_utf8_eq cp he] at h
    have hw := (Option.some.inj h).symm
    obtain ⟨h1, h2, h3, h4, h5⟩ := he
    unfold utf8_encode at hw
    by_cases c1 : cp < 0x80
    · rw [if_pos c1] at hw
      subst hw
      exact read_utf8_char_ascii r cp rest hr c1
    rw [if_neg c1] at hw
    by_cases c2 : cp < 0x800
    · rw [if_pos c2] at hw
      subst hw
      rw [read_utf8_char_two r (cp / 64) (cp % 64) rest hr (by omega) (by omega),
        if_neg (by omega)]
      exact Prod.ext (by show 64 * (cp / 64) + cp % 64 = cp; omega) rfl
    rw [if_neg c2] at hw
    by_cases c3 : cp < 0x10000
    · rw [if_pos c3] at hw
      subst hw
      rw [read_utf8_char_three r (cp / 4096) (cp / 64 % 64) (cp % 64) rest hr (by omega)
        (by omega) (by omega), if_neg (by omega)]
      exact Prod.ext (by show 4096 * (cp / 4096) + 64 * (cp / 64 % 64) + cp % 64 = cp; omega)
        rfl
    rw [if_neg c3] at hw
    subst hw
    rw [read_utf8_char_four r (cp / 262144) (cp / 4096 % 64) (cp / 64 % 64) (cp % 64) rest hr
      (by omega) (by omega) (by omega) (by omega), if_neg (by omega)]
    exact Prod.ext (by
      show 262144 * (cp / 262144) + 4096 * (cp / 4096 % 64) + 64 * (cp / 64 % 64) + cp % 64 = cp
      omega) rfl
  · unfold codepoint_to_utf8 at h
    split_ifs at h <;> cases h <;> simp only [List.length_cons, List.length_nil] <;> omega

theorem read_utf8_char_codepoint_to_utf8_witness :
    codepoint_to_utf8 0x20AC = some [0xE2, 0x82, 0xAC] ∧
    read_current_ptr (WsSetInput [0xE2, 0x82, 0xAC]) = [0xE2, 0x82, 0xAC] ++ [] ∧
    (read_utf8_char (WsSetInput [0xE2, 0x82, 0xAC]) = (0x20AC, [0xE2, 0x82, 0xAC].length) ∧
      encodable 0x20AC ∧ 1 ≤ [0xE2, 0x82, 0xAC].length ∧ [0xE2, 0x82, 0xAC].length ≤ 4) :=
  ⟨by decide, rfl,
    read_utf8_char_codepoint_to_utf8 0x20AC [0xE2, 0x82, 0xAC] (by decide)
      (WsSetInput [0xE2, 0x82, 0xAC]) [] rfl⟩

/-! ## Insertion into the sorted index -/

theorem grow_dict_entries (d : Dictionary) (size : Nat) :
    (grow_dict d size).2.strings = d.strings ∧
    (grow_dict d size).2.dict_sorted = d.dict_sorted := by
  unfold grow_dict
  split_ifs <;> exact ⟨rfl, rfl⟩

theorem sorted_dense_length (d : Dictionary) (h : d.sorted_dense) :
    d.dict_sorted.length = d.stringCount := by
  rw [h.perm.length_eq, List.length_range]

theorem sorted_dense_lt (d : Dictionary) (h : d.sorted_dense) (i : Nat)
    (hi : i < d.stringCount) : d.dict_sorted.getD i 0 < d.stringCount := by
  have hl := sorted_dense_length d h
  have hm : d.dict_sorted.getD i 0 ∈ d.dict_sorted := by
    rw [List.getD_eq_getElem _ _ (by omega)]
    exact List.getElem_mem _
  exact List.mem_range.mp (h.perm.mem_iff.mp hm)

theorem perm_insert_range (l : List Nat) (n k : Nat) (h : l.Perm (List.range n)) :
    (l.take k ++ n :: l.drop k).Perm (List.range (n + 1)) := by
  rw [List.range_succ]
  refine List.perm_middle.trans ?_
  rw [List.take_append_drop]
  exact (List.Perm.cons n h).trans (List.perm_append_singleton n (List.range n)).symm

/-- The sorted index and the ids after the insertion of new content `s` at
the place `k` that separates the smaller entries from the greater ones. -/
theorem sorted_dense_insert (d e : Dictionary) (h : d.sorted_dense) (s : List Nat) (k : Nat)
    (hk : k ≤ d.stringCount)
    (hlo : ∀ i : Nat, i < k → cmp_string (d.sorted_entry i).bytes s < 0)
    (hhi : ∀ i : Nat, k ≤ i → i < d.stringCount → cmp_string s (d.sorted_entry i).bytes < 0)
    (hs : e.strings = d.strings ++ [⟨s, some DictionaryRef.dict_builtin, d.stringCount⟩])
    (hd : e.dict_sorted = d.dict_sorted.take k ++ d.stringCount :: d.dict_sorted.drop k) :
    e.sorted_dense := by
  have hsl := sorted_dense_length d h
  have hcount : e.stringCount = d.stringCount + 1 := by
    unfold Dictionary.stringCount
    rw [hs]
    simp
  have hcnt : d.strings.length = d.stringCount := rfl
  have hentry : ∀ i : Nat, i ≤ d.stringCount → e.sorted_entry i =
      if i < k then d.sorted_entry i
      else if i = k then ⟨s, some DictionaryRef.dict_builtin, d.stringCount⟩
      else d.sorted_entry (i - 1) := by
    intro i hi
    unfold Dictionary.sorted_entry
    rw [hs, hd, getD_insert _ _ _ _ (by omega), getD_append_one]
    by_cases h1 : i < k
    · have := sorted_dense_lt d h i (by omega)
      rw [if_pos h1, if_pos h1, if_pos (by omega)]
    · rw [if_neg h1, if_neg h1]
      by_cases h2 : i = k
      · rw [if_pos h2, if_pos h2, if_neg (by omega), if_pos hcnt.symm]
      · have := sorted_dense_lt d h (i - 1) (by omega)
        rw [if_neg h2, if_neg h2, if_pos (by omega)]
  refine ⟨?_, ?_, ?_⟩
  · rw [hcount, hd]
    exact perm_insert_range _ _ _ h.perm
  · intro i j hij hj
    rw [hcount] at hj
    rw [hentry i (by omega), hentry j (by omega)]
    by_cases hi1 : i < k
    · rw [if_pos hi1]
      by_cases hj1 : j < k
      · rw [if_pos hj1]
        exact h.increasing i j hij (by omega)
      · rw [if_neg hj1]
        by_cases hj2 : j = k
        · rw [if_pos hj2]
          exact hlo i hi1
        · rw [if_neg hj2]
          exact cmp_string_trans _ _ _ (hlo i hi1) (hhi (j - 1) (by omega) (by omega))
    · have hj1 : ¬ j < k := by omega
      have hj2 : ¬ j = k := by omega
      rw [if_neg hi1, if_neg hj1, if_neg hj2]
      by_cases hi2 : i = k
      · rw [if_pos hi2]
        exact hhi (j - 1) (by omega) (by omega)
      · rw [if_neg hi2]
        exact h.increasing (i - 1) (j - 1) (by omega) (by omega)
  · intro j hj
    rw [hcount] at hj
    rw [hs, getD_append_one, hcnt]
    by_cases h1 : j < d.stringCount
    · rw [if_pos h1]
      exact h.ids j h1
    · rw [if_neg h1, if_pos (by omega)]
      show d.stringCount = j
      omega

/-- The entries of a dictionary with a strictly increasing sorted index have
different contents. -/
theorem sorted_dense_distinct (d : Dictionary) (h : d.sorted_dense) (i j : Nat)
    (hi : i < d.stringCount) (hj : j < d.stringCount)
    (he : (d.strings.getD i default).bytes = (d.strings.getD j default).bytes) : i = j := by
  have hcov : ∀ k : Nat, k < d.stringCount →
      ∃ a : Nat, a < d.stringCount ∧ d.dict_sorted.getD a 0 = k := by
    intro k hk
    have hm : k ∈ d.dict_sorted := h.perm.mem_iff.mpr (List.mem_range.mpr hk)
    obtain ⟨a, ha, hak⟩ := List.getElem_of_mem hm
    refine ⟨a, by rw [← sorted_dense_length d h]; exact ha, ?_⟩
    rw [List.getD_eq_getElem _ _ ha, hak]
  obtain ⟨a, ha, hai⟩ := hcov i hi
  obtain ⟨b, hb, hbj⟩ := hcov j hj
  have hab : a = b := by
    apply sorted_entry_injective d h.increasing a b ha hb
    unfold Dictionary.sorted_entry
    rw [hai, hbj]
    exact he
  rw [← hai, ← hbj, hab]

theorem dictionary_b_a_sorted_dense : dictionary_b_a.sorted_dense := by
  refine ⟨by decide, ?_, ?_⟩
  · intro i j hij hj
    have hj2 : j < 2 := hj
    interval_cases j
    · omega
    · interval_cases i
      decide
  · intro k hk
    have hk2 : k < 2 := hk
    interval_cases k <;> rfl

/-! ## References to the dictionary -/

/-- `read_dict_string` behind the id it has read. -/
theorem read_dict_string_cases (r : reader) (hok : (read_int31 r).1 = S_OK) :
    ((read_int31 r).2.1.dict = none →
      read_dict_string r = (WS_E_INVALID_FORMAT, (read_int31 r).2.1, none)) ∧
    (∀ d : WS_XML_DICTIONARY, (read_int31 r).2.1.dict = some d →
      d.stringCount ≤ (read_int31 r).2.2 >>> 1 →
      read_dict_string r = (WS_E_INVALID_FORMAT, (read_int31 r).2.1, none)) ∧
    (∀ d : WS_XML_DICTIONARY, (read_int31 r).2.1.dict = some d →
      (read_int31 r).2.2 >>> 1 < d.stringCount →
      ∃ e : WS_XML_STRING, d.strings[(read_int31 r).2.2 >>> 1]? = some e ∧
        read_dict_string r = (S_OK, (read_int31 r).2.1, some e.bytes)) := by
  unfold read_dict_string
  dsimp only
  rw [if_neg (by rw [hok]; simp)]
  refine ⟨fun h => ?_, fun d h hk => ?_, fun d h hk => ?_⟩
  · rw [h]
  · rw [h]
    dsimp only
    rw [if_pos hk]
  · rw [h]
    dsimp only
    rw [if_neg (by omega)]
    have hlt : (read_int31 r).2.2 >>> 1 < d.strings.length := hk
    refine ⟨d.strings[(read_int31 r).2.2 >>> 1], List.getElem?_eq_getElem hlt, ?_⟩
    rw [List.getD_eq_getElem _ _ hlt]

/-- The dictionary case of `read_attribute_value_bin`. -/
theorem read_attribute_value_bin_dict (r0 r : reader) (attr : WS_XML_ATTRIBUTE)
    (h : read_byte r0 = (S_OK, r, RECORD_DICTIONARY_TEXT)) :
    read_attribute_value_bin r0 attr =
      if (read_dict_string r).1 ≠ S_OK then ((read_dict_string r).1, (read_dict_string r).2.1, attr)
      else (S_OK, (read_dict_string r).2.1, { attr with value := (read_dict_string r).2.2 }) := by
  unfold read_attribute_value_bin
  dsimp only
  rw [h]
  dsimp only
  have n0 : ¬ ((!is_text_type RECORD_DICTIONARY_TEXT) = true) := by decide
  have n1 : ¬ RECORD_DICTIONARY_TEXT = RECORD_ZERO_TEXT := by decide
  have n2 : ¬ RECORD_DICTIONARY_TEXT = RECORD_ONE_TEXT := by decide
  have n3 : ¬ RECORD_DICTIONARY_TEXT = RECORD_FALSE_TEXT := by decide
  have n4 : ¬ RECORD_DICTIONARY_TEXT = RECORD_TRUE_TEXT := by decide
  have n5 : ¬ RECORD_DICTIONARY_TEXT = RECORD_CHARS8_TEXT := by decide
  have n6 : ¬ RECORD_DICTIONARY_TEXT = RECORD_EMPTY_TEXT := by decide
  have n7 : ¬ (S_OK ≠ S_OK) := by simp
  rw [if_neg n7, if_neg n0]
  simp only [if_neg n1, if_neg n2, if_neg n3, if_neg n4, if_neg n5, if_neg n6, if_true]
  rfl

/-- The dictionary cases of `read_text_bin`. -/
theorem read_text_bin_dict (r0 r : reader) (type : Nat) (parent : List Nat)
    (h : read_byte r0 = (S_OK, r, type))
    (ht : type = RECORD_DICTIONARY_TEXT ∨ type = RECORD_DICTIONARY_TEXT_WITH_ENDELEMENT)
    (hp : find_parent r = some parent) :
    read_text_bin r0 =
      if (read_dict_string r).1 ≠ S_OK then ((read_dict_string r).1, (read_dict_string r).2.1)
      else
        (S_OK, { (read_insert_node (read_dict_string r).2.1 parent
            ((alloc_node WS_XML_NODE_TYPE.TEXT).set_text (read_dict_string r).2.2)) with
          state := READER_STATE_TEXT, text_conv_offset := 0 }) := by
  unfold read_text_bin
  dsimp only
  rw [h]
  dsimp only
  rw [if_neg (by simp)]
  have hty : is_text_type type = true := by
    rcases ht with e | e <;> rw [e] <;> decide
  rw [if_pos hty, hp]
  dsimp only
  have e1 : ¬ (type = RECORD_ZERO_TEXT ∨ type = RECORD_ZERO_TEXT_WITH_ENDELEMENT) := by
    rcases ht with e | e <;> rw [e] <;> decide
  have e2 : ¬ (type = RECORD_ONE_TEXT ∨ type = RECORD_ONE_TEXT_WITH_ENDELEMENT) := by
    rcases ht with e | e <;> rw [e] <;> decide
  have e3 : ¬ (type = RECORD_FALSE_TEXT ∨ type = RECORD_FALSE_TEXT_WITH_ENDELEMENT) := by
    rcases ht with e | e <;> rw [e] <;> decide
  have e4 : ¬ (type = RECORD_TRUE_TEXT ∨ type = RECORD_TRUE_TEXT_WITH_ENDELEMENT) := by
    rcases ht with e | e <;> rw [e] <;> decide
  have e5 : ¬ (type = RECORD_CHARS8_TEXT ∨ type = RECORD_CHARS8_TEXT_WITH_ENDELEMENT) := by
    rcases ht with e | e <;> rw [e] <;> decide
  have e6 : ¬ (type = RECORD_EMPTY_TEXT ∨ type = RECORD_EMPTY_TEXT_WITH_ENDELEMENT) := by
    rcases ht with e | e <;> rw [e] <;> decide
  rw [if_neg e1, if_neg e2, if_neg e3, if_neg e4, if_neg e5, if_neg e6, if_pos ht]
  rfl

/-- C31: the references to the dictionary are checked against its bounds.
With `k` the id that `read_int31` has read, shifted right by one bit:
`read_dict_string` returns `WS_E_INVALID_FORMAT` when the reader has no
dictionary and when `k` is not below the `stringCount` of the dictionary, and
otherwise `S_OK` with the bytes of the entry `k`, which exists; the position
is the one behind the id.  The dictionary cases of `read_attribute_value_bin`
and of `read_text_bin` return what `read_dict_string` returns at the place
behind the record type, with the same check and the same entry. -/
theorem read_dict_string_bounds (r : reader) (hok : (read_int31 r).1 = S_OK) :
    ((read_int31 r).2.1.dict = r.dict ∧
      (read_int31 r).2.2 >>> 1 = (read_int31 r).2.2 / 2) ∧
    (r.dict = none →
      read_dict_string r = (WS_E_INVALID_FORMAT, (read_int31 r).2.1, none)) ∧
    (∀ d : WS_XML_DICTIONARY, r.dict = some d →
      d.stringCount ≤ (read_int31 r).2.2 >>> 1 →
      read_dict_string r = (WS_E_INVALID_FORMAT, (read_int31 r).2.1, none)) ∧
    (∀ d : WS_XML_DICTIONARY, r.dict = some d →
      (read_int31 r).2.2 >>> 1 < d.stringCount →
      ∃ e : WS_XML_STRING, d.strings[(read_int31 r).2.2 >>> 1]? = some e ∧
        read_dict_string r = (S_OK, (read_int31 r).2.1, some e.bytes)) ∧
    (∀ (r0 : reader) (attr : WS_XML_ATTRIBUTE),
      read_byte r0 = (S_OK, r, RECORD_DICTIONARY_TEXT) →
      read_attribute_value_bin r0 attr =
        if (read_dict_string r).1 ≠ S_OK then
          ((read_dict_string r).1, (read_dict_string r).2.1, attr)
        else (S_OK, (read_dict_string r).2.1, { attr with value := (read_dict_string r).2.2 })) ∧
    (∀ (r0 : reader) (type : Nat) (parent : List Nat), read_byte r0 = (S_OK, r, type) →
      type = RECORD_DICTIONARY_TEXT ∨ type = RECORD_DICTIONARY_TEXT_WITH_ENDELEMENT →
      find_parent r = some parent →
      read_text_bin r0 =
        if (read_dict_string r).1 ≠ S_OK then ((read_dict_string r).1, (read_dict_string r).2.1)
        else
          (S_OK, { (read_insert_node (read_dict_string r).2.1 parent
              ((alloc_node WS_XML_NODE_TYPE.TEXT).set_text (read_dict_string r).2.2)) with
            state := READER_STATE_TEXT, text_conv_offset := 0 })) := by
  have hd : (read_int31 r).2.1.dict = r.dict := (read_int31_scanned r).1.dict
  have hc := read_dict_string_cases r hok
  rw [hd] at hc
  exact ⟨⟨hd, Nat.shiftRight_eq_div_pow _ 1⟩, hc.1, hc.2.1, hc.2.2,
    fun r0 attr h => read_attribute_value_bin_dict r0 r attr h,
    fun r0 type parent h ht hp => read_text_bin_dict r0 r type parent h ht hp⟩

theorem read_dict_string_bounds_witness :
    (read_int31 (dict_reader [2])).1 = S_OK ∧
    read_dict_string (dict_reader [2]) =
      (S_OK, { (dict_reader [2]) with read_pos := 1 }, some [121, 111]) ∧
    read_dict_string (dict_reader [4]) =
      (WS_E_INVALID_FORMAT, { (dict_reader [4]) with read_pos := 1 }, none) ∧
    (read_text_bin (dict_reader [RECORD_DICTIONARY_TEXT, 4])).1 = WS_E_INVALID_FORMAT ∧
    (read_text_bin (WsSetInput_binary none [RECORD_DICTIONARY_TEXT, 0])).1 =
      WS_E_INVALID_FORMAT := by
  have h := read_dict_string_bounds (dict_reader [2]) (by decide)
  have h4 := read_dict_string_bounds (dict_reader [4]) (by decide)
  refine ⟨by decide, ?_, ?_, by decide, by decide⟩
  · obtain ⟨e, he, hr⟩ := h.2.2.2.1 _ rfl (by decide)
    rw [hr]
    have : e = ⟨[121, 111], none, 1⟩ := by
      have h2 : (⟨[⟨[104, 105], none, 0⟩, ⟨[121, 111], none, 1⟩]⟩ :
          WS_XML_DICTIONARY).strings[(read_int31 (dict_reader [2])).2.2 >>> 1]? =
          some ⟨[121, 111], none, 1⟩ := by decide
      exact Option.some.inj (he.symm.trans h2)
    rw [this]
    rfl
  · rw [h4.2.2.1 _ rfl (by decide)]
    rfl

/-! ## Text records and the end of their element -/

/-- C32, refuted: in binary mode every Text node closes its element, whatever
record it was read from.  With the cursor on a Text node `read_node_bin`
moves the cursor to the last child of the parent of the Text node and
returns `S_OK` without reading from the input, and `read_text_bin` makes the
same node from a plain text record as from its WithEndElement variant.  On
the encoding of `<a><b>0</b></a>` with a plain text record, the third
`read_node` reads the text, the fourth leaves the read position on the first
end-element record and puts the cursor on the EndElement node of `b`, and the
fifth, which reads that record, puts the cursor on the EndElement node of the
outer element `a`; the sixth reads the second end-element record with the
cursor going to the EOF node in the state EndElement. -/
theorem read_node_bin_text_closes_element :
    (∀ r : reader, (r.node_at r.current).map node.nodeType = some WS_XML_NODE_TYPE.TEXT →
      read_node_bin r =
        (S_OK,
          { r with
            current := r.tail_child ((parent_of r.current).getD [])
            last := r.tail_child ((parent_of r.current).getD [])
            state := READER_STATE_ENDELEMENT })) ∧
    (read_text_bin (WsSetInput_binary none [RECORD_ZERO_TEXT])).2.root =
      (read_text_bin (WsSetInput_binary none [RECORD_ZERO_TEXT_WITH_ENDELEMENT])).2.root ∧
    ((read_node (read_nodes 2 plain_text_reader)).1 = S_OK ∧
      (read_nodes 3 plain_text_reader).current = [0, 0, 0] ∧
      (read_nodes 3 plain_text_reader).read_pos = 7 ∧
      ((read_nodes 3 plain_text_reader).node_at [0, 0, 0]).map node.nodeType =
        some WS_XML_NODE_TYPE.TEXT) ∧
    ((read_node (read_nodes 3 plain_text_reader)).1 = S_OK ∧
      (read_nodes 4 plain_text_reader).read_pos = 7 ∧
      (read_nodes 4 plain_text_reader).current = [1, 0, 0] ∧
      ((read_nodes 4 plain_text_reader).node_at [1, 0, 0]).map node.nodeType =
        some WS_XML_NODE_TYPE.END_ELEMENT) ∧
    ((read_node (read_nodes 4 plain_text_reader)).1 = S_OK ∧
      (read_nodes 5 plain_text_reader).read_pos = 8 ∧
      (read_nodes 5 plain_text_reader).current = [1, 0] ∧
      ((read_nodes 5 plain_text_reader).node_at [1, 0]).map node.nodeType =
        some WS_XML_NODE_TYPE.END_ELEMENT ∧
      (((read_nodes 5 plain_text_reader).node_at [0]).map node.hdr).bind
        WS_XML_ELEMENT_NODE.localName = some [97]) ∧
    ((read_node (read_nodes 5 plain_text_reader)).1 = S_OK ∧
      (read_nodes 6 plain_text_reader).read_pos = 9 ∧
      (read_nodes 6 plain_text_reader).state = READER_STATE_ENDELEMENT ∧
      ((read_nodes 6 plain_text_reader).node_at (read_nodes 6 plain_text_reader).current).map
        node.nodeType = some WS_XML_NODE_TYPE.EOF) := by
  refine ⟨fun r h => ?_, by decide, by decide, by decide, by decide, by decide⟩
  unfold read_node_bin
  rw [if_pos h]

/-! ## The cursor of the reader -/

/-- C37, refuted in its third part: on the text input `<!--c-->/>` the first
`read_node` reads the comment and leaves the cursor on the Comment node, and
the second one, which finds `/>`, returns `S_OK` and sets `current` and
`last` to the last child of the Comment node, which has no children: they are
no nodes of the tree.  (In the code `list_tail` gives a null pointer for the
empty list and `LIST_ENTRY` makes of it a pointer that is not null and points
to no node.)  The root is still the BOF node with the EOF node as its last
child. -/
theorem read_node_cursor_outside_tree :
    (read_node comment_reader).1 = S_OK ∧
    ((read_node comment_reader).2.node_at (read_node comment_reader).2.current).map
      node.nodeType = some WS_XML_NODE_TYPE.COMMENT ∧
    (((read_node comment_reader).2.node_at (read_node comment_reader).2.current).map
      node.children) = some [] ∧
    (read_node (read_node comment_reader).2).1 = S_OK ∧
    (read_nodes 2 comment_reader).node_at (read_nodes 2 comment_reader).current = none ∧
    (read_nodes 2 comment_reader).node_at (read_nodes 2 comment_reader).last = none ∧
    (read_nodes 2 comment_reader).root.nodeType = WS_XML_NODE_TYPE.BOF ∧
    (read_nodes 2 comment_reader).root.children.getLast?.map node.nodeType =
      some WS_XML_NODE_TYPE.EOF := by
  decide

/-! ## The text of the current node in chunks -/

theorem on_text_offset (r : reader) (t : List Nat) (h : r.on_text t) (o : Nat) :
    ({ r with text_conv_offset := o } : reader).on_text t :=
  ⟨h.magic, h.input_type, h.nodeType, h.text, h.length⟩

/-- One call of `WsReadCharsUtf8` before the end of the text. -/
theorem WsReadCharsUtf8_chunk (r : reader) (t : List Nat) (h : r.on_text t) (m : Nat)
    (ho : r.text_conv_offset < t.length) :
    WsReadCharsUtf8 (some r) true m true =
      (S_OK, some { r with text_conv_offset := r.text_conv_offset + min (t.length - r.text_conv_offset) m },
        (t.drop r.text_conv_offset).take m, min (t.length - r.text_conv_offset) m) := by
  unfold WsReadCharsUtf8
  dsimp only
  have hl := h.length
  rw [if_neg (by rw [h.magic]; simp), if_neg h.input_type, if_neg (by simp),
    if_pos ⟨h.nodeType, rfl⟩, h.text]
  simp only [Option.getD_some]
  rw [if_neg (by omega)]
  have e : (t.length + 2 ^ 32 - r.text_conv_offset) % 2 ^ 32 = t.length - r.text_conv_offset := by
    omega
  rw [e]
  have e2 : (t.drop r.text_conv_offset).take (min (t.length - r.text_conv_offset) m) =
      (t.drop r.text_conv_offset).take m := by
    by_cases c : m ≤ t.length - r.text_conv_offset
    · rw [Nat.min_eq_right c]
    · rw [Nat.min_eq_left (by omega), List.take_of_length_le (by simp),
        List.take_of_length_le (by simp; omega)]
  rw [e2]

/-- The call of `WsReadCharsUtf8` at the end of the text. -/
theorem WsReadCharsUtf8_end (r : reader) (t : List Nat) (h : r.on_text t) (m : Nat)
    (ho : r.text_conv_offset = t.length) :
    WsReadCharsUtf8 (some r) true m true = ((read_node r).1, some (read_node r).2, [], 0) := by
  unfold WsReadCharsUtf8
  dsimp only
  rw [if_neg (by rw [h.magic]; simp), if_neg h.input_type, if_neg (by simp),
    if_pos ⟨h.nodeType, rfl⟩, h.text]
  simp only [Option.getD_some]
  rw [if_pos ho]

theorem text_chunks_spec (ms : List Nat) (hms : ∀ m ∈ ms, 1 ≤ m) :
    ∀ t : List Nat, (text_chunks t ms).flatten = t.take ms.sum ∧
      (text_chunks t ms).length ≤ ms.length ∧
      (ms.sum < t.length → (text_chunks t ms).length = ms.length) := by
  induction ms with
  | nil =>
    intro t
    simp [text_chunks]
  | cons m ms ih =>
    intro t
    rw [text_chunks]
    have hm := hms m (List.mem_cons_self _ _)
    have hi := ih (fun x hx => hms x (List.mem_cons_of_mem _ hx)) (t.drop m)
    by_cases c : t = []
    · rw [if_pos c, c]
      simp
    · rw [if_neg c]
      refine ⟨?_, ?_, ?_⟩
      · rw [List.flatten_cons, hi.1, List.sum_cons, List.take_add]
      · simp only [List.length_cons]
        omega
      · intro hs
        simp only [List.length_cons, List.sum_cons] at hs ⊢
        rw [hi.2.2 (by rw [List.length_drop]; omega)]

/-- The calls of `WsReadCharsUtf8` up to the end of the text return its
chunks. -/
theorem read_chars_calls_chunks (t : List Nat) (ms : List Nat) (hms : ∀ m ∈ ms, 1 ≤ m) :
    ∀ r : reader, r.on_text t → r.text_conv_offset ≤ t.length →
      read_chars_calls (ms.take (text_chunks (t.drop r.text_conv_offset) ms).length) r =
        ((text_chunks (t.drop r.text_conv_offset) ms).map (fun c => (S_OK, c, c.length)),
          { r with
            text_conv_offset :=
              r.text_conv_offset + (text_chunks (t.drop r.text_conv_offset) ms).flatten.length }) := by
  induction ms with
  | nil =>
    intro r _ _
    simp [text_chunks, read_chars_calls]
  | cons m ms ih =>
    intro r h ho
    have hm := hms m (List.mem_cons_self _ _)
    rw [text_chunks]
    by_cases c : t.drop r.text_conv_offset = []
    · rw [if_pos c]
      simp [read_chars_calls]
    · rw [if_neg c]
      have hlt : r.text_conv_offset < t.length := by
        by_contra hge
        exact c (List.drop_eq_nil_of_le (by omega))
      simp only [List.length_cons, List.take_succ_cons, List.map_cons, List.flatten_cons,
        List.length_append]
      rw [read_chars_calls, WsReadCharsUtf8_chunk r t h m hlt]
      dsimp only
      simp only [Option.getD_some]
      have h2 := on_text_offset r t h (r.text_conv_offset + min (t.length - r.text_conv_offset) m)
      have hi := ih (fun x hx => hms x (List.mem_cons_of_mem _ hx)) _ h2
        (by show r.text_conv_offset + min (t.length - r.text_conv_offset) m ≤ t.length; omega)
      have ed : t.drop (r.text_conv_offset + min (t.length - r.text_conv_offset) m) =
          (t.drop r.text_conv_offset).drop m := by
        rw [List.drop_drop]
        by_cases c2 : m ≤ t.length - r.text_conv_offset
        · rw [Nat.min_eq_right c2, Nat.add_comm]
        · rw [Nat.min_eq_left (by omega), List.drop_eq_nil_of_le (by omega),
            List.drop_eq_nil_of_le (by omega)]
      have ed2 : ({ r with text_conv_offset :=
          r.text_conv_offset + min (t.length - r.text_conv_offset) m } : reader).text_conv_offset =
          r.text_conv_offset + min (t.length - r.text_conv_offset) m := rfl
      rw [ed2, ed] at hi
      rw [hi]
      have el : ((t.drop r.text_conv_offset).take m).length =
          min (t.length - r.text_conv_offset) m := by
        rw [List.length_take, List.length_drop, Nat.min_comm]
      rw [el, Nat.add_assoc]

/-- C36: `WsReadCharsUtf8` returns the text of the current node in chunks
that resume where the last one ended.  With the cursor on a Text node with
the bytes `t`, a buffer that is not null and the conversion offset 0, the
successive calls with the values `ms` of `max_count`, all at least 1, return
`S_OK` with the chunks of `t`, one chunk per call up to the end of `t` and
each with its length as the count; the chunks put together are the first
`ms.sum` bytes of `t`, and all of `t` when that sum reaches its length.  At
an offset `o` before the end one call returns the next `min (|t| - o) m`
bytes and moves the offset by this count; at the offset `|t|` the call
returns the count 0, copies nothing and returns what one `read_node`
returns, with the reader as this `read_node` leaves it. -/
theorem WsReadCharsUtf8_resumable (r : reader) (t : List Nat) (h : r.on_text t)
    (hz : r.text_conv_offset = 0) (ms : List Nat) (hms : ∀ m ∈ ms, 1 ≤ m) :
    read_chars_calls (ms.take (text_chunks t ms).length) r =
      ((text_chunks t ms).map (fun c => (S_OK, c, c.length)),
        { r with text_conv_offset := (text_chunks t ms).flatten.length }) ∧
    (text_chunks t ms).flatten = t.take ms.sum ∧
    (t.length ≤ ms.sum → (text_chunks t ms).flatten = t) ∧
    (∀ o m : Nat, o < t.length →
      WsReadCharsUtf8 (some { r with text_conv_offset := o }) true m true =
        (S_OK, some { r with text_conv_offset := o + min (t.length - o) m },
          (t.drop o).take m, min (t.length - o) m)) ∧
    (∀ m : Nat,
      WsReadCharsUtf8 (some { r with text_conv_offset := t.length }) true m true =
        ((read_node { r with text_conv_offset := t.length }).1,
          some (read_node { r with text_conv_offset := t.length }).2, [], 0)) := by
  have hc := read_chars_calls_chunks t ms hms r h (by omega)
  rw [hz] at hc
  simp only [List.drop_zero, Nat.zero_add] at hc
  have hs := (text_chunks_spec ms hms t).1
  refine ⟨hc, hs, fun hle => ?_, fun o m ho => ?_, fun m => ?_⟩
  · rw [hs, List.take_of_length_le hle]
  · exact WsReadCharsUtf8_chunk _ t (on_text_offset r t h o) m ho
  · exact WsReadCharsUtf8_end _ t (on_text_offset r t h t.length) m rfl

theorem hello_reader_on_text : hello_reader.on_text [104, 101, 108, 108, 111] :=
  ⟨by decide, by decide, by decide, by decide, by decide⟩

theorem WsReadCharsUtf8_resumable_witness :
    hello_reader.on_text [104, 101, 108, 108, 111] ∧ hello_reader.text_conv_offset = 0 ∧
    text_chunks [104, 101, 108, 108, 111] [2, 2, 2] = [[104, 101], [108, 108], [111]] ∧
    (read_chars_calls
        ([2, 2, 2].take (text_chunks [104, 101, 108, 108, 111] [2, 2, 2]).length) hello_reader =
      ((text_chunks [104, 101, 108, 108, 111] [2, 2, 2]).map (fun c => (S_OK, c, c.length)),
        { hello_reader with
          text_conv_offset := (text_chunks [104, 101, 108, 108, 111] [2, 2, 2]).flatten.length }) ∧
    (text_chunks [104, 101, 108, 108, 111] [2, 2, 2]).flatten =
      [104, 101, 108, 108, 111].take [2, 2, 2].sum ∧
    ([104, 101, 108, 108, 111].length ≤ [2, 2, 2].sum →
      (text_chunks [104, 101, 108, 108, 111] [2, 2, 2]).flatten = [104, 101, 108, 108, 111]) ∧
    (∀ o m : Nat, o < [104, 101, 108, 108, 111].length →
      WsReadCharsUtf8 (some { hello_reader with text_conv_offset := o }) true m true =
        (S_OK,
          some { hello_reader with
            text_conv_offset := o + min ([104, 101, 108, 108, 111].length - o) m },
          ([104, 101, 108, 108, 111].drop o).take m,
          min ([104, 101, 108, 108, 111].length - o) m)) ∧
    (∀ m : Nat,
      WsReadCharsUtf8
          (some { hello_reader with text_conv_offset := [104, 101, 108, 108, 111].length })
          true m true =
        ((read_node
            { hello_reader with text_conv_offset := [104, 101, 108, 108, 111].length }).1,
          some (read_node
            { hello_reader with text_conv_offset := [104, 101, 108, 108, 111].length }).2,
          [], 0))) :=
  ⟨hello_reader_on_text, by decide, by decide,
    WsReadCharsUtf8_resumable hello_reader [104, 101, 108, 108, 111] hello_reader_on_text
      (by decide) [2, 2, 2] (by decide)⟩

/-- The calls of `WsReadCharsUtf8` on the text `hello` with room for two
bytes: three chunks, and then the call that goes on to the next node, the
EndElement node. -/
theorem WsReadCharsUtf8_examples :
    (read_chars_calls [2, 2, 2, 2] hello_reader).1 =
      [(S_OK, [104, 101], 2), (S_OK, [108, 108], 2), (S_OK, [111], 1), (S_OK, [], 0)] ∧
    (read_chars_calls [2, 2, 2, 2] hello_reader).2.state = READER_STATE_ENDELEMENT ∧
    (WsReadCharsUtf8 (some hello_reader) true 0 true).2.2 = ([], 0) ∧
    (WsReadCharsUtf8 (some hello_reader) true 2 false).1 = E_INVALIDARG ∧
    (WsReadCharsUtf8 (some init_reader.2) true 2 true).1 = WS_E_INVALID_OPERATION := by
  decide

theorem read_type_struct_field_eq (read_type : read_type_fn) (ws_alloc : Nat → Bool)
    (sizes : type_sizes) (fuel : Nat) (r : reader) (desc : WS_FIELD_DESCRIPTION)
    (buf : List (Nat × field_value)) (offset : Nat) (option : WS_READ_OPTION)
    (hflags : desc.options % 2 ^ 32 &&& (0xffffffff ^^^ (WS_FIELD_POINTER ||| WS_FIELD_OPTIONAL |||
      WS_FIELD_NILLABLE ||| WS_FIELD_NILLABLE_ITEM)) = 0)
    (hopt : get_field_read_option desc.type desc.options = some option)
    (hmap : desc.mapping = WS_ATTRIBUTE_FIELD_MAPPING ∨ desc.mapping = WS_ELEMENT_FIELD_MAPPING ∨
      desc.mapping = WS_REPEATING_ELEMENT_FIELD_MAPPING ∨ desc.mapping = WS_TEXT_FIELD_MAPPING) :
    read_type_struct_field read_type ws_alloc sizes fuel r (some desc) buf offset =
      (read_type_struct_field_read read_type ws_alloc sizes fuel r desc option
        (if option = WS_READ_REQUIRED_VALUE ∨ option = WS_READ_NILLABLE_VALUE then
          get_type_size sizes desc.type desc.typeDescription
        else sizes.pointer) buf offset).map (read_type_struct_field_result desc option offset) := by
  unfold read_type_struct_field
  simp only [hopt]
  rw [if_neg (not_not.mpr hflags)]
  rcases hmap with h | h | h | h <;> rw [h]

theorem read_type_struct_field_other (read_type : read_type_fn) (ws_alloc : Nat → Bool)
    (sizes : type_sizes) (fuel : Nat) (r : reader) (desc : WS_FIELD_DESCRIPTION)
    (buf : List (Nat × field_value)) (offset : Nat)
    (hmap : ¬ (desc.mapping = WS_ATTRIBUTE_FIELD_MAPPING ∨
      desc.mapping = WS_ELEMENT_FIELD_MAPPING ∨
      desc.mapping = WS_REPEATING_ELEMENT_FIELD_MAPPING ∨
      desc.mapping = WS_TEXT_FIELD_MAPPING)) :
    ∃ hr, read_type_struct_field read_type ws_alloc sizes fuel r (some desc) buf offset =
      some (hr, r, buf) ∧ hr ≠ WS_E_INVALID_FORMAT := by
  unfold read_type_struct_field
  dsimp only
  split_ifs
  · exact ⟨_, rfl, by decide⟩
  · cases get_field_read_option desc.type desc.options with
    | none => exact ⟨_, rfl, by decide⟩
    | some option =>
      dsimp only
      cases hm : desc.mapping <;> simp only [hm, not_or, not_true_eq_false, false_and, and_false,
        reduceCtorEq] at hmap <;> exact ⟨_, rfl, by decide⟩

/-- C34: for every field descriptor whose options are supported and whose
mapping is one that reads (attribute, element, repeating element or text),
`read_type_struct_field` returns a result as soon as the read of its
`switch` does, with the same reader.  When that read gives
`WS_E_INVALID_FORMAT`, the result is `WS_E_INVALID_FORMAT` with the
structure as the read left it if the read option of the field is
`WS_READ_REQUIRED_VALUE` or `WS_READ_REQUIRED_POINTER`; it is `S_OK` with the
default value of the descriptor stored in the field, or with the structure
as the read left it when the descriptor has no default value, if the option
is `WS_READ_NILLABLE_VALUE`; and it is `S_OK` with a null pointer stored in
the field if the option is `WS_READ_OPTIONAL_POINTER` or
`WS_READ_NILLABLE_POINTER`.  Every other result of the read is returned as
it is, with the structure as the read left it. -/
theorem read_type_struct_field_invalid_format (read_type : read_type_fn) (ws_alloc : Nat → Bool)
    (sizes : type_sizes) (fuel : Nat) (r : reader) (desc : WS_FIELD_DESCRIPTION)
    (buf : List (Nat × field_value)) (offset : Nat) (option : WS_READ_OPTION)
    (x : HRESULT × reader × List (Nat × field_value))
    (hflags : desc.options % 2 ^ 32 &&& (0xffffffff ^^^ (WS_FIELD_POINTER ||| WS_FIELD_OPTIONAL |||
      WS_FIELD_NILLABLE ||| WS_FIELD_NILLABLE_ITEM)) = 0)
    (hopt : get_field_read_option desc.type desc.options = some option)
    (hmap : desc.mapping = WS_ATTRIBUTE_FIELD_MAPPING ∨ desc.mapping = WS_ELEMENT_FIELD_MAPPING ∨
      desc.mapping = WS_REPEATING_ELEMENT_FIELD_MAPPING ∨ desc.mapping = WS_TEXT_FIELD_MAPPING)
    (hread : read_type_struct_field_read read_type ws_alloc sizes fuel r desc option
      (if option = WS_READ_REQUIRED_VALUE ∨ option = WS_READ_NILLABLE_VALUE then
        get_type_size sizes desc.type desc.typeDescription
      else sizes.pointer) buf offset = some x) :
    ∃ y, read_type_struct_field read_type ws_alloc sizes fuel r (some desc) buf offset = some y ∧
      y.2.1 = x.2.1 ∧
      (x.1 ≠ WS_E_INVALID_FORMAT → y = x) ∧
      (x.1 = WS_E_INVALID_FORMAT →
        (option = WS_READ_REQUIRED_VALUE ∨ option = WS_READ_REQUIRED_POINTER) →
        y.1 = WS_E_INVALID_FORMAT ∧ y.2.2 = x.2.2) ∧
      (x.1 = WS_E_INVALID_FORMAT → option = WS_READ_NILLABLE_VALUE →
        y.1 = S_OK ∧
        (∀ v, desc.defaultValue = some v →
          y.2.2 = store_field x.2.2 offset (field_value.value (mem_value.bytes v))) ∧
        (desc.defaultValue = none → y.2.2 = x.2.2)) ∧
      (x.1 = WS_E_INVALID_FORMAT →
        (option = WS_READ_OPTIONAL_POINTER ∨ option = WS_READ_NILLABLE_POINTER) →
        y.1 = S_OK ∧ y.2.2 = store_field x.2.2 offset (field_value.value mem_value.null)) := by
  refine ⟨read_type_struct_field_result desc option offset x, ?_, ?_, ?_, ?_, ?_, ?_⟩
  · rw [read_type_struct_field_eq read_type ws_alloc sizes fuel r desc buf offset option hflags
      hopt hmap, hread]
    rfl
  · unfold read_type_struct_field_result
    split_ifs
    · cases option <;> rfl
    · rfl
  · intro h
    unfold read_type_struct_field_result
    rw [if_neg h]
  · intro h ho
    unfold read_type_struct_field_result
    rw [if_pos h]
    rcases ho with ho | ho <;> rw [ho] <;> exact ⟨rfl, rfl⟩
  · intro h ho
    unfold read_type_struct_field_result
    rw [if_pos h, ho]
    refine ⟨rfl, fun v hv => ?_, fun hv => ?_⟩
    · dsimp only
      rw [hv]
    · dsimp only
      rw [hv]
  · intro h ho
    unfold read_type_struct_field_result
    rw [if_pos h]
    rcases ho with ho | ho <;> rw [ho] <;> exact ⟨rfl, rfl⟩

theorem read_type_struct_field_invalid_format_witness :
    optional_int32_field.options % 2 ^ 32 &&& (0xffffffff ^^^ (WS_FIELD_POINTER |||
      WS_FIELD_OPTIONAL ||| WS_FIELD_NILLABLE ||| WS_FIELD_NILLABLE_ITEM)) = 0 ∧
    get_field_read_option optional_int32_field.type optional_int32_field.options =
      some WS_READ_NILLABLE_VALUE ∧
    read_type_struct_field_read read_type_missing (fun _ => true) sizes_64 8 (WsSetInput [])
      optional_int32_field WS_READ_NILLABLE_VALUE 4 [] 0 =
      some (WS_E_INVALID_FORMAT, WsSetInput [], []) ∧
    read_type_struct_field read_type_missing (fun _ => true) sizes_64 8 (WsSetInput [])
      (some optional_int32_field) [] 0 =
      some (S_OK, WsSetInput [], [(0, field_value.value (mem_value.bytes [7, 0, 0, 0]))]) ∧
    ∃ y, read_type_struct_field read_type_missing (fun _ => true) sizes_64 8 (WsSetInput [])
        (some optional_int32_field) [] 0 = some y ∧
      y.2.1 = (WsSetInput []) ∧
      (WS_E_INVALID_FORMAT ≠ WS_E_INVALID_FORMAT →
        y = (WS_E_INVALID_FORMAT, WsSetInput [], [])) ∧
      (WS_E_INVALID_FORMAT = WS_E_INVALID_FORMAT →
        (WS_READ_NILLABLE_VALUE = WS_READ_REQUIRED_VALUE ∨
          WS_READ_NILLABLE_VALUE = WS_READ_REQUIRED_POINTER) →
        y.1 = WS_E_INVALID_FORMAT ∧ y.2.2 = []) ∧
      (WS_E_INVALID_FORMAT = WS_E_INVALID_FORMAT →
        WS_READ_NILLABLE_VALUE = WS_READ_NILLABLE_VALUE →
        y.1 = S_OK ∧
        (∀ v, optional_int32_field.defaultValue = some v →
          y.2.2 = store_field [] 0 (field_value.value (mem_value.bytes v))) ∧
        (optional_int32_field.defaultValue = none → y.2.2 = [])) ∧
      (WS_E_INVALID_FORMAT = WS_E_INVALID_FORMAT →
        (WS_READ_NILLABLE_VALUE = WS_READ_OPTIONAL_POINTER ∨
          WS_READ_NILLABLE_VALUE = WS_READ_NILLABLE_POINTER) →
        y.1 = S_OK ∧ y.2.2 = store_field [] 0 (field_value.value mem_value.null)) :=
  ⟨by decide, by decide, rfl, rfl,
    read_type_struct_field_invalid_format read_type_missing (fun _ => true) sizes_64 8
      (WsSetInput []) optional_int32_field [] 0 WS_READ_NILLABLE_VALUE
      (WS_E_INVALID_FORMAT, WsSetInput [], []) (by decide) (by decide)
      (Or.inr (Or.inl rfl)) rfl⟩

theorem item_reads_length (read_type : read_type_fn) (desc : WS_FIELD_DESCRIPTION)
    (option : WS_READ_OPTION) (item_size : Nat) :
    ∀ (n : Nat) (r rn : reader) (its : List mem_value),
      item_reads read_type desc option item_size n r = some (rn, its) → its.length = n := by
  intro n
  induction n with
  | zero =>
    intro r rn its h
    simp only [item_reads, Option.some.injEq, Prod.mk.injEq] at h
    rw [← h.2]
    rfl
  | succ n ih =>
    intro r rn its h
    simp only [item_reads] at h
    split_ifs at h with h1
    cases h2 : item_reads read_type desc option item_size n
      (read_item read_type desc option item_size r).2.1 with
    | none => rw [h2] at h; cases h
    | some p =>
      rw [h2] at h
      simp only [Option.map_some', Option.some.injEq, Prod.mk.injEq] at h
      rw [← h.2, List.length_cons, ih _ p.1 p.2 h2]

theorem read_type_repeating_element_loop_reads (read_type : read_type_fn) (ws_alloc : Nat → Bool)
    (desc : WS_FIELD_DESCRIPTION) (option : WS_READ_OPTION) (item_size : Nat)
    (halloc : ∀ k, ws_alloc k = true) :
    ∀ (n fuel : Nat) (r : reader) (items : List mem_value) (nb : Nat) (rn : reader)
      (its : List mem_value),
      item_reads read_type desc option item_size n r = some (rn, its) →
      (read_item read_type desc option item_size rn).1 ≠ S_OK → n < fuel →
      read_type_repeating_element_loop read_type ws_alloc desc option item_size fuel r items nb =
        some (if (read_item read_type desc option item_size rn).1 = WS_E_INVALID_FORMAT then S_OK
            else (read_item read_type desc option item_size rn).1,
          (read_item read_type desc option item_size rn).2.1, items ++ its) := by
  intro n
  induction n with
  | zero =>
    intro fuel r items nb rn its h hl hf
    obtain ⟨f, rfl⟩ : ∃ f, fuel = f + 1 := ⟨fuel - 1, by omega⟩
    simp only [item_reads, Option.some.injEq, Prod.mk.injEq] at h
    obtain ⟨rfl, rfl⟩ := h
    unfold read_type_repeating_element_loop
    rw [if_neg (by rw [halloc]; simp)]
    dsimp only
    change (if (read_item read_type desc option item_size r).1 = WS_E_INVALID_FORMAT then _
      else _) = _
    by_cases h1 : (read_item read_type desc option item_size r).1 = WS_E_INVALID_FORMAT
    · rw [if_pos h1, if_pos h1, List.append_nil]
      rfl
    · rw [if_neg h1, if_neg h1, List.append_nil]
      change (if (read_item read_type desc option item_size r).1 ≠ S_OK then _ else _) = _
      rw [if_pos hl]
      rfl
  | succ n ih =>
    intro fuel r items nb rn its h hl hf
    obtain ⟨f, rfl⟩ : ∃ f, fuel = f + 1 := ⟨fuel - 1, by omega⟩
    simp only [item_reads] at h
    split_ifs at h with h1
    cases h2 : item_reads read_type desc option item_size n
      (read_item read_type desc option item_size r).2.1 with
    | none => rw [h2] at h; cases h
    | some p =>
      rw [h2] at h
      simp only [Option.map_some', Option.some.injEq, Prod.mk.injEq] at h
      obtain ⟨rfl, rfl⟩ := h
      unfold read_type_repeating_element_loop
      rw [if_neg (by rw [halloc]; simp)]
      dsimp only
      change (if (read_item read_type desc option item_size r).1 = WS_E_INVALID_FORMAT then _
        else if (read_item read_type desc option item_size r).1 ≠ S_OK then _
        else read_type_repeating_element_loop read_type ws_alloc desc option item_size f
          (read_item read_type desc option item_size r).2.1
          (items ++ [(read_item read_type desc option item_size r).2.2.getD
            (mem_value.bytes (List.replicate item_size 0))]) _) = _
      rw [if_neg (by rw [h1]; decide), if_neg (not_not.mpr h1),
        ih f _ _ _ p.1 p.2 h2 hl (by omega), List.append_assoc]
      rfl

/-- C35: for a field descriptor without wrapper element whose read option
is defined, on a heap that has room for every block, if the read of an item
returns `S_OK` exactly `n` times (`n < 2^32`, `n = 0` included) and then
another result, `read_type_repeating_element` returns for every bound above
`n`, with the reader as the last read left it.  When the last read gave
`WS_E_INVALID_FORMAT`, the result is `S_OK` with the count `n` and the `n`
items in the order they were read, provided the descriptor has no item
range or `minItemCount <= n <= maxItemCount`, and `WS_E_INVALID_FORMAT`
without a store when `n` is outside the item range.  When the last read gave
any other error, this error is the result and nothing is stored. -/
theorem read_type_repeating_element_count (read_type : read_type_fn) (ws_alloc : Nat → Bool)
    (sizes : type_sizes) (fuel : Nat) (r : reader) (desc : WS_FIELD_DESCRIPTION)
    (option : WS_READ_OPTION) (n : Nat) (rn : reader) (items : List mem_value)
    (hloc : desc.localName = none)
    (hopt : get_field_read_option desc.type desc.options = some option)
    (halloc : ∀ k, ws_alloc k = true)
    (hreads : item_reads read_type desc option (repeating_item_size sizes desc option) n r =
      some (rn, items))
    (hlast : (read_item read_type desc option (repeating_item_size sizes desc option) rn).1 ≠ S_OK)
    (hn : n < 2 ^ 32) (hfuel : n < fuel) :
    items.length = n ∧
    ((read_item read_type desc option (repeating_item_size sizes desc option) rn).1 =
        WS_E_INVALID_FORMAT →
      (∀ range, desc.itemRange = some range →
        range.minItemCount ≤ n ∧ n ≤ range.maxItemCount) →
      read_type_repeating_element read_type ws_alloc sizes fuel r desc =
        some (S_OK, (read_item read_type desc option (repeating_item_size sizes desc option) rn).2.1,
          some (items, n))) ∧
    ((read_item read_type desc option (repeating_item_size sizes desc option) rn).1 =
        WS_E_INVALID_FORMAT →
      (∀ range, desc.itemRange = some range →
        n < range.minItemCount ∨ range.maxItemCount < n) → desc.itemRange ≠ none →
      read_type_repeating_element read_type ws_alloc sizes fuel r desc =
        some (WS_E_INVALID_FORMAT,
          (read_item read_type desc option (repeating_item_size sizes desc option) rn).2.1, none)) ∧
    ((read_item read_type desc option (repeating_item_size sizes desc option) rn).1 ≠
        WS_E_INVALID_FORMAT →
      read_type_repeating_element read_type ws_alloc sizes fuel r desc =
        some ((read_item read_type desc option (repeating_item_size sizes desc option) rn).1,
          (read_item read_type desc option (repeating_item_size sizes desc option) rn).2.1,
          none)) := by
  have hlen := item_reads_length read_type desc option _ n r rn items hreads
  have hloop := read_type_repeating_element_loop_reads read_type ws_alloc desc option
    (repeating_item_size sizes desc option) halloc n fuel r [] 1 rn items hreads hlast hfuel
  rw [List.nil_append] at hloop
  have hmod : items.length % 2 ^ 32 = n := by rw [hlen]; exact Nat.mod_eq_of_lt hn
  have hstart : read_type_repeating_element read_type ws_alloc sizes fuel r desc =
      match read_type_repeating_element_loop read_type ws_alloc desc option
          (repeating_item_size sizes desc option) fuel r [] 1 with
      | none => none
      | some l =>
        if l.1 ≠ S_OK then some (l.1, l.2.1, none)
        else if (desc.itemRange.map (fun range =>
            decide (l.2.2.length % 2 ^ 32 < range.minItemCount ∨
              l.2.2.length % 2 ^ 32 > range.maxItemCount))).getD false then
          some (WS_E_INVALID_FORMAT, l.2.1, none)
        else some (S_OK, l.2.1, some (l.2.2, l.2.2.length % 2 ^ 32)) := by
    unfold read_type_repeating_element
    simp only [hopt, hloc, Option.isSome_none, Bool.false_eq_true, if_false, ne_eq,
      not_true_eq_false, halloc]
    rfl
  rw [hstart, hloop]
  dsimp only
  refine ⟨hlen, fun h hr => ?_, fun h hr hne => ?_, fun h => ?_⟩
  · rw [if_pos h, if_neg (by decide), hmod]
    cases hd : desc.itemRange with
    | none => rfl
    | some range =>
      have := hr range hd
      rw [if_neg]
      simp only [Option.map_some', Option.getD_some, decide_eq_true_eq]
      omega
  · rw [if_pos h, if_neg (by decide), hmod]
    cases hd : desc.itemRange with
    | none => exact absurd hd hne
    | some range =>
      have := hr range hd
      rw [if_pos]
      simp only [Option.map_some', Option.getD_some, decide_eq_true_eq]
      omega
  · rw [if_neg h, if_pos hlast]

theorem read_type_repeating_element_examples :
    read_type_repeating_element read_type_digit_one (fun _ => true) sizes_64 8
        (WsSetInput [50]) (repeating_int8_field none) =
      some (S_OK, WsSetInput [50], some ([], 0)) ∧
    read_type_repeating_element read_type_digit_one (fun _ => true) sizes_64 8
        (WsSetInput [49, 49, 50]) (repeating_int8_field (some ⟨3, 4⟩)) =
      some (WS_E_INVALID_FORMAT, read_skip (WsSetInput [49, 49, 50]) 2, none) ∧
    read_type_repeating_element read_type_digit_one_or_fail (fun _ => true) sizes_64 8
        (WsSetInput [49, 49, 50]) (repeating_int8_field none) =
      some (E_INVALIDARG, read_skip (WsSetInput [49, 49, 50]) 2, none) ∧
    read_type_repeating_element read_type_digit_one (fun k => decide (k ≤ 1)) sizes_64 8
        (WsSetInput [49, 49, 50]) (repeating_int8_field none) =
      some (WS_E_QUOTA_EXCEEDED, read_skip (WsSetInput [49, 49, 50]) 1, none) :=
  ⟨rfl, rfl, rfl, rfl⟩

theorem read_type_repeating_element_count_witness :
    (repeating_int8_field (some ⟨1, 3⟩)).localName = none ∧
    get_field_read_option (repeating_int8_field (some ⟨1, 3⟩)).type
      (repeating_int8_field (some ⟨1, 3⟩)).options = some WS_READ_REQUIRED_VALUE ∧
    item_reads read_type_digit_one (repeating_int8_field (some ⟨1, 3⟩)) WS_READ_REQUIRED_VALUE
      (repeating_item_size sizes_64 (repeating_int8_field (some ⟨1, 3⟩)) WS_READ_REQUIRED_VALUE) 2
      (WsSetInput [49, 49, 50]) =
      some (read_skip (WsSetInput [49, 49, 50]) 2, [mem_value.bytes [1], mem_value.bytes [1]]) ∧
    (read_item read_type_digit_one (repeating_int8_field (some ⟨1, 3⟩)) WS_READ_REQUIRED_VALUE
      (repeating_item_size sizes_64 (repeating_int8_field (some ⟨1, 3⟩)) WS_READ_REQUIRED_VALUE)
      (read_skip (WsSetInput [49, 49, 50]) 2)) =
      (WS_E_INVALID_FORMAT, read_skip (WsSetInput [49, 49, 50]) 2, none) ∧
    read_type_repeating_element read_type_digit_one (fun _ => true) sizes_64 8
        (WsSetInput [49, 49, 50]) (repeating_int8_field (some ⟨1, 3⟩)) =
      some (S_OK, read_skip (WsSetInput [49, 49, 50]) 2,
        some ([mem_value.bytes [1], mem_value.bytes [1]], 2)) :=
  ⟨rfl, by decide, rfl, rfl,
    ((read_type_repeating_element_count read_type_digit_one (fun _ => true) sizes_64 8
      (WsSetInput [49, 49, 50]) (repeating_int8_field (some ⟨1, 3⟩)) WS_READ_REQUIRED_VALUE 2
      (read_skip (WsSetInput [49, 49, 50]) 2) [mem_value.bytes [1], mem_value.bytes [1]]
      rfl (by decide) (fun _ => rfl) rfl (by decide) (by decide) (by decide)).2.1 rfl
      (fun range h => by cases h; exact ⟨by decide, by decide⟩))⟩

/-! ## Interning in the shared dictionary -/

theorem move_in_block_bytes_4 (d : Dictionary) (k size : Nat) (hk : k ≤ d.stringCount)
    (hs : d.stringCount + 1 ≤ size) : move_in_block pointer_size.bytes_4 d k size := by
  show (k + 1) * 4 + (d.stringCount - k) * 4 ≤ size * 4
  omega

theorem move_in_block_bytes_8 (d : Dictionary) (k size : Nat) (hk : k ≤ d.stringCount) :
    move_in_block pointer_size.bytes_8 d k size ↔ 2 * d.stringCount + 1 ≤ size + k := by
  show (k + 1) * 4 + (d.stringCount - k) * 8 ≤ size * 4 ↔ _
  omega

theorem insert_string_eq (ptr : pointer_size) (d : Dictionary) (hI : d.Invariant) (s : List Nat)
    (k : Nat) (hk : k ≤ d.stringCount) :
    (d.stringCount < 2048 → ∃ size : Nat,
      d.stringCount + 1 ≤ size ∧ (size = 256 ∨ size = 512 ∨ size = 1024 ∨ size = 2048) ∧
      (move_in_block ptr d k size →
        insert_string ptr d s k = some (some d.stringCount, d.inserted s k size)) ∧
      (¬ move_in_block ptr d k size → insert_string ptr d s k = none)) ∧
    (2048 ≤ d.stringCount → insert_string ptr d s k = some (none, d)) := by
  obtain ⟨hg1, hg2⟩ := grow_dict_one d hI
  constructor
  · intro hlt
    obtain ⟨size, hg, h1, h2⟩ := hg1 hlt
    have hmod : (d.stringCount + 2 ^ 32 - k) % 2 ^ 32 = d.stringCount - k := by omega
    refine ⟨size, h1, h2, ?_, ?_⟩
    · intro hb
      unfold move_in_block at hb
      unfold insert_string
      simp only [hg, hmod, Bool.not_true, Bool.false_eq_true, if_false]
      rw [if_neg (by omega)]
      rfl
    · intro hb
      unfold move_in_block at hb
      unfold insert_string
      simp only [hg, hmod, Bool.not_true, Bool.false_eq_true, if_false]
      rw [if_pos (by omega)]
  · intro hge
    unfold insert_string
    simp only [hg2 hge]
    rfl

/-- What `add_xml_string` and `dup_xml_string` do to a string that is not
backed by a dictionary, in a state that satisfies the invariant. -/
theorem intern_cases (ptr : pointer_size) (d : Dictionary) (hI : d.Invariant)
    (str : WS_XML_STRING) (hnull : str.dictionary = none) :
    (∃ k : Nat, k < d.stringCount ∧ (d.strings.getD k default).bytes = str.bytes ∧
      add_xml_string ptr d str = some (S_OK, d.strings.getD k default, d) ∧
      dup_xml_string ptr d str = some (d.strings.getD k default, d)) ∨
    ((∀ k : Nat, k < d.stringCount → (d.strings.getD k default).bytes ≠ str.bytes) ∧
      (d.stringCount < 2048 → ∃ k size : Nat, k ≤ d.stringCount ∧
        find_string d str.bytes = ((k : Int), none) ∧
        (∀ i : Nat, i < k → cmp_string (d.sorted_entry i).bytes str.bytes < 0) ∧
        (∀ i : Nat, k ≤ i → i < d.stringCount →
          cmp_string str.bytes (d.sorted_entry i).bytes < 0) ∧
        d.stringCount + 1 ≤ size ∧
        (size = 256 ∨ size = 512 ∨ size = 1024 ∨ size = 2048) ∧
        (move_in_block ptr d k size →
          add_xml_string ptr d str =
            some (S_OK, ⟨str.bytes, some DictionaryRef.dict_builtin, d.stringCount⟩,
              d.inserted str.bytes k size) ∧
          dup_xml_string ptr d str =
            some (⟨str.bytes, some DictionaryRef.dict_builtin, d.stringCount⟩,
              d.inserted str.bytes k size)) ∧
        (¬ move_in_block ptr d k size →
          add_xml_string ptr d str = none ∧ dup_xml_string ptr d str = none)) ∧
      (2048 ≤ d.stringCount →
        add_xml_string ptr d str = some (WS_E_QUOTA_EXCEEDED, str, d) ∧
        dup_xml_string ptr d str = some (⟨str.bytes, none, 0⟩, d))) := by
  have hsome : str.dictionary.isSome = false := by simp [hnull]
  rcases find_string_cases d str.bytes hI.increasing with ⟨i, hi, hbytes, hfind⟩ | ⟨k, hk, hfind, hlo, hhi⟩
  · left
    have hlt := hI.sorted_lt i hi
    have hid : (d.sorted_entry i).id = d.dict_sorted.getD i 0 := (hI.ids _ hlt).1
    refine ⟨d.dict_sorted.getD i 0, hlt, hbytes, ?_, ?_⟩
    · unfold add_xml_string
      simp only [hsome, Bool.false_eq_true, if_false, hfind, if_true, Option.getD_some, hid]
    · unfold dup_xml_string
      simp only [hsome, Bool.false_eq_true, if_false, hfind, if_true, Option.getD_some, hid]
  · right
    have hne : ¬ ((k : Int) = -1) := by omega
    have hnot : ∀ j : Nat, j < d.stringCount → (d.strings.getD j default).bytes ≠ str.bytes := by
      intro j hj hjb
      obtain ⟨i, hi, hij⟩ := hI.sorted_cover j hj
      have he : (d.sorted_entry i).bytes = str.bytes := by
        unfold Dictionary.sorted_entry
        rw [hij]
        exact hjb
      by_cases hik : i < k
      · have h1 := hlo i hik
        have h2 := (cmp_string_eq_zero _ _).mpr he
        omega
      · have h1 := hhi i (by omega) hi
        have h2 := (cmp_string_eq_zero _ _).mpr he.symm
        omega
    obtain ⟨hins1, hins2⟩ := insert_string_eq ptr d hI str.bytes k hk
    refine ⟨hnot, ?_, ?_⟩
    · intro hlt
      obtain ⟨size, hs1, hs2, hin, hout⟩ := hins1 hlt
      have hnew : (d.inserted str.bytes k size).strings.getD d.stringCount default =
          ⟨str.bytes, some DictionaryRef.dict_builtin, d.stringCount⟩ := by
        unfold Dictionary.inserted
        simp only
        have h1 : ¬ d.stringCount < d.strings.length := by
          unfold Dictionary.stringCount
          omega
        have h2 : d.stringCount = d.strings.length := rfl
        rw [getD_append_one, if_neg h1, if_pos h2]
      refine ⟨k, size, hk, hfind, hlo, hhi, hs1, hs2, ?_, ?_⟩
      · intro hb
        have hins := hin hb
        constructor
        · unfold add_xml_string
          simp only [hsome, Bool.false_eq_true, if_false, hfind, hne, Int.toNat_ofNat, hins, hnew]
        · unfold dup_xml_string
          simp only [hsome, Bool.false_eq_true, if_false, hfind, hne, Int.toNat_ofNat, hins, hnew]
      · intro hb
        have hins := hout hb
        constructor
        · unfold add_xml_string
          simp only [hsome, Bool.false_eq_true, if_false, hfind, hne, Int.toNat_ofNat, hins]
        · unfold dup_xml_string
          simp only [hsome, Bool.false_eq_true, if_false, hfind, hne, Int.toNat_ofNat, hins]
    · intro hge
      have hins := hins2 hge
      constructor
      · unfold add_xml_string
        simp only [hsome, Bool.false_eq_true, if_false, hfind, hne, Int.toNat_ofNat, hins]
      · unfold dup_xml_string
        simp only [hsome, Bool.false_eq_true, if_false, hfind, hne, Int.toNat_ofNat, hins]

theorem add_xml_string_backed (ptr : pointer_size) (d : Dictionary) (str : WS_XML_STRING)
    (h : str.dictionary ≠ none) :
    add_xml_string ptr d str = some (S_OK, str, d) ∧ dup_xml_string ptr d str = some (str, d) := by
  have hsome : str.dictionary.isSome = true := by
    cases hd : str.dictionary with
    | none => exact absurd hd h
    | some r => rfl
  constructor
  · unfold add_xml_string
    rw [if_pos hsome]
  · unfold dup_xml_string
    rw [if_pos hsome]

/-- One interning operation that stays in its blocks keeps the invariant. -/
theorem intern_invariant (ptr : pointer_size) (d : Dictionary) (hI : d.Invariant)
    (str : WS_XML_STRING) :
    (∀ x, add_xml_string ptr d str = some x → x.2.2.Invariant) ∧
    (∀ x, dup_xml_string ptr d str = some x → x.2.Invariant) := by
  by_cases hnull : str.dictionary = none
  · rcases intern_cases ptr d hI str hnull with ⟨k, _, _, hadd, hdup⟩ | ⟨_, h1, h2⟩
    · rw [hadd, hdup]
      constructor
      · intro x hx
        cases hx
        exact hI
      · intro x hx
        cases hx
        exact hI
    · by_cases hlt : d.stringCount < 2048
      · obtain ⟨k, size, hk, _, hlo, hhi, hs1, hs2, hin, hout⟩ := h1 hlt
        have hinv := inserted_invariant d hI str.bytes k size hk hlo hhi hs1 hs2
        by_cases hb : move_in_block ptr d k size
        · rw [(hin hb).1, (hin hb).2]
          constructor
          · intro x hx
            cases hx
            exact hinv
          · intro x hx
            cases hx
            exact hinv
        · rw [(hout hb).1, (hout hb).2]
          constructor
          · intro x hx
            cases hx
          · intro x hx
            cases hx
      · rw [(h2 (by omega)).1, (h2 (by omega)).2]
        constructor
        · intro x hx
          cases hx
          exact hI
        · intro x hx
          cases hx
          exact hI
  · rw [(add_xml_string_backed ptr d str hnull).1, (add_xml_string_backed ptr d str hnull).2]
    constructor
    · intro x hx
      cases hx
      exact hI
    · intro x hx
      cases hx
      exact hI

theorem reachable_invariant (ptr : pointer_size) (d : Dictionary)
    (h : Dictionary.Reachable ptr d) : d.Invariant := by
  induction h with
  | empty => exact empty_invariant
  | add d str x _ hx ih => exact (intern_invariant ptr d ih str).1 x hx
  | dup d str x _ hx ih => exact (intern_invariant ptr d ih str).2 x hx

theorem intern_present (ptr : pointer_size) (d : Dictionary) (hI : d.Invariant)
    (e : WS_XML_STRING) (he : e ∈ d.strings) (str : WS_XML_STRING)
    (hnull : str.dictionary = none) (hbytes : str.bytes = e.bytes) :
    add_xml_string ptr d str = some (S_OK, e, d) ∧ dup_xml_string ptr d str = some (e, d) := by
  obtain ⟨k', hk', hke⟩ := (mem_strings_iff d e).mp he
  rcases intern_cases ptr d hI str hnull with ⟨k, hk, hkb, hadd, hdup⟩ | ⟨hnot, _, _⟩
  · have hkk : k = k' := by
      apply hI.bytes_injective k k' hk hk'
      rw [hkb, hke, hbytes]
    rw [hkk, hke] at hadd hdup
    exact ⟨hadd, hdup⟩
  · exfalso
    apply hnot k' hk'
    rw [hke, hbytes]

theorem dictionary_b_a_eq (ptr : pointer_size) :
    (add_xml_string ptr Dictionary.empty ⟨[98], none, 0⟩).bind
        (fun x => add_xml_string ptr x.2.2 ⟨[97], none, 0⟩) =
      some (S_OK, ⟨[97], some DictionaryRef.dict_builtin, 1⟩, dictionary_b_a) := by
  cases ptr <;> decide

theorem dictionary_b_a_reachable (ptr : pointer_size) :
    Dictionary.Reachable ptr dictionary_b_a := by
  have h := dictionary_b_a_eq ptr
  cases h1 : add_xml_string ptr Dictionary.empty ⟨[98], none, 0⟩ with
  | none =>
    rw [h1] at h
    cases h
  | some x =>
    rw [h1] at h
    exact Dictionary.Reachable.add x.2.2 ⟨[97], none, 0⟩ _
      (Dictionary.Reachable.add _ _ x Dictionary.Reachable.empty h1) h

/-- C18: interning is idempotent, for both sizes of a pointer.  In every
dictionary state reachable from the empty dictionary by interning operations
that stay in their blocks, interning a string whose content is that of an
entry `e` already present, with `add_xml_string` or with `dup_xml_string`,
returns `e` itself (same id, same bytes) and leaves the dictionary unchanged:
the call goes through `find_string` alone and moves nothing.  And after a
first interning of a content that has returned with a dictionary-backed
string, interning the same content again returns that same string and leaves
the dictionary as it was. -/
theorem intern_idempotent (ptr : pointer_size) (d : Dictionary)
    (h : Dictionary.Reachable ptr d) (str str2 : WS_XML_STRING)
    (hnull : str.dictionary = none) (hnull2 : str2.dictionary = none)
    (hbytes : str2.bytes = str.bytes) :
    (∀ e ∈ d.strings, e.bytes = str.bytes →
      add_xml_string ptr d str = some (S_OK, e, d) ∧ dup_xml_string ptr d str = some (e, d)) ∧
    (∀ x, add_xml_string ptr d str = some x → x.1 = S_OK →
      x.2.1.bytes = str.bytes ∧ add_xml_string ptr x.2.2 str2 = some (S_OK, x.2.1, x.2.2)) ∧
    (∀ x, dup_xml_string ptr d str = some x → x.1.dictionary ≠ none →
      x.1.bytes = str.bytes ∧ dup_xml_string ptr x.2 str2 = some (x.1, x.2)) := by
  have hI := reachable_invariant ptr d h
  have hkey : ∀ (d1 : Dictionary) (s1 : WS_XML_STRING), d1.Invariant → s1 ∈ d1.strings →
      s1.bytes = str.bytes →
      add_xml_string ptr d1 str2 = some (S_OK, s1, d1) ∧
      dup_xml_string ptr d1 str2 = some (s1, d1) := by
    intro d1 s1 hI1 hmem hb
    exact intern_present ptr d1 hI1 s1 hmem str2 hnull2 (by rw [hbytes, hb])
  refine ⟨?_, ?_, ?_⟩
  · intro e he heb
    exact intern_present ptr d hI e he str hnull heb.symm
  · intro x hx hok
    rcases intern_cases ptr d hI str hnull with ⟨k, hk, hkb, hadd, _⟩ | ⟨_, h1, h2⟩
    · rw [hadd] at hx
      cases hx
      refine ⟨hkb, ?_⟩
      exact (hkey d _ hI ((mem_strings_iff d _).mpr ⟨k, hk, rfl⟩) hkb).1
    · by_cases hlt : d.stringCount < 2048
      · obtain ⟨k, size, hk, _, hlo, hhi, hs1, hs2, hin, hout⟩ := h1 hlt
        by_cases hb : move_in_block ptr d k size
        · rw [(hin hb).1] at hx
          cases hx
          refine ⟨rfl, ?_⟩
          have hmem : (⟨str.bytes, some DictionaryRef.dict_builtin, d.stringCount⟩ :
              WS_XML_STRING) ∈ (d.inserted str.bytes k size).strings := by
            simp [Dictionary.inserted]
          exact (hkey (d.inserted str.bytes k size)
            ⟨str.bytes, some DictionaryRef.dict_builtin, d.stringCount⟩
            (inserted_invariant d hI str.bytes k size hk hlo hhi hs1 hs2) hmem rfl).1
        · rw [(hout hb).1] at hx
          cases hx
      · rw [(h2 (by omega)).1] at hx
        cases hx
        simp at hok
  · intro x hx hback
    rcases intern_cases ptr d hI str hnull with ⟨k, hk, hkb, _, hdup⟩ | ⟨_, h1, h2⟩
    · rw [hdup] at hx
      cases hx
      refine ⟨hkb, ?_⟩
      exact (hkey d _ hI ((mem_strings_iff d _).mpr ⟨k, hk, rfl⟩) hkb).2
    · by_cases hlt : d.stringCount < 2048
      · obtain ⟨k, size, hk, _, hlo, hhi, hs1, hs2, hin, hout⟩ := h1 hlt
        by_cases hb : move_in_block ptr d k size
        · rw [(hin hb).2] at hx
          cases hx
          refine ⟨rfl, ?_⟩
          have hmem : (⟨str.bytes, some DictionaryRef.dict_builtin, d.stringCount⟩ :
              WS_XML_STRING) ∈ (d.inserted str.bytes k size).strings := by
            simp [Dictionary.inserted]
          exact (hkey (d.inserted str.bytes k size)
            ⟨str.bytes, some DictionaryRef.dict_builtin, d.stringCount⟩
            (inserted_invariant d hI str.bytes k size hk hlo hhi hs1 hs2) hmem rfl).2
        · rw [(hout hb).2] at hx
          cases hx
      · rw [(h2 (by omega)).2] at hx
        cases hx
        exact absurd rfl hback

/-- Witness of C18: the content "a", present with id 1 in the dictionary of
"b" and "a", with pointers of 8 bytes. -/
theorem intern_idempotent_witness :
    Dictionary.Reachable pointer_size.bytes_8 dictionary_b_a ∧
    (∀ e ∈ dictionary_b_a.strings, e.bytes = [97] →
      add_xml_string pointer_size.bytes_8 dictionary_b_a ⟨[97], none, 0⟩ =
        some (S_OK, e, dictionary_b_a) ∧
      dup_xml_string pointer_size.bytes_8 dictionary_b_a ⟨[97], none, 0⟩ =
        some (e, dictionary_b_a)) ∧
    add_xml_string pointer_size.bytes_8 dictionary_b_a ⟨[97], none, 0⟩ =
      some (S_OK, ⟨[97], some DictionaryRef.dict_builtin, 1⟩, dictionary_b_a) :=
  ⟨dictionary_b_a_reachable pointer_size.bytes_8,
    (intern_idempotent pointer_size.bytes_8 dictionary_b_a
      (dictionary_b_a_reachable pointer_size.bytes_8) ⟨[97], none, 0⟩ ⟨[97], none, 0⟩
      rfl rfl rfl).1,
    by decide⟩

/-- The capacity of the dictionary where the moves stay in their blocks:
every state reachable from the empty dictionary has stringCount ≤ dict_size ≤
2048; an interning operation never removes or changes an entry; interning
content that is not present, while stringCount < 2048, appends the entry with
the next id, and with pointers of 4 bytes it always does; with stringCount =
2048 `add_xml_string` returns WS_E_QUOTA_EXCEEDED, `dup_xml_string` returns a
copy with a null dictionary and id 0, and the dictionary is unchanged. -/
theorem dictionary_capacity (ptr : pointer_size) (d : Dictionary)
    (h : Dictionary.Reachable ptr d) :
    d.stringCount ≤ d.dict_size ∧ d.dict_size ≤ 2048 ∧
    (∀ (str : WS_XML_STRING) (x : HRESULT × WS_XML_STRING × Dictionary),
      add_xml_string ptr d str = some x → d.strings <+: x.2.2.strings) ∧
    (∀ (str : WS_XML_STRING) (x : WS_XML_STRING × Dictionary),
      dup_xml_string ptr d str = some x → d.strings <+: x.2.strings) ∧
    (∀ str : WS_XML_STRING, str.dictionary = none → (∀ e ∈ d.strings, e.bytes ≠ str.bytes) →
      (d.stringCount < 2048 → ∀ x, add_xml_string ptr d str = some x →
        x.1 = S_OK ∧
        x.2.1 = ⟨str.bytes, some DictionaryRef.dict_builtin, d.stringCount⟩ ∧
        x.2.2.strings =
          d.strings ++ [⟨str.bytes, some DictionaryRef.dict_builtin, d.stringCount⟩] ∧
        dup_xml_string ptr d str = some x.2) ∧
      (d.stringCount < 2048 → ptr = pointer_size.bytes_4 →
        (add_xml_string ptr d str).isSome = true) ∧
      (d.stringCount = 2048 →
        add_xml_string ptr d str = some (WS_E_QUOTA_EXCEEDED, str, d) ∧
        dup_xml_string ptr d str = some (⟨str.bytes, none, 0⟩, d))) := by
  have hI := reachable_invariant ptr d h
  have hs := hI.size_steps
  refine ⟨hI.count_le, by omega, ?_, ?_, ?_⟩
  · intro str x hx
    by_cases hnull : str.dictionary = none
    · rcases intern_cases ptr d hI str hnull with ⟨k, _, _, hadd, _⟩ | ⟨_, h1, h2⟩
      · rw [hadd] at hx
        cases hx
        exact List.prefix_refl _
      · by_cases hlt : d.stringCount < 2048
        · obtain ⟨k, size, _, _, _, _, _, _, hin, hout⟩ := h1 hlt
          by_cases hb : move_in_block ptr d k size
          · rw [(hin hb).1] at hx
            cases hx
            exact List.prefix_append _ _
          · rw [(hout hb).1] at hx
            cases hx
        · rw [(h2 (by omega)).1] at hx
          cases hx
          exact List.prefix_refl _
    · rw [(add_xml_string_backed ptr d str hnull).1] at hx
      cases hx
      exact List.prefix_refl _
  · intro str x hx
    by_cases hnull : str.dictionary = none
    · rcases intern_cases ptr d hI str hnull with ⟨k, _, _, _, hdup⟩ | ⟨_, h1, h2⟩
      · rw [hdup] at hx
        cases hx
        exact List.prefix_refl _
      · by_cases hlt : d.stringCount < 2048
        · obtain ⟨k, size, _, _, _, _, _, _, hin, hout⟩ := h1 hlt
          by_cases hb : move_in_block ptr d k size
          · rw [(hin hb).2] at hx
            cases hx
            exact List.prefix_append _ _
          · rw [(hout hb).2] at hx
            cases hx
        · rw [(h2 (by omega)).2] at hx
          cases hx
          exact List.prefix_refl _
    · rw [(add_xml_string_backed ptr d str hnull).2] at hx
      cases hx
      exact List.prefix_refl _
  · intro str hnull hnew
    rcases intern_cases ptr d hI str hnull with ⟨k, hk, hkb, _, _⟩ | ⟨_, h1, h2⟩
    · exact absurd hkb (hnew _ ((mem_strings_iff d _).mpr ⟨k, hk, rfl⟩))
    · refine ⟨?_, ?_, ?_⟩
      · intro hlt x hx
        obtain ⟨k, size, _, _, _, _, _, _, hin, hout⟩ := h1 hlt
        by_cases hb : move_in_block ptr d k size
        · rw [(hin hb).1] at hx
          cases hx
          exact ⟨rfl, rfl, rfl, (hin hb).2⟩
        · rw [(hout hb).1] at hx
          cases hx
      · intro hlt hp
        obtain ⟨k, size, hk, _, _, _, hs1, _, hin, _⟩ := h1 hlt
        have hb : move_in_block ptr d k size := by
          rw [hp]
          exact move_in_block_bytes_4 d k size hk hs1
        rw [(hin hb).1]
        rfl
      · intro heq
        exact h2 (by omega)

theorem add_xml_strings_reachable (ptr : pointer_size) (strs : List WS_XML_STRING) :
    ∀ (d : Dictionary) (y : List HRESULT × Dictionary), Dictionary.Reachable ptr d →
      add_xml_strings ptr strs d = some y → Dictionary.Reachable ptr y.2 := by
  induction strs with
  | nil =>
    intro d y hd hy
    simp only [add_xml_strings, Option.some.injEq] at hy
    rw [← hy]
    exact hd
  | cons str strs ih =>
    intro d y hd hy
    rw [add_xml_strings] at hy
    cases hx : add_xml_string ptr d str with
    | none =>
      rw [hx] at hy
      cases hy
    | some x =>
      rw [hx] at hy
      dsimp only at hy
      cases hz : add_xml_strings ptr strs x.2.2 with
      | none =>
        rw [hz] at hy
        cases hy
      | some z =>
        rw [hz] at hy
        simp only [Option.map_some', Option.some.injEq] at hy
        rw [← hy]
        exact ih x.2.2 z (Dictionary.Reachable.add d str x hd hx) hz

set_option maxRecDepth 100000 in
theorem descending_dictionary_eq :
    add_xml_strings pointer_size.bytes_8 (descending_strings 128) Dictionary.empty =
      some (List.replicate 128 S_OK, descending_dictionary) := by
  decide

set_option maxRecDepth 100000 in
theorem descending_dictionary_facts :
    (∀ e ∈ descending_dictionary.strings, e.bytes ≠ [0]) ∧
    find_string descending_dictionary [0] = (0, none) ∧
    add_xml_string pointer_size.bytes_8 descending_dictionary ⟨[0], none, 0⟩ = none ∧
    dup_xml_string pointer_size.bytes_8 descending_dictionary ⟨[0], none, 0⟩ = none ∧
    (add_xml_string pointer_size.bytes_4 descending_dictionary ⟨[0], none, 0⟩).map
        (fun x => (x.1, x.2.1)) =
      some (S_OK, ⟨[0], some DictionaryRef.dict_builtin, 128⟩) := by
  refine ⟨by decide, by decide, by decide, by decide, by decide⟩

/-- C19, refuted where pointers have 8 bytes: interning new content does not
always succeed while stringCount < 2048.  The 128 strings of one byte 128,
127, down to 1, interned in this order into the empty dictionary, all return
S_OK and leave the dictionary with 128 entries in a block of 256; each of
them goes to the place 0 of the sorted index.  The next new content, the
byte 0, goes to the place 0 too: `insert_string` then moves 128 * 8 = 1024
bytes to the byte 4 of the block of `dict_sorted`, which has 256 * 4 = 1024
bytes, and writes over its end, for `add_xml_string` as for
`dup_xml_string`.  With pointers of 4 bytes the same call returns S_OK with
the id 128. -/
theorem add_xml_string_overruns_block :
    add_xml_strings pointer_size.bytes_8 (descending_strings 128) Dictionary.empty =
      some (List.replicate 128 S_OK, descending_dictionary) ∧
    Dictionary.Reachable pointer_size.bytes_8 descending_dictionary ∧
    descending_dictionary.stringCount = 128 ∧ descending_dictionary.dict_size = 256 ∧
    (∀ e ∈ descending_dictionary.strings, e.bytes ≠ [0]) ∧
    find_string descending_dictionary [0] = (0, none) ∧
    add_xml_string pointer_size.bytes_8 descending_dictionary ⟨[0], none, 0⟩ = none ∧
    dup_xml_string pointer_size.bytes_8 descending_dictionary ⟨[0], none, 0⟩ = none ∧
    (add_xml_string pointer_size.bytes_4 descending_dictionary ⟨[0], none, 0⟩).map
        (fun x => (x.1, x.2.1)) =
      some (S_OK, ⟨[0], some DictionaryRef.dict_builtin, 128⟩) :=
  ⟨descending_dictionary_eq,
    add_xml_strings_reachable pointer_size.bytes_8 (descending_strings 128) Dictionary.empty _
      Dictionary.Reachable.empty descending_dictionary_eq,
    rfl, rfl, descending_dictionary_facts.1, descending_dictionary_facts.2.1,
    descending_dictionary_facts.2.2.1, descending_dictionary_facts.2.2.2.1,
    descending_dictionary_facts.2.2.2.2⟩

/-! ## The bytes of interned strings -/

/-- Interning leaves the bytes of a string as they are, in every dictionary
state reachable from the empty dictionary: the strings of the nodes can be
followed by their bytes alone. -/
theorem intern_bytes (ptr : pointer_size) (d : Dictionary) (h : Dictionary.Reachable ptr d)
    (str : WS_XML_STRING) :
    (∀ x, add_xml_string ptr d str = some x → x.2.1.bytes = str.bytes) ∧
    (∀ x, dup_xml_string ptr d str = some x → x.1.bytes = str.bytes) := by
  have hI := reachable_invariant ptr d h
  by_cases hnull : str.dictionary = none
  · rcases intern_cases ptr d hI str hnull with ⟨k, _, hkb, hadd, hdup⟩ | ⟨_, h1, h2⟩
    · rw [hadd, hdup]
      constructor
      · intro x hx
        cases hx
        exact hkb
      · intro x hx
        cases hx
        exact hkb
    · by_cases hlt : d.stringCount < 2048
      · obtain ⟨k, size, _, _, _, _, _, _, hin, hout⟩ := h1 hlt
        by_cases hb : move_in_block ptr d k size
        · rw [(hin hb).1, (hin hb).2]
          constructor
          · intro x hx
            cases hx
            rfl
          · intro x hx
            cases hx
            rfl
        · rw [(hout hb).1, (hout hb).2]
          constructor
          · intro x hx
            cases hx
          · intro x hx
            cases hx
      · rw [(h2 (by omega)).1, (h2 (by omega)).2]
        constructor
        · intro x hx
          cases hx
          rfl
        · intro x hx
          cases hx
          rfl
  · rw [(add_xml_string_backed ptr d str hnull).1, (add_xml_string_backed ptr d str hnull).2]
    constructor
    · intro x hx
      cases hx
      rfl
    · intro x hx
      cases hx
      rfl

/-! ## Insertion into the sorted index, continued -/

/-- C40: insertion keeps the index sorted and the ids dense, for both sizes
of a pointer.  In a dictionary whose sorted index is a permutation of the
ids below `stringCount` that lists the entries in strictly increasing
`cmp_string` order, with the id `k` in the entry `k`, when `insert_string`
succeeds for a content `s` that no entry has, at the index that
`find_string` returns for `s`, which it does only when the bytes it moves
stay in the block of the sorted index, the same holds for the dictionary it
leaves; the id it stores is the old `stringCount`, the new entry has this id
and the content `s`, there is one entry more, the earlier entries are
unchanged, and no two entries have the same content. -/
theorem insert_string_sorted_dense (ptr : pointer_size) (d : Dictionary) (h : d.sorted_dense)
    (s : List Nat)
    (habs : ∀ k : Nat, k < d.stringCount → (d.strings.getD k default).bytes ≠ s)
    (id : Nat) (e : Dictionary)
    (hins : insert_string ptr d s (find_string d s).1.toNat = some (some id, e)) :
    e.sorted_dense ∧ id = d.stringCount ∧ e.stringCount = d.stringCount + 1 ∧
    (∀ k : Nat, k < d.stringCount → e.strings.getD k default = d.strings.getD k default) ∧
    e.strings.getD d.stringCount default =
      ⟨s, some DictionaryRef.dict_builtin, d.stringCount⟩ ∧
    (∀ i j : Nat, i < e.stringCount → j < e.stringCount →
      (e.strings.getD i default).bytes = (e.strings.getD j default).bytes → i = j) := by
  have habs2 : ∀ i : Nat, i < d.stringCount → (d.sorted_entry i).bytes ≠ s := by
    intro i hi
    exact habs _ (sorted_dense_lt d h i hi)
  obtain ⟨k, hk, hfind, hlo, hhi⟩ := (find_string_binary_search d s h.increasing).2 habs2
  rw [hfind] at hins
  simp only [Int.toNat_ofNat] at hins
  unfold insert_string at hins
  dsimp only at hins
  have hg := grow_dict_entries d 1
  by_cases c : (!(grow_dict d 1).1) = true
  · rw [if_pos c] at hins
    cases hins
  rw [if_neg c] at hins
  by_cases c2 : (k + 1) * 4 + (d.stringCount + 2 ^ 32 - k) % 2 ^ 32 * ptr.bytes >
      (grow_dict d 1).2.dict_size * 4
  · rw [if_pos c2] at hins
    cases hins
  rw [if_neg c2] at hins
  have hins := Option.some.inj hins
  have h1 := (Prod.mk.inj hins).1
  have h2 := (Prod.mk.inj hins).2
  have hs : e.strings = d.strings ++ [⟨s, some DictionaryRef.dict_builtin, d.stringCount⟩] := by
    rw [← h2]
    show (grow_dict d 1).2.strings ++ _ = _
    rw [hg.1]
  have hd : e.dict_sorted =
      d.dict_sorted.take k ++ d.stringCount :: d.dict_sorted.drop k := by
    rw [← h2]
    show (grow_dict d 1).2.dict_sorted.take k ++ _ :: (grow_dict d 1).2.dict_sorted.drop k = _
    rw [hg.2]
  have hhi2 : ∀ i : Nat, k ≤ i → i < d.stringCount →
      cmp_string s (d.sorted_entry i).bytes < 0 := by
    intro i h1 h2
    have := hhi i h1 h2
    rw [cmp_string_neg] at this
    omega
  have hE := sorted_dense_insert d e h s k hk hlo hhi2 hs hd
  have hcount : e.stringCount = d.stringCount + 1 := by
    unfold Dictionary.stringCount
    rw [hs]
    simp
  have hcnt : d.strings.length = d.stringCount := rfl
  refine ⟨hE, (Option.some.inj h1).symm, hcount, ?_, ?_,
    fun i j hi hj he => sorted_dense_distinct e hE i j hi hj he⟩
  · intro j hj
    rw [hs, getD_append_one, hcnt, if_pos hj]
  · rw [hs, getD_append_one, hcnt, if_neg (by omega), if_pos rfl]

theorem insert_string_sorted_dense_witness :
    dictionary_b_a.sorted_dense ∧
    insert_string pointer_size.bytes_8 dictionary_b_a [99]
        (find_string dictionary_b_a [99]).1.toNat =
      some (some 2, { dictionary_b_a with
        strings := dictionary_b_a.strings ++ [⟨[99], some DictionaryRef.dict_builtin, 2⟩]
        dict_sorted := [1, 0, 2] }) ∧
    ∀ e : Dictionary,
      e = { dictionary_b_a with
        strings := dictionary_b_a.strings ++ [⟨[99], some DictionaryRef.dict_builtin, 2⟩]
        dict_sorted := [1, 0, 2] } →
      (e.sorted_dense ∧ 2 = dictionary_b_a.stringCount ∧
        e.stringCount = dictionary_b_a.stringCount + 1 ∧
        (∀ k : Nat, k < dictionary_b_a.stringCount →
          e.strings.getD k default = dictionary_b_a.strings.getD k default) ∧
        e.strings.getD dictionary_b_a.stringCount default =
          ⟨[99], some DictionaryRef.dict_builtin, dictionary_b_a.stringCount⟩ ∧
        (∀ i j : Nat, i < e.stringCount → j < e.stringCount →
          (e.strings.getD i default).bytes = (e.strings.getD j default).bytes → i = j)) :=
  ⟨dictionary_b_a_sorted_dense, by decide, fun e he =>
    insert_string_sorted_dense pointer_size.bytes_8 dictionary_b_a dictionary_b_a_sorted_dense
      [99]
      (fun k hk => by
        have hk2 : k < 2 := hk
        interval_cases k <;> decide)
      2 e (by rw [he]; decide)⟩

/-- `insert_string` on a state that satisfies the invariant, at a place `k`
of the sorted index: with pointers of 4 bytes the bytes moved always stay in
the block; with pointers of 8 bytes they do exactly when
`2 * stringCount + 1 ≤ dict_size + k`, for the capacity after `grow_dict`,
and the call writes over the end of the block otherwise. -/
theorem insert_string_defined (ptr : pointer_size) (d : Dictionary) (hI : d.Invariant)
    (s : List Nat) (k : Nat) (hk : k ≤ d.stringCount) (hlt : d.stringCount < 2048) :
    (ptr = pointer_size.bytes_4 → (insert_string ptr d s k).isSome = true) ∧
    (ptr = pointer_size.bytes_8 →
      ((insert_string ptr d s k).isSome = true ↔
        2 * d.stringCount + 1 ≤ (grow_dict d 1).2.dict_size + k)) := by
  obtain ⟨size, hg, h1, h2⟩ := (grow_dict_one d hI).1 hlt
  have hmod : (d.stringCount + 2 ^ 32 - k) % 2 ^ 32 = d.stringCount - k := by omega
  unfold insert_string
  simp only [hg, hmod, Bool.not_true, Bool.false_eq_true, if_false]
  cases ptr
  · constructor
    · intro _
      simp only [pointer_size.bytes]
      rw [if_neg (by omega)]
      rfl
    · intro hp
      cases hp
  · constructor
    · intro hp
      cases hp
    · intro _
      simp only [pointer_size.bytes]
      by_cases c : (k + 1) * 4 + (d.stringCount - k) * 8 > size * 4
      · rw [if_pos c]
        simp only [Option.isSome_none, Bool.false_eq_true, false_iff]
        omega
      · rw [if_neg c]
        simp only [Option.isSome_some, true_iff]
        omega

theorem namespace_after_tag_nil (table : List prefix_t) (q : Option (List Nat)) :
    namespace_after_tag table [] q = bound_namespace table q := rfl

end Webservices
